import Mathlib

/-!
# WendyScript: memory subsystem, native-call layer, error reporters, parser, scanner

A shallow embedding of the WendyScript virtual machine's memory module
(`memory.h`), of the limits in `macros.h`, of the native-function
dispatcher `native.c`, of the error reporters of `error.c`, of the
recursive-descent parser `ast.c` with `precedence()` of `token.c`, and of the
scanner `scanner.c`.

The parser functions call each other recursively and hold `while (1)` loops;
they are defined by recursion on a fuel argument that every call and every
loop iteration decreases by one, and a run that uses it up stops with
`Stop.out_of_fuel`.  Results are proved for every amount of fuel from a bound
on; a run that is out of fuel for every amount of fuel is a run that does not
terminate.

C arrays (`memory`, `call_stack`, the argument stack, the memory-register
stack) are total maps `Nat → α` together with their explicit pointers, so that
a cell above a pointer keeps whatever was last written there, exactly as in
the C arrays.  Fallible operations return `Except Error _`.
-/

namespace Wendy

/-! ## Limits (`macros.h`) -/

/-- The macro `#define MEMORY_SIZE 129061`. -/
def MEMORY_SIZE : Nat := 129061

/-- The macro `#define STACK_SIZE 100000`. -/
def STACK_SIZE : Nat := 100000

/-- The macro `#define ARGSTACK_SIZE 128`. -/
def ARGSTACK_SIZE : Nat := 128

/-- The macro `#define RESERVED_MEMORY 2`. -/
def RESERVED_MEMORY : Nat := 2

/-- The macro `#define MAX_IDENTIFIER_LEN 59`. -/
def MAX_IDENTIFIER_LEN : Nat := 59

/-! ## Data model (`memory.h`) -/

/- `typedef unsigned int address;`: an address is a natural number; every
operation that stores one checks it against the limits above. -/

/-- Modelled from the spec: the error taxonomy of the memory subsystem (the
error codes themselves live in `error.h`, which is not part of the sources). -/
inductive Error
  | AddressOutOfRange
  | OutOfMemory
  | StackOverflow
  | StackUnderflow
  | UndefinedIdentifier
  | ArgStackUnderflow
  | InternalInvariantViolation
  deriving DecidableEq, Repr

/-- Modelled from the spec: the value cell `data` (declared in `data.h`, which
is not part of the sources): a tagged union over number, string, address
reference, list header and none.  A string cell holds the bytes of its C
string, the terminating zero left out.  `NoneRet` is the cell built by
`noneret_token()`, which `native.c` returns from natives without a result. -/
inductive data
  | Number (n : Int)
  | Str (s : List Nat)
  | Reference (a : Nat)
  | ListHeader (length : Nat) (element_address : Nat)
  | None
  | NoneRet
  deriving DecidableEq, Repr

/-- Modelled from the spec: the tag of a call-stack entry.  A frame begins
with a sentinel entry tagged as a function-call frame or as an automatic
frame; every other entry is a variable. -/
inductive frame_tag
  | variable
  | function_frame
  | auto_frame
  deriving DecidableEq, Repr

/-- The `stack_entry` struct of `memory.h` (`id`, `val`, `is_closure`).
Modelled from the spec: `tag` is the sentinel tag of the entry, and on a
sentinel `val` is the return address, `id` the function name or block kind and
`enclosing` the base of the enclosing frame, which `pop_frame` restores. -/
structure stack_entry where
  id : String
  val : Nat
  is_closure : Bool
  tag : frame_tag
  enclosing : Nat
  deriving DecidableEq, Repr

/-- The `mem_block` struct of `memory.h`; the `next` link is the tail of the
list that holds the block. -/
structure mem_block where
  size : Nat
  start : Nat
  deriving DecidableEq, Repr

/-- The global state of `memory.h`: `memory`, `free_memory`, `call_stack`,
`mem_reg_stack`, `closure_list` and the pointers.  The argument stack is the
separate region the spec describes, with its pointer `arg_pointer`. -/
structure VM where
  memory : Nat → data
  free_memory : List mem_block
  memory_pointer : Nat
  call_stack : Nat → stack_entry
  frame_pointer : Nat
  stack_pointer : Nat
  closure_list : List (List stack_entry)
  mem_reg_stack : Nat → Nat
  mem_reg_pointer : Nat
  arg_stack : Nat → data
  arg_pointer : Nat

/-- Array store `a[i] = v`. -/
def store {α : Type} (a : Nat → α) (i : Nat) (v : α) : Nat → α :=
  fun j => if j = i then v else a j

/-! ## Argument stack -/

/-- Modelled from the spec: `push_arg(t)` (its body, in `memory.c`, is not part
of the sources).  Writes `t` at `arg_pointer` and advances the pointer; a push
on a full argument stack fails. -/
def push_arg (t : data) (vm : VM) : Except Error VM :=
  if vm.arg_pointer < ARGSTACK_SIZE then
    .ok { vm with arg_stack := store vm.arg_stack vm.arg_pointer t,
                  arg_pointer := vm.arg_pointer + 1 }
  else .error Error.StackOverflow

/-- Modelled from the spec: `pop_arg()` (its body, in `memory.c`, is not part
of the sources).  Returns the top cell and moves the pointer down; fails with
`ArgStackUnderflow` on an empty stack. -/
def pop_arg (vm : VM) : Except Error (data × VM) :=
  if vm.arg_pointer = 0 then .error Error.ArgStackUnderflow
  else .ok (vm.arg_stack (vm.arg_pointer - 1),
            { vm with arg_pointer := vm.arg_pointer - 1 })

/-- Modelled from the spec: `clear_arg_stack()`. -/
def clear_arg_stack (vm : VM) : VM := { vm with arg_pointer := 0 }

/-! ## Call stack and frames -/

/-- Modelled from the spec: the bounds-checked append every push on the call
stack goes through (`stack_pointer < STACK_SIZE`, else `StackOverflow`). -/
def push_entry (e : stack_entry) (vm : VM) : Except Error VM :=
  if vm.stack_pointer < STACK_SIZE then
    .ok { vm with call_stack := store vm.call_stack vm.stack_pointer e,
                  stack_pointer := vm.stack_pointer + 1 }
  else .error Error.StackOverflow

/-- Modelled from the spec: `push_frame(name, ret)` (body in `memory.c`, not
part of the sources).  Appends a function-frame sentinel that carries the return
address and makes it the base of the current frame. -/
def push_frame (name : String) (ret : Nat) (vm : VM) : Except Error VM :=
  if vm.stack_pointer < STACK_SIZE then
    .ok { vm with
      call_stack := store vm.call_stack vm.stack_pointer
        { id := name, val := ret, is_closure := false,
          tag := frame_tag.function_frame, enclosing := vm.frame_pointer },
      frame_pointer := vm.stack_pointer,
      stack_pointer := vm.stack_pointer + 1 }
  else .error Error.StackOverflow

/-- Modelled from the spec: `push_auto_frame(ret, type)` (body in `memory.c`,
not part of the sources).  The same as `push_frame`, tagged as an automatic
frame that carries the block kind. -/
def push_auto_frame (ret : Nat) (type : String) (vm : VM) : Except Error VM :=
  if vm.stack_pointer < STACK_SIZE then
    .ok { vm with
      call_stack := store vm.call_stack vm.stack_pointer
        { id := type, val := ret, is_closure := false,
          tag := frame_tag.auto_frame, enclosing := vm.frame_pointer },
      frame_pointer := vm.stack_pointer,
      stack_pointer := vm.stack_pointer + 1 }
  else .error Error.StackOverflow

/-- Modelled from the spec: the unwinding of `pop_frame(is_ret = true)`.  From
the frame base `trace`, walks through the automatic frames to the innermost
function frame and returns the index of its sentinel.  Every link leads
strictly downwards, so `trace + 1` units of fuel always suffice. -/
def find_function_frame (call_stack : Nat → stack_entry) :
    Nat → Nat → Option Nat
  | 0, _ => none
  | fuel + 1, trace =>
    match (call_stack trace).tag with
    | frame_tag.function_frame => some trace
    | frame_tag.auto_frame =>
      if (call_stack trace).enclosing < trace then
        find_function_frame call_stack fuel (call_stack trace).enclosing
      else none
    | frame_tag.variable => none

/-- Modelled from the spec: `pop_frame(is_ret, &ret)` (body in `memory.c`, not
part of the sources).  Returns whether the popped frame was a function frame
together with the return address of the popped sentinel.  The bottom frame, at
index 0, is never popped. -/
def pop_frame (is_ret : Bool) (vm : VM) : Except Error ((Bool × Nat) × VM) :=
  if vm.frame_pointer = 0 then .error Error.StackUnderflow
  else if is_ret then
    match find_function_frame vm.call_stack (vm.frame_pointer + 1) vm.frame_pointer with
    | none => .error Error.InternalInvariantViolation
    | some trace =>
      if trace = 0 then .error Error.StackUnderflow
      else .ok ((true, (vm.call_stack trace).val),
                { vm with stack_pointer := trace,
                          frame_pointer := (vm.call_stack trace).enclosing })
  else
    .ok ((decide ((vm.call_stack vm.frame_pointer).tag = frame_tag.function_frame),
          (vm.call_stack vm.frame_pointer).val),
         { vm with stack_pointer := vm.frame_pointer,
                   frame_pointer := (vm.call_stack vm.frame_pointer).enclosing })

/-- Modelled from the spec: `push_stack_entry(id, val)`, the declaration of a
variable: appends an entry to the current frame. -/
def push_stack_entry (id : String) (val : Nat) (vm : VM) : Except Error VM :=
  push_entry { id := id, val := val, is_closure := false,
               tag := frame_tag.variable, enclosing := 0 } vm

/-- Modelled from the spec: `copy_stack_entry(se)`, which copies the given
entry onto the top of the call stack (used when a closure is invoked). -/
def copy_stack_entry (se : stack_entry) (vm : VM) : Except Error VM :=
  push_entry se vm

/-- Downward scan of `n` call-stack entries, from index `bottom + n - 1` to
`bottom`; the first entry whose identifier is `id` wins. -/
def scan_stack (call_stack : Nat → stack_entry) (id : String) (bottom : Nat) :
    Nat → Option Nat
  | 0 => none
  | n + 1 =>
    if (call_stack (bottom + n)).id = id then some (bottom + n)
    else scan_stack call_stack id bottom n

/-- Modelled from the spec: `get_stack_pos_of_id`, the call-stack index that
resolution finds.  Scans from `stack_pointer` downwards, stopping at
`frame_pointer` unless `search_outer` is set. -/
def get_stack_pos_of_id (id : String) (search_outer : Bool) (vm : VM) : Option Nat :=
  let bottom := if search_outer then 0 else vm.frame_pointer
  scan_stack vm.call_stack id bottom (vm.stack_pointer - bottom)

/-- Modelled from the spec: `id_exist(id, search_main)`. -/
def id_exist (id : String) (search_main : Bool) (vm : VM) : Bool :=
  (get_stack_pos_of_id id search_main vm).isSome

/-- Modelled from the spec: `resolve(identifier, search_outer)`, that is
`get_address_of_id`: the value of the entry found, or `UndefinedIdentifier`. -/
def resolve (id : String) (search_outer : Bool) (vm : VM) : Except Error Nat :=
  match get_stack_pos_of_id id search_outer vm with
  | some i => .ok (vm.call_stack i).val
  | none => .error Error.UndefinedIdentifier

/-- Modelled from the spec: `unwind_stack()`, which pops every frame but the
bottom one. -/
def unwind_stack : Nat → VM → VM
  | 0, vm => vm
  | fuel + 1, vm =>
    match pop_frame false vm with
    | .ok (_, vm1) => unwind_stack fuel vm1
    | .error _ => vm

/-! ## Closures -/

/-- The entries of the call stack in `[frame_pointer, stack_pointer)`. -/
def frame_entries (vm : VM) : List stack_entry :=
  (List.range (vm.stack_pointer - vm.frame_pointer)).map
    (fun i => vm.call_stack (vm.frame_pointer + i))

/-- Modelled from the spec: `create_closure()` (body in `memory.c`, not part of
the sources).  Copies the current frame into a new entry of the closure table
and returns its index. -/
def create_closure (vm : VM) : Nat × VM :=
  (vm.closure_list.length,
   { vm with closure_list := vm.closure_list ++ [frame_entries vm] })

/-- The loop that copies stored entries onto the call stack, one
`copy_stack_entry` each. -/
def copy_entries : List stack_entry → VM → Except Error VM
  | [], vm => .ok vm
  | se :: rest, vm =>
    match copy_stack_entry se vm with
    | .ok vm1 => copy_entries rest vm1
    | .error e => .error e

/-- Modelled from the spec: invoking the closure with the given index copies
its stored entries onto the live call stack. -/
def invoke_closure (index : Nat) (vm : VM) : Except Error VM :=
  match vm.closure_list.get? index with
  | some entries => copy_entries entries vm
  | none => .error Error.AddressOutOfRange

/-! ## Memory-register stack -/

/-- Modelled from the spec: `push_mem_reg(memory_register)`. -/
def push_mem_reg (memory_register : Nat) (vm : VM) : VM :=
  { vm with mem_reg_stack := store vm.mem_reg_stack vm.mem_reg_pointer memory_register,
            mem_reg_pointer := vm.mem_reg_pointer + 1 }

/-- Modelled from the spec: `pop_mem_reg()`; an unbalanced pop is an internal
error. -/
def pop_mem_reg (vm : VM) : Except Error (Nat × VM) :=
  if vm.mem_reg_pointer = 0 then .error Error.InternalInvariantViolation
  else .ok (vm.mem_reg_stack (vm.mem_reg_pointer - 1),
            { vm with mem_reg_pointer := vm.mem_reg_pointer - 1 })

/-! ## Cell access -/

/-- Modelled from the spec: `write_memory(location, d)`, the bounds-checked
store. -/
def write_memory (location : Nat) (d : data) (vm : VM) : Except Error VM :=
  if location < MEMORY_SIZE then .ok { vm with memory := store vm.memory location d }
  else .error Error.AddressOutOfRange

/-- Modelled from the spec: `get_value_of_address(a)`, the bounds-checked
load. -/
def get_value_of_address (a : Nat) (vm : VM) : Except Error data :=
  if a < MEMORY_SIZE then .ok (vm.memory a) else .error Error.AddressOutOfRange

/-! ## Collector -/

/-- The addresses a cell refers to: the target of a reference, or the
contiguous block of `length` cells behind a list header, as far as it lies in
the address space. -/
def refs : data → List Nat
  | data.Reference a => [a]
  | data.ListHeader length element_address =>
      List.range' element_address (min length (MEMORY_SIZE - element_address))
  | _ => []

/-- Modelled from the spec: the reference that a stack entry holds.  The
value of a variable entry is the address of the cell the variable is bound to;
the value of a frame sentinel is a return address, a raw numeric payload that
refers to no cell of the address space. -/
def entry_refs (se : stack_entry) : List Nat :=
  match se.tag with
  | frame_tag.variable => [se.val]
  | frame_tag.function_frame => []
  | frame_tag.auto_frame => []

/-- Modelled from the spec: the root set of a collection: the references held
by the live call-stack entries, by the entries of every stored closure, by the
cells of the argument stack, and the addresses on the memory-register stack. -/
def root_addresses (vm : VM) : List Nat :=
  (List.range vm.stack_pointer).flatMap (fun i => entry_refs (vm.call_stack i))
  ++ (vm.closure_list.flatten).flatMap entry_refs
  ++ (List.range vm.arg_pointer).flatMap (fun i => refs (vm.arg_stack i))
  ++ (List.range vm.mem_reg_pointer).map vm.mem_reg_stack

/-- Reachability from the root set: a root is reachable, and so is every
address that a reachable cell of the address space refers to. -/
inductive Reachable (vm : VM) : Nat → Prop
  | root {a : Nat} : a ∈ root_addresses vm → Reachable vm a
  | link {a b : Nat} :
      Reachable vm a → a < MEMORY_SIZE → b ∈ refs (vm.memory a) → Reachable vm b

/-- One pass of the traversal: the cells of the address space that the marked
cells refer to and that are not marked yet. -/
def mark_pass (memory : Nat → data) (marked : List Nat) : List Nat :=
  ((marked.flatMap (fun a => refs (memory a))).filter
    (fun b => decide (b < MEMORY_SIZE ∧ b ∉ marked))).dedup

/-- The traversal: passes are repeated until one marks nothing new. -/
def mark_loop (memory : Nat → data) : Nat → List Nat → List Nat
  | 0, marked => marked
  | fuel + 1, marked =>
    match mark_pass memory marked with
    | [] => marked
    | b :: new => mark_loop memory fuel (b :: new ++ marked)

/-- Modelled from the spec: the mark phase of `garbage_collect`: every cell of
the address space reachable from the roots.  Each pass but the last marks a new
cell, so `MEMORY_SIZE` passes suffice. -/
def mark (vm : VM) : List Nat :=
  mark_loop vm.memory MEMORY_SIZE
    ((root_addresses vm).filter (fun a => decide (a < MEMORY_SIZE))).dedup

/-- Modelled from the spec: the sweep phase of `garbage_collect` over the
addresses `hi - n, ..., hi - 1`.  `run` is the start of the run of unmarked
addresses that is open at the current address; a run is closed into one free
block when a marked address or the end of the address space is met. -/
def sweep (marked : List Nat) (hi : Nat) : Nat → Option Nat → List mem_block
  | 0, none => []
  | 0, some s => [{ size := hi - s, start := s }]
  | n + 1, none =>
    if (hi - (n + 1)) ∈ marked then sweep marked hi n none
    else sweep marked hi n (some (hi - (n + 1)))
  | n + 1, some s =>
    if (hi - (n + 1)) ∈ marked then
      { size := hi - (n + 1) - s, start := s } :: sweep marked hi n none
    else sweep marked hi n (some s)

/-! ## Allocator -/

/-- Modelled from the spec: `has_memory(size)`: a free block of at least
`size` cells exists, or the bump region has `size` cells left. -/
def has_memory (size : Nat) (vm : VM) : Bool :=
  vm.free_memory.any (fun b => decide (size ≤ b.size))
    || decide (vm.memory_pointer + size ≤ MEMORY_SIZE)

/-- Modelled from the spec: `garbage_collect(size)` (body in `memory.c`, not
part of the sources).  Marks the reachable cells and rebuilds the free list
from the maximal runs of unmarked addresses of the allocatable range
`[RESERVED_MEMORY, MEMORY_SIZE)`; no cell is moved or written.  All free space
is then on the free list, so the bump region is empty.  Returns whether `size`
cells can be allocated afterwards. -/
def garbage_collect (size : Nat) (vm : VM) : Bool × VM :=
  let vm1 : VM :=
    { vm with
      free_memory := sweep (mark vm) MEMORY_SIZE (MEMORY_SIZE - RESERVED_MEMORY) none,
      memory_pointer := MEMORY_SIZE }
  (has_memory size vm1, vm1)

/-- First fit over the free list: the first block of at least `size` cells is
taken from its front, and what is left of it stays on the list. -/
def take_block (size : Nat) : List mem_block → Option (Nat × List mem_block)
  | [] => none
  | b :: rest =>
    if size ≤ b.size then
      some (b.start,
        if size < b.size then { size := b.size - size, start := b.start + size } :: rest
        else rest)
    else
      match take_block size rest with
      | some (a, rest1) => some (a, b :: rest1)
      | none => none

/-- Allocation without collection: first fit over the free list, else an
extension of the bump region if the capacity allows. -/
def allocate_now (size : Nat) (vm : VM) : Option (Nat × VM) :=
  match take_block size vm.free_memory with
  | some (a, free1) => some (a, { vm with free_memory := free1 })
  | none =>
    if vm.memory_pointer + size ≤ MEMORY_SIZE then
      some (vm.memory_pointer, { vm with memory_pointer := vm.memory_pointer + size })
    else none

/-- Modelled from the spec: `pls_give_memory(size)` (body in `memory.c`, not
part of the sources).  When the request cannot be satisfied the collector is
invoked; `OutOfMemory` is reported only if the request still cannot be
satisfied after the collection. -/
def pls_give_memory (size : Nat) (vm : VM) : Except Error (Nat × VM) :=
  match allocate_now size vm with
  | some r => .ok r
  | none =>
    if (garbage_collect size vm).1 then
      match allocate_now size (garbage_collect size vm).2 with
      | some r => .ok r
      | none => .error Error.OutOfMemory
    else .error Error.OutOfMemory

/-- Modelled from the spec: `here_u_go(a, size)`: the range goes back to the
free list as a new block. -/
def here_u_go (a : Nat) (size : Nat) (vm : VM) : VM :=
  { vm with free_memory := { size := size, start := a } :: vm.free_memory }

/-! ## Native functions (`native.c`) -/

/-- The label that an error report of `error.c` is printed with:
`Fatal Error`, `Parser Error`, `Compile Error` or `Runtime Error`. -/
inductive error_kind
  | Fatal
  | Parser
  | Compile
  | Runtime
  deriving DecidableEq, Repr

/-- The host process as `native.c` and `error.c` see it: the virtual machine,
the `SETTINGS_STRICT_ERROR` flag, the static `error_flag` of `error.c`, the
errors reported so far and the status passed to `safe_exit`, if the process
was ended.  The field `underflow_cell` is the cell that `pop_arg` of `memory.c`
(not part of the sources) hands to its caller when it returns from an empty
argument stack; the sources do not determine it. -/
structure Host where
  vm : VM
  SETTINGS_STRICT_ERROR : Bool
  error_flag : Bool
  reported : List (error_kind × String)
  exit_status : Option Nat
  underflow_cell : data

/-- The function `reset_error_flag()` of `error.c`. -/
def reset_error_flag (h : Host) : Host := { h with error_flag := false }

/-- The function `get_error_flag()` of `error.c`. -/
def get_error_flag (h : Host) : Bool := h.error_flag

/-- The common shape of the four reporters of `error.c`, as far as the control
flow goes: the message is printed under its label, and the process exits with
status 1 if `get_settings_flag(SETTINGS_STRICT_ERROR)` holds; otherwise the
reporter returns. -/
def report_error (kind : error_kind) (message : String) (h : Host) : Host :=
  if h.SETTINGS_STRICT_ERROR then
    { h with reported := h.reported ++ [(kind, message)], exit_status := some 1 }
  else { h with reported := h.reported ++ [(kind, message)] }

/-- The function `error_general(message, ...)` of `error.c`. -/
def error_general (message : String) (h : Host) : Host :=
  report_error error_kind.Fatal message h

/-- The function `error_lexer(line, col, message, ...)` of `error.c`. -/
def error_lexer (message : String) (h : Host) : Host :=
  report_error error_kind.Parser message h

/-- The function `error_compile(line, col, message, ...)` of `error.c`. -/
def error_compile (message : String) (h : Host) : Host :=
  report_error error_kind.Compile message h

/-- The function `error_runtime(line, message, ...)` of `error.c`. -/
def error_runtime (message : String) (h : Host) : Host :=
  report_error error_kind.Runtime message h

/-- The message `VM_INVALID_NATIVE_CALL` of `error.h` (not part of the
sources), formatted with the function name. -/
def VM_INVALID_NATIVE_CALL (function_name : String) : String :=
  "VM_INVALID_NATIVE_CALL " ++ function_name

/-- The message of the runtime error that reports the failure
`ArgStackUnderflow` (the message constants are in `error.h`, not part of the
sources). -/
def ARG_STACK_UNDERFLOW : String := "ArgStackUnderflow"

/-- The message of the fatal error that reports a push on a full argument
stack. -/
def ARG_STACK_OVERFLOW : String := "StackOverflow"

/-- The ways in which a native function of `native.c` leaves the behaviour
that C defines; the run of the model ends there.  `union_member`: a member of
the union of a cell is read that the cell does not hold.  `int_conversion x`:
the number `x`, outside the range of `int`, is converted to `int`.
`memory_read i`: the element `memory[i]` is read with `i` outside
`[0, MEMORY_SIZE)`.  `buffer_write allocated written`: `written` bytes are
written into a buffer of `allocated` bytes, fewer than that. -/
inductive native_fault
  | union_member
  | int_conversion (x : Int)
  | memory_read (i : Int)
  | buffer_write (allocated written : Nat)
  deriving DecidableEq, Repr

/-- The least value of the C type `int` (32 bits). -/
def INT_MIN : Int := -2147483648

/-- The greatest value of the C type `int` (32 bits). -/
def INT_MAX : Int := 2147483647

/-- The conversion of a number to `int`, as in `(int)native_to_numeric(args)`
and in `int i = arg1_from`: defined for the numbers of the range of `int`
only. -/
def double_to_int (x : Int) : Except native_fault Int :=
  if INT_MIN ≤ x ∧ x ≤ INT_MAX then .ok x else .error (native_fault.int_conversion x)

/-- The helper `native_to_numeric`: the `number` member of the cell. -/
def native_to_numeric (t : data) : Except native_fault Int :=
  match t with
  | data.Number n => .ok n
  | _ => .error native_fault.union_member

/-- The helper `native_to_string`: the `string` member of the cell. -/
def native_to_string (t : data) : Except native_fault (List Nat) :=
  match t with
  | data.Str s => .ok s
  | _ => .error native_fault.union_member

/-- The native `native_printCallStack`: prints the call stack, up to the
number of lines given, and returns `noneret_token()`.  Like every native it
is given the global array `memory`, which it does not read. -/
def native_printCallStack (_memory : Nat → data) (args : List data) :
    Except native_fault data :=
  match native_to_numeric (args.getD 0 data.None) with
  | .error fault => .error fault
  | .ok maxlines =>
    match double_to_int maxlines with
    | .error fault => .error fault
    | .ok _ => .ok data.NoneRet

/-- The function `make_data_str(s)` of `token.c`, as far as its buffer goes:
it allocates `strlen(s) + 1` bytes and copies `s` with its terminating zero
into them. -/
def make_data_str_size (s : List Nat) : Nat := s.length + 1

/-- The size in bytes of the buffer that `native_reverseString` gets for its
copy, `make_token(T_STRING, make_data_str(""))`. -/
def native_reverseString_allocated : Nat := make_data_str_size []

/-- The number of bytes that `strcpy(t.t_data.string, string)` writes into
that buffer: the bytes of the argument and the terminating zero. -/
def native_reverseString_copied (args : List data) : Nat :=
  match native_to_string (args.getD 0 data.None) with
  | .ok string => string.length + 1
  | .error _ => 0

/-- The swap loop of `native_reverseString`: for `i < n`, exchanges the
bytes at `i` and `len - i - 1`; `i` counts upwards from `len / 2 - n`. -/
def reverse_loop (len : Nat) : Nat → List Nat → List Nat
  | 0, t => t
  | n + 1, t =>
    let i := len / 2 - (n + 1)
    let tmp := t.getD i 0
    let t1 := t.set i (t.getD (len - i - 1) 0)
    reverse_loop len n (t1.set (len - i - 1) tmp)

/-- The native `native_reverseString`: copies the argument string into the
buffer of `make_data_str("")` with `strcpy` and reverses the copy in place. -/
def native_reverseString (_memory : Nat → data) (args : List data) :
    Except native_fault data :=
  match native_to_string (args.getD 0 data.None) with
  | .error fault => .error fault
  | .ok string =>
    let len := string.length
    if native_reverseString_allocated < len + 1 then
      .error (native_fault.buffer_write native_reverseString_allocated (len + 1))
    else .ok (data.Str (reverse_loop len (len / 2) string))

/-- The indices `i` of the loop `for (int i = arg1_from; i < arg2_to; i++)` of
`native_examineMemory`, for arguments that are numbers. -/
def native_examineMemory_reads (args : List data) : List Int :=
  match native_to_numeric (args.getD 0 data.None), native_to_numeric (args.getD 1 data.None) with
  | .ok arg1_from, .ok arg2_to =>
    (List.range (arg2_to - arg1_from).toNat).map (fun k => arg1_from + (k : Int))
  | _, _ => []

/-- The print of one cell in the loop of `native_examineMemory`.  A numeric
cell is printed with `(int)t.t_data.number`, a conversion that is defined for
the numbers of the range of `int` only; any other cell is printed through its
`string` member.  The test `is_numeric` (`token.h`) and the layout of the cells
that hold no number are not part of the sources: a number cell is taken as
numeric, and the print of any other cell as defined. -/
def examine_cell (t : data) : Except native_fault Unit :=
  match t with
  | data.Number x =>
    match double_to_int x with
    | .error fault => .error fault
    | .ok _ => .ok ()
  | _ => .ok ()

/-- The loop `for (...; i < arg2_to; i++) { token t = memory[i]; ... }` of
`native_examineMemory`, `n` iterations from `i` on: each one reads
`memory[i]`, which is an element of the array for `0 <= i < MEMORY_SIZE`
only, and prints it. -/
def examine_loop (memory : Nat → data) : Nat → Int → Except native_fault Unit
  | 0, _ => .ok ()
  | n + 1, i =>
    if 0 ≤ i ∧ i < (MEMORY_SIZE : Int) then
      match examine_cell (memory i.toNat) with
      | .error fault => .error fault
      | .ok _ => examine_loop memory n (i + 1)
    else .error (native_fault.memory_read i)

/-- The native `native_examineMemory`: prints the cells `memory[i]` of the
global array `memory` for `arg1_from <= i < arg2_to` and returns
`noneret_token()`. -/
def native_examineMemory (memory : Nat → data) (args : List data) :
    Except native_fault data :=
  match native_to_numeric (args.getD 0 data.None) with
  | .error fault => .error fault
  | .ok arg1_from =>
    match native_to_numeric (args.getD 1 data.None) with
    | .error fault => .error fault
    | .ok arg2_to =>
      match double_to_int arg1_from with
      | .error fault => .error fault
      | .ok i =>
        match examine_loop memory (arg2_to - i).toNat i with
        | .error fault => .error fault
        | .ok _ => .ok data.NoneRet

/-- The struct `native_function` of `native.c`.  The C function takes the
argument list; the global array `memory`, which it can read, is the first
argument here. -/
structure native_function where
  name : String
  argc : Nat
  function : (Nat → data) → List data → Except native_fault data

/-- The table `native_functions` of `native.c`. -/
def native_functions : List native_function :=
  [ { name := "printCallStack", argc := 1, function := native_printCallStack },
    { name := "reverseString", argc := 1, function := native_reverseString },
    { name := "examineMemory", argc := 2, function := native_examineMemory } ]

/-- Modelled from the spec: a call `pop_arg(line)` as the code of `native.c`
meets it (the body, in `memory.c`, is not part of the sources).  On a stack
that is not empty the top cell is returned.  On an empty stack the failure
`ArgStackUnderflow` is reported as a runtime error and the stack is left as it
is; under `SETTINGS_STRICT_ERROR` the process exits in the report and the call
does not return (no cell); otherwise the call returns to its caller with the
cell `underflow_cell`. -/
def pop_arg_call (h : Host) : Option data × Host :=
  match pop_arg h.vm with
  | .ok (t, vm1) => (some t, { h with vm := vm1 })
  | .error _ =>
    if h.SETTINGS_STRICT_ERROR then (none, error_runtime ARG_STACK_UNDERFLOW h)
    else (some h.underflow_cell, error_runtime ARG_STACK_UNDERFLOW h)

/-- Modelled from the spec: a call `push_arg(t, line)` as the code of
`native.c` meets it.  A push on a full argument stack is fatal: it is reported
and the process exits. -/
def push_arg_call (t : data) (h : Host) : Host :=
  match push_arg t h.vm with
  | .ok vm1 => { h with vm := vm1 }
  | .error _ => { error_runtime ARG_STACK_OVERFLOW h with exit_status := some 1 }

/-- The argument loop of `native_call`:
`for (j = argc - 1; j >= 0; j--) arg_list[j] = pop_arg(line);`.
The cell popped first becomes the last argument.  The loop has no test of its
own: it goes on whenever `pop_arg` returns, and yields no list only when the
process has exited in a call of `pop_arg`. -/
def pop_args : Nat → Host → List data → Option (List data) × Host
  | 0, h, arg_list => (some arg_list, h)
  | j + 1, h, arg_list =>
    match pop_arg_call h with
    | (some t, h1) => pop_args j h1 (t :: arg_list)
    | (none, h1) => (none, h1)

/-- The search loop of `native_call` over the table: the first entry whose
name is `function_name` is called. -/
def find_native (function_name : String) : List native_function → Option native_function
  | [] => none
  | f :: rest => if f.name = function_name then some f else find_native function_name rest

/-- The function `native_call(function_name, expected_args, line)` of `native.c`.  The
parameter `expected_args` is not used by the C function.  The result is the
host after the call (with its exit status, if the process has exited in a
report), or the fault at which the native function leaves the behaviour that
C defines, with the host as it is then. -/
def native_call (function_name : String) (_expected_args : Int) (h : Host) :
    Except (native_fault × Host) Host :=
  match find_native function_name native_functions with
  | some f =>
    match pop_args f.argc h [] with
    | (some arg_list, h1) =>
      match f.function h1.vm.memory arg_list with
      | .ok result => .ok (push_arg_call result h1)
      | .error fault => .error (fault, h1)
    | (none, h1) => .ok h1
  | none => .ok (error_runtime (VM_INVALID_NATIVE_CALL function_name) h)

/-! ## Sequences of operations -/

/-- The calls that shape the frames of the call stack. -/
inductive FrameOp
  | push_frame (name : String) (ret : Nat)
  | push_auto_frame (ret : Nat) (type : String)
  | pop_frame (is_ret : Bool)
  | push_stack_entry (id : String) (val : Nat)

/-- One frame call. -/
def apply_frame_op (op : FrameOp) (vm : VM) : Except Error VM :=
  match op with
  | FrameOp.push_frame name ret => push_frame name ret vm
  | FrameOp.push_auto_frame ret type => push_auto_frame ret type vm
  | FrameOp.pop_frame is_ret =>
    match pop_frame is_ret vm with
    | .ok (_, vm1) => .ok vm1
    | .error e => .error e
  | FrameOp.push_stack_entry id val => push_stack_entry id val vm

/-- A sequence of frame calls, stopping at the first failure. -/
def run_frame_ops : List FrameOp → VM → Except Error VM
  | [], vm => .ok vm
  | op :: ops, vm =>
    match apply_frame_op op vm with
    | .ok vm1 => run_frame_ops ops vm1
    | .error e => .error e

/-- Whether `op` pushes a frame that a `pop_frame(is_ret)` may close: any
frame push for a plain pop, a function frame for a return. -/
def opens_frame : FrameOp → Bool → Bool
  | FrameOp.push_frame _ _, _ => true
  | FrameOp.push_auto_frame _ _, false => true
  | _, _ => false

/-- The predicate `Nest open_autos ops`: in `ops` every pop has its push, and every push
its matching pop: a frame is closed by a `pop_frame(false)` once every frame
pushed inside it is closed, and a function frame may also be closed by a
`pop_frame(true)`, which takes the automatic frames still open inside it along.
With `open_autos = true` automatic frames may be left open at the end.
Variables may be declared anywhere. -/
inductive Nest : Bool → List FrameOp → Prop
  | nil (b : Bool) : Nest b []
  | declare (b : Bool) (id : String) (val : Nat) {ops : List FrameOp} :
      Nest b ops → Nest b (FrameOp.push_stack_entry id val :: ops)
  | pair (b : Bool) (push : FrameOp) (is_ret : Bool) {body rest : List FrameOp} :
      opens_frame push is_ret = true → Nest is_ret body → Nest b rest →
      Nest b (push :: (body ++ FrameOp.pop_frame is_ret :: rest))
  | open_auto (ret : Nat) (type : String) {rest : List FrameOp} :
      Nest true rest → Nest true (FrameOp.push_auto_frame ret type :: rest)

/-- The predicate `AutoChain call_stack base t`: the frame with base `t` is the frame with
base `base`, or an automatic frame nested, through automatic frames only, in
the frame with base `base`. -/
inductive AutoChain (call_stack : Nat → stack_entry) (base : Nat) : Nat → Prop
  | here : AutoChain call_stack base base
  | up {t : Nat} : (call_stack t).tag = frame_tag.auto_frame →
      (call_stack t).enclosing < t →
      AutoChain call_stack base (call_stack t).enclosing → AutoChain call_stack base t

/-- The operations of the memory module that change the machine. -/
inductive MemOp
  | push_frame (name : String) (ret : Nat)
  | push_auto_frame (ret : Nat) (type : String)
  | pop_frame (is_ret : Bool)
  | push_stack_entry (id : String) (val : Nat)
  | copy_stack_entry (se : stack_entry)
  | overwrite_entry (i : Nat) (se : stack_entry)
  | unwind_stack
  | create_closure
  | invoke_closure (index : Nat)
  | write_memory (location : Nat) (d : data)
  | pls_give_memory (size : Nat)
  | here_u_go (a : Nat) (size : Nat)
  | garbage_collect (size : Nat)
  | push_arg (t : data)
  | pop_arg
  | clear_arg_stack
  | push_mem_reg (memory_register : Nat)
  | pop_mem_reg

/-- One operation.  `overwrite_entry i se` is the direct store
`call_stack[i] = se` that the interpreter may perform on the global array. -/
def apply_op (op : MemOp) (vm : VM) : Except Error VM :=
  match op with
  | MemOp.push_frame name ret => push_frame name ret vm
  | MemOp.push_auto_frame ret type => push_auto_frame ret type vm
  | MemOp.pop_frame is_ret =>
    match pop_frame is_ret vm with
    | .ok (_, vm1) => .ok vm1
    | .error e => .error e
  | MemOp.push_stack_entry id val => push_stack_entry id val vm
  | MemOp.copy_stack_entry se => copy_stack_entry se vm
  | MemOp.overwrite_entry i se => .ok { vm with call_stack := store vm.call_stack i se }
  | MemOp.unwind_stack => .ok (unwind_stack vm.frame_pointer vm)
  | MemOp.create_closure => .ok (create_closure vm).2
  | MemOp.invoke_closure index => invoke_closure index vm
  | MemOp.write_memory location d => write_memory location d vm
  | MemOp.pls_give_memory size =>
    match pls_give_memory size vm with
    | .ok (_, vm1) => .ok vm1
    | .error e => .error e
  | MemOp.here_u_go a size => .ok (here_u_go a size vm)
  | MemOp.garbage_collect size => .ok (garbage_collect size vm).2
  | MemOp.push_arg t => push_arg t vm
  | MemOp.pop_arg =>
    match pop_arg vm with
    | .ok (_, vm1) => .ok vm1
    | .error e => .error e
  | MemOp.clear_arg_stack => .ok (clear_arg_stack vm)
  | MemOp.push_mem_reg memory_register => .ok (push_mem_reg memory_register vm)
  | MemOp.pop_mem_reg =>
    match pop_mem_reg vm with
    | .ok (_, vm1) => .ok vm1
    | .error e => .error e

/-- A sequence of operations, stopping at the first failure. -/
def run_ops : List MemOp → VM → Except Error VM
  | [], vm => .ok vm
  | op :: ops, vm =>
    match apply_op op vm with
    | .ok vm1 => run_ops ops vm1
    | .error e => .error e

/-! ## Sequences of allocator calls -/

/-- Modelled from the spec: whether every address of the range `r` is marked
reachable.  The collector considers every address that is not marked free, so
a range that a caller holds stays allocated across a collection exactly when
all its addresses are reachable from the root set. -/
def range_marked (marked : List Nat) (r : Nat × Nat) : Bool :=
  (List.range' r.1 r.2).all (fun x => decide (x ∈ marked))

/-- The ranges among `live` that stay allocated across a collection on
`vm`. -/
def survivors (vm : VM) (live : List (Nat × Nat)) : List (Nat × Nat) :=
  live.filter (range_marked (mark vm))

/-- The calls by which the allocator and the collector change the free
space. -/
def allocator_op : MemOp → Bool
  | MemOp.pls_give_memory _ => true
  | MemOp.here_u_go _ _ => true
  | MemOp.garbage_collect _ => true
  | _ => false

/-- One operation of the memory module, on the machine together with the live
ranges `(address, size)`: the ranges handed out by `pls_give_memory` that have
neither been released nor reclaimed by a collection.  An allocation adds the
range it returns; a release is only possible for a live range, and ends it; a
collection, invoked by an allocation that finds no room or called directly,
ends the live ranges that are not reachable.  Every other operation leaves
the live ranges as they are. -/
def client_step (op : MemOp) (st : VM × List (Nat × Nat)) : Option (VM × List (Nat × Nat)) :=
  match op with
  | MemOp.pls_give_memory size =>
    match pls_give_memory size st.1 with
    | .ok (a, vm1) =>
      some (vm1, (a, size) ::
        (match allocate_now size st.1 with
         | some _ => st.2
         | none => survivors st.1 st.2))
    | .error _ => none
  | MemOp.here_u_go a size =>
    if (a, size) ∈ st.2 then some (here_u_go a size st.1, st.2.erase (a, size))
    else none
  | MemOp.garbage_collect size =>
    some ((garbage_collect size st.1).2, survivors st.1 st.2)
  | op =>
    match apply_op op st.1 with
    | .ok vm1 => some (vm1, st.2)
    | .error _ => none

/-- A sequence of operations of the memory module, with the live ranges. -/
def run_client_ops : List MemOp → VM × List (Nat × Nat) → Option (VM × List (Nat × Nat))
  | [], st => some st
  | op :: ops, st =>
    match client_step op st with
    | some st1 => run_client_ops ops st1
    | none => none

/-- The ranges `[a, a + n)` and `[c, c + m)` share no address. -/
def apart (a n c m : Nat) : Prop :=
  n = 0 ∨ m = 0 ∨ a + n ≤ c ∨ c + m ≤ a

/-- Modelled from the spec: the consistency of the allocator (`check_memory`)
with respect to the ranges held by the callers: the bump pointer lies in
`[RESERVED_MEMORY, MEMORY_SIZE]`; every free block and every held range lies in
`[RESERVED_MEMORY, memory_pointer)`; and no two of them share an address. -/
def alloc_inv (vm : VM) (live : List (Nat × Nat)) : Prop :=
  RESERVED_MEMORY ≤ vm.memory_pointer ∧ vm.memory_pointer ≤ MEMORY_SIZE ∧
  (∀ b ∈ vm.free_memory, RESERVED_MEMORY ≤ b.start ∧ b.start + b.size ≤ vm.memory_pointer) ∧
  vm.free_memory.Pairwise (fun b c => apart b.start b.size c.start c.size) ∧
  (∀ r ∈ live, RESERVED_MEMORY ≤ r.1 ∧ r.1 + r.2 ≤ vm.memory_pointer) ∧
  live.Pairwise (fun r t => apart r.1 r.2 t.1 t.2) ∧
  (∀ r ∈ live, ∀ b ∈ vm.free_memory, apart r.1 r.2 b.start b.size)

/-! ## Initial state -/

/-- Modelled from the spec: `init_memory()`.  Every cell holds the none value,
nothing is allocated beyond the reserved cells, and the call stack holds the
sentinel of the bottom frame `main`. -/
def init_memory : VM :=
  { memory := fun _ => data.None,
    free_memory := [],
    memory_pointer := RESERVED_MEMORY,
    call_stack := fun _ =>
      { id := "main", val := 0, is_closure := false,
        tag := frame_tag.function_frame, enclosing := 0 },
    frame_pointer := 0,
    stack_pointer := 1,
    closure_list := [],
    mem_reg_stack := fun _ => 0,
    mem_reg_pointer := 0,
    arg_stack := fun _ => data.None,
    arg_pointer := 0 }

/-- A host that starts on the initial machine. -/
def init_host (strict : Bool) : Host :=
  { vm := init_memory, SETTINGS_STRICT_ERROR := strict, error_flag := false,
    reported := [], exit_status := none, underflow_cell := data.None }

/-- The initial machine after `push_frame("f", 7)`, `push_auto_frame(0, "loop")`
and `push_auto_frame(0, "if")`: a function frame with two automatic frames
nested above it. -/
def nested_frames : VM :=
  { init_memory with
    call_stack :=
      store (store (store init_memory.call_stack 1
        { id := "f", val := 7, is_closure := false,
          tag := frame_tag.function_frame, enclosing := 0 }) 2
        { id := "loop", val := 0, is_closure := false,
          tag := frame_tag.auto_frame, enclosing := 1 }) 3
        { id := "if", val := 0, is_closure := false,
          tag := frame_tag.auto_frame, enclosing := 2 },
    frame_pointer := 3,
    stack_pointer := 4 }

/-- The initial machine with a variable `x` bound to address 10 in the bottom
frame. -/
def one_variable : VM :=
  { init_memory with
    call_stack := store init_memory.call_stack 1
      { id := "x", val := 10, is_closure := false,
        tag := frame_tag.variable, enclosing := 0 },
    stack_pointer := 2 }

/-- The operations that follow the capture in the closure example: the entry of
`x` is overwritten in place, `x` is declared again and a function frame is
pushed. -/
def after_capture_ops : List MemOp :=
  [MemOp.overwrite_entry 1
     { id := "x", val := 99, is_closure := false,
       tag := frame_tag.variable, enclosing := 0 },
   MemOp.push_stack_entry "x" 50, MemOp.push_frame "g" 3]

/-- The machine `one_variable` after `create_closure()` and
`after_capture_ops`. -/
def after_capture : VM :=
  { one_variable with
    call_stack :=
      store (store (store one_variable.call_stack 1
        { id := "x", val := 99, is_closure := false,
          tag := frame_tag.variable, enclosing := 0 }) 2
        { id := "x", val := 50, is_closure := false,
          tag := frame_tag.variable, enclosing := 0 }) 3
        { id := "g", val := 3, is_closure := false,
          tag := frame_tag.function_frame, enclosing := 0 },
    frame_pointer := 3,
    stack_pointer := 4,
    closure_list := [frame_entries one_variable] }

/-- The machine of the end-to-end scenario: a list block of three cells,
holding 10, 20 and 30, behind a header at address 2, and a function frame `f`
whose local `l` is bound to the address of the header. -/
def list_machine : VM :=
  { init_memory with
    memory :=
      store (store (store (store init_memory.memory 2 (data.ListHeader 3 3))
        3 (data.Number 10)) 4 (data.Number 20)) 5 (data.Number 30),
    memory_pointer := 6,
    call_stack :=
      store (store init_memory.call_stack 1
        { id := "f", val := 0, is_closure := false,
          tag := frame_tag.function_frame, enclosing := 0 }) 2
        { id := "l", val := 2, is_closure := false,
          tag := frame_tag.variable, enclosing := 0 },
    frame_pointer := 1,
    stack_pointer := 3 }

/-- The initial machine after the calls of the allocator example: an
allocation of one cell, the declaration of a variable `x` bound to it, and an
allocation of all the rest of the address space. -/
def filled_machine : VM :=
  { init_memory with
    call_stack := store init_memory.call_stack 1
      { id := "x", val := 2, is_closure := false,
        tag := frame_tag.variable, enclosing := 0 },
    stack_pointer := 2,
    memory_pointer := MEMORY_SIZE }

/-- The calls of the allocator example: the three calls that lead to
`filled_machine`, and an allocation of one cell, which finds no room and
invokes the collector. -/
def allocator_example : List MemOp :=
  [MemOp.pls_give_memory 1, MemOp.push_stack_entry "x" 2, MemOp.pls_give_memory 129058,
   MemOp.pls_give_memory 1]

/-- The machine `filled_machine` after the last call of the allocator example:
the collection has freed the range `[3, 129061)`, which no root refers to, and
the allocation has taken its first cell. -/
def refilled_machine : VM :=
  { filled_machine with free_memory := [{ size := 129057, start := 4 }] }

/-- A host whose argument stack holds the two arguments `129061` and `129062`
of a call of `examineMemory`. -/
def examine_host : Host :=
  { init_host false with
    vm := { init_memory with
      arg_stack := store (store init_memory.arg_stack 0 (data.Number 129061))
        1 (data.Number 129062),
      arg_pointer := 2 } }

/-- Whether an operation leaves address 0 to the machine: it neither writes
to address 0 nor releases it. -/
def respects_zero : MemOp → Prop
  | MemOp.write_memory location _ => location ≠ 0
  | MemOp.here_u_go a _ => a ≠ 0
  | _ => True

/-- Address 0 is reserved: it holds the none value, no free block starts at
it, and the bump region starts above it. -/
def zero_reserved (vm : VM) : Prop :=
  vm.memory 0 = data.None ∧ (∀ b ∈ vm.free_memory, 0 < b.start) ∧ 0 < vm.memory_pointer

/-- The two machines have the same address space, free list and bump
pointer. -/
def same_heap (vm vm1 : VM) : Prop :=
  vm1.memory = vm.memory ∧ vm1.free_memory = vm.free_memory ∧
  vm1.memory_pointer = vm.memory_pointer

/-! ## Tokens (`token.c`) -/

namespace ast

/-- The token types that `ast.c` and `token.c` name (the enumeration itself is
in `token.h`, not part of the sources; `T_NONERET` is the type of the token
that `noneret_token()` makes). -/
inductive token_type
  | T_EMPTY | T_LEFT_PAREN | T_RIGHT_PAREN | T_LEFT_BRACK | T_RIGHT_BRACK
  | T_LEFT_BRACE | T_RIGHT_BRACE | T_COMMA | T_DOT | T_SEMICOLON | T_COLON
  | T_PLUS | T_MINUS | T_STAR | T_SLASH | T_INTSLASH | T_PERCENT
  | T_AND | T_OR | T_NOT | T_TILDE | T_RANGE_OP
  | T_NOT_EQUAL | T_EQUAL_EQUAL | T_LESS | T_GREATER | T_LESS_EQUAL | T_GREATER_EQUAL
  | T_EQUAL | T_ASSIGN_PLUS | T_ASSIGN_MINUS | T_ASSIGN_STAR | T_ASSIGN_SLASH
  | T_ASSIGN_INTSLASH | T_DEFFN | T_LAMBDA
  | T_STRING | T_NUMBER | T_TRUE | T_FALSE | T_NONE | T_NONERET | T_IDENTIFIER
  | T_OBJ_TYPE
  | T_LET | T_IF | T_ELSE | T_LOOP | T_IN | T_STRUCT | T_INC | T_DEC | T_INPUT
  | T_EXPLODE | T_AT | T_REQ | T_RET
  deriving DecidableEq, Repr

/-- The union `token_data`: a number (a C `double`, carried as a rational; the
parser never inspects it) or a string. -/
inductive token_data
  | number (d : Rat)
  | string (s : String)
  deriving DecidableEq, Repr

/-- The struct `token`: type, line, column and data. -/
structure token where
  t_type : token_type
  t_line : Int
  t_col : Int
  t_data : token_data
  deriving DecidableEq, Repr

/-- The function `make_data_str(s)` of `token.c`. -/
def make_data_str (s : String) : token_data := token_data.string s

/-- The function `make_token(t, d)` of `token.c`: line and column are 0. -/
def make_token (t : token_type) (d : token_data) : token :=
  { t_type := t, t_line := 0, t_col := 0, t_data := d }

/-- The function `precedence(op)` of `token.c`. -/
def precedence (op : token) : Int :=
  match op.t_type with
  | token_type.T_PLUS | token_type.T_MINUS => 140
  | token_type.T_STAR | token_type.T_SLASH | token_type.T_INTSLASH
  | token_type.T_PERCENT => 150
  | token_type.T_AND => 120
  | token_type.T_OR => 110
  | token_type.T_RANGE_OP => 132
  | token_type.T_NOT_EQUAL | token_type.T_EQUAL_EQUAL | token_type.T_TILDE => 130
  | token_type.T_GREATER | token_type.T_GREATER_EQUAL | token_type.T_LESS
  | token_type.T_LESS_EQUAL => 130
  | token_type.T_NOT => 160
  | token_type.T_DOT | token_type.T_LEFT_BRACK => 170
  | _ => 0

/-! ## Syntax trees (`ast.h`, as `ast.c` builds them) -/

mutual
/-- An `expr*`: the null pointer or a node.  The `line` and `col` of a node are
kept where they come from a read of `tokens[curr_index]` (call, list and
function nodes); elsewhere they are those of the node's operator or literal
token.  An `expr_list*` is a list, the null pointer being the empty list: a
list that `ast.c` allocates always has a first node. -/
inductive expr
  | null
  | E_LITERAL (lit_expr : token)
  | E_BINARY (left : expr) (operator : token) (right : expr)
  | E_UNARY (operator : token) (operand : expr)
  | E_CALL (function : expr) (arguments : List expr) (line : Int) (col : Int)
  | E_LIST (length : Int) (contents : List expr) (line : Int) (col : Int)
  | E_FUNCTION (parameters : List expr) (body : statement) (line : Int) (col : Int)
  | E_ASSIGN (lvalue : expr) (rvalue : expr) (operator : token)
/-- A `statement*`: the null pointer or a node (`src_line` is not kept).  A
`statement_list*` is a list, the null pointer being the empty list.  The
`import_statement` of an `S_IMPORT` node is `none` while it has not been
assigned. -/
inductive statement
  | null
  | S_BLOCK (block_statement : List statement)
  | S_LET (lvalue : token) (rvalue : expr)
  | S_IF (condition : expr) (statement_true : statement) (statement_false : statement)
  | S_LOOP (condition : expr) (index_var : token) (statement_true : statement)
  | S_STRUCT (name : token) (init_fn : expr) (parent : token)
      (instance_members : List expr) (static_members : List expr)
  | S_OPERATION (operator : token) (operand : expr)
  | S_IMPORT (import_statement : Option token)
  | S_EXPR (expr_statement : expr)
end

/-- The function `make_lit_expr(t)`. -/
def make_lit_expr (t : token) : expr := expr.E_LITERAL t

/-- The function `make_bin_expr(left, op, right)`. -/
def make_bin_expr (left : expr) (op : token) (right : expr) : expr :=
  expr.E_BINARY left op right

/-- The function `make_una_expr(op, operand)`. -/
def make_una_expr (op : token) (operand : expr) : expr := expr.E_UNARY op operand

/-- The function `make_assign_expr(left, right, op)`. -/
def make_assign_expr (left : expr) (right : expr) (op : token) : expr :=
  expr.E_ASSIGN left right op

/-- The member `op.lit_expr` of an expression node.  On a node of another type
the C code reads the bytes of another union member; the model yields the empty
token made by `make_token`. -/
def lit_expr_of (e : expr) : token :=
  match e with
  | expr.E_LITERAL t => t
  | _ => make_token token_type.T_EMPTY (make_data_str "")

/-! ## Parser state (`ast.c`) -/

/-- The ways a run of the parser ends without returning to its caller:
`safe_exit(1)` in `error_lexer` under `SETTINGS_STRICT_ERROR`; a read of
`tokens[i]` outside the array; a dereference of a null `expr*`; and, for the
model only, fuel that ran out. -/
inductive Stop
  | exited
  | out_of_bounds (i : Int)
  | null_dereference
  | out_of_fuel
  deriving DecidableEq, Repr

/-- The file-scope state of `ast.c` (`tokens` with `length` its number of
cells, `curr_index`, `error_thrown`), the statics `line` and `col` of
`token.c`, and the host process that `error_lexer` acts on. -/
structure ParseState where
  tokens : List token
  curr_index : Int
  error_thrown : Bool
  line : Int
  col : Int
  host : Host

/-- A parser action: from a state, a value and the next state, or a stop. -/
def Parse (α : Type) : Type := ParseState → Except Stop (α × ParseState)

/-- Return of a value without a change of state. -/
def Parse.pure {α : Type} (a : α) : Parse α := fun st => .ok (a, st)

/-- Sequencing of two actions; a stop ends the sequence. -/
def Parse.bind {α β : Type} (x : Parse α) (f : α → Parse β) : Parse β := fun st =>
  match x st with
  | .ok (a, st1) => f a st1
  | .error e => .error e

instance : Monad Parse where
  pure := Parse.pure
  bind := Parse.bind

/-- The stop of an action. -/
def stop {α : Type} (s : Stop) : Parse α := fun _ => .error s

/-- The read `tokens[i]`; outside `[0, length)` the run stops. -/
def read_token (i : Int) : Parse token := fun st =>
  if 0 ≤ i then
    match st.tokens.get? i.toNat with
    | some t => .ok (t, st)
    | none => .error (Stop.out_of_bounds i)
  else .error (Stop.out_of_bounds i)

/-- The value of `curr_index`. -/
def get_curr_index : Parse Int := fun st => .ok (st.curr_index, st)

/-- An assignment to `curr_index`. -/
def set_curr_index (i : Int) : Parse Unit := fun st => .ok ((), { st with curr_index := i })

/-- The value of `error_thrown`. -/
def get_error_thrown : Parse Bool := fun st => .ok (st.error_thrown, st)

/-- The assignment `error_thrown = true`. -/
def set_error_thrown : Parse Unit := fun st => .ok ((), { st with error_thrown := true })

/-- A call of `error_lexer(line, col, message, ...)`: control comes back only
if the process has not exited. -/
def report (message : String) : Parse Unit := fun st =>
  match (error_lexer message st.host).exit_status with
  | none => .ok ((), { st with host := error_lexer message st.host })
  | some _ => .error Stop.exited

/-- The messages of `error.h` (not part of the sources) that `ast.c` reports,
each modelled by its name; format arguments are not modelled. -/
def AST_EXPECTED_TOKEN : String := "AST_EXPECTED_TOKEN"

/-- See `AST_EXPECTED_TOKEN`. -/
def AST_EXPECTED_IDENTIFIER : String := "AST_EXPECTED_IDENTIFIER"

/-- See `AST_EXPECTED_TOKEN`. -/
def AST_EXPECTED_PRIMARY : String := "AST_EXPECTED_PRIMARY"

/-- See `AST_EXPECTED_TOKEN`. -/
def AST_EXPECTED_IDENTIFIER_LOOP : String := "AST_EXPECTED_IDENTIFIER_LOOP"

/-- See `AST_EXPECTED_TOKEN`. -/
def AST_STRUCT_NAME_IDENTIFIER : String := "AST_STRUCT_NAME_IDENTIFIER"

/-- See `AST_EXPECTED_TOKEN`. -/
def AST_STRUCT_PARENT_IDENTIFIER : String := "AST_STRUCT_PARENT_IDENTIFIER"

/-- See `AST_EXPECTED_TOKEN`. -/
def AST_UNRECOGNIZED_IMPORT : String := "AST_UNRECOGNIZED_IMPORT"

/-- The function `none_token()` of `token.c`. -/
def none_token : Parse token := fun st =>
  .ok ({ make_token token_type.T_NONE (make_data_str "<none>") with
          t_line := st.line, t_col := st.col }, st)

/-- The function `empty_token()` of `token.c`. -/
def empty_token : Parse token := fun st =>
  .ok ({ make_token token_type.T_EMPTY (make_data_str "") with
          t_line := st.line, t_col := st.col }, st)

/-- The function `noneret_token()`, which `ast.c` calls and `token.c` as given
does not define: modelled after `none_token()`. -/
def noneret_token : Parse token := fun st =>
  .ok ({ make_token token_type.T_NONERET (make_data_str "<noneret>") with
          t_line := st.line, t_col := st.col }, st)

/-- The function `is_at_end()`: `curr_index == length`. -/
def is_at_end : Parse Bool := fun st =>
  .ok (decide (st.curr_index = (st.tokens.length : Int)), st)

/-- The function `previous()`: `tokens[curr_index - 1]`. -/
def previous : Parse token := fun st => read_token (st.curr_index - 1) st

/-- The function `peek()`: `tokens[curr_index]`. -/
def peek : Parse token := fun st => read_token st.curr_index st

/-- The function `advance()`. -/
def advance : Parse token := do
  let at_end ← is_at_end
  if at_end then previous
  else do
    let i ← get_curr_index
    set_curr_index (i + 1)
    previous

/-- The function `check(t)`. -/
def check (t : token_type) : Parse Bool := do
  let at_end ← is_at_end
  if at_end then pure false
  else do
    let p ← peek
    pure (decide (p.t_type = t))

/-- The function `fnmatch(count, ...)` behind the macro `match(...)`: the
first of the given types that the current token has makes it advance. -/
def fnmatch : List token_type → Parse Bool
  | [] => pure false
  | next :: rest => do
    let c ← check next
    if c then do
      let _ ← advance
      pure true
    else fnmatch rest

/-- The function `consume(t)`. -/
def consume (t : token_type) : Parse Unit := do
  let c ← check t
  if c then do
    let _ ← advance
    pure ()
  else do
    let _ ← previous
    report AST_EXPECTED_TOKEN
    let _ ← advance
    set_error_thrown

/-- The loop `while (1)` of `identifier_list()`, one unit of fuel an
iteration; `list` holds the literals made so far. -/
def identifier_list_loop : Nat → List expr → Parse (List expr)
  | 0, _ => stop Stop.out_of_fuel
  | fuel + 1, list => do
    let m ← fnmatch [token_type.T_IDENTIFIER]
    if m then do
      let t ← previous
      let m2 ← fnmatch [token_type.T_COMMA]
      if m2 then identifier_list_loop fuel (list ++ [make_lit_expr t])
      else pure (list ++ [make_lit_expr t])
    else do
      let _ ← previous
      report AST_EXPECTED_IDENTIFIER
      set_error_thrown
      identifier_list_loop fuel list

/-- The function `identifier_list()`. -/
def identifier_list (fuel : Nat) : Parse (List expr) := identifier_list_loop fuel []

/-- The function `make_call_expr(left, arg_list)`. -/
def make_call_expr (left : expr) (arg_list : List expr) : Parse expr := do
  let t ← peek
  pure (expr.E_CALL left arg_list t.t_line t.t_col)

/-- The function `make_list_expr(list)`. -/
def make_list_expr (list : List expr) : Parse expr := do
  let t ← peek
  pure (expr.E_LIST list.length list t.t_line t.t_col)

/-- The loop of `make_func_expr` that reverses the parameter list in place:
`curr` is what is left to visit, `prev` what has been turned round. -/
def reverse_parameters : List expr → List expr → List expr
  | [], prev => prev
  | e :: next, prev => reverse_parameters next (e :: prev)

/-- The function `make_func_expr(parameters, body)`. -/
def make_func_expr (parameters : List expr) (body : statement) : Parse expr := do
  let t ← peek
  pure (expr.E_FUNCTION (reverse_parameters parameters []) body t.t_line t.t_col)

/-- The loop `while (match(...))` of a binary level (`factor`, `term`,
`range`, `comparison`, `and`, `or`), one unit of fuel an iteration: `types`
are the operators of the level and `next` parses an operand. -/
def binary_loop (types : List token_type) (next : Parse expr) : Nat → expr → Parse expr
  | 0, _ => stop Stop.out_of_fuel
  | fuel + 1, left => do
    let m ← fnmatch types
    if m then do
      let op ← previous
      let right ← next
      binary_loop types next fuel (make_bin_expr left op right)
    else pure left

/-- The loop `while (tmp_ins)` of the default initiation function of a struct:
for each instance member `m` the statement `this.m = m`, and last the
statement `ret this`. -/
def default_init_statements : List expr → List statement
  | [] =>
    [statement.S_OPERATION (make_token token_type.T_RET (make_data_str "ret"))
      (make_lit_expr (make_token token_type.T_IDENTIFIER (make_data_str "this")))]
  | tmp_ins :: next =>
    statement.S_EXPR
      (expr.E_ASSIGN
        (make_bin_expr
          (make_lit_expr (make_token token_type.T_IDENTIFIER (make_data_str "this")))
          (make_token token_type.T_DOT (make_data_str "."))
          (make_lit_expr (lit_expr_of tmp_ins)))
        (make_lit_expr (lit_expr_of tmp_ins))
        (make_token token_type.T_EQUAL (make_data_str "=")))
      :: default_init_statements next

/-- The loop `while (match(T_LEFT_PAREN, T_LEFT_BRACK))` of the struct
statement, one unit of fuel an iteration: the members read so far and
`saved_before_iden`. -/
def struct_members :
    Nat → List expr → List expr → Int → Parse (List expr × List expr × Int)
  | 0, _, _, _ => stop Stop.out_of_fuel
  | fuel + 1, static_members, instance_members, saved_before_iden => do
    let m ← fnmatch [token_type.T_LEFT_PAREN, token_type.T_LEFT_BRACK]
    if m then do
      let p ← previous
      if p.t_type = token_type.T_LEFT_PAREN then do
        let saved ← get_curr_index
        let m2 ← fnmatch [token_type.T_RIGHT_PAREN]
        if m2 then struct_members fuel static_members instance_members saved
        else do
          let members ← identifier_list fuel
          consume token_type.T_RIGHT_PAREN
          struct_members fuel static_members members saved
      else do
        let m2 ← fnmatch [token_type.T_RIGHT_BRACK]
        if m2 then struct_members fuel static_members instance_members saved_before_iden
        else do
          let members ← identifier_list fuel
          consume token_type.T_RIGHT_BRACK
          struct_members fuel members instance_members saved_before_iden
    else pure (static_members, instance_members, saved_before_iden)

mutual
/-- The loop `while (1)` of `expression_list`, one unit of fuel an
iteration. -/
def expression_list_loop : Nat → List expr → Parse (List expr)
  | 0, _ => stop Stop.out_of_fuel
  | fuel + 1, list => do
    let e ← expression fuel
    let m ← fnmatch [token_type.T_COMMA]
    if m then expression_list_loop fuel (list ++ [e])
    else pure (list ++ [e])
/-- The function `expression_list(end_delimiter)`. -/
def expression_list : Nat → token_type → Parse (List expr)
  | 0, _ => stop Stop.out_of_fuel
  | fuel + 1, end_delimiter => do
    let p ← peek
    if p.t_type = end_delimiter then pure []
    else do
      let list ← expression_list_loop fuel []
      let thrown ← get_error_thrown
      if thrown then pure [] else pure list
/-- The function `lvalue()`. -/
def lvalue : Nat → Parse expr
  | 0 => stop Stop.out_of_fuel
  | fuel + 1 => do
    let exp ← or fuel
    let _ ← previous
    pure exp
/-- The function `primary()`. -/
def primary : Nat → Parse expr
  | 0 => stop Stop.out_of_fuel
  | fuel + 1 => do
    let m ← fnmatch [token_type.T_STRING, token_type.T_NUMBER, token_type.T_TRUE,
      token_type.T_FALSE, token_type.T_NONE, token_type.T_IDENTIFIER, token_type.T_OBJ_TYPE]
    if m then do
      let t ← previous
      pure (make_lit_expr t)
    else do
      let m1 ← fnmatch [token_type.T_LEFT_BRACK]
      if m1 then do
        let list ← expression_list fuel token_type.T_RIGHT_BRACK
        let list_expr ← make_list_expr list
        consume token_type.T_RIGHT_BRACK
        pure list_expr
      else do
        let m2 ← fnmatch [token_type.T_LEFT_PAREN]
        if m2 then do
          let left ← expression fuel
          consume token_type.T_RIGHT_PAREN
          pure left
        else do
          let m3 ← fnmatch [token_type.T_LAMBDA]
          if m3 then do
            consume token_type.T_LEFT_PAREN
            let list ← expression_list fuel token_type.T_RIGHT_PAREN
            consume token_type.T_RIGHT_PAREN
            let fn_body ← parse_statement fuel
            make_func_expr list fn_body
          else do
            let _ ← previous
            report AST_EXPECTED_PRIMARY
            let _ ← advance
            set_error_thrown
            pure expr.null
/-- The loop `while (match(T_LEFT_BRACK, T_DOT, T_LEFT_PAREN))` of `access`,
one unit of fuel an iteration. -/
def access_loop : Nat → expr → Parse expr
  | 0, _ => stop Stop.out_of_fuel
  | fuel + 1, left => do
    let m ← fnmatch [token_type.T_LEFT_BRACK, token_type.T_DOT, token_type.T_LEFT_PAREN]
    if m then do
      let op ← previous
      if op.t_type = token_type.T_LEFT_BRACK then do
        let right ← expression fuel
        consume token_type.T_RIGHT_BRACK
        access_loop fuel (make_bin_expr left op right)
      else if op.t_type = token_type.T_LEFT_PAREN then do
        let args ← expression_list fuel token_type.T_RIGHT_PAREN
        let call ← make_call_expr left args
        consume token_type.T_RIGHT_PAREN
        access_loop fuel call
      else do
        let right ← primary fuel
        access_loop fuel (make_bin_expr left op right)
    else pure left
/-- The function `access()`. -/
def access : Nat → Parse expr
  | 0 => stop Stop.out_of_fuel
  | fuel + 1 => do
    let left ← primary fuel
    access_loop fuel left
/-- The function `unary()`. -/
def unary : Nat → Parse expr
  | 0 => stop Stop.out_of_fuel
  | fuel + 1 => do
    let m ← fnmatch [token_type.T_MINUS, token_type.T_NOT, token_type.T_TILDE]
    if m then do
      let op ← previous
      let right ← unary fuel
      pure (make_una_expr op right)
    else access fuel
/-- The function `factor()`. -/
def factor : Nat → Parse expr
  | 0 => stop Stop.out_of_fuel
  | fuel + 1 => do
    let left ← unary fuel
    binary_loop [token_type.T_STAR, token_type.T_SLASH, token_type.T_INTSLASH,
      token_type.T_PERCENT] (unary fuel) fuel left
/-- The function `term()`. -/
def term : Nat → Parse expr
  | 0 => stop Stop.out_of_fuel
  | fuel + 1 => do
    let left ← factor fuel
    binary_loop [token_type.T_PLUS, token_type.T_MINUS] (factor fuel) fuel left
/-- The function `range()`. -/
def range : Nat → Parse expr
  | 0 => stop Stop.out_of_fuel
  | fuel + 1 => do
    let left ← term fuel
    binary_loop [token_type.T_RANGE_OP] (term fuel) fuel left
/-- The function `comparison()`. -/
def comparison : Nat → Parse expr
  | 0 => stop Stop.out_of_fuel
  | fuel + 1 => do
    let left ← range fuel
    binary_loop [token_type.T_NOT_EQUAL, token_type.T_EQUAL_EQUAL, token_type.T_LESS,
      token_type.T_GREATER, token_type.T_LESS_EQUAL, token_type.T_GREATER_EQUAL,
      token_type.T_TILDE] (range fuel) fuel left
/-- The function `and()`. -/
def and : Nat → Parse expr
  | 0 => stop Stop.out_of_fuel
  | fuel + 1 => do
    let left ← comparison fuel
    binary_loop [token_type.T_AND] (comparison fuel) fuel left
/-- The function `or()`. -/
def or : Nat → Parse expr
  | 0 => stop Stop.out_of_fuel
  | fuel + 1 => do
    let left ← and fuel
    binary_loop [token_type.T_OR] (and fuel) fuel left
/-- The function `assignment()`. -/
def assignment : Nat → Parse expr
  | 0 => stop Stop.out_of_fuel
  | fuel + 1 => do
    let left ← lvalue fuel
    let m ← fnmatch [token_type.T_EQUAL, token_type.T_ASSIGN_PLUS, token_type.T_ASSIGN_MINUS,
      token_type.T_ASSIGN_STAR, token_type.T_ASSIGN_SLASH, token_type.T_ASSIGN_INTSLASH]
    if m then do
      let op ← previous
      let right ← or fuel
      pure (make_assign_expr left right op)
    else do
      let m1 ← fnmatch [token_type.T_DEFFN]
      if m1 then do
        consume token_type.T_LEFT_PAREN
        let parameters ← expression_list fuel token_type.T_RIGHT_PAREN
        consume token_type.T_RIGHT_PAREN
        let fnbody ← parse_statement fuel
        let rvalue ← make_func_expr parameters fnbody
        pure (make_assign_expr left rvalue (make_token token_type.T_EQUAL (make_data_str "=")))
      else pure left
/-- The function `expression()`. -/
def expression : Nat → Parse expr
  | 0 => stop Stop.out_of_fuel
  | fuel + 1 => do
    let res ← assignment fuel
    let thrown ← get_error_thrown
    if thrown then pure expr.null else pure res
/-- The `switch (first.t_type)` of `parse_statement()`. -/
def parse_statement_switch : Nat → token → Parse statement
  | 0, _ => stop Stop.out_of_fuel
  | fuel + 1, first =>
    match first.t_type with
    | token_type.T_LEFT_BRACE => do
      let sl ← parse_statement_list fuel
      consume token_type.T_RIGHT_BRACE
      pure (statement.S_BLOCK sl)
    | token_type.T_LET => do
      consume token_type.T_IDENTIFIER
      let lvalue ← previous
      let m ← fnmatch [token_type.T_EQUAL]
      if m then do
        let rvalue ← expression fuel
        pure (statement.S_LET lvalue rvalue)
      else do
        let m1 ← fnmatch [token_type.T_DEFFN]
        if m1 then do
          consume token_type.T_LEFT_PAREN
          let parameters ← expression_list fuel token_type.T_RIGHT_PAREN
          consume token_type.T_RIGHT_PAREN
          let fnbody ← parse_statement fuel
          let rvalue ← make_func_expr parameters fnbody
          pure (statement.S_LET lvalue rvalue)
        else do
          let t ← none_token
          pure (statement.S_LET lvalue (make_lit_expr t))
    | token_type.T_IF => do
      let condition ← expression fuel
      let run_if_true ← parse_statement fuel
      let m ← fnmatch [token_type.T_ELSE]
      let m1 ← if m then pure true else fnmatch [token_type.T_COLON]
      if m1 then do
        let run_if_false ← parse_statement fuel
        pure (statement.S_IF condition run_if_true run_if_false)
      else pure (statement.S_IF condition run_if_true statement.null)
    | token_type.T_LOOP => do
      let index_var ← expression fuel
      let m ← fnmatch [token_type.T_COLON]
      let m1 ← if m then pure true else fnmatch [token_type.T_IN]
      if m1 then do
        let condition ← expression fuel
        match index_var with
        | expr.null => stop Stop.null_dereference
        | expr.E_LITERAL t =>
          if t.t_type = token_type.T_IDENTIFIER then do
            let run_if_true ← parse_statement fuel
            pure (statement.S_LOOP condition t run_if_true)
          else do
            let _ ← previous
            report AST_EXPECTED_IDENTIFIER_LOOP
            let run_if_true ← parse_statement fuel
            pure (statement.S_LOOP condition t run_if_true)
        | other => do
          let _ ← previous
          report AST_EXPECTED_IDENTIFIER_LOOP
          let run_if_true ← parse_statement fuel
          pure (statement.S_LOOP condition (lit_expr_of other) run_if_true)
      else do
        let a_index ← empty_token
        let run_if_true ← parse_statement fuel
        pure (statement.S_LOOP index_var a_index run_if_true)
    | token_type.T_STRUCT => do
      let m ← fnmatch [token_type.T_IDENTIFIER]
      if m then pure () else report AST_STRUCT_NAME_IDENTIFIER
      let name ← previous
      let parent0 ← empty_token
      let m1 ← fnmatch [token_type.T_COLON]
      let parent ←
        if m1 then do
          let m2 ← fnmatch [token_type.T_IDENTIFIER]
          if m2 then pure () else report AST_STRUCT_PARENT_IDENTIFIER
          previous
        else pure parent0
      consume token_type.T_DEFFN
      let (static_members, instance_members, saved_before_iden) ←
        struct_members fuel [] [] 0
      let init_fn := default_init_statements instance_members
      let parameters ←
        match instance_members with
        | [] => pure []
        | _ :: _ => do
          let saved_before_pop ← get_curr_index
          set_curr_index saved_before_iden
          let parameters ← identifier_list fuel
          set_curr_index saved_before_pop
          pure parameters
      let function_const ← make_func_expr parameters (statement.S_BLOCK init_fn)
      pure (statement.S_STRUCT name function_const parent instance_members static_members)
    | token_type.T_INC | token_type.T_DEC | token_type.T_INPUT | token_type.T_EXPLODE
    | token_type.T_AT => do
      let operand ← expression fuel
      pure (statement.S_OPERATION first operand)
    | token_type.T_REQ => do
      let m ← fnmatch [token_type.T_IDENTIFIER, token_type.T_STRING]
      if m then do
        let t ← previous
        pure (statement.S_IMPORT (some t))
      else do
        report AST_UNRECOGNIZED_IMPORT
        pure (statement.S_IMPORT none)
    | token_type.T_RET => do
      let p ← peek
      if p.t_type ≠ token_type.T_SEMICOLON then do
        let p1 ← peek
        if p1.t_type ≠ token_type.T_RIGHT_BRACE then do
          let operand ← expression fuel
          pure (statement.S_OPERATION first operand)
        else do
          let t ← noneret_token
          pure (statement.S_OPERATION first (make_lit_expr t))
      else do
        let t ← noneret_token
        pure (statement.S_OPERATION first (make_lit_expr t))
    | _ => do
      let i ← get_curr_index
      set_curr_index (i - 1)
      let e ← expression fuel
      pure (statement.S_EXPR e)
/-- The function `parse_statement()`. -/
def parse_statement : Nat → Parse statement
  | 0 => stop Stop.out_of_fuel
  | fuel + 1 => do
    let first ← advance
    let sm ← parse_statement_switch fuel first
    let _ ← fnmatch [token_type.T_SEMICOLON]
    let thrown ← get_error_thrown
    if thrown then pure statement.null else pure sm
/-- The loop `while (true)` of `parse_statement_list`, one unit of fuel an
iteration. -/
def parse_statement_list_loop : Nat → List statement → Parse (List statement)
  | 0, _ => stop Stop.out_of_fuel
  | fuel + 1, ast => do
    let sm ← parse_statement fuel
    let at_end ← is_at_end
    if at_end then pure (ast ++ [sm])
    else do
      let p ← peek
      if p.t_type ≠ token_type.T_RIGHT_BRACE then
        parse_statement_list_loop fuel (ast ++ [sm])
      else pure (ast ++ [sm])
/-- The function `parse_statement_list()`. -/
def parse_statement_list : Nat → Parse (List statement)
  | 0 => stop Stop.out_of_fuel
  | fuel + 1 => do
    let ast ← parse_statement_list_loop fuel []
    let thrown ← get_error_thrown
    if thrown then pure [] else pure ast
end

/-- The function `generate_ast(_tokens, _length)`, `_length` being the number
of cells of `_tokens`; `st` is the state of the process before the call. -/
def generate_ast (fuel : Nat) (_tokens : List token) (st : ParseState) :
    Except Stop (List statement × ParseState) :=
  parse_statement_list fuel
    { st with error_thrown := false, tokens := _tokens, curr_index := 0 }

/-- The function `ast_error_flag()`. -/
def ast_error_flag (st : ParseState) : Bool := st.error_thrown

/-- The state of a process that has not parsed yet, on the initial machine. -/
def init_state (strict : Bool) : ParseState :=
  { tokens := [], curr_index := 0, error_thrown := false, line := 0, col := 0,
    host := init_host strict }

/-- The state with `curr_index` set to `i`. -/
def at_index (st : ParseState) (i : Int) : ParseState := { st with curr_index := i }

/-- The token types that `primary()` turns into a literal. -/
def literal_types : List token_type :=
  [token_type.T_STRING, token_type.T_NUMBER, token_type.T_TRUE, token_type.T_FALSE,
   token_type.T_NONE, token_type.T_IDENTIFIER, token_type.T_OBJ_TYPE]

/-- The infix operators of the six binary levels. -/
def infix_operators : List token_type :=
  [token_type.T_OR, token_type.T_AND, token_type.T_NOT_EQUAL, token_type.T_EQUAL_EQUAL,
   token_type.T_LESS, token_type.T_GREATER, token_type.T_LESS_EQUAL,
   token_type.T_GREATER_EQUAL, token_type.T_TILDE, token_type.T_RANGE_OP,
   token_type.T_PLUS, token_type.T_MINUS, token_type.T_STAR, token_type.T_SLASH,
   token_type.T_INTSLASH, token_type.T_PERCENT]

/-- The operators that the loop of the binary level at depth `d` above
`unary` matches: 1 is `factor`, 2 `term`, 3 `range`, 4 `comparison`, 5 `and`,
6 `or`. -/
def level_types : Nat → List token_type
  | 1 => [token_type.T_STAR, token_type.T_SLASH, token_type.T_INTSLASH, token_type.T_PERCENT]
  | 2 => [token_type.T_PLUS, token_type.T_MINUS]
  | 3 => [token_type.T_RANGE_OP]
  | 4 => [token_type.T_NOT_EQUAL, token_type.T_EQUAL_EQUAL, token_type.T_LESS,
      token_type.T_GREATER, token_type.T_LESS_EQUAL, token_type.T_GREATER_EQUAL,
      token_type.T_TILDE]
  | 5 => [token_type.T_AND]
  | 6 => [token_type.T_OR]
  | _ => []

/-- The parser function at depth `d` above `unary`. -/
def level : Nat → Nat → Parse expr
  | 0 => unary
  | 1 => factor
  | 2 => term
  | 3 => range
  | 4 => comparison
  | 5 => and
  | _ => or

/-- The depth of the binary level whose loop matches the operator. -/
def rank (t : token_type) : Nat :=
  if t ∈ level_types 1 then 1
  else if t ∈ level_types 2 then 2
  else if t ∈ level_types 3 then 3
  else if t ∈ level_types 4 then 4
  else if t ∈ level_types 5 then 5
  else 6

/-- The tokens of the source text `req ;`. -/
def import_tokens : List token :=
  [{ t_type := token_type.T_REQ, t_line := 1, t_col := 1, t_data := make_data_str "req" },
   { t_type := token_type.T_SEMICOLON, t_line := 1, t_col := 5, t_data := make_data_str ";" }]

/-- The tokens of the source text `struct A => (1)`. -/
def struct_tokens : List token :=
  [{ t_type := token_type.T_STRUCT, t_line := 1, t_col := 1, t_data := make_data_str "struct" },
   { t_type := token_type.T_IDENTIFIER, t_line := 1, t_col := 8, t_data := make_data_str "A" },
   { t_type := token_type.T_DEFFN, t_line := 1, t_col := 10, t_data := make_data_str "=>" },
   { t_type := token_type.T_LEFT_PAREN, t_line := 1, t_col := 13, t_data := make_data_str "(" },
   { t_type := token_type.T_NUMBER, t_line := 1, t_col := 14, t_data := token_data.number 1 },
   { t_type := token_type.T_RIGHT_PAREN, t_line := 1, t_col := 15,
     t_data := make_data_str ")" }]

/-- The tokens of the source text `1 + 2 * 3`. -/
def sum_product_tokens : List token :=
  [{ t_type := token_type.T_NUMBER, t_line := 1, t_col := 1, t_data := token_data.number 1 },
   { t_type := token_type.T_PLUS, t_line := 1, t_col := 3, t_data := make_data_str "+" },
   { t_type := token_type.T_NUMBER, t_line := 1, t_col := 5, t_data := token_data.number 2 },
   { t_type := token_type.T_STAR, t_line := 1, t_col := 7, t_data := make_data_str "*" },
   { t_type := token_type.T_NUMBER, t_line := 1, t_col := 9, t_data := token_data.number 3 }]

end ast

/-! ## Sequences of operations of the error module -/

/-- The operations of `error.c` that read or write the process state. -/
inductive ErrorOp
  | reset_error_flag
  | error_general (message : String)
  | error_lexer (message : String)
  | error_compile (message : String)
  | error_runtime (message : String)

/-- One operation of the error module. -/
def apply_error_op (op : ErrorOp) (h : Host) : Host :=
  match op with
  | ErrorOp.reset_error_flag => reset_error_flag h
  | ErrorOp.error_general message => error_general message h
  | ErrorOp.error_lexer message => error_lexer message h
  | ErrorOp.error_compile message => error_compile message h
  | ErrorOp.error_runtime message => error_runtime message h

/-- A sequence of operations of the error module, first to last. -/
def run_error_ops : List ErrorOp → Host → Host
  | [], h => h
  | op :: ops, h => run_error_ops ops (apply_error_op op h)

namespace ast

/-- The token of the source text `ret`. -/
def ret_tokens : List token :=
  [{ t_type := token_type.T_RET, t_line := 1, t_col := 1, t_data := make_data_str "ret" }]

end ast

/-! ## Scanner (`scanner.c`) -/

namespace scanner

/-- The token types that `scanner.c` names (the enumeration itself is in
`token.h`, not part of the sources; `scanner.c` uses its names without the
`T_` that `ast.c` writes before them). -/
inductive token_type
  | LEFT_PAREN | RIGHT_PAREN | LEFT_BRACK | RIGHT_BRACK | LEFT_BRACE | RIGHT_BRACE
  | AMPERSAND | TILDE | COMMA | RANGE_OP | DOT | MINUS | PLUS | INTSLASH | PERCENT
  | AT | SEMICOLON | COLON | LAMBDA | DEBUG | HASH | B_COMMENT_START | B_COMMENT_END
  | STAR | SLASH | NOT_EQUAL | NOT | EQUAL_EQUAL | DEFFN | EQUAL
  | LESS_EQUAL | LESS | GREATER_EQUAL | GREATER
  | NUMBER | STRING | OBJ_TYPE | IDENTIFIER
  | AND | ELSE | ELSEIF | FALSE | IF | OR | TRUE | PRINTSTACK | LET | SET | LOOP
  | NONE | RET | EXPLODE | REQ | ASSERT | TIME | INC | DEC | INPUT | STRUCT
  deriving DecidableEq, Repr

/-- The union `data` of a token as the scanner fills it: a string, or the
number `strtod(num_s, NULL)`, a C `double`, carried as the numeral `num_s` it
is converted from. -/
inductive data
  | number (num_s : List Char)
  | string (s : List Char)
  deriving DecidableEq, Repr

/-- The struct `token` as `scanner.c` initialises it: type, line and data. -/
structure token where
  t_type : token_type
  t_line : Nat
  t_data : data
  deriving DecidableEq, Repr

/-- The function `make_data_str(s)`. -/
def make_data_str (s : List Char) : data := data.string s

/-- The value `make_data_num(strtod(num_s, NULL))` of `handle_number`. -/
def make_data_num (num_s : List Char) : data := data.number num_s

/-- The file-scope state of `scanner.c`: `source` (its `source_len`
characters; the cell after them holds the terminating zero), `current`,
`start`, the array `tokens` with `tokens_alloc_size` and `t_curr`, `line` and
`ignore_next`.  With it: the calls of `error(line, message)` made so far, the
static `line` of `token.c` that `none_token()` reads, and what `handle_req`
sees of the outside: the path that `get_path()` returns and the text of the
file that `fopen` finds under a path, if any. -/
structure ScanState where
  source : List Char
  current : Nat
  start : Nat
  tokens : Nat → token
  tokens_alloc_size : Nat
  t_curr : Nat
  line : Nat
  ignore_next : Bool
  errors : List (Nat × String)
  token_line : Nat
  get_path : List Char
  files : List Char → Option (List Char)

/-- The character `source[i]`; the cell at `source_len` holds the terminating
zero (the model yields zero further on as well). -/
def source_at (s : ScanState) (i : Nat) : Char := s.source.getD i (Char.ofNat 0)

/-- The tokens `tokens[0 .. t_curr)` emitted so far. -/
def emitted (s : ScanState) : List token := (List.range s.t_curr).map s.tokens

/-- A call `error(line, message)`; `error` is declared in `error.h` (not part
of the sources) and is modelled as a report that returns. -/
def error (message : String) (s : ScanState) : ScanState :=
  { s with errors := s.errors ++ [(s.line, message)] }

/-- The function `is_at_end()`. -/
def is_at_end (s : ScanState) : Bool := decide (s.source.length ≤ s.current)

/-- The function `match(expected)`. -/
def match_char (expected : Char) (s : ScanState) : Bool × ScanState :=
  if is_at_end s then (false, s)
  else if source_at s s.current ≠ expected then (false, s)
  else (true, { s with current := s.current + 1 })

/-- The function `peek()`. -/
def peek (s : ScanState) : Char :=
  if is_at_end s then Char.ofNat 0 else source_at s s.current

/-- The function `advance()`. -/
def advance (s : ScanState) : Char × ScanState :=
  (source_at s s.current, { s with current := s.current + 1 })

/-- The function `peek_next()`. -/
def peek_next (s : ScanState) : Char :=
  if s.source.length ≤ s.current + 1 then Char.ofNat 0 else source_at s (s.current + 1)

/-- The function `is_alpha(c)`. -/
def is_alpha (c : Char) : Bool :=
  ('a' ≤ c && c ≤ 'z') || ('A' ≤ c && c ≤ 'Z') || c = '_'

/-- The function `is_digit(c)`. -/
def is_digit (c : Char) : Bool := '0' ≤ c && c ≤ '9'

/-- The function `is_alpha_numeric(c)`. -/
def is_alpha_numeric (c : Char) : Bool := is_alpha c || is_digit c

/-- The function `none_token()` of `token.c`, in the three fields that the
scanner's tokens have. -/
def none_token (s : ScanState) : token :=
  { t_type := token_type.NONE, t_line := s.token_line, t_data := make_data_str "<none>".data }

/-- The function `true_token()` of `token.c`. -/
def true_token (s : ScanState) : token :=
  { t_type := token_type.TRUE, t_line := s.token_line, t_data := make_data_str "<true>".data }

/-- The function `false_token()` of `token.c`. -/
def false_token (s : ScanState) : token :=
  { t_type := token_type.FALSE, t_line := s.token_line,
    t_data := make_data_str "<false>".data }

/-- The last statement of `add_token_V`: the array grows by 200 cells once
it is full (a failing `realloc`, which ends the process, is not modelled). -/
def grow_tokens (s : ScanState) : ScanState :=
  if s.t_curr = s.tokens_alloc_size then
    { s with tokens_alloc_size := s.tokens_alloc_size + 200 }
  else s

/-- The assignment `tokens[t_curr++] = t`. -/
def append_token (t : token) (s : ScanState) : ScanState :=
  { s with tokens := store s.tokens s.t_curr t, t_curr := s.t_curr + 1 }

/-- The token `{ ELSEIF, line, make_data_str("else if") }` of `add_token_V`. -/
def elseif_token (s : ScanState) : token :=
  { t_type := token_type.ELSEIF, t_line := s.line, t_data := make_data_str "else if".data }

/-- The function `add_token_V(type, val)`. -/
def add_token_V (type : token_type) (val : data) (s : ScanState) : ScanState :=
  grow_tokens
    (if s.t_curr ≠ 0 ∧ (s.tokens (s.t_curr - 1)).t_type = token_type.ELSE ∧
        type = token_type.IF then
      { s with tokens := store s.tokens (s.t_curr - 1) (elseif_token s) }
    else if type = token_type.NONE then append_token (none_token s) s
    else if type = token_type.TRUE then append_token (true_token s) s
    else if type = token_type.FALSE then append_token (false_token s) s
    else append_token { t_type := type, t_line := s.line, t_data := val } s)

/-- The text `source[start .. current)` that `add_token`, `identifier` and
`handle_number` copy out. -/
def lexeme (s : ScanState) : List Char := (s.source.drop s.start).take (s.current - s.start)

/-- The function `add_token(type)`. -/
def add_token (type : token_type) (s : ScanState) : ScanState :=
  add_token_V type (make_data_str (lexeme s)) s

/-- A loop `while (p(peek())) advance();`, as in `handle_number` and
`identifier`; `n` bounds the iterations, and `source_len - current` of them
always suffice, each one moving `current` up while `peek()` is zero at the
end. -/
def advance_while (p : Char → Bool) : Nat → ScanState → ScanState
  | 0, s => s
  | n + 1, s => if p (peek s) then advance_while p n (advance s).2 else s

/-- The loop `while (peek() != stop && !is_at_end()) { if (peek() == '\n')
line++; advance(); }` of `handle_obj_type` (with `>`) and of `handle_string`
(with the double quote); `n` bounds the iterations as in `advance_while`. -/
def advance_to (stop : Char) : Nat → ScanState → ScanState
  | 0, s => s
  | n + 1, s =>
    if peek s ≠ stop ∧ is_at_end s = false then
      advance_to stop n
        (advance (if peek s = Char.ofNat 10 then { s with line := s.line + 1 } else s)).2
    else s

/-- The loop `while (peek() != '\n' && !is_at_end()) advance();` of a line
comment. -/
def skip_comment : Nat → ScanState → ScanState
  | 0, s => s
  | n + 1, s =>
    if peek s ≠ Char.ofNat 10 ∧ is_at_end s = false then skip_comment n (advance s).2
    else s

/-- The end of `handle_obj_type` and of `handle_string`, after their loop:
at the end of the source the error `message` and no token; otherwise the
closing character is consumed and the text between the delimiters,
`source[start + 1 .. current - 1)`, becomes a token of type `type`. -/
def close_delimited (type : token_type) (message : String) (s : ScanState) : ScanState :=
  if is_at_end s then error message s
  else
    add_token_V type
      (make_data_str ((s.source.drop (s.start + 1)).take ((advance s).2.current - 2 - s.start)))
      (advance s).2

/-- The function `handle_obj_type()`. -/
def handle_obj_type (s : ScanState) : ScanState :=
  close_delimited token_type.OBJ_TYPE "SYNTAX_ERROR"
    (advance_to '>' (s.source.length - s.current) s)

/-- The function `handle_string()`. -/
def handle_string (s : ScanState) : ScanState :=
  close_delimited token_type.STRING "UNTERMINATED_STRING"
    (advance_to (Char.ofNat 34) (s.source.length - s.current) s)

/-- The fractional part of `handle_number`: a `.` followed by a digit is
consumed with the digits after it. -/
def fraction (s : ScanState) : ScanState :=
  if peek s = '.' ∧ is_digit (peek_next s) = true then
    advance_while is_digit (s.source.length - (advance s).2.current) (advance s).2
  else s

/-- The function `handle_number()`. -/
def handle_number (s : ScanState) : ScanState :=
  add_token_V token_type.NUMBER
    (make_data_num (lexeme (fraction (advance_while is_digit (s.source.length - s.current) s))))
    (fraction (advance_while is_digit (s.source.length - s.current) s))

/-- The fractional part that starts the text `l`: a `.` that a digit follows,
with the digits after it; nothing otherwise. -/
def fraction_text : List Char → List Char
  | c :: d :: rest =>
    if c = '.' ∧ is_digit d = true then c :: d :: rest.takeWhile is_digit else []
  | _ => []

/-- The numeral that starts the text `l`: the digits that `l` begins with
and the fractional part that follows them. -/
def number_text (l : List Char) : List Char :=
  l.takeWhile is_digit ++ fraction_text (l.dropWhile is_digit)

/-- The keywords that `identifier()` turns into a token of their own with
`add_token`, in the order of its `strcmp` chain (`req` is handled apart). -/
def keywords : List (String × token_type) :=
  [("and", token_type.AND), ("else", token_type.ELSE), ("false", token_type.FALSE),
   ("if", token_type.IF), ("or", token_type.OR), ("true", token_type.TRUE),
   ("printstack", token_type.PRINTSTACK), ("let", token_type.LET), ("set", token_type.SET),
   ("loop", token_type.LOOP), ("none", token_type.NONE), ("ret", token_type.RET),
   ("explode", token_type.EXPLODE), ("assert", token_type.ASSERT),
   ("time", token_type.TIME), ("inc", token_type.INC), ("dec", token_type.DEC),
   ("input", token_type.INPUT), ("struct", token_type.STRUCT)]

/-- The type that the `strcmp` chain of `identifier()` gives to `text`. -/
def keyword_type (text : List Char) : List (String × token_type) → token_type
  | [] => token_type.IDENTIFIER
  | (word, type) :: rest => if text = word.data then type else keyword_type text rest

/-- The text `t_data.string` of a token. -/
def token_string (t : token) : List Char :=
  match t.t_data with
  | data.string s => s
  | data.number _ => []

/-- The end of `handle_req()`, after its loop: the check of the string token
at `str_loc`, the semicolon, and the text of the library file put into the
source at `current` (a failing `malloc` or `realloc` is not modelled). -/
def include_file (str_loc : Nat) (s : ScanState) : ScanState :=
  if is_at_end s ∨ (s.tokens str_loc).t_type ≠ token_type.STRING then error "SYNTAX_ERROR" s
  else
    let s1 := add_token_V token_type.SEMICOLON (make_data_str ";".data) (advance s).2
    match s1.files (s1.get_path ++ "wendy-lib/".data ++ token_string (s1.tokens str_loc)) with
    | some buffer =>
      { s1 with source := s1.source.take s1.current ++ buffer ++ s1.source.drop s1.current }
    | none => error "REQ_FILE_READ_ERR" s1

mutual
/-- The loop `while (peek() != ';' && !is_at_end()) { start = current;
scan_token(); }` of `handle_req()`, one unit of fuel an iteration. -/
def handle_req_loop : Nat → ScanState → Option ScanState
  | 0, _ => none
  | fuel + 1, s =>
    if peek s ≠ ';' ∧ is_at_end s = false then
      match scan_token fuel { s with start := s.current } with
      | some s1 => handle_req_loop fuel s1
      | none => none
    else some s
/-- The function `handle_req()`. -/
def handle_req : Nat → ScanState → Option ScanState
  | 0, _ => none
  | fuel + 1, s =>
    match handle_req_loop fuel (add_token_V token_type.REQ (make_data_str "req".data) s) with
    | some s1 =>
      some (include_file (add_token_V token_type.REQ (make_data_str "req".data) s).t_curr s1)
    | none => none
/-- The function `identifier()`. -/
def identifier : Nat → ScanState → Option ScanState
  | 0, _ => none
  | fuel + 1, s =>
    let s1 := advance_while is_alpha_numeric (s.source.length - s.current) s
    if lexeme s1 = "req".data then handle_req fuel s1
    else some (add_token (keyword_type (lexeme s1) keywords) s1)
/-- The function `scan_token()`. -/
def scan_token : Nat → ScanState → Option ScanState
  | 0, _ => none
  | fuel + 1, s0 =>
    let c := (advance s0).1
    let s := (advance s0).2
    if c = '(' then some (add_token token_type.LEFT_PAREN s)
    else if c = ')' then some (add_token token_type.RIGHT_PAREN s)
    else if c = '[' then some (add_token token_type.LEFT_BRACK s)
    else if c = ']' then some (add_token token_type.RIGHT_BRACK s)
    else if c = '{' then some (add_token token_type.LEFT_BRACE s)
    else if c = '}' then some (add_token token_type.RIGHT_BRACE s)
    else if c = '&' then some (add_token token_type.AMPERSAND s)
    else if c = '~' then some (add_token token_type.TILDE s)
    else if c = ',' then some (add_token token_type.COMMA s)
    else if c = '.' then
      if (match_char '.' s).1 then some (add_token token_type.RANGE_OP (match_char '.' s).2)
      else some (add_token token_type.DOT (match_char '.' s).2)
    else if c = '-' then
      if is_digit (peek s) then some (handle_number (advance s).2)
      else some (add_token token_type.MINUS s)
    else if c = '+' then some (add_token token_type.PLUS s)
    else if c = Char.ofNat 92 then some (add_token token_type.INTSLASH s)
    else if c = '%' then some (add_token token_type.PERCENT s)
    else if c = '@' then some (add_token token_type.AT s)
    else if c = ';' then some (add_token token_type.SEMICOLON s)
    else if c = ':' then some (add_token token_type.COLON s)
    else if c = '#' then
      if (match_char ':' s).1 then some (add_token token_type.LAMBDA (match_char ':' s).2)
      else if (match_char '#' s).1 then
        some { add_token token_type.DEBUG (match_char '#' s).2 with ignore_next := true }
      else some (add_token token_type.HASH s)
    else if c = '*' then
      some (add_token (if (match_char '/' s).1 then token_type.B_COMMENT_END
        else token_type.STAR) (match_char '/' s).2)
    else if c = '!' then
      some (add_token (if (match_char '=' s).1 then token_type.NOT_EQUAL
        else token_type.NOT) (match_char '=' s).2)
    else if c = '=' then
      if (match_char '=' s).1 then some (add_token token_type.EQUAL_EQUAL (match_char '=' s).2)
      else if (match_char '>' s).1 then some (add_token token_type.DEFFN (match_char '>' s).2)
      else some (add_token token_type.EQUAL s)
    else if c = '<' then
      if (match_char '=' s).1 then some (add_token token_type.LESS_EQUAL (match_char '=' s).2)
      else if is_alpha (peek s) then some (handle_obj_type s)
      else some (add_token token_type.LESS s)
    else if c = '>' then
      some (add_token (if (match_char '=' s).1 then token_type.GREATER_EQUAL
        else token_type.GREATER) (match_char '=' s).2)
    else if c = '/' then
      if (match_char '/' s).1 then
        some (skip_comment (s.source.length - (match_char '/' s).2.current) (match_char '/' s).2)
      else if (match_char '*' s).1 then
        some (add_token token_type.B_COMMENT_START (match_char '*' s).2)
      else some (add_token token_type.SLASH s)
    else if c = ' ' ∨ c = Char.ofNat 13 ∨ c = Char.ofNat 9 then some s
    else if c = Char.ofNat 10 then
      if s.ignore_next = false then some { s with line := s.line + 1 }
      else some { s with ignore_next := false }
    else if c = Char.ofNat 34 then some (handle_string s)
    else if is_digit c then some (handle_number s)
    else if is_alpha c then identifier fuel s
    else some (error "UNEXPECTED_CHARACTER" s)
end

/-- The loop `while (!is_at_end()) { start = current; scan_token(); }` of
`scan_tokens`, one unit of fuel an iteration. -/
def scan_tokens_loop : Nat → ScanState → Option ScanState
  | 0, _ => none
  | fuel + 1, s =>
    if is_at_end s then some s
    else
      match scan_token fuel { s with start := s.current } with
      | some s1 => scan_tokens_loop fuel s1
      | none => none

/-- The function `scan_tokens(source_, destination, alloc_size)`: `s` is the
state of the process before the call, of which `ignore_next`, the errors, the
static of `token.c`, the array contents and the outside are kept. -/
def scan_tokens (fuel : Nat) (source_ : List Char) (s : ScanState) : Option ScanState :=
  scan_tokens_loop fuel
    { s with source := source_, tokens_alloc_size := source_.length, t_curr := 0,
             current := 0, line := 1 }

/-- A process that has not scanned yet: no error reported, an array of
`NONE` tokens, no library file. -/
def init_scan : ScanState :=
  { source := [], current := 0, start := 0,
    tokens := fun _ => { t_type := token_type.NONE, t_line := 0, t_data := make_data_str [] },
    tokens_alloc_size := 0, t_curr := 0, line := 1, ignore_next := false, errors := [],
    token_line := 0, get_path := [], files := fun _ => none }

/-- The state `s1` differs from `s` at most in `current`, which has not gone
down. -/
def only_advanced (s s1 : ScanState) : Prop :=
  s1 = { s with current := s1.current } ∧ s.current ≤ s1.current

/-- The state `s` with `current` moved up by `k` and `line` by `lines`. -/
def moved (s : ScanState) (k lines : Nat) : ScanState :=
  { s with current := s.current + k, line := s.line + lines }

/-- The source text `3-1`. -/
def three_minus_one : List Char := "3-1".data

/-- The source text `else if`. -/
def else_if : List Char := "else if".data

/-- The source text `<Number> x`. -/
def obj_type_source : List Char := "<Number> x".data

/-- The source text `a <b`. -/
def open_obj_type_source : List Char := "a <b".data

/-- The source text `3-12.5`. -/
def three_minus_fraction : List Char := "3-12.5".data

/-- The source text `"-1"`, a string literal. -/
def quoted_minus_one : List Char := [Char.ofNat 34, '-', '1', Char.ofNat 34]

/-- The source text of a line comment: two slashes and `-1`. -/
def comment_minus_one : List Char := ['/', '/', '-', '1']

/-- The source text `<a-1>`, an object type. -/
def obj_type_minus_one : List Char := "<a-1>".data

/-- The source text `<a<b>`. -/
def nested_less_source : List Char := "<a<b>".data

/-- The source text `"<a>"`, a string literal. -/
def quoted_obj_type : List Char := [Char.ofNat 34, '<', 'a', '>', Char.ofNat 34]

end scanner

namespace ast

/-- The token types after a complete operand at which some loop of the
expression parser goes on: an access, an infix operator, an assignment or
`=>`. -/
def continuation_types : List token_type :=
  [token_type.T_LEFT_BRACK, token_type.T_DOT, token_type.T_LEFT_PAREN] ++ infix_operators ++
  [token_type.T_EQUAL, token_type.T_ASSIGN_PLUS, token_type.T_ASSIGN_MINUS,
   token_type.T_ASSIGN_STAR, token_type.T_ASSIGN_SLASH, token_type.T_ASSIGN_INTSLASH,
   token_type.T_DEFFN]

/-- The tokens `ms`, each after the first preceded by the token `comma`. -/
def separated (comma : token) : List token → List token
  | [] => []
  | m :: rest => m :: rest.flatMap (fun r => [comma, r])

/-- The tokens of a struct statement `struct name => (m1, ..., mn);`, its
keyword, arrow, parentheses, commas and semicolon being the tokens that
`punct` gives for their types. -/
def struct_statement (punct : token_type → token) (name : token) (ms : List token) :
    List token :=
  [punct token_type.T_STRUCT, name, punct token_type.T_DEFFN, punct token_type.T_LEFT_PAREN] ++
    separated (punct token_type.T_COMMA) ms ++
    [punct token_type.T_RIGHT_PAREN, punct token_type.T_SEMICOLON]

/-- The statement `this.m = m` of the default initiation function. -/
def member_assignment (m : token) : statement :=
  statement.S_EXPR
    (expr.E_ASSIGN
      (expr.E_BINARY
        (expr.E_LITERAL (make_token token_type.T_IDENTIFIER (make_data_str "this")))
        (make_token token_type.T_DOT (make_data_str "."))
        (expr.E_LITERAL m))
      (expr.E_LITERAL m)
      (make_token token_type.T_EQUAL (make_data_str "=")))

/-- The statement `ret this` of the default initiation function. -/
def ret_this : statement :=
  statement.S_OPERATION (make_token token_type.T_RET (make_data_str "ret"))
    (expr.E_LITERAL (make_token token_type.T_IDENTIFIER (make_data_str "this")))

/-- The punctuation tokens that `make_token` makes. -/
def plain_punct (t : token_type) : token := make_token t (make_data_str "")

/-- An identifier token with the given text. -/
def identifier_token (s : String) : token := make_token token_type.T_IDENTIFIER (make_data_str s)

/-- The tokens `(p1, ..., pn) b; c`: a parameter list, the statement `b;` as
the body, and a token `c` after it. -/
def function_rest (punct : token_type → token) (ps : List token) (b c : token) : List token :=
  punct token_type.T_LEFT_PAREN ::
    (separated (punct token_type.T_COMMA) ps ++
      [punct token_type.T_RIGHT_PAREN, b, punct token_type.T_SEMICOLON, c])

/-- The tokens of the lambda `#:(p1, ..., pn) b;` followed by the statement
`c`. -/
def lambda_tokens (punct : token_type → token) (ps : List token) (b c : token) : List token :=
  punct token_type.T_LAMBDA :: function_rest punct ps b c

/-- The tokens of the definition `f => (p1, ..., pn) b;` followed by the
statement `c`. -/
def definition_tokens (punct : token_type → token) (f : token) (ps : List token)
    (b c : token) : List token :=
  f :: punct token_type.T_DEFFN :: function_rest punct ps b c

end ast

/-! ## Theorems -/

theorem store_same {α : Type} (a : Nat → α) (i : Nat) (v : α) :
    store a i v i = v := by
  simp [store]

theorem store_other {α : Type} (a : Nat → α) (i j : Nat) (v : α) (h : j ≠ i) :
    store a i v j = a j := by
  simp [store, h]

/-- C1: on an argument stack that is not full, `push_arg v` followed
immediately by `pop_arg` succeeds, returns `v`, restores `arg_pointer`, keeps
every cell below the pointer, and touches no other part of the machine. -/
theorem push_arg_pop_arg (v : data) (vm : VM) (h : vm.arg_pointer < ARGSTACK_SIZE) :
    ∃ vm2, (push_arg v vm >>= pop_arg) = .ok (v, vm2) ∧
      vm2.arg_pointer = vm.arg_pointer ∧
      (∀ i, i < vm.arg_pointer → vm2.arg_stack i = vm.arg_stack i) ∧
      vm2.memory = vm.memory ∧ vm2.free_memory = vm.free_memory ∧
      vm2.memory_pointer = vm.memory_pointer ∧
      vm2.call_stack = vm.call_stack ∧ vm2.frame_pointer = vm.frame_pointer ∧
      vm2.stack_pointer = vm.stack_pointer ∧ vm2.closure_list = vm.closure_list ∧
      vm2.mem_reg_stack = vm.mem_reg_stack ∧
      vm2.mem_reg_pointer = vm.mem_reg_pointer := by
  refine ⟨{ vm with arg_stack := store vm.arg_stack vm.arg_pointer v }, ?_, rfl, ?_,
    rfl, rfl, rfl, rfl, rfl, rfl, rfl, rfl, rfl⟩
  · simp [push_arg, pop_arg, h, bind, Except.bind, store]
  · intro i hi
    exact store_other _ _ _ _ (Nat.ne_of_lt hi)

/-- C1, witness: a push and a pop on the empty argument stack of the initial
machine. -/
theorem push_arg_pop_arg_witness :
    ∃ vm2, (push_arg (data.Number 5) init_memory >>= pop_arg) = .ok (data.Number 5, vm2) ∧
      vm2.arg_pointer = init_memory.arg_pointer ∧
      (∀ i, i < init_memory.arg_pointer → vm2.arg_stack i = init_memory.arg_stack i) ∧
      vm2.memory = init_memory.memory ∧ vm2.free_memory = init_memory.free_memory ∧
      vm2.memory_pointer = init_memory.memory_pointer ∧
      vm2.call_stack = init_memory.call_stack ∧
      vm2.frame_pointer = init_memory.frame_pointer ∧
      vm2.stack_pointer = init_memory.stack_pointer ∧
      vm2.closure_list = init_memory.closure_list ∧
      vm2.mem_reg_stack = init_memory.mem_reg_stack ∧
      vm2.mem_reg_pointer = init_memory.mem_reg_pointer :=
  push_arg_pop_arg (data.Number 5) init_memory (by decide)

/-! ### Native calls -/

theorem pop_args_ok (n : Nat) : ∀ (h : Host) (acc : List data), n ≤ h.vm.arg_pointer →
    pop_args n h acc =
      (some ((List.range n).map (fun k => h.vm.arg_stack (h.vm.arg_pointer - n + k)) ++ acc),
       { h with vm := { h.vm with arg_pointer := h.vm.arg_pointer - n } }) := by
  induction n with
  | zero => intro h acc _; simp [pop_args]
  | succ n ih =>
    intro h acc hle
    have h0 : h.vm.arg_pointer ≠ 0 := by omega
    have h1 : n ≤ ({ h with vm := { h.vm with arg_pointer := h.vm.arg_pointer - 1 } } :
        Host).vm.arg_pointer := by
      show n ≤ h.vm.arg_pointer - 1
      omega
    simp only [pop_args, pop_arg_call, pop_arg, h0, if_false]
    rw [ih _ _ h1]
    have e1 : h.vm.arg_pointer - 1 - n = h.vm.arg_pointer - (n + 1) := by omega
    simp only [e1, List.range_succ, List.map_append, List.map_cons, List.map_nil,
      List.append_assoc, List.singleton_append]
    have e2 : h.vm.arg_pointer - (n + 1) + n = h.vm.arg_pointer - 1 := by omega
    rw [e2]

theorem find_native_argc_pos (name : String) (f : native_function)
    (hf : find_native name native_functions = some f) : 1 ≤ f.argc := by
  simp only [find_native, native_functions] at hf
  split at hf
  · cases hf; decide
  · split at hf
    · cases hf; decide
    · split at hf
      · cases hf; decide
      · cases hf

/-- The loop of `native_examineMemory` stays within the behaviour that C
defines exactly when every index it reaches lies in `[0, MEMORY_SIZE)` and the
print of the cell there is defined; otherwise it stops at the first index
where that fails. -/
theorem examine_loop_ok (memory : Nat → data) : ∀ (n : Nat) (i : Int),
    examine_loop memory n i = .ok () ↔
      ∀ k : Nat, k < n →
        0 ≤ i + (k : Int) ∧ i + (k : Int) < (MEMORY_SIZE : Int) ∧
        examine_cell (memory (i + (k : Int)).toNat) = .ok () := by
  intro n
  induction n with
  | zero =>
    intro i
    simp only [examine_loop, true_iff]
    intro k hk
    cases hk
  | succ n ih =>
    intro i
    unfold examine_loop
    by_cases hin : 0 ≤ i ∧ i < (MEMORY_SIZE : Int)
    · rw [if_pos hin]
      cases hc : examine_cell (memory i.toNat) with
      | error fault =>
        constructor
        · intro h; cases h
        · intro h
          have h0 := (h 0 (Nat.succ_pos n)).2.2
          simp only [Nat.cast_zero, Int.add_zero] at h0
          rw [hc] at h0
          cases h0
      | ok u =>
        show examine_loop memory n (i + 1) = .ok () ↔ _
        rw [ih]
        constructor
        · intro h k hk
          cases k with
          | zero =>
            simp only [Nat.cast_zero, Int.add_zero]
            exact ⟨hin.1, hin.2, hc⟩
          | succ k =>
            have := h k (by omega)
            have e : i + 1 + (k : Int) = i + ((k + 1 : Nat) : Int) := by push_cast; omega
            rw [e] at this
            exact this
        · intro h k hk
          have := h (k + 1) (by omega)
          have e : i + 1 + (k : Int) = i + ((k + 1 : Nat) : Int) := by push_cast; omega
          rw [e]
          exact this
    · rw [if_neg hin]
      constructor
      · intro h; cases h
      · intro h
        have h0 := h 0 (Nat.succ_pos n)
        simp only [Nat.cast_zero, Int.add_zero] at h0
        exact absurd ⟨h0.1, h0.2.1⟩ hin

/-- When `native_printCallStack` stays within the behaviour that C defines:
its argument is a number of the range of `int`. -/
theorem native_printCallStack_defined (memory : Nat → data) (args : List data) (r : data) :
    native_printCallStack memory args = .ok r ↔
      r = data.NoneRet ∧ ∃ n, args.getD 0 data.None = data.Number n ∧
        INT_MIN ≤ n ∧ n ≤ INT_MAX := by
  unfold native_printCallStack
  cases hs : args.getD 0 data.None with
  | Number n =>
    simp only [native_to_numeric, double_to_int]
    by_cases hr : INT_MIN ≤ n ∧ n ≤ INT_MAX
    · rw [if_pos hr]
      constructor
      · intro h; cases h; exact ⟨rfl, n, rfl, hr⟩
      · rintro ⟨rfl, _⟩; rfl
    · rw [if_neg hr]
      constructor
      · intro h; cases h
      · rintro ⟨_, m, hm, hr1⟩
        cases hm
        exact absurd hr1 hr
  | Str _ => simp [native_to_numeric]
  | Reference _ => simp [native_to_numeric]
  | ListHeader _ _ => simp [native_to_numeric]
  | None => simp [native_to_numeric]
  | NoneRet => simp [native_to_numeric]

/-- When `native_reverseString` stays within the behaviour that C defines:
its argument is the empty string, the only one that, with its terminating
zero, fits into the buffer of one byte. -/
theorem native_reverseString_defined (memory : Nat → data) (args : List data) (r : data) :
    native_reverseString memory args = .ok r ↔
      r = data.Str [] ∧ args.getD 0 data.None = data.Str [] := by
  unfold native_reverseString
  cases hs : args.getD 0 data.None with
  | Str string =>
    simp only [native_to_string]
    cases string with
    | nil =>
      constructor
      · intro h
        simp only [native_reverseString_allocated, make_data_str_size, List.length_nil,
          Nat.lt_irrefl, if_false] at h
        cases h
        exact ⟨rfl, rfl⟩
      · rintro ⟨rfl, _⟩
        rfl
    | cons b rest =>
      have hlt : native_reverseString_allocated < (b :: rest).length + 1 := by
        simp [native_reverseString_allocated, make_data_str_size]
      rw [if_pos hlt]
      constructor
      · intro h; cases h
      · rintro ⟨_, h⟩; cases h
  | Number _ => simp [native_to_string]
  | Reference _ => simp [native_to_string]
  | ListHeader _ _ => simp [native_to_string]
  | None => simp [native_to_string]
  | NoneRet => simp [native_to_string]

/-- When `native_examineMemory` stays within the behaviour that C defines:
its arguments are numbers, the first one of the range of `int`, every index
`i` with `arg1_from <= i < arg2_to` lies in `[0, MEMORY_SIZE)`, and the print
of the cell `memory[i]` is defined. -/
theorem native_examineMemory_defined (memory : Nat → data) (a b : Int) (r : data) :
    native_examineMemory memory [data.Number a, data.Number b] = .ok r ↔
      r = data.NoneRet ∧ INT_MIN ≤ a ∧ a ≤ INT_MAX ∧
        ∀ k : Nat, a + (k : Int) < b →
          0 ≤ a + (k : Int) ∧ a + (k : Int) < (MEMORY_SIZE : Int) ∧
          examine_cell (memory (a + (k : Int)).toNat) = .ok () := by
  have hloop := examine_loop_ok memory (b - a).toNat a
  have hk : ∀ k : Nat, k < (b - a).toNat ↔ a + (k : Int) < b := by
    intro k
    omega
  have key : native_examineMemory memory [data.Number a, data.Number b] =
      if INT_MIN ≤ a ∧ a ≤ INT_MAX then
        (match examine_loop memory (b - a).toNat a with
          | .error fault => .error fault
          | .ok _ => .ok data.NoneRet)
      else .error (native_fault.int_conversion a) := by
    unfold native_examineMemory
    simp only [List.getD_cons_zero, List.getD_cons_succ, native_to_numeric, double_to_int]
    by_cases hr : INT_MIN ≤ a ∧ a ≤ INT_MAX
    · simp only [if_pos hr]
    · simp only [if_neg hr]
  rw [key]
  by_cases hr : INT_MIN ≤ a ∧ a ≤ INT_MAX
  · rw [if_pos hr]
    cases hl : examine_loop memory (b - a).toNat a with
    | error fault =>
      constructor
      · intro h; cases h
      · rintro ⟨_, _, _, h⟩
        have := hloop.2 (fun k hlt => h k ((hk k).1 hlt))
        rw [hl] at this
        cases this
    | ok u =>
      have hyes := hloop.1 (by rw [hl])
      constructor
      · intro h
        cases h
        exact ⟨rfl, hr.1, hr.2, fun k hlt => hyes k ((hk k).2 hlt)⟩
      · rintro ⟨rfl, _⟩
        rfl
  · rw [if_neg hr]
    constructor
    · intro h; cases h
    · rintro ⟨_, h1, h2, _⟩
      exact absurd ⟨h1, h2⟩ hr

/-- C2 (as amended): for every name registered in the native-function table,
on an argument stack that holds at least the declared `argc` cells: if the
native function, applied to the `argc` cells on top in their order, stays
within the behaviour that C defines and yields `result`, then `native_call`
returns, the height afterwards is the height before minus `argc` plus one,
every cell below the consumed arguments is unchanged, the cell on top is
`result`, and nothing is reported; if the native function runs into the fault
`fault`, the `argc` cells are consumed, no result is produced, and what the C
code does from there on is not defined. -/
theorem native_call_balanced (function_name : String) (f : native_function)
    (expected_args : Int) (h : Host)
    (hf : find_native function_name native_functions = some f)
    (hargs : f.argc ≤ h.vm.arg_pointer) (hcap : h.vm.arg_pointer ≤ ARGSTACK_SIZE) :
    (∀ result,
      f.function h.vm.memory ((List.range f.argc).map
        (fun k => h.vm.arg_stack (h.vm.arg_pointer - f.argc + k))) = .ok result →
      ∃ h1, native_call function_name expected_args h = .ok h1 ∧
        h1.vm.arg_pointer + f.argc = h.vm.arg_pointer + 1 ∧
        (∀ i, i + f.argc < h.vm.arg_pointer → h1.vm.arg_stack i = h.vm.arg_stack i) ∧
        h1.vm.arg_stack (h.vm.arg_pointer - f.argc) = result ∧
        h1.reported = h.reported ∧ h1.exit_status = h.exit_status) ∧
    (∀ fault,
      f.function h.vm.memory ((List.range f.argc).map
        (fun k => h.vm.arg_stack (h.vm.arg_pointer - f.argc + k))) = .error fault →
      native_call function_name expected_args h =
        .error (fault,
          { h with vm := { h.vm with arg_pointer := h.vm.arg_pointer - f.argc } })) := by
  have hpos := find_native_argc_pos function_name f hf
  have hroom : h.vm.arg_pointer - f.argc < ARGSTACK_SIZE := by omega
  constructor
  · intro result hdef
    refine ⟨{ h with vm := { h.vm with
        arg_stack := store h.vm.arg_stack (h.vm.arg_pointer - f.argc) result,
        arg_pointer := h.vm.arg_pointer - f.argc + 1 } }, ?_, ?_, ?_, ?_, rfl, rfl⟩
    · simp only [native_call, hf, pop_args_ok f.argc h [] hargs, List.append_nil, hdef,
        push_arg_call, push_arg, hroom, if_true]
    · show h.vm.arg_pointer - f.argc + 1 + f.argc = h.vm.arg_pointer + 1
      omega
    · intro i hi
      exact store_other _ _ _ _ (by omega)
    · exact store_same _ _ _
  · intro fault hdef
    simp only [native_call, hf, pop_args_ok f.argc h [] hargs, List.append_nil, hdef]

/-- C2, witness: `examineMemory` called on a stack that holds the numbers 2
and 5: the three cells read lie in the address space, two cells are consumed
and the result is pushed. -/
theorem native_call_balanced_witness :
    ∃ h1, native_call "examineMemory" 2
        { init_host false with
          vm := { init_memory with
            arg_stack := store (store init_memory.arg_stack 0 (data.Number 2))
              1 (data.Number 5),
            arg_pointer := 2 } }
        = .ok h1 ∧
      h1.vm.arg_pointer + 2 = 2 + 1 ∧
      h1.vm.arg_stack 0 = data.NoneRet ∧
      h1.reported = [] ∧ h1.exit_status = none :=
  have h := (native_call_balanced "examineMemory"
    { name := "examineMemory", argc := 2, function := native_examineMemory } 2
    { init_host false with
      vm := { init_memory with
        arg_stack := store (store init_memory.arg_stack 0 (data.Number 2))
          1 (data.Number 5),
        arg_pointer := 2 } }
    rfl (by decide) (by decide)).1 data.NoneRet rfl
  ⟨h.choose, h.choose_spec.1, h.choose_spec.2.1, h.choose_spec.2.2.2.1,
    h.choose_spec.2.2.2.2.1, h.choose_spec.2.2.2.2.2⟩

/-- C2, counterexample: `examineMemory` is registered with `argc = 2`, and the
argument stack of the initial machine is empty.  Under
`SETTINGS_STRICT_ERROR` the process exits in the first `pop_arg`, with the
underflow reported, nothing consumed and nothing produced.  With the flag
clear, `pop_arg` returns twice from the empty stack, each time after a report,
and `native_call` goes on, as it has no test of its own: whatever cell
`pop_arg` hands back, either the native function is run on two such cells and
its result pushed, which leaves the height 1 where nothing was consumed, or
it runs into a fault.  In no case is the height `0 - 2 + 1`. -/
theorem native_call_underflow :
    find_native "examineMemory" native_functions =
        some { name := "examineMemory", argc := 2, function := native_examineMemory } ∧
    (init_host true).vm.arg_pointer = 0 ∧
    native_call "examineMemory" 2 (init_host true) =
      .ok (error_runtime ARG_STACK_UNDERFLOW (init_host true)) ∧
    (error_runtime ARG_STACK_UNDERFLOW (init_host true)).exit_status = some 1 ∧
    (error_runtime ARG_STACK_UNDERFLOW (init_host true)).vm.arg_pointer = 0 ∧
    (∀ u : data,
      (∃ h1, native_call "examineMemory" 2 { init_host false with underflow_cell := u } =
          .ok h1 ∧
        h1.vm.arg_pointer = 1 ∧ h1.vm.arg_stack 0 = data.NoneRet ∧
        h1.reported = [(error_kind.Runtime, ARG_STACK_UNDERFLOW),
          (error_kind.Runtime, ARG_STACK_UNDERFLOW)] ∧ h1.exit_status = none) ∨
      (∃ fault h1, native_call "examineMemory" 2
          { init_host false with underflow_cell := u } = .error (fault, h1) ∧
        h1.vm.arg_pointer = 0 ∧
        h1.reported = [(error_kind.Runtime, ARG_STACK_UNDERFLOW),
          (error_kind.Runtime, ARG_STACK_UNDERFLOW)])) := by
  refine ⟨rfl, rfl, rfl, rfl, rfl, ?_⟩
  intro u
  have hpop : pop_args 2 { init_host false with underflow_cell := u } [] =
      (some [u, u],
        error_runtime ARG_STACK_UNDERFLOW
          (error_runtime ARG_STACK_UNDERFLOW
            { init_host false with underflow_cell := u })) := rfl
  have hcall : native_call "examineMemory" 2 { init_host false with underflow_cell := u } =
      match native_examineMemory init_memory.memory [u, u] with
      | .ok result => .ok (push_arg_call result
          (error_runtime ARG_STACK_UNDERFLOW
            (error_runtime ARG_STACK_UNDERFLOW
              { init_host false with underflow_cell := u })))
      | .error fault => .error (fault,
          error_runtime ARG_STACK_UNDERFLOW
            (error_runtime ARG_STACK_UNDERFLOW
              { init_host false with underflow_cell := u })) := rfl
  rw [hcall]
  cases hn : native_examineMemory init_memory.memory [u, u] with
  | ok result =>
    left
    have hres : result = data.NoneRet := by
      cases u with
      | Number n => exact ((native_examineMemory_defined _ n n result).1 hn).1
      | Str _ => cases hn
      | Reference _ => cases hn
      | ListHeader _ _ => cases hn
      | None => cases hn
      | NoneRet => cases hn
    subst hres
    exact ⟨_, rfl, rfl, rfl, rfl, rfl⟩
  | error fault =>
    right
    exact ⟨fault, _, rfl, rfl, rfl⟩

/-! ### Frames -/

theorem nested_frames_built :
    run_frame_ops [FrameOp.push_frame "f" 7, FrameOp.push_auto_frame 0 "loop",
      FrameOp.push_auto_frame 0 "if"] init_memory = .ok nested_frames := rfl

theorem AutoChain.base_le {cs : Nat → stack_entry} {f t : Nat}
    (h : AutoChain cs f t) : f ≤ t := by
  induction h with
  | here => exact Nat.le_refl _
  | up _ hlt _ ih => omega

theorem find_function_frame_chain {cs : Nat → stack_entry} {f t : Nat}
    (h : AutoChain cs f t) (hF : (cs f).tag = frame_tag.function_frame) :
    ∀ fuel, t < fuel → find_function_frame cs fuel t = some f := by
  induction h with
  | here =>
    intro fuel hfuel
    cases fuel with
    | zero => omega
    | succ k => simp [find_function_frame, hF]
  | up htag hlt _ ih =>
    intro fuel hfuel
    cases fuel with
    | zero => omega
    | succ k =>
      simp only [find_function_frame, htag, hlt, if_true]
      exact ih k (by omega)

theorem pop_frame_true_chain (vm : VM) (f : Nat)
    (hF : (vm.call_stack f).tag = frame_tag.function_frame) (hf : 0 < f)
    (hchain : AutoChain vm.call_stack f vm.frame_pointer) :
    pop_frame true vm =
      .ok ((true, (vm.call_stack f).val),
           { vm with stack_pointer := f,
                     frame_pointer := (vm.call_stack f).enclosing }) := by
  have hle := hchain.base_le
  have hfp : vm.frame_pointer ≠ 0 := by omega
  have hfind := find_function_frame_chain hchain hF (vm.frame_pointer + 1) (by omega)
  have hf0 : f ≠ 0 := by omega
  simp [pop_frame, hfp, hfind, hf0]

theorem AutoChain.trans {cs : Nat → stack_entry} {base mid t : Nat}
    (h1 : AutoChain cs base mid) (h2 : AutoChain cs mid t) : AutoChain cs base t := by
  induction h2 with
  | here => exact h1
  | up htag hlt _ ih => exact AutoChain.up htag hlt ih

theorem run_frame_ops_append (a b : List FrameOp) : ∀ vm : VM,
    run_frame_ops (a ++ b) vm =
      match run_frame_ops a vm with
      | .ok vm1 => run_frame_ops b vm1
      | .error e => .error e := by
  induction a with
  | nil => intro vm; rfl
  | cons op a ih =>
    intro vm
    simp only [List.cons_append, run_frame_ops]
    cases apply_frame_op op vm with
    | ok vm1 => exact ih vm1
    | error e => rfl

theorem push_step (push : FrameOp) (is_ret : Bool) (vm : VM)
    (hopen : opens_frame push is_ret = true) (hcap : vm.stack_pointer < STACK_SIZE) :
    ∃ e : stack_entry, e.enclosing = vm.frame_pointer ∧
      (is_ret = true → e.tag = frame_tag.function_frame) ∧
      (e.tag = frame_tag.function_frame ∨ e.tag = frame_tag.auto_frame) ∧
      apply_frame_op push vm =
        .ok { vm with call_stack := store vm.call_stack vm.stack_pointer e,
                      frame_pointer := vm.stack_pointer,
                      stack_pointer := vm.stack_pointer + 1 } := by
  cases push with
  | push_frame name ret =>
    refine ⟨{ id := name, val := ret, is_closure := false,
              tag := frame_tag.function_frame, enclosing := vm.frame_pointer },
      rfl, fun _ => rfl, Or.inl rfl, ?_⟩
    simp [apply_frame_op, push_frame, hcap]
  | push_auto_frame ret type =>
    cases is_ret with
    | false =>
      refine ⟨{ id := type, val := ret, is_closure := false,
                tag := frame_tag.auto_frame, enclosing := vm.frame_pointer },
        rfl, fun h => Bool.noConfusion h, Or.inr rfl, ?_⟩
      simp [apply_frame_op, push_auto_frame, hcap]
    | true => simp [opens_frame] at hopen
  | pop_frame r => simp [opens_frame] at hopen
  | push_stack_entry id val => simp [opens_frame] at hopen

theorem pop_step (is_ret : Bool) (vm : VM) (f : Nat) (hf : 0 < f)
    (htag : is_ret = true → (vm.call_stack f).tag = frame_tag.function_frame)
    (hchain : is_ret = true → AutoChain vm.call_stack f vm.frame_pointer)
    (hfp : is_ret = false → vm.frame_pointer = f) :
    apply_frame_op (FrameOp.pop_frame is_ret) vm =
      .ok { vm with stack_pointer := f,
                    frame_pointer := (vm.call_stack f).enclosing } := by
  cases is_ret with
  | true =>
    simp only [apply_frame_op, pop_frame_true_chain vm f (htag rfl) hf (hchain rfl)]
  | false =>
    have h := hfp rfl
    have h0 : f ≠ 0 := by omega
    simp [apply_frame_op, pop_frame, h0, h]

theorem nest_run {b : Bool} {ops : List FrameOp} (hn : Nest b ops) :
    ∀ vm : VM, vm.frame_pointer < vm.stack_pointer →
      vm.stack_pointer + ops.length ≤ STACK_SIZE →
      ∃ vm1, run_frame_ops ops vm = .ok vm1 ∧
        (∀ i, i < vm.stack_pointer → vm1.call_stack i = vm.call_stack i) ∧
        vm.stack_pointer ≤ vm1.stack_pointer ∧
        (b = true → AutoChain vm1.call_stack vm.frame_pointer vm1.frame_pointer) ∧
        (b = false → vm1.frame_pointer = vm.frame_pointer) := by
  induction hn with
  | nil b =>
    intro vm _ _
    exact ⟨vm, rfl, fun _ _ => rfl, Nat.le_refl _, fun _ => AutoChain.here, fun _ => rfl⟩
  | declare b id val _ ih =>
    intro vm hfp hcap
    simp only [List.length_cons] at hcap
    have hlt : vm.stack_pointer < STACK_SIZE := by omega
    obtain ⟨vm1, hrun, hkeep, hsp, hopen, hclosed⟩ :=
      ih { vm with call_stack := store vm.call_stack vm.stack_pointer
                     { id := id, val := val, is_closure := false,
                       tag := frame_tag.variable, enclosing := 0 },
                   stack_pointer := vm.stack_pointer + 1 }
        (by show vm.frame_pointer < vm.stack_pointer + 1; omega)
        (by show vm.stack_pointer + 1 + _ ≤ STACK_SIZE; omega)
    refine ⟨vm1, ?_, ?_, ?_, hopen, hclosed⟩
    · simp only [run_frame_ops, apply_frame_op, push_stack_entry, push_entry, hlt, if_true]
      exact hrun
    · intro i hi
      rw [hkeep i (by show i < vm.stack_pointer + 1; omega)]
      exact store_other _ _ _ _ (by omega)
    · have : vm.stack_pointer + 1 ≤ vm1.stack_pointer := hsp
      omega
  | pair b push is_ret hopen _ _ ihbody ihrest =>
    intro vm hfp hcap
    simp only [List.length_cons, List.length_append] at hcap
    obtain ⟨e, henc, hfun, _, hpush⟩ := push_step push is_ret vm hopen (by omega)
    obtain ⟨vm2, hrun2, hkeep2, _, hopen2, hclosed2⟩ :=
      ihbody { vm with call_stack := store vm.call_stack vm.stack_pointer e,
                       frame_pointer := vm.stack_pointer,
                       stack_pointer := vm.stack_pointer + 1 }
        (by show vm.stack_pointer < vm.stack_pointer + 1; omega)
        (by show vm.stack_pointer + 1 + _ ≤ STACK_SIZE; omega)
    have hsent : vm2.call_stack vm.stack_pointer = e := by
      rw [hkeep2 vm.stack_pointer (by show vm.stack_pointer < vm.stack_pointer + 1; omega)]
      exact store_same _ _ _
    have hpop := pop_step is_ret vm2 vm.stack_pointer (by omega)
      (fun h => by rw [hsent]; exact hfun h) (fun h => hopen2 h) (fun h => hclosed2 h)
    rw [hsent, henc] at hpop
    obtain ⟨vm3, hrun3, hkeep3, hsp3, hopen3, hclosed3⟩ :=
      ihrest { vm2 with stack_pointer := vm.stack_pointer,
                        frame_pointer := vm.frame_pointer }
        hfp (by show vm.stack_pointer + _ ≤ STACK_SIZE; omega)
    refine ⟨vm3, ?_, ?_, hsp3, hopen3, hclosed3⟩
    · simp only [run_frame_ops, hpush, run_frame_ops_append, hrun2, hpop]
      exact hrun3
    · intro i hi
      rw [hkeep3 i hi]
      show vm2.call_stack i = vm.call_stack i
      rw [hkeep2 i (by show i < vm.stack_pointer + 1; omega)]
      exact store_other _ _ _ _ (by omega)
  | open_auto ret type _ ih =>
    intro vm hfp hcap
    simp only [List.length_cons] at hcap
    have hlt : vm.stack_pointer < STACK_SIZE := by omega
    obtain ⟨vm1, hrun, hkeep, hsp, hopen, _⟩ :=
      ih { vm with call_stack := store vm.call_stack vm.stack_pointer
                     { id := type, val := ret, is_closure := false,
                       tag := frame_tag.auto_frame, enclosing := vm.frame_pointer },
                   frame_pointer := vm.stack_pointer,
                   stack_pointer := vm.stack_pointer + 1 }
        (by show vm.stack_pointer < vm.stack_pointer + 1; omega)
        (by show vm.stack_pointer + 1 + _ ≤ STACK_SIZE; omega)
    have hsent : vm1.call_stack vm.stack_pointer =
        { id := type, val := ret, is_closure := false,
          tag := frame_tag.auto_frame, enclosing := vm.frame_pointer } := by
      rw [hkeep vm.stack_pointer (by show vm.stack_pointer < vm.stack_pointer + 1; omega)]
      exact store_same _ _ _
    refine ⟨vm1, ?_, ?_, ?_, ?_, fun h => Bool.noConfusion h⟩
    · simp only [run_frame_ops, apply_frame_op, push_auto_frame, hlt, if_true]
      exact hrun
    · intro i hi
      rw [hkeep i (by show i < vm.stack_pointer + 1; omega)]
      exact store_other _ _ _ _ (by omega)
    · have : vm.stack_pointer + 1 ≤ vm1.stack_pointer := hsp
      omega
    · intro _
      have hstep : AutoChain vm1.call_stack vm.frame_pointer vm.stack_pointer :=
        AutoChain.up (by rw [hsent]) (by rw [hsent]; exact hfp)
          (by rw [hsent]; exact AutoChain.here)
      exact hstep.trans (hopen rfl)

/-- C3: when the current frame is nested, through automatic frames only, in a
function frame `F` that lies above the bottom frame, then `pop_frame(true)`
returns `true` with the return address stored in the sentinel of `F`, and in
that one step takes `F` and every automatic frame above it off the stack: the
stack pointer becomes the index of `F`'s sentinel and the frame pointer the
base of the frame that encloses `F`. -/
theorem pop_frame_return_unwinds (vm : VM) (f : Nat)
    (hF : (vm.call_stack f).tag = frame_tag.function_frame) (hf : 0 < f)
    (hauto : (vm.call_stack vm.frame_pointer).tag = frame_tag.auto_frame)
    (hchain : AutoChain vm.call_stack f vm.frame_pointer) :
    f < vm.frame_pointer ∧
    pop_frame true vm =
      .ok ((true, (vm.call_stack f).val),
           { vm with stack_pointer := f,
                     frame_pointer := (vm.call_stack f).enclosing }) := by
  refine ⟨?_, pop_frame_true_chain vm f hF hf hchain⟩
  have hle := hchain.base_le
  rcases Nat.lt_or_ge f vm.frame_pointer with h | h
  · exact h
  · have : vm.frame_pointer = f := by omega
    rw [this, hF] at hauto
    cases hauto

/-- C3, witness: the frames `F(function) -> A(auto) -> A(auto)` built on the
initial machine; the return pops all three and yields the return address 7. -/
theorem pop_frame_return_unwinds_witness :
    1 < nested_frames.frame_pointer ∧
    pop_frame true nested_frames =
      .ok ((true, (nested_frames.call_stack 1).val),
           { nested_frames with stack_pointer := 1,
                                frame_pointer := (nested_frames.call_stack 1).enclosing }) :=
  pop_frame_return_unwinds nested_frames 1 rfl (by decide) rfl
    (AutoChain.up rfl (by decide) (AutoChain.up rfl (by decide) AutoChain.here))

/-- C4: a frame push and its matching pop restore the pointers.  From any
state whose frame pointer lies below the stack pointer (so the bottom frame is
there), with room on the stack, a push, then a body in which every pop has its
push and every push its pop (except automatic frames left to a closing
return), then the pop that closes the pushed frame, all succeed and leave
`frame_pointer` and `stack_pointer` at their values from before the push, and
every entry below the old stack pointer as it was. -/
theorem frame_push_pop_restores (vm : VM) (push : FrameOp) (is_ret : Bool)
    (body : List FrameOp) (hopen : opens_frame push is_ret = true)
    (hbody : Nest is_ret body) (hfp : vm.frame_pointer < vm.stack_pointer)
    (hcap : vm.stack_pointer + body.length + 2 ≤ STACK_SIZE) :
    ∃ vm1, run_frame_ops (push :: (body ++ [FrameOp.pop_frame is_ret])) vm = .ok vm1 ∧
      vm1.frame_pointer = vm.frame_pointer ∧ vm1.stack_pointer = vm.stack_pointer ∧
      ∀ i, i < vm.stack_pointer → vm1.call_stack i = vm.call_stack i := by
  obtain ⟨e, henc, hfun, _, hpush⟩ := push_step push is_ret vm hopen (by omega)
  obtain ⟨vm2, hrun2, hkeep2, _, hopen2, hclosed2⟩ :=
    nest_run hbody
      { vm with call_stack := store vm.call_stack vm.stack_pointer e,
                frame_pointer := vm.stack_pointer,
                stack_pointer := vm.stack_pointer + 1 }
      (by show vm.stack_pointer < vm.stack_pointer + 1; omega)
      (by show vm.stack_pointer + 1 + _ ≤ STACK_SIZE; omega)
  have hsent : vm2.call_stack vm.stack_pointer = e := by
    rw [hkeep2 vm.stack_pointer (by show vm.stack_pointer < vm.stack_pointer + 1; omega)]
    exact store_same _ _ _
  have hpop := pop_step is_ret vm2 vm.stack_pointer (by omega)
    (fun h => by rw [hsent]; exact hfun h) (fun h => hopen2 h) (fun h => hclosed2 h)
  rw [hsent, henc] at hpop
  refine ⟨{ vm2 with stack_pointer := vm.stack_pointer,
                     frame_pointer := vm.frame_pointer }, ?_, rfl, rfl, ?_⟩
  · simp only [run_frame_ops, hpush, run_frame_ops_append, hrun2, hpop]
  · intro i hi
    show vm2.call_stack i = vm.call_stack i
    rw [hkeep2 i (by show i < vm.stack_pointer + 1; omega)]
    exact store_other _ _ _ _ (by omega)

/-- C4, witness: on the initial machine, a function frame with a local, an
automatic frame left open inside it and a local of that frame, closed by a
return. -/
theorem frame_push_pop_restores_witness :
    ∃ vm1, run_frame_ops (FrameOp.push_frame "f" 7 ::
        ([FrameOp.push_stack_entry "x" 5, FrameOp.push_auto_frame 0 "loop",
          FrameOp.push_stack_entry "y" 6] ++ [FrameOp.pop_frame true])) init_memory = .ok vm1 ∧
      vm1.frame_pointer = init_memory.frame_pointer ∧
      vm1.stack_pointer = init_memory.stack_pointer ∧
      ∀ i, i < init_memory.stack_pointer → vm1.call_stack i = init_memory.call_stack i :=
  frame_push_pop_restores init_memory (FrameOp.push_frame "f" 7) true
    [FrameOp.push_stack_entry "x" 5, FrameOp.push_auto_frame 0 "loop",
     FrameOp.push_stack_entry "y" 6] rfl
    (Nest.declare true "x" 5 (Nest.open_auto 0 "loop" (Nest.declare true "y" 6 (Nest.nil true))))
    (by decide) (by decide)

/-! ### Declaration and resolution -/

theorem scan_stack_some (cs : Nat → stack_entry) (id : String) (bottom : Nat) :
    ∀ (n i : Nat), scan_stack cs id bottom n = some i ↔
      (bottom ≤ i ∧ i < bottom + n ∧ (cs i).id = id ∧
        ∀ j, i < j → j < bottom + n → (cs j).id ≠ id) := by
  intro n
  induction n with
  | zero =>
    intro i
    simp only [scan_stack]
    constructor
    · intro h; cases h
    · rintro ⟨h1, h2, _⟩; omega
  | succ n ih =>
    intro i
    simp only [scan_stack]
    by_cases hid : (cs (bottom + n)).id = id
    · simp only [hid, if_true, Option.some.injEq]
      constructor
      · intro h
        subst h
        exact ⟨by omega, by omega, hid, fun j h1 h2 => by omega⟩
      · rintro ⟨h1, h2, _, h4⟩
        rcases Nat.lt_or_ge i (bottom + n) with hlt | hge
        · exact absurd hid (h4 _ hlt (by omega))
        · omega
    · simp only [hid, if_false]
      rw [ih i]
      constructor
      · rintro ⟨h1, h2, h3, h4⟩
        refine ⟨h1, by omega, h3, fun j hj1 hj2 => ?_⟩
        rcases Nat.lt_or_ge j (bottom + n) with hlt | hge
        · exact h4 j hj1 hlt
        · have : j = bottom + n := by omega
          rw [this]; exact hid
      · rintro ⟨h1, h2, h3, h4⟩
        have hne : i ≠ bottom + n := by
          intro h; rw [h] at h3; exact hid h3
        exact ⟨h1, by omega, h3, fun j hj1 hj2 => h4 j hj1 (by omega)⟩

theorem scan_stack_none (cs : Nat → stack_entry) (id : String) (bottom : Nat) :
    ∀ n : Nat, scan_stack cs id bottom n = none ↔
      ∀ j, bottom ≤ j → j < bottom + n → (cs j).id ≠ id := by
  intro n
  induction n with
  | zero =>
    simp only [scan_stack, true_iff]
    intro j h1 h2; omega
  | succ n ih =>
    simp only [scan_stack]
    by_cases hid : (cs (bottom + n)).id = id
    · simp only [hid, if_true]
      constructor
      · intro h; cases h
      · intro h; exact absurd hid (h _ (by omega) (by omega))
    · simp only [hid, if_false]
      rw [ih]
      constructor
      · intro h j hj1 hj2
        rcases Nat.lt_or_ge j (bottom + n) with hlt | hge
        · exact h j hj1 hlt
        · have : j = bottom + n := by omega
          rw [this]; exact hid
      · intro h j hj1 hj2
        exact h j hj1 (by omega)

theorem get_stack_pos_of_id_some (id : String) (search_outer : Bool) (vm : VM) (i : Nat) :
    get_stack_pos_of_id id search_outer vm = some i ↔
      ((if search_outer then 0 else vm.frame_pointer) ≤ i ∧ i < vm.stack_pointer ∧
        (vm.call_stack i).id = id ∧
        ∀ j, i < j → j < vm.stack_pointer → (vm.call_stack j).id ≠ id) := by
  simp only [get_stack_pos_of_id]
  rw [scan_stack_some]
  constructor
  · rintro ⟨h1, h2, h3, h4⟩
    exact ⟨h1, by omega, h3, fun j hj1 hj2 => h4 j hj1 (by omega)⟩
  · rintro ⟨h1, h2, h3, h4⟩
    exact ⟨h1, by omega, h3, fun j hj1 hj2 => h4 j hj1 (by omega)⟩

theorem get_stack_pos_of_id_none (id : String) (search_outer : Bool) (vm : VM) :
    get_stack_pos_of_id id search_outer vm = none ↔
      ∀ j, (if search_outer then 0 else vm.frame_pointer) ≤ j → j < vm.stack_pointer →
        (vm.call_stack j).id ≠ id := by
  simp only [get_stack_pos_of_id]
  rw [scan_stack_none]
  constructor
  · intro h j hj1 hj2
    exact h j hj1 (by omega)
  · intro h j hj1 hj2
    exact h j hj1 (by omega)

/-- C5: in a state with room for two more entries, declaring `x` with value
`a` and then again with value `b` in the same frame both succeed (a second
declaration of an identifier is no error), the frame is still the current one,
and resolving `x`, in the current frame or through all frames, returns `b`. -/
theorem redeclare_shadows (vm : VM) (x : String) (a b : Nat) (search_outer : Bool)
    (hfp : vm.frame_pointer ≤ vm.stack_pointer)
    (hcap : vm.stack_pointer + 2 ≤ STACK_SIZE) :
    ∃ vm1 vm2, push_stack_entry x a vm = .ok vm1 ∧ push_stack_entry x b vm1 = .ok vm2 ∧
      vm2.frame_pointer = vm.frame_pointer ∧
      resolve x search_outer vm2 = .ok b := by
  have h1 : vm.stack_pointer < STACK_SIZE := by omega
  have h2 : vm.stack_pointer + 1 < STACK_SIZE := by omega
  refine ⟨{ vm with
      call_stack := store vm.call_stack vm.stack_pointer
        { id := x, val := a, is_closure := false, tag := frame_tag.variable, enclosing := 0 },
      stack_pointer := vm.stack_pointer + 1 },
    { vm with
      call_stack := store (store vm.call_stack vm.stack_pointer
        { id := x, val := a, is_closure := false,
          tag := frame_tag.variable, enclosing := 0 }) (vm.stack_pointer + 1)
        { id := x, val := b, is_closure := false,
          tag := frame_tag.variable, enclosing := 0 },
      stack_pointer := vm.stack_pointer + 1 + 1 },
    by simp only [push_stack_entry, push_entry, h1, if_true],
    by simp only [push_stack_entry, push_entry, h2, if_true], rfl, ?_⟩
  have hpos : get_stack_pos_of_id x search_outer
      ({ vm with
          call_stack := store (store vm.call_stack vm.stack_pointer
            { id := x, val := a, is_closure := false,
              tag := frame_tag.variable, enclosing := 0 }) (vm.stack_pointer + 1)
            { id := x, val := b, is_closure := false,
              tag := frame_tag.variable, enclosing := 0 },
          stack_pointer := vm.stack_pointer + 1 + 1 } : VM) = some (vm.stack_pointer + 1) := by
    rw [get_stack_pos_of_id_some]
    refine ⟨?_, ?_, ?_, ?_⟩
    · show (if search_outer = true then 0 else vm.frame_pointer) ≤ vm.stack_pointer + 1
      split <;> omega
    · show vm.stack_pointer + 1 < vm.stack_pointer + 1 + 1
      omega
    · simp [store]
    · intro j hj1 hj2
      have : j < vm.stack_pointer + 1 + 1 := hj2
      omega
  simp only [resolve, hpos]
  simp [store]

/-- C5, witness: `x` declared with 10 and then with 20 in the bottom frame of
the initial machine. -/
theorem redeclare_shadows_witness :
    ∃ vm1 vm2, push_stack_entry "x" 10 init_memory = .ok vm1 ∧
      push_stack_entry "x" 20 vm1 = .ok vm2 ∧
      vm2.frame_pointer = init_memory.frame_pointer ∧
      resolve "x" false vm2 = .ok 20 :=
  redeclare_shadows init_memory "x" 10 20 false (by decide) (by decide)

/-- C6: `resolve(id, search_outer)` returns `a` exactly when `a` is the value
of the entry with the greatest index among the entries named `id` in the
searched range, which is `[frame_pointer, stack_pointer)` when `search_outer`
is false and `[0, stack_pointer)` when it is true; and it fails exactly when no
entry of the searched range is named `id`, the failure being
`UndefinedIdentifier`. -/
theorem resolve_greatest_match (id : String) (search_outer : Bool) (vm : VM) :
    (∀ a, resolve id search_outer vm = .ok a ↔
      ∃ i, (if search_outer then 0 else vm.frame_pointer) ≤ i ∧ i < vm.stack_pointer ∧
        (vm.call_stack i).id = id ∧
        (∀ j, i < j → j < vm.stack_pointer → (vm.call_stack j).id ≠ id) ∧
        a = (vm.call_stack i).val) ∧
    (∀ e, resolve id search_outer vm = .error e ↔
      (e = Error.UndefinedIdentifier ∧
        ∀ j, (if search_outer then 0 else vm.frame_pointer) ≤ j → j < vm.stack_pointer →
          (vm.call_stack j).id ≠ id)) := by
  constructor
  · intro a
    cases hpos : get_stack_pos_of_id id search_outer vm with
    | none =>
      have hnone := (get_stack_pos_of_id_none id search_outer vm).1 hpos
      simp only [resolve, hpos]
      constructor
      · intro h; cases h
      · rintro ⟨i, h1, h2, h3, _⟩
        exact absurd h3 (hnone i h1 h2)
    | some k =>
      have hsome := (get_stack_pos_of_id_some id search_outer vm k).1 hpos
      simp only [resolve, hpos, Except.ok.injEq]
      constructor
      · intro h
        exact ⟨k, hsome.1, hsome.2.1, hsome.2.2.1, hsome.2.2.2, h.symm⟩
      · rintro ⟨i, h1, h2, h3, h4, h5⟩
        have hik : i = k := by
          rcases Nat.lt_trichotomy i k with hlt | heq | hgt
          · exact absurd hsome.2.2.1 (h4 k hlt hsome.2.1)
          · exact heq
          · exact absurd h3 (hsome.2.2.2 i hgt h2)
        rw [h5, hik]
  · intro e
    cases hpos : get_stack_pos_of_id id search_outer vm with
    | none =>
      have hnone := (get_stack_pos_of_id_none id search_outer vm).1 hpos
      simp only [resolve, hpos, Except.error.injEq]
      constructor
      · intro h; exact ⟨h.symm, hnone⟩
      · intro h; exact h.1.symm
    | some k =>
      have hsome := (get_stack_pos_of_id_some id search_outer vm k).1 hpos
      simp only [resolve, hpos]
      constructor
      · intro h; cases h
      · rintro ⟨_, h⟩
        exact absurd hsome.2.2.1 (h k hsome.1 hsome.2.1)

/-! ### Closures -/

theorem push_entry_closure {e : stack_entry} {vm vm1 : VM} (h : push_entry e vm = .ok vm1) :
    vm1.closure_list = vm.closure_list := by
  unfold push_entry at h
  split at h
  · cases h; rfl
  · cases h

theorem pop_frame_closure {is_ret : Bool} {vm vm1 : VM} {r : Bool × Nat}
    (h : pop_frame is_ret vm = .ok (r, vm1)) : vm1.closure_list = vm.closure_list := by
  unfold pop_frame at h
  split at h
  · cases h
  · split at h
    · split at h
      · cases h
      · split at h
        · cases h
        · cases h; rfl
    · cases h; rfl

theorem copy_entries_closure : ∀ (es : List stack_entry) {vm vm1 : VM},
    copy_entries es vm = .ok vm1 → vm1.closure_list = vm.closure_list := by
  intro es
  induction es with
  | nil => intro vm vm1 h; cases h; rfl
  | cons se rest ih =>
    intro vm vm1 h
    simp only [copy_entries, copy_stack_entry] at h
    cases hp : push_entry se vm with
    | error e => rw [hp] at h; cases h
    | ok vm2 =>
      rw [hp] at h
      rw [ih h, push_entry_closure hp]

theorem unwind_stack_closure : ∀ (fuel : Nat) (vm : VM),
    (unwind_stack fuel vm).closure_list = vm.closure_list := by
  intro fuel
  induction fuel with
  | zero => intro vm; rfl
  | succ n ih =>
    intro vm
    simp only [unwind_stack]
    cases hp : pop_frame false vm with
    | error e => rfl
    | ok r =>
      obtain ⟨r1, vm1⟩ := r
      show (unwind_stack n vm1).closure_list = vm.closure_list
      rw [ih vm1, pop_frame_closure hp]

theorem allocate_now_closure {size : Nat} {vm vm1 : VM} {a : Nat}
    (h : allocate_now size vm = some (a, vm1)) : vm1.closure_list = vm.closure_list := by
  unfold allocate_now at h
  split at h
  · cases h; rfl
  · split at h
    · cases h; rfl
    · cases h

theorem garbage_collect_closure (size : Nat) (vm : VM) :
    (garbage_collect size vm).2.closure_list = vm.closure_list := rfl

theorem pls_give_memory_closure {size : Nat} {vm vm1 : VM} {a : Nat}
    (h : pls_give_memory size vm = .ok (a, vm1)) : vm1.closure_list = vm.closure_list := by
  unfold pls_give_memory at h
  split at h
  · rename_i r hr
    cases h
    exact allocate_now_closure hr
  · split at h
    · split at h
      · rename_i r hr
        cases h
        exact (allocate_now_closure hr).trans (garbage_collect_closure size vm)
      · cases h
    · cases h

theorem apply_op_closure {op : MemOp} {vm vm1 : VM} (h : apply_op op vm = .ok vm1) :
    ∃ extra, vm1.closure_list = vm.closure_list ++ extra := by
  cases op with
  | push_frame name ret =>
    refine ⟨[], ?_⟩
    simp only [apply_op, push_frame] at h
    split at h
    · cases h; simp
    · cases h
  | push_auto_frame ret type =>
    refine ⟨[], ?_⟩
    simp only [apply_op, push_auto_frame] at h
    split at h
    · cases h; simp
    · cases h
  | pop_frame is_ret =>
    refine ⟨[], ?_⟩
    simp only [apply_op] at h
    cases hp : pop_frame is_ret vm with
    | error e => rw [hp] at h; cases h
    | ok r =>
      obtain ⟨r1, vm2⟩ := r
      rw [hp] at h
      cases h
      simp [pop_frame_closure hp]
  | push_stack_entry id val =>
    exact ⟨[], by simp [push_entry_closure (show push_entry _ vm = .ok vm1 from h)]⟩
  | copy_stack_entry se =>
    exact ⟨[], by simp [push_entry_closure (show push_entry _ vm = .ok vm1 from h)]⟩
  | overwrite_entry i se =>
    simp only [apply_op] at h
    cases h
    exact ⟨[], by simp⟩
  | unwind_stack =>
    simp only [apply_op] at h
    cases h
    exact ⟨[], by simp [unwind_stack_closure]⟩
  | create_closure =>
    simp only [apply_op] at h
    cases h
    exact ⟨[frame_entries vm], rfl⟩
  | invoke_closure index =>
    refine ⟨[], ?_⟩
    simp only [apply_op, invoke_closure] at h
    split at h
    · simp [copy_entries_closure _ h]
    · cases h
  | write_memory location d =>
    refine ⟨[], ?_⟩
    simp only [apply_op, write_memory] at h
    split at h
    · cases h; simp
    · cases h
  | pls_give_memory size =>
    refine ⟨[], ?_⟩
    simp only [apply_op] at h
    cases hp : pls_give_memory size vm with
    | error e => rw [hp] at h; cases h
    | ok r =>
      obtain ⟨a, vm2⟩ := r
      rw [hp] at h
      cases h
      simp [pls_give_memory_closure hp]
  | here_u_go a size =>
    simp only [apply_op] at h
    cases h
    exact ⟨[], by simp [here_u_go]⟩
  | garbage_collect size =>
    simp only [apply_op] at h
    cases h
    exact ⟨[], by simp [garbage_collect_closure]⟩
  | push_arg t =>
    refine ⟨[], ?_⟩
    simp only [apply_op, push_arg] at h
    split at h
    · cases h; simp
    · cases h
  | pop_arg =>
    refine ⟨[], ?_⟩
    simp only [apply_op] at h
    cases hp : pop_arg vm with
    | error e => rw [hp] at h; cases h
    | ok r =>
      obtain ⟨t, vm2⟩ := r
      rw [hp] at h
      cases h
      unfold pop_arg at hp
      split at hp
      · cases hp
      · cases hp; simp
  | clear_arg_stack =>
    simp only [apply_op] at h
    cases h
    exact ⟨[], by simp [clear_arg_stack]⟩
  | push_mem_reg memory_register =>
    simp only [apply_op] at h
    cases h
    exact ⟨[], by simp [push_mem_reg]⟩
  | pop_mem_reg =>
    refine ⟨[], ?_⟩
    simp only [apply_op] at h
    cases hp : pop_mem_reg vm with
    | error e => rw [hp] at h; cases h
    | ok r =>
      obtain ⟨t, vm2⟩ := r
      rw [hp] at h
      cases h
      unfold pop_mem_reg at hp
      split at hp
      · cases hp
      · cases hp; simp

theorem run_ops_closure : ∀ (ops : List MemOp) {vm vm1 : VM},
    run_ops ops vm = .ok vm1 → ∃ extra, vm1.closure_list = vm.closure_list ++ extra := by
  intro ops
  induction ops with
  | nil =>
    intro vm vm1 h
    cases h
    exact ⟨[], by simp⟩
  | cons op ops ih =>
    intro vm vm1 h
    simp only [run_ops] at h
    cases hp : apply_op op vm with
    | error e => rw [hp] at h; cases h
    | ok vm2 =>
      rw [hp] at h
      obtain ⟨x1, h1⟩ := apply_op_closure hp
      obtain ⟨x2, h2⟩ := ih h
      exact ⟨x1 ++ x2, by rw [h2, h1, List.append_assoc]⟩

theorem copy_entries_ok : ∀ (es : List stack_entry) (vm : VM),
    vm.stack_pointer + es.length ≤ STACK_SIZE →
    ∃ vm1, copy_entries es vm = .ok vm1 ∧
      vm1.stack_pointer = vm.stack_pointer + es.length ∧
      (∀ i, i < es.length → some (vm1.call_stack (vm.stack_pointer + i)) = es.get? i) ∧
      (∀ j, j < vm.stack_pointer → vm1.call_stack j = vm.call_stack j) ∧
      vm1.frame_pointer = vm.frame_pointer ∧ vm1.closure_list = vm.closure_list := by
  intro es
  induction es with
  | nil =>
    intro vm _
    exact ⟨vm, rfl, rfl, fun i hi => absurd hi (Nat.not_lt_zero i), fun _ _ => rfl, rfl, rfl⟩
  | cons se rest ih =>
    intro vm hcap
    simp only [List.length_cons] at hcap
    have hlt : vm.stack_pointer < STACK_SIZE := by omega
    obtain ⟨vm1, hrun, hsp, hcopy, hkeep, hfp, hcl⟩ :=
      ih { vm with call_stack := store vm.call_stack vm.stack_pointer se,
                   stack_pointer := vm.stack_pointer + 1 }
        (by show vm.stack_pointer + 1 + rest.length ≤ STACK_SIZE; omega)
    refine ⟨vm1, ?_, ?_, ?_, ?_, hfp, hcl⟩
    · simp only [copy_entries, copy_stack_entry, push_entry, hlt, if_true]
      exact hrun
    · rw [hsp]
      show vm.stack_pointer + 1 + rest.length = vm.stack_pointer + (rest.length + 1)
      omega
    · intro i hi
      cases i with
      | zero =>
        rw [Nat.add_zero, hkeep vm.stack_pointer
          (by show vm.stack_pointer < vm.stack_pointer + 1; omega)]
        simp [store]
      | succ k =>
        have hk : k < rest.length := by
          simp only [List.length_cons] at hi
          omega
        have := hcopy k hk
        simp only [List.get?_cons_succ]
        rw [← this]
        show some (vm1.call_stack (vm.stack_pointer + (k + 1))) =
          some (vm1.call_stack (vm.stack_pointer + 1 + k))
        rw [Nat.add_assoc, Nat.add_comm 1 k]
    · intro j hj
      rw [hkeep j (by show j < vm.stack_pointer + 1; omega)]
      exact store_other _ _ _ _ (by omega)

theorem frame_entries_length (vm : VM) :
    (frame_entries vm).length = vm.stack_pointer - vm.frame_pointer := by
  simp [frame_entries]

theorem frame_entries_get (vm : VM) (i : Nat) (hi : i < vm.stack_pointer - vm.frame_pointer) :
    (frame_entries vm).get? i = some (vm.call_stack (vm.frame_pointer + i)) := by
  simp [frame_entries, List.get?_eq_getElem?, hi]

/-- C7: once `create_closure` has captured the current frame, whatever
operations of the memory module follow (declarations, direct stores into
call-stack entries, frame pushes and pops, allocation, collection, further
captures and invocations, ...), the closure table still holds, at the returned
index, the entries that lay in `[frame_pointer, stack_pointer)` at capture
time; and invoking the closure then, with room on the call stack, copies
exactly these entries, in order, on top of the live call stack, leaving the
entries below and the closure table as they are. -/
theorem closure_isolated (vm : VM) (ops : List MemOp) (vm2 : VM)
    (hrun : run_ops ops (create_closure vm).2 = .ok vm2)
    (hroom : vm2.stack_pointer + (vm.stack_pointer - vm.frame_pointer) ≤ STACK_SIZE) :
    vm2.closure_list.get? (create_closure vm).1 = some (frame_entries vm) ∧
    ∃ vm3, invoke_closure (create_closure vm).1 vm2 = .ok vm3 ∧
      vm3.stack_pointer = vm2.stack_pointer + (vm.stack_pointer - vm.frame_pointer) ∧
      (∀ i, i < vm.stack_pointer - vm.frame_pointer →
        vm3.call_stack (vm2.stack_pointer + i) = vm.call_stack (vm.frame_pointer + i)) ∧
      (∀ j, j < vm2.stack_pointer → vm3.call_stack j = vm2.call_stack j) ∧
      vm3.closure_list = vm2.closure_list := by
  obtain ⟨extra, hx⟩ := run_ops_closure ops hrun
  have hget : vm2.closure_list.get? (create_closure vm).1 = some (frame_entries vm) := by
    rw [hx]
    show ((vm.closure_list ++ [frame_entries vm]) ++ extra).get? vm.closure_list.length = _
    rw [List.append_assoc, List.get?_eq_getElem?,
      List.getElem?_append_right (Nat.le_refl _)]
    simp
  refine ⟨hget, ?_⟩
  obtain ⟨vm3, hcopy, hsp, hent, hkeep, _, hcl⟩ :=
    copy_entries_ok (frame_entries vm) vm2 (by rw [frame_entries_length]; exact hroom)
  refine ⟨vm3, ?_, ?_, ?_, hkeep, hcl⟩
  · simp only [invoke_closure, hget]
    exact hcopy
  · rw [hsp, frame_entries_length]
  · intro i hi
    have h1 := hent i (by rw [frame_entries_length]; exact hi)
    rw [frame_entries_get vm i hi] at h1
    exact Option.some.inj h1

/-- C7, witness: the bottom frame with `x` bound to 10 is captured; then the
entry of `x` is overwritten in place, `x` is declared again and a function
frame is pushed.  The closure still holds the two captured entries. -/
theorem closure_isolated_witness :
    run_ops after_capture_ops (create_closure one_variable).2 = .ok after_capture ∧
    after_capture.closure_list.get? (create_closure one_variable).1 =
      some (frame_entries one_variable) ∧
    ∃ vm3, invoke_closure (create_closure one_variable).1 after_capture = .ok vm3 ∧
      vm3.stack_pointer = after_capture.stack_pointer +
        (one_variable.stack_pointer - one_variable.frame_pointer) ∧
      (∀ i, i < one_variable.stack_pointer - one_variable.frame_pointer →
        vm3.call_stack (after_capture.stack_pointer + i) =
          one_variable.call_stack (one_variable.frame_pointer + i)) ∧
      (∀ j, j < after_capture.stack_pointer → vm3.call_stack j = after_capture.call_stack j) ∧
      vm3.closure_list = after_capture.closure_list :=
  ⟨rfl, closure_isolated one_variable after_capture_ops after_capture rfl (by decide)⟩

/-! ### Collector: the mark phase -/

theorem nodup_full (M : Nat) (l : List Nat) (hn : l.Nodup) (hlt : ∀ a ∈ l, a < M)
    (hlen : M ≤ l.length) : ∀ b, b < M → b ∈ l := by
  intro b hb
  have hsub : l.toFinset ⊆ Finset.range M := by
    intro x hx
    rw [List.mem_toFinset] at hx
    exact Finset.mem_range.2 (hlt x hx)
  have hcard : (Finset.range M).card ≤ l.toFinset.card := by
    rw [List.toFinset_card_of_nodup hn, Finset.card_range]
    exact hlen
  have heq := Finset.eq_of_subset_of_card_le hsub hcard
  have : b ∈ l.toFinset := by
    rw [heq]; exact Finset.mem_range.2 hb
  exact List.mem_toFinset.1 this

theorem mem_mark_pass (memory : Nat → data) (marked : List Nat) (b : Nat) :
    b ∈ mark_pass memory marked ↔
      (∃ a ∈ marked, b ∈ refs (memory a)) ∧ b < MEMORY_SIZE ∧ b ∉ marked := by
  simp only [mark_pass, List.mem_dedup, List.mem_filter, List.mem_flatMap,
    decide_eq_true_eq]

/-- The invariant of the traversal: no address is marked twice, and every
marked address lies in the address space. -/
theorem mark_pass_extends (memory : Nat → data) (marked : List Nat)
    (hn : marked.Nodup) (hlt : ∀ a ∈ marked, a < MEMORY_SIZE) :
    (mark_pass memory marked ++ marked).Nodup ∧
      ∀ a ∈ mark_pass memory marked ++ marked, a < MEMORY_SIZE := by
  constructor
  · rw [List.nodup_append]
    refine ⟨List.nodup_dedup _, hn, ?_⟩
    intro x hx hx2
    exact ((mem_mark_pass memory marked x).1 hx).2.2 hx2
  · intro a ha
    rcases List.mem_append.1 ha with h | h
    · exact ((mem_mark_pass memory marked a).1 h).2.1
    · exact hlt a h

theorem mark_loop_closed (memory : Nat → data) : ∀ (fuel : Nat) (marked : List Nat),
    marked.Nodup → (∀ a ∈ marked, a < MEMORY_SIZE) → MEMORY_SIZE ≤ fuel + marked.length →
    ∀ a ∈ mark_loop memory fuel marked, ∀ b ∈ refs (memory a), b < MEMORY_SIZE →
      b ∈ mark_loop memory fuel marked := by
  intro fuel
  induction fuel with
  | zero =>
    intro marked hn hlt hlen a _ b _ hb
    simp only [mark_loop]
    exact nodup_full MEMORY_SIZE marked hn hlt (by omega) b hb
  | succ n ih =>
    intro marked hn hlt hlen
    simp only [mark_loop]
    cases hp : mark_pass memory marked with
    | nil =>
      intro a ha b hb hbM
      show b ∈ marked
      by_contra hnot
      have : b ∈ mark_pass memory marked :=
        (mem_mark_pass memory marked b).2 ⟨⟨a, ha, hb⟩, hbM, hnot⟩
      rw [hp] at this
      cases this
    | cons c new =>
      have hext := mark_pass_extends memory marked hn hlt
      rw [hp] at hext
      exact ih (c :: new ++ marked) hext.1 hext.2
        (by simp only [List.cons_append, List.length_cons, List.length_append]; omega)

theorem mark_loop_mono (memory : Nat → data) : ∀ (fuel : Nat) (marked : List Nat),
    ∀ a ∈ marked, a ∈ mark_loop memory fuel marked := by
  intro fuel
  induction fuel with
  | zero => intro marked a ha; exact ha
  | succ n ih =>
    intro marked a ha
    simp only [mark_loop]
    cases hp : mark_pass memory marked with
    | nil => exact ha
    | cons c new =>
      exact ih (c :: new ++ marked) a (List.mem_append_right _ ha)

theorem mark_loop_sound (vm : VM) : ∀ (fuel : Nat) (marked : List Nat),
    (∀ a ∈ marked, Reachable vm a ∧ a < MEMORY_SIZE) →
    ∀ a ∈ mark_loop vm.memory fuel marked, Reachable vm a ∧ a < MEMORY_SIZE := by
  intro fuel
  induction fuel with
  | zero => intro marked h a ha; exact h a ha
  | succ n ih =>
    intro marked h
    simp only [mark_loop]
    cases hp : mark_pass vm.memory marked with
    | nil => exact h
    | cons c new =>
      apply ih (c :: new ++ marked)
      intro a ha
      rw [← hp] at ha
      rcases List.mem_append.1 ha with h1 | h1
      · obtain ⟨⟨r, hr, hb⟩, hM, _⟩ := (mem_mark_pass vm.memory marked a).1 h1
        exact ⟨Reachable.link (h r hr).1 (h r hr).2 hb, hM⟩
      · exact h a h1

/-- The mark phase marks exactly the reachable cells of the address space. -/
theorem mem_mark (vm : VM) (a : Nat) :
    a ∈ mark vm ↔ Reachable vm a ∧ a < MEMORY_SIZE := by
  have hroots : ∀ x ∈ ((root_addresses vm).filter
      (fun a => decide (a < MEMORY_SIZE))).dedup, Reachable vm x ∧ x < MEMORY_SIZE := by
    intro x hx
    simp only [List.mem_dedup, List.mem_filter, decide_eq_true_eq] at hx
    exact ⟨Reachable.root hx.1, hx.2⟩
  constructor
  · intro h
    exact mark_loop_sound vm MEMORY_SIZE _ hroots a h
  · rintro ⟨hr, hM⟩
    have hclosed := mark_loop_closed vm.memory MEMORY_SIZE _ (List.nodup_dedup _)
      (fun x hx => (hroots x hx).2) (Nat.le_add_right _ _)
    induction hr with
    | root hroot =>
      apply mark_loop_mono
      simp only [List.mem_dedup, List.mem_filter, decide_eq_true_eq]
      exact ⟨hroot, hM⟩
    | link _ haM hb ih =>
      exact hclosed _ (ih haM) _ hb hM

/-! ### Collector: the sweep phase -/

/-- What holds of every block that the sweep builds, when the open run (if
any) starts below the current address and is unmarked so far: the block is not
empty, lies between the start of the scan and `hi`, holds no marked address,
ends at `hi` or right before a marked address, and starts at the start of the
scan or right after a marked address. -/
theorem sweep_block (marked : List Nat) (hi : Nat) : ∀ (n : Nat) (run : Option Nat),
    n ≤ hi →
    (∀ s, run = some s → s < hi - n ∧ ∀ x, s ≤ x → x < hi - n → x ∉ marked) →
    ∀ b ∈ sweep marked hi n run,
      0 < b.size ∧ run.getD (hi - n) ≤ b.start ∧ b.start + b.size ≤ hi ∧
      (∀ x, b.start ≤ x → x < b.start + b.size → x ∉ marked) ∧
      (b.start + b.size = hi ∨ b.start + b.size ∈ marked) ∧
      (b.start = run.getD (hi - n) ∨ (0 < b.start ∧ b.start - 1 ∈ marked)) := by
  intro n
  induction n with
  | zero =>
    intro run _ hrun b hb
    cases run with
    | none => simp [sweep] at hb
    | some s =>
      simp only [sweep, List.mem_singleton] at hb
      obtain ⟨h1, h2⟩ := hrun s rfl
      subst hb
      simp only [Nat.sub_zero] at h1 h2
      refine ⟨by show 0 < hi - s; omega, by show s ≤ s; exact Nat.le_refl _,
        by show s + (hi - s) ≤ hi; omega, ?_,
        Or.inl (by show s + (hi - s) = hi; omega), Or.inl rfl⟩
      intro x hx1 hx2
      exact h2 x hx1 (by
        have : x < s + (hi - s) := hx2
        omega)
  | succ n ih =>
    intro run hn hrun b hb
    have ha : hi - n = hi - (n + 1) + 1 := by omega
    cases run with
    | none =>
      simp only [sweep] at hb
      simp only [Option.getD_none]
      by_cases hm : hi - (n + 1) ∈ marked
      · rw [if_pos hm] at hb
        obtain ⟨h1, h2, h3, h4, h5, h6⟩ :=
          ih none (by omega) (fun s hs => by cases hs) b hb
        simp only [Option.getD_none] at h2 h6
        refine ⟨h1, by omega, h3, h4, h5, ?_⟩
        rcases h6 with h6 | h6
        · right
          refine ⟨by omega, ?_⟩
          have : b.start - 1 = hi - (n + 1) := by omega
          rw [this]; exact hm
        · exact Or.inr h6
      · rw [if_neg hm] at hb
        obtain ⟨h1, h2, h3, h4, h5, h6⟩ :=
          ih (some (hi - (n + 1))) (by omega)
            (fun s hs => by
              cases hs
              refine ⟨by omega, fun x hx1 hx2 => ?_⟩
              have : x = hi - (n + 1) := by omega
              rw [this]; exact hm) b hb
        simp only [Option.getD_some] at h2 h6
        exact ⟨h1, h2, h3, h4, h5, h6⟩
    | some s =>
      obtain ⟨hs1, hs2⟩ := hrun s rfl
      simp only [sweep] at hb
      simp only [Option.getD_some]
      by_cases hm : hi - (n + 1) ∈ marked
      · rw [if_pos hm] at hb
        rcases List.mem_cons.1 hb with hb | hb
        · subst hb
          refine ⟨by show 0 < hi - (n + 1) - s; omega, Nat.le_refl _,
            by show s + (hi - (n + 1) - s) ≤ hi; omega, ?_, ?_, Or.inl rfl⟩
          · intro x hx1 hx2
            exact hs2 x hx1 (by
              have : x < s + (hi - (n + 1) - s) := hx2
              omega)
          · right
            have : s + (hi - (n + 1) - s) = hi - (n + 1) := by omega
            show s + (hi - (n + 1) - s) ∈ marked
            rw [this]; exact hm
        · obtain ⟨h1, h2, h3, h4, h5, h6⟩ :=
            ih none (by omega) (fun s hs => by cases hs) b hb
          simp only [Option.getD_none] at h2 h6
          refine ⟨h1, by omega, h3, h4, h5, ?_⟩
          rcases h6 with h6 | h6
          · right
            refine ⟨by omega, ?_⟩
            have : b.start - 1 = hi - (n + 1) := by omega
            rw [this]; exact hm
          · exact Or.inr h6
      · rw [if_neg hm] at hb
        obtain ⟨h1, h2, h3, h4, h5, h6⟩ :=
          ih (some s) (by omega)
            (fun t ht => by
              cases ht
              refine ⟨by omega, fun x hx1 hx2 => ?_⟩
              rcases Nat.lt_or_ge x (hi - (n + 1)) with hlt | hge
              · exact hs2 x hx1 hlt
              · have : x = hi - (n + 1) := by omega
                rw [this]; exact hm) b hb
        simp only [Option.getD_some] at h2 h6
        exact ⟨h1, h2, h3, h4, h5, h6⟩

/-- Every unmarked address between the start of the scan and `hi` lies in a
block that the sweep builds. -/
theorem sweep_covers (marked : List Nat) (hi : Nat) : ∀ (n : Nat) (run : Option Nat),
    n ≤ hi →
    (∀ s, run = some s → s < hi - n ∧ ∀ x, s ≤ x → x < hi - n → x ∉ marked) →
    ∀ x, run.getD (hi - n) ≤ x → x < hi → x ∉ marked →
      ∃ b ∈ sweep marked hi n run, b.start ≤ x ∧ x < b.start + b.size := by
  intro n
  induction n with
  | zero =>
    intro run _ hrun x hx1 hx2 _
    cases run with
    | none =>
      simp only [Option.getD_none, Nat.sub_zero] at hx1
      omega
    | some s =>
      simp only [Option.getD_some] at hx1
      exact ⟨{ size := hi - s, start := s }, by simp [sweep], hx1,
        by show x < s + (hi - s); omega⟩
  | succ n ih =>
    intro run hn hrun x hx1 hx2 hx3
    cases run with
    | none =>
      simp only [Option.getD_none] at hx1
      simp only [sweep]
      by_cases hm : hi - (n + 1) ∈ marked
      · rw [if_pos hm]
        have hne : x ≠ hi - (n + 1) := fun h => hx3 (h ▸ hm)
        exact ih none (by omega) (fun s hs => by cases hs) x
          (by simp only [Option.getD_none]; omega) hx2 hx3
      · rw [if_neg hm]
        exact ih (some (hi - (n + 1))) (by omega)
          (fun s hs => by
            cases hs
            refine ⟨by omega, fun y hy1 hy2 => ?_⟩
            have : y = hi - (n + 1) := by omega
            rw [this]; exact hm) x
          (by simp only [Option.getD_some]; exact hx1) hx2 hx3
    | some s =>
      obtain ⟨hs1, hs2⟩ := hrun s rfl
      simp only [Option.getD_some] at hx1
      simp only [sweep]
      by_cases hm : hi - (n + 1) ∈ marked
      · rw [if_pos hm]
        have hne : x ≠ hi - (n + 1) := fun h => hx3 (h ▸ hm)
        rcases Nat.lt_or_ge x (hi - (n + 1)) with hlt | hge
        · exact ⟨_, List.mem_cons_self _ _, hx1,
            by show x < s + (hi - (n + 1) - s); omega⟩
        · obtain ⟨b, hb, h1, h2⟩ := ih none (by omega) (fun s hs => by cases hs) x
            (by simp only [Option.getD_none]; omega) hx2 hx3
          exact ⟨b, List.mem_cons_of_mem _ hb, h1, h2⟩
      · rw [if_neg hm]
        exact ih (some s) (by omega)
          (fun t ht => by
            cases ht
            refine ⟨by omega, fun y hy1 hy2 => ?_⟩
            rcases Nat.lt_or_ge y (hi - (n + 1)) with hlt | hge
            · exact hs2 y hy1 hlt
            · have : y = hi - (n + 1) := by omega
              rw [this]; exact hm) x
          (by simp only [Option.getD_some]; exact hx1) hx2 hx3

/-- The blocks that the sweep builds are in ascending order and disjoint. -/
theorem sweep_sorted (marked : List Nat) (hi : Nat) : ∀ (n : Nat) (run : Option Nat),
    n ≤ hi →
    (∀ s, run = some s → s < hi - n ∧ ∀ x, s ≤ x → x < hi - n → x ∉ marked) →
    (sweep marked hi n run).Pairwise (fun b c => b.start + b.size ≤ c.start) := by
  intro n
  induction n with
  | zero =>
    intro run _ _
    cases run with
    | none => simp [sweep]
    | some s => simp [sweep]
  | succ n ih =>
    intro run hn hrun
    cases run with
    | none =>
      simp only [sweep]
      by_cases hm : hi - (n + 1) ∈ marked
      · rw [if_pos hm]
        exact ih none (by omega) (fun s hs => by cases hs)
      · rw [if_neg hm]
        exact ih (some (hi - (n + 1))) (by omega)
          (fun s hs => by
            cases hs
            refine ⟨by omega, fun y hy1 hy2 => ?_⟩
            have : y = hi - (n + 1) := by omega
            rw [this]; exact hm)
    | some s =>
      obtain ⟨hs1, hs2⟩ := hrun s rfl
      simp only [sweep]
      by_cases hm : hi - (n + 1) ∈ marked
      · rw [if_pos hm]
        rw [List.pairwise_cons]
        refine ⟨?_, ih none (by omega) (fun s hs => by cases hs)⟩
        intro c hc
        have h := (sweep_block marked hi n none (by omega) (fun s hs => by cases hs) c hc).2.1
        simp only [Option.getD_none] at h
        show s + (hi - (n + 1) - s) ≤ c.start
        omega
      · rw [if_neg hm]
        exact ih (some s) (by omega)
          (fun t ht => by
            cases ht
            refine ⟨by omega, fun y hy1 hy2 => ?_⟩
            rcases Nat.lt_or_ge y (hi - (n + 1)) with hlt | hge
            · exact hs2 y hy1 hlt
            · have : y = hi - (n + 1) := by omega
              rw [this]; exact hm)

theorem garbage_collect_free (size : Nat) (vm : VM) :
    (garbage_collect size vm).2.free_memory =
      sweep (mark vm) MEMORY_SIZE (MEMORY_SIZE - RESERVED_MEMORY) none := rfl

theorem MEMORY_SIZE_eq : MEMORY_SIZE = 129061 := rfl

theorem RESERVED_MEMORY_eq : RESERVED_MEMORY = 2 := rfl

/-- Every free block after a collection is a maximal run of unreachable
addresses of the allocatable range. -/
theorem garbage_collect_block (size : Nat) (vm : VM) :
    ∀ b ∈ (garbage_collect size vm).2.free_memory,
      0 < b.size ∧ RESERVED_MEMORY ≤ b.start ∧ b.start + b.size ≤ MEMORY_SIZE ∧
      (∀ x, b.start ≤ x → x < b.start + b.size → ¬ Reachable vm x) ∧
      (b.start + b.size = MEMORY_SIZE ∨ Reachable vm (b.start + b.size)) ∧
      (b.start = RESERVED_MEMORY ∨ (0 < b.start ∧ Reachable vm (b.start - 1))) := by
  intro b hb
  rw [garbage_collect_free] at hb
  have hM := MEMORY_SIZE_eq
  have hR := RESERVED_MEMORY_eq
  obtain ⟨h1, h2, h3, h4, h5, h6⟩ :=
    sweep_block (mark vm) MEMORY_SIZE (MEMORY_SIZE - RESERVED_MEMORY) none (by omega)
      (fun s hs => by cases hs) b hb
  simp only [Option.getD_none] at h2 h6
  refine ⟨h1, by omega, h3, ?_, ?_, ?_⟩
  · intro x hx1 hx2 hr
    exact h4 x hx1 hx2 ((mem_mark vm x).2 ⟨hr, by omega⟩)
  · rcases h5 with h5 | h5
    · exact Or.inl h5
    · exact Or.inr ((mem_mark vm _).1 h5).1
  · rcases h6 with h6 | h6
    · exact Or.inl (by omega)
    · exact Or.inr ⟨h6.1, ((mem_mark vm _).1 h6.2).1⟩

theorem garbage_collect_covers (size : Nat) (vm : VM) (x : Nat)
    (h1 : RESERVED_MEMORY ≤ x) (h2 : x < MEMORY_SIZE) (h3 : ¬ Reachable vm x) :
    ∃ b ∈ (garbage_collect size vm).2.free_memory, b.start ≤ x ∧ x < b.start + b.size := by
  rw [garbage_collect_free]
  have hM := MEMORY_SIZE_eq
  have hR := RESERVED_MEMORY_eq
  exact sweep_covers (mark vm) MEMORY_SIZE (MEMORY_SIZE - RESERVED_MEMORY) none (by omega)
    (fun s hs => by cases hs) x (by simp only [Option.getD_none]; omega) h2
    (fun hm => h3 ((mem_mark vm x).1 hm).1)

theorem reachable_after_collect (size : Nat) (vm : VM) (a : Nat) (h : Reachable vm a) :
    Reachable (garbage_collect size vm).2 a := by
  induction h with
  | root hroot => exact Reachable.root hroot
  | link _ hM hb ih => exact Reachable.link ih hM hb

/-- C9: a collection moves and writes no cell, and every address that is
reachable from the root set before `garbage_collect` holds the same value
afterwards, is still reachable, and lies in no free block. -/
theorem collect_keeps_reachable (size : Nat) (vm : VM) (a : Nat) (h : Reachable vm a) :
    (garbage_collect size vm).2.memory a = vm.memory a ∧
    (∀ b ∈ (garbage_collect size vm).2.free_memory,
      ¬ (b.start ≤ a ∧ a < b.start + b.size)) ∧
    Reachable (garbage_collect size vm).2 a := by
  refine ⟨rfl, ?_, reachable_after_collect size vm a h⟩
  intro b hb hin
  exact (garbage_collect_block size vm b hb).2.2.2.1 a hin.1 hin.2 h

/-- C9, witness: in the machine of the end-to-end scenario the second cell of
the list, at address 4, is reachable through the local `l` and the list
header. -/
theorem collect_keeps_reachable_witness :
    Reachable list_machine 4 ∧
    (garbage_collect 1 list_machine).2.memory 4 = data.Number 20 ∧
    (∀ b ∈ (garbage_collect 1 list_machine).2.free_memory,
      ¬ (b.start ≤ 4 ∧ 4 < b.start + b.size)) ∧
    Reachable (garbage_collect 1 list_machine).2 4 :=
  have hr : Reachable list_machine 4 :=
    Reachable.link (a := 2) (Reachable.root (by decide)) (by decide) (by decide)
  ⟨hr, collect_keeps_reachable 1 list_machine 4 hr⟩

/-- C10: after `garbage_collect`, every address of the allocatable range
`[RESERVED_MEMORY, MEMORY_SIZE)` that was not reachable from the root set lies
in a free block; every maximal run `[s, e)` of such addresses (bounded on
either side by a reachable address or by the end of the allocatable range) is
one single free block; and no two free blocks touch or overlap. -/
theorem collect_frees_unreachable (size : Nat) (vm : VM) :
    (∀ a, RESERVED_MEMORY ≤ a → a < MEMORY_SIZE → ¬ Reachable vm a →
      ∃ b ∈ (garbage_collect size vm).2.free_memory,
        b.start ≤ a ∧ a < b.start + b.size) ∧
    (∀ s e, RESERVED_MEMORY ≤ s → s < e → e ≤ MEMORY_SIZE →
      (∀ x, s ≤ x → x < e → ¬ Reachable vm x) →
      (s = RESERVED_MEMORY ∨ Reachable vm (s - 1)) →
      (e = MEMORY_SIZE ∨ Reachable vm e) →
      ({ size := e - s, start := s } : mem_block) ∈
        (garbage_collect size vm).2.free_memory) ∧
    (garbage_collect size vm).2.free_memory.Pairwise
      (fun b c => b.start + b.size < c.start) := by
  refine ⟨fun a h1 h2 h3 => garbage_collect_covers size vm a h1 h2 h3, ?_, ?_⟩
  · intro s e hs hse he hrun hleft hright
    obtain ⟨b, hb, hb1, hb2⟩ :=
      garbage_collect_covers size vm s hs (by omega) (hrun s (Nat.le_refl _) hse)
    obtain ⟨_, h2, h3, h4, h5, h6⟩ := garbage_collect_block size vm b hb
    have hstart : b.start = s := by
      rcases Nat.lt_or_ge b.start s with hlt | hge
      · rcases hleft with hleft | hleft
        · omega
        · exact absurd hleft (h4 (s - 1) (by omega) (by omega))
      · omega
    have hend : b.start + b.size = e := by
      rcases Nat.lt_trichotomy (b.start + b.size) e with hlt | heq | hgt
      · rcases h5 with h5 | h5
        · omega
        · exact absurd h5 (hrun _ (by omega) hlt)
      · exact heq
      · rcases hright with hright | hright
        · omega
        · exact absurd hright (h4 e (by omega) hgt)
    have hbe : b = { size := e - s, start := s } := by
      cases b with
      | mk bsize bstart =>
        simp only at hstart hend
        subst hstart
        have : bsize = e - bstart := by omega
        rw [this]
    rw [← hbe]
    exact hb
  · have hsorted : (garbage_collect size vm).2.free_memory.Pairwise
        (fun b c => b.start + b.size ≤ c.start) := by
      rw [garbage_collect_free]
      have hM := MEMORY_SIZE_eq
      exact sweep_sorted (mark vm) MEMORY_SIZE (MEMORY_SIZE - RESERVED_MEMORY) none
        (by omega) (fun s hs => by cases hs)
    refine List.Pairwise.imp_of_mem ?_ hsorted
    intro b c hb hc hle
    obtain ⟨_, _, _, _, h5, _⟩ := garbage_collect_block size vm b hb
    obtain ⟨c1, _, c3, c4, _, _⟩ := garbage_collect_block size vm c hc
    rcases Nat.lt_or_ge (b.start + b.size) c.start with hlt | hge
    · exact hlt
    · have heq : b.start + b.size = c.start := by omega
      rcases h5 with h5 | h5
      · omega
      · rw [heq] at h5
        exact absurd h5 (c4 c.start (Nat.le_refl _) (by omega))

/-! ### Allocator -/

theorem apart_symm {a n c m : Nat} (h : apart a n c m) : apart c m a n := by
  unfold apart at *
  omega

theorem apart_sub_right {a n c m c1 m1 : Nat} (h : apart a n c m)
    (h1 : c ≤ c1) (h2 : c1 + m1 ≤ c + m) : apart a n c1 m1 := by
  unfold apart at *
  omega

theorem apart_sub_left {a n c m a1 n1 : Nat} (h : apart a n c m)
    (h1 : a ≤ a1) (h2 : a1 + n1 ≤ a + n) : apart a1 n1 c m := by
  unfold apart at *
  omega

/-- First fit: the address returned is the start of a free block of
sufficient size; every block left on the list lies within a block of the old
list and apart from the range handed out; and the blocks left are still apart
from one another. -/
theorem take_block_spec (size : Nat) : ∀ (free : List mem_block) (a : Nat)
    (free1 : List mem_block),
    free.Pairwise (fun b c => apart b.start b.size c.start c.size) →
    take_block size free = some (a, free1) →
    (∃ b ∈ free, b.start = a ∧ size ≤ b.size) ∧
    (∀ c ∈ free1,
      (∃ b ∈ free, b.start ≤ c.start ∧ c.start + c.size ≤ b.start + b.size) ∧
      apart a size c.start c.size) ∧
    free1.Pairwise (fun b c => apart b.start b.size c.start c.size) := by
  intro free
  induction free with
  | nil => intro a free1 _ h; simp [take_block] at h
  | cons b rest ih =>
    intro a free1 hpw h
    rw [List.pairwise_cons] at hpw
    obtain ⟨hb, hrest⟩ := hpw
    simp only [take_block] at h
    by_cases hfit : size ≤ b.size
    · rw [if_pos hfit] at h
      simp only [Option.some.injEq, Prod.mk.injEq] at h
      obtain ⟨ha, hf⟩ := h
      subst ha
      refine ⟨⟨b, List.mem_cons_self _ _, rfl, hfit⟩, ?_, ?_⟩
      · intro c hc
        rw [← hf] at hc
        by_cases hlt : size < b.size
        · rw [if_pos hlt] at hc
          rcases List.mem_cons.1 hc with hc | hc
          · subst hc
            refine ⟨⟨b, List.mem_cons_self _ _, ?_, ?_⟩, ?_⟩
            · show b.start ≤ b.start + size
              omega
            · show b.start + size + (b.size - size) ≤ b.start + b.size
              omega
            · show apart b.start size (b.start + size) (b.size - size)
              unfold apart; omega
          · exact ⟨⟨c, List.mem_cons_of_mem _ hc, Nat.le_refl _, Nat.le_refl _⟩,
              apart_sub_left (hb c hc) (Nat.le_refl _) (by omega)⟩
        · rw [if_neg hlt] at hc
          exact ⟨⟨c, List.mem_cons_of_mem _ hc, Nat.le_refl _, Nat.le_refl _⟩,
            apart_sub_left (hb c hc) (Nat.le_refl _) (by omega)⟩
      · rw [← hf]
        by_cases hlt : size < b.size
        · rw [if_pos hlt, List.pairwise_cons]
          refine ⟨?_, hrest⟩
          intro c hc
          exact apart_sub_left (hb c hc) (by show b.start ≤ b.start + size; omega)
            (by show b.start + size + (b.size - size) ≤ b.start + b.size; omega)
        · rw [if_neg hlt]
          exact hrest
    · rw [if_neg hfit] at h
      cases ht : take_block size rest with
      | none => rw [ht] at h; cases h
      | some r =>
        obtain ⟨a1, rest1⟩ := r
        rw [ht] at h
        simp only [Option.some.injEq, Prod.mk.injEq] at h
        obtain ⟨ha, hf⟩ := h
        subst ha
        obtain ⟨⟨b1, hb1, hb1s, hb1z⟩, hcs, hpw1⟩ := ih a1 rest1 hrest ht
        refine ⟨⟨b1, List.mem_cons_of_mem _ hb1, hb1s, hb1z⟩, ?_, ?_⟩
        · intro c hc
          rw [← hf] at hc
          rcases List.mem_cons.1 hc with hc | hc
          · subst hc
            refine ⟨⟨c, List.mem_cons_self _ _, Nat.le_refl _, Nat.le_refl _⟩, ?_⟩
            exact apart_symm (apart_sub_right (hb b1 hb1) (by omega) (by omega))
          · obtain ⟨⟨b2, hb2, h1, h2⟩, h3⟩ := hcs c hc
            exact ⟨⟨b2, List.mem_cons_of_mem _ hb2, h1, h2⟩, h3⟩
        · rw [← hf, List.pairwise_cons]
          refine ⟨?_, hpw1⟩
          intro c hc
          obtain ⟨⟨b2, hb2, h1, h2⟩, _⟩ := hcs c hc
          exact apart_sub_right (hb b2 hb2) h1 h2

theorem allocate_now_inv {size : Nat} {vm vm1 : VM} {a : Nat} {live : List (Nat × Nat)}
    (hinv : alloc_inv vm live) (h : allocate_now size vm = some (a, vm1)) :
    alloc_inv vm1 ((a, size) :: live) := by
  obtain ⟨i1, i2, i3, i4, i5, i6, i7⟩ := hinv
  unfold allocate_now at h
  cases ht : take_block size vm.free_memory with
  | some r =>
    obtain ⟨a1, free1⟩ := r
    rw [ht] at h
    simp only [Option.some.injEq, Prod.mk.injEq] at h
    obtain ⟨ha, hvm⟩ := h
    subst ha
    subst hvm
    obtain ⟨⟨b, hb, hbs, hbz⟩, hcs, hpw⟩ := take_block_spec size _ _ _ i4 ht
    have hbb := i3 b hb
    refine ⟨i1, i2, ?_, hpw, ?_, ?_, ?_⟩
    · intro c hc
      obtain ⟨⟨b2, hb2, h1, h2⟩, _⟩ := hcs c hc
      have := i3 b2 hb2
      exact ⟨by omega, by show c.start + c.size ≤ vm.memory_pointer; omega⟩
    · intro r hr
      rcases List.mem_cons.1 hr with hr | hr
      · subst hr
        exact ⟨by show RESERVED_MEMORY ≤ a1; omega,
          by show a1 + size ≤ vm.memory_pointer; omega⟩
      · exact i5 r hr
    · rw [List.pairwise_cons]
      refine ⟨?_, i6⟩
      intro r hr
      exact apart_symm (apart_sub_right (i7 r hr b hb) (by omega) (by omega))
    · intro r hr c hc
      obtain ⟨⟨b2, hb2, h1, h2⟩, h3⟩ := hcs c hc
      rcases List.mem_cons.1 hr with hr | hr
      · subst hr
        exact h3
      · exact apart_sub_right (i7 r hr b2 hb2) h1 h2
  | none =>
    rw [ht] at h
    simp only at h
    split at h
    · rename_i hroom
      simp only [Option.some.injEq, Prod.mk.injEq] at h
      obtain ⟨ha, hvm⟩ := h
      subst ha
      subst hvm
      refine ⟨by show RESERVED_MEMORY ≤ vm.memory_pointer + size; omega, hroom, ?_, i4,
        ?_, ?_, ?_⟩
      · intro c hc
        have := i3 c hc
        exact ⟨this.1, by show c.start + c.size ≤ vm.memory_pointer + size; omega⟩
      · intro r hr
        rcases List.mem_cons.1 hr with hr | hr
        · subst hr
          exact ⟨i1, Nat.le_refl _⟩
        · have := i5 r hr
          exact ⟨this.1, by show r.1 + r.2 ≤ vm.memory_pointer + size; omega⟩
      · rw [List.pairwise_cons]
        refine ⟨?_, i6⟩
        intro r hr
        have := i5 r hr
        show apart vm.memory_pointer size r.1 r.2
        unfold apart; omega
      · intro r hr c hc
        rcases List.mem_cons.1 hr with hr | hr
        · subst hr
          have := i3 c hc
          show apart vm.memory_pointer size c.start c.size
          unfold apart; omega
        · exact i7 r hr c hc
    · cases h

theorem pairwise_erase_apart : ∀ (live : List (Nat × Nat)) (r : Nat × Nat),
    live.Pairwise (fun r t => apart r.1 r.2 t.1 t.2) → r ∈ live →
    ∀ t ∈ live.erase r, apart t.1 t.2 r.1 r.2 := by
  intro live
  induction live with
  | nil => intro r _ hr; cases hr
  | cons h tl ih =>
    intro r hpw hr t ht
    rw [List.pairwise_cons] at hpw
    by_cases hhr : h = r
    · subst hhr
      rw [List.erase_cons_head] at ht
      exact apart_symm (hpw.1 t ht)
    · rw [List.erase_cons_tail (by simpa using hhr)] at ht
      have hrtl : r ∈ tl := by
        rcases List.mem_cons.1 hr with h1 | h1
        · exact absurd h1.symm hhr
        · exact h1
      rcases List.mem_cons.1 ht with h1 | h1
      · subst h1
        exact hpw.1 r hrtl
      · exact ih r hpw.2 hrtl t h1

theorem here_u_go_inv {vm : VM} {a size : Nat} {live : List (Nat × Nat)}
    (hinv : alloc_inv vm live) (hheld : (a, size) ∈ live) :
    alloc_inv (here_u_go a size vm) (live.erase (a, size)) := by
  obtain ⟨i1, i2, i3, i4, i5, i6, i7⟩ := hinv
  have hr := i5 (a, size) hheld
  refine ⟨i1, i2, ?_, ?_, ?_, ?_, ?_⟩
  · intro c hc
    rcases List.mem_cons.1 hc with hc | hc
    · subst hc
      exact hr
    · exact i3 c hc
  · show (({ size := size, start := a } : mem_block) :: vm.free_memory).Pairwise _
    rw [List.pairwise_cons]
    exact ⟨fun c hc => i7 (a, size) hheld c hc, i4⟩
  · intro r hr1
    exact i5 r (List.mem_of_mem_erase hr1)
  · exact List.Pairwise.sublist (List.erase_sublist _ _) i6
  · intro r hr1 c hc
    rcases List.mem_cons.1 hc with hc | hc
    · subst hc
      exact pairwise_erase_apart live (a, size) i6 hheld r hr1
    · exact i7 r (List.mem_of_mem_erase hr1) c hc

theorem garbage_collect_inv {vm : VM} {live : List (Nat × Nat)} (size : Nat)
    (hinv : alloc_inv vm live)
    (hroot : ∀ r ∈ live, ∀ x, r.1 ≤ x → x < r.1 + r.2 → Reachable vm x) :
    alloc_inv (garbage_collect size vm).2 live := by
  obtain ⟨i1, i2, _, _, i5, i6, _⟩ := hinv
  have hM := MEMORY_SIZE_eq
  have hR := RESERVED_MEMORY_eq
  refine ⟨by show RESERVED_MEMORY ≤ MEMORY_SIZE; omega, Nat.le_refl _, ?_, ?_, ?_, i6, ?_⟩
  · intro b hb
    obtain ⟨_, h2, h3, _⟩ := garbage_collect_block size vm b hb
    exact ⟨h2, h3⟩
  · have hsorted : (garbage_collect size vm).2.free_memory.Pairwise
        (fun b c => b.start + b.size ≤ c.start) := by
      rw [garbage_collect_free]
      exact sweep_sorted (mark vm) MEMORY_SIZE (MEMORY_SIZE - RESERVED_MEMORY) none
        (by omega) (fun s hs => by cases hs)
    refine List.Pairwise.imp ?_ hsorted
    intro b c hle
    exact Or.inr (Or.inr (Or.inl hle))
  · intro r hr
    have := i5 r hr
    exact ⟨this.1, by show r.1 + r.2 ≤ MEMORY_SIZE; omega⟩
  · intro r hr b hb
    obtain ⟨_, _, _, h4, _⟩ := garbage_collect_block size vm b hb
    by_contra hnot
    unfold apart at hnot
    rcases Nat.le_total r.1 b.start with hle | hle
    · exact h4 b.start (Nat.le_refl _) (by omega) (hroot r hr b.start hle (by omega))
    · exact h4 r.1 hle (by omega) (hroot r hr r.1 (Nat.le_refl _) (by omega))

theorem pls_give_memory_inv {size : Nat} {vm vm1 : VM} {a : Nat} {live : List (Nat × Nat)}
    (hinv : alloc_inv vm live)
    (hroot : allocate_now size vm = none →
      ∀ r ∈ live, ∀ x, r.1 ≤ x → x < r.1 + r.2 → Reachable vm x)
    (h : pls_give_memory size vm = .ok (a, vm1)) :
    alloc_inv vm1 ((a, size) :: live) := by
  unfold pls_give_memory at h
  cases hnow : allocate_now size vm with
  | some r =>
    rw [hnow] at h
    simp only [Except.ok.injEq] at h
    rw [h] at hnow
    exact allocate_now_inv hinv hnow
  | none =>
    rw [hnow] at h
    simp only at h
    split at h
    · cases hnow2 : allocate_now size (garbage_collect size vm).2 with
      | some r =>
        rw [hnow2] at h
        simp only [Except.ok.injEq] at h
        rw [h] at hnow2
        exact allocate_now_inv (garbage_collect_inv size hinv (hroot hnow)) hnow2
      | none =>
        rw [hnow2] at h
        cases h
    · cases h

theorem alloc_inv_init : alloc_inv init_memory [] := by
  refine ⟨by decide, by decide, ?_, List.Pairwise.nil, ?_, List.Pairwise.nil, ?_⟩
  · intro b hb; cases hb
  · intro r hr; cases hr
  · intro r hr; cases hr

/-- While no address of the scan is marked, an open run stays open to the
end, and the sweep builds the one block that closes it. -/
theorem sweep_open_all_free (marked : List Nat) (hi : Nat) : ∀ (n s : Nat), n ≤ hi →
    (∀ x, hi - n ≤ x → x < hi → x ∉ marked) →
    sweep marked hi n (some s) = [{ size := hi - s, start := s }] := by
  intro n
  induction n with
  | zero => intro s _ _; rfl
  | succ n ih =>
    intro s hn hfree
    have hm : hi - (n + 1) ∉ marked := hfree _ (Nat.le_refl _) (by omega)
    simp only [sweep, if_neg hm]
    exact ih s (by omega) (fun x hx1 hx2 => hfree x (by omega) hx2)

/-- When no address of the scan is marked, the sweep builds one block, the
whole scanned range. -/
theorem sweep_none_all_free (marked : List Nat) (hi n : Nat) (hn : n + 1 ≤ hi)
    (hfree : ∀ x, hi - (n + 1) ≤ x → x < hi → x ∉ marked) :
    sweep marked hi (n + 1) none = [{ size := n + 1, start := hi - (n + 1) }] := by
  have hm : hi - (n + 1) ∉ marked := hfree _ (Nat.le_refl _) (by omega)
  simp only [sweep, if_neg hm]
  rw [sweep_open_all_free marked hi n _ (by omega) (fun x hx1 hx2 => hfree x (by omega) hx2)]
  have : hi - (hi - (n + 1)) = n + 1 := by omega
  rw [this]

theorem garbage_collect_snd (size : Nat) (vm : VM) :
    (garbage_collect size vm).2 =
      { vm with
        free_memory := sweep (mark vm) MEMORY_SIZE (MEMORY_SIZE - RESERVED_MEMORY) none,
        memory_pointer := MEMORY_SIZE } := rfl

theorem garbage_collect_fst (size : Nat) (vm : VM) :
    (garbage_collect size vm).1 = has_memory size (garbage_collect size vm).2 := by
  simp only [garbage_collect]

/-- The return address of a frame sentinel is no root: after
`push_frame("f", 7)` on the initial machine nothing is marked, and a
collection frees the whole allocatable range, address 7 included. -/
theorem frame_sentinel_no_root :
    ∃ vm, push_frame "f" 7 init_memory = .ok vm ∧ mark vm = [] ∧
      (garbage_collect 0 vm).2.free_memory = [{ size := 129059, start := 2 }] := by
  refine ⟨_, rfl, rfl, ?_⟩
  rw [garbage_collect_free]
  have hsweep : sweep [] MEMORY_SIZE (MEMORY_SIZE - RESERVED_MEMORY) none =
      [{ size := 129059, start := 2 }] :=
    sweep_none_all_free [] MEMORY_SIZE 129058 (by decide)
      (fun x _ _ => List.not_mem_nil x)
  exact hsweep

/-! ### Cell access -/

theorem write_memory_out_of_range (location : Nat) (d : data) (vm : VM)
    (h : MEMORY_SIZE ≤ location) : write_memory location d vm = .error Error.AddressOutOfRange := by
  have : ¬ location < MEMORY_SIZE := by omega
  simp [write_memory, this]

theorem get_value_of_address_out_of_range (a : Nat) (vm : VM) (h : MEMORY_SIZE ≤ a) :
    get_value_of_address a vm = .error Error.AddressOutOfRange := by
  have : ¬ a < MEMORY_SIZE := by omega
  simp [get_value_of_address, this]

/-- C11, at the failing input: called with the arguments 129061 and 129062,
`examineMemory` reads `memory[129061]`, one cell past the end of the store of
`MEMORY_SIZE = 129061` cells.  `native_call` has popped the two arguments and
reaches that read with nothing reported and the process running: no
`AddressOutOfRange` failure occurs, the access goes outside the store, and
what the C code does from there on is not defined. -/
theorem native_examineMemory_out_of_range :
    native_examineMemory_reads [data.Number 129061, data.Number 129062] = [129061] ∧
    (MEMORY_SIZE : Int) ≤ 129061 ∧
    (∀ memory : Nat → data,
      native_examineMemory memory [data.Number 129061, data.Number 129062] =
        .error (native_fault.memory_read 129061)) ∧
    ∃ h1, native_call "examineMemory" 2 examine_host =
        .error (native_fault.memory_read 129061, h1) ∧
      h1.reported = [] ∧ h1.exit_status = none ∧ h1.vm.arg_pointer = 0 :=
  ⟨by decide, by decide, fun _ => rfl, _, rfl, rfl, rfl, rfl⟩

/-! ### Free space -/

theorem take_block_some_iff (size : Nat) : ∀ free : List mem_block,
    (∃ r, take_block size free = some r) ↔ ∃ b ∈ free, size ≤ b.size := by
  intro free
  induction free with
  | nil => simp [take_block]
  | cons b rest ih =>
    simp only [take_block]
    by_cases hfit : size ≤ b.size
    · simp only [if_pos hfit]
      exact ⟨fun _ => ⟨b, List.mem_cons_self _ _, hfit⟩, fun _ => ⟨_, rfl⟩⟩
    · simp only [if_neg hfit]
      constructor
      · rintro ⟨r, hr⟩
        cases ht : take_block size rest with
        | none => rw [ht] at hr; cases hr
        | some r1 =>
          obtain ⟨c, hc, hcs⟩ := ih.1 ⟨r1, ht⟩
          exact ⟨c, List.mem_cons_of_mem _ hc, hcs⟩
      · rintro ⟨c, hc, hcs⟩
        rcases List.mem_cons.1 hc with h1 | h1
        · subst h1; exact absurd hcs hfit
        · obtain ⟨r1, hr1⟩ := ih.2 ⟨c, h1, hcs⟩
          rw [hr1]
          exact ⟨_, rfl⟩

theorem has_memory_true_iff (size : Nat) (vm : VM) :
    has_memory size vm = true ↔
      ((∃ b ∈ vm.free_memory, size ≤ b.size) ∨ vm.memory_pointer + size ≤ MEMORY_SIZE) := by
  simp [has_memory]

theorem allocate_now_some_iff (size : Nat) (vm : VM) :
    (∃ r, allocate_now size vm = some r) ↔
      ((∃ b ∈ vm.free_memory, size ≤ b.size) ∨ vm.memory_pointer + size ≤ MEMORY_SIZE) := by
  rw [← take_block_some_iff]
  unfold allocate_now
  cases ht : take_block size vm.free_memory with
  | some r =>
    exact ⟨fun _ => Or.inl ⟨r, rfl⟩, fun _ => ⟨_, rfl⟩⟩
  | none =>
    simp only
    by_cases hroom : vm.memory_pointer + size ≤ MEMORY_SIZE
    · simp only [if_pos hroom]
      exact ⟨fun _ => Or.inr hroom, fun _ => ⟨_, rfl⟩⟩
    · simp only [if_neg hroom]
      constructor
      · rintro ⟨r, hr⟩; cases hr
      · rintro (⟨r, hr⟩ | h)
        · cases hr
        · exact absurd h hroom

/-- C13: `has_memory(size)` returns true exactly when some free block has at
least `size` cells or the bump region has at least `size` cells left before
`MEMORY_SIZE`; and that is exactly when an allocation of `size` cells can be
satisfied at once, without a collection. -/
theorem has_memory_iff (size : Nat) (vm : VM) :
    (has_memory size vm = true ↔
      ((∃ b ∈ vm.free_memory, size ≤ b.size) ∨ vm.memory_pointer + size ≤ MEMORY_SIZE)) ∧
    (has_memory size vm = true ↔ ∃ r, allocate_now size vm = some r) :=
  ⟨has_memory_true_iff size vm,
   (has_memory_true_iff size vm).trans (allocate_now_some_iff size vm).symm⟩

/-- C14: `garbage_collect(size)` returns true exactly when, after the
collection, an allocation of `size` cells can be satisfied; that is, when
`size` is 0 or a free block of at least `size` cells exists; that is, when
`size` is 0 or the allocatable range holds `size` contiguous addresses none of
which was reachable from the root set. -/
theorem garbage_collect_returns (size : Nat) (vm : VM) :
    ((garbage_collect size vm).1 = true ↔
      ∃ r, allocate_now size (garbage_collect size vm).2 = some r) ∧
    ((garbage_collect size vm).1 = true ↔
      (size = 0 ∨ ∃ b ∈ (garbage_collect size vm).2.free_memory, size ≤ b.size)) ∧
    ((garbage_collect size vm).1 = true ↔
      (size = 0 ∨ ∃ s, RESERVED_MEMORY ≤ s ∧ s + size ≤ MEMORY_SIZE ∧
        ∀ x, s ≤ x → x < s + size → ¬ Reachable vm x)) := by
  have hflag : (garbage_collect size vm).1 = true ↔
      (size = 0 ∨ ∃ b ∈ (garbage_collect size vm).2.free_memory, size ≤ b.size) := by
    rw [garbage_collect_fst, has_memory_true_iff]
    have hmp : (garbage_collect size vm).2.memory_pointer = MEMORY_SIZE := rfl
    rw [hmp]
    constructor
    · rintro (h | h)
      · exact Or.inr h
      · exact Or.inl (by omega)
    · rintro (h | h)
      · exact Or.inr (by omega)
      · exact Or.inl h
  refine ⟨?_, hflag, ?_⟩
  · rw [garbage_collect_fst, has_memory_true_iff]
    exact (allocate_now_some_iff size _).symm
  · rw [hflag]
    constructor
    · rintro (h | ⟨b, hb, hbs⟩)
      · exact Or.inl h
      · obtain ⟨_, h2, h3, h4, _, _⟩ := garbage_collect_block size vm b hb
        exact Or.inr ⟨b.start, h2, by omega, fun x hx1 hx2 => h4 x hx1 (by omega)⟩
    · rintro (h | ⟨s, hs1, hs2, hs3⟩)
      · exact Or.inl h
      · rcases Nat.eq_zero_or_pos size with h0 | hpos
        · exact Or.inl h0
        · right
          obtain ⟨b, hb, hb1, hb2⟩ :=
            garbage_collect_covers size vm s hs1 (by omega) (hs3 s (Nat.le_refl _) (by omega))
          obtain ⟨_, _, h3, _, h5, _⟩ := garbage_collect_block size vm b hb
          refine ⟨b, hb, ?_⟩
          rcases Nat.lt_or_ge (b.start + b.size) (s + size) with hlt | hge
          · rcases h5 with h5 | h5
            · omega
            · exact absurd h5 (hs3 _ (by omega) hlt)
          · omega

/-! ### Error reporters (`error.c`) -/

theorem report_error_spec (kind : error_kind) (message : String) (h : Host) :
    (report_error kind message h).exit_status =
      (if h.SETTINGS_STRICT_ERROR then some 1 else h.exit_status) ∧
    (report_error kind message h).reported = h.reported ++ [(kind, message)] ∧
    (report_error kind message h).vm = h.vm ∧
    (report_error kind message h).error_flag = h.error_flag ∧
    (report_error kind message h).SETTINGS_STRICT_ERROR = h.SETTINGS_STRICT_ERROR := by
  unfold report_error
  split <;> exact ⟨rfl, rfl, rfl, rfl, rfl⟩

/-- C16 (as amended): `error_general`, the reporter that prints
`Fatal Error`, ends a running process, with exit status 1, exactly when the
host's `SETTINGS_STRICT_ERROR` flag is set; when the flag is clear it reports
the error and returns control to its caller, leaving the process running. -/
theorem error_general_exits_iff_strict (message : String) (h : Host)
    (halive : h.exit_status = none) :
    ((error_general message h).exit_status = some 1 ↔ h.SETTINGS_STRICT_ERROR = true) ∧
    (h.SETTINGS_STRICT_ERROR = false → (error_general message h).exit_status = none) ∧
    (error_general message h).reported = h.reported ++ [(error_kind.Fatal, message)] := by
  obtain ⟨h1, h2, _⟩ := report_error_spec error_kind.Fatal message h
  refine ⟨?_, ?_, h2⟩
  · unfold error_general
    rw [h1, halive]
    cases h.SETTINGS_STRICT_ERROR <;> simp
  · intro hs
    unfold error_general
    rw [h1, halive, hs]
    rfl

/-- C16, witness: a strict host on the initial machine. -/
theorem error_general_exits_iff_strict_witness :
    ((error_general "out of memory" (init_host true)).exit_status = some 1 ↔
      (init_host true).SETTINGS_STRICT_ERROR = true) ∧
    ((init_host true).SETTINGS_STRICT_ERROR = false →
      (error_general "out of memory" (init_host true)).exit_status = none) ∧
    (error_general "out of memory" (init_host true)).reported =
      (init_host true).reported ++ [(error_kind.Fatal, "out of memory")] :=
  error_general_exits_iff_strict "out of memory" (init_host true) rfl

/-- C16, counterexample: on a host whose `SETTINGS_STRICT_ERROR` flag is clear,
`error_general` reports a fatal condition and returns: the process has not
exited. -/
theorem error_general_returns :
    (init_host false).exit_status = none ∧
    (error_general "out of memory" (init_host false)).exit_status = none ∧
    (error_general "out of memory" (init_host false)).reported =
      [(error_kind.Fatal, "out of memory")] := by
  decide

/-- C17: each of `error_runtime`, `error_lexer` and `error_compile`, called
in a running process, ends it with exit status 1 exactly when the host's
`SETTINGS_STRICT_ERROR` flag is set; when the flag is clear it reports the
error and returns to its caller with the process still running and the machine
untouched. -/
theorem error_runtime_exits_iff_strict (message : String) (h : Host)
    (halive : h.exit_status = none) :
    (((error_runtime message h).exit_status = some 1 ↔ h.SETTINGS_STRICT_ERROR = true) ∧
     ((error_lexer message h).exit_status = some 1 ↔ h.SETTINGS_STRICT_ERROR = true) ∧
     ((error_compile message h).exit_status = some 1 ↔ h.SETTINGS_STRICT_ERROR = true)) ∧
    (h.SETTINGS_STRICT_ERROR = false →
      (error_runtime message h).exit_status = none ∧
      (error_lexer message h).exit_status = none ∧
      (error_compile message h).exit_status = none) ∧
    ((error_runtime message h).reported = h.reported ++ [(error_kind.Runtime, message)] ∧
     (error_lexer message h).reported = h.reported ++ [(error_kind.Parser, message)] ∧
     (error_compile message h).reported = h.reported ++ [(error_kind.Compile, message)]) ∧
    ((error_runtime message h).vm = h.vm ∧ (error_lexer message h).vm = h.vm ∧
     (error_compile message h).vm = h.vm) := by
  have key : ∀ kind, ((report_error kind message h).exit_status = some 1 ↔
      h.SETTINGS_STRICT_ERROR = true) ∧
      (h.SETTINGS_STRICT_ERROR = false → (report_error kind message h).exit_status = none) := by
    intro kind
    obtain ⟨h1, _⟩ := report_error_spec kind message h
    rw [h1, halive]
    cases h.SETTINGS_STRICT_ERROR <;> simp
  exact ⟨⟨(key _).1, (key _).1, (key _).1⟩,
    fun hs => ⟨(key _).2 hs, (key _).2 hs, (key _).2 hs⟩,
    ⟨(report_error_spec _ message h).2.1, (report_error_spec _ message h).2.1,
     (report_error_spec _ message h).2.1⟩,
    ⟨(report_error_spec _ message h).2.2.1, (report_error_spec _ message h).2.2.1,
     (report_error_spec _ message h).2.2.1⟩⟩

/-- C17, witness: a host on the initial machine whose flag is clear. -/
theorem error_runtime_exits_iff_strict_witness :
    (error_runtime "undefined identifier" (init_host false)).exit_status = none ∧
    (error_runtime "undefined identifier" (init_host false)).reported =
      [(error_kind.Runtime, "undefined identifier")] :=
  ⟨((error_runtime_exits_iff_strict "undefined identifier" (init_host false) rfl).2.1 rfl).1,
   (error_runtime_exits_iff_strict "undefined identifier" (init_host false) rfl).2.2.1.1⟩

/-! ### Argument stack underflow -/

theorem same_heap_refl (vm : VM) : same_heap vm vm := ⟨rfl, rfl, rfl⟩

theorem same_heap_trans {vm vm1 vm2 : VM} (h1 : same_heap vm vm1) (h2 : same_heap vm1 vm2) :
    same_heap vm vm2 :=
  ⟨h2.1.trans h1.1, h2.2.1.trans h1.2.1, h2.2.2.trans h1.2.2⟩

theorem zero_reserved_same_heap {vm vm1 : VM} (h : same_heap vm vm1)
    (hz : zero_reserved vm) : zero_reserved vm1 := by
  obtain ⟨h1, h2, h3⟩ := h
  unfold zero_reserved
  rw [h1, h2, h3]
  exact hz

theorem push_entry_heap {e : stack_entry} {vm vm1 : VM} (h : push_entry e vm = .ok vm1) :
    same_heap vm vm1 := by
  unfold push_entry at h
  split at h
  · cases h; exact ⟨rfl, rfl, rfl⟩
  · cases h

theorem pop_frame_heap {is_ret : Bool} {vm vm1 : VM} {r : Bool × Nat}
    (h : pop_frame is_ret vm = .ok (r, vm1)) : same_heap vm vm1 := by
  unfold pop_frame at h
  split at h
  · cases h
  · split at h
    · split at h
      · cases h
      · split at h
        · cases h
        · cases h; exact ⟨rfl, rfl, rfl⟩
    · cases h; exact ⟨rfl, rfl, rfl⟩

theorem copy_entries_heap : ∀ (es : List stack_entry) {vm vm1 : VM},
    copy_entries es vm = .ok vm1 → same_heap vm vm1 := by
  intro es
  induction es with
  | nil => intro vm vm1 h; cases h; exact same_heap_refl _
  | cons se rest ih =>
    intro vm vm1 h
    simp only [copy_entries, copy_stack_entry] at h
    cases hp : push_entry se vm with
    | error e => rw [hp] at h; cases h
    | ok vm2 =>
      rw [hp] at h
      exact same_heap_trans (push_entry_heap hp) (ih h)

theorem unwind_stack_heap : ∀ (fuel : Nat) (vm : VM),
    same_heap vm (unwind_stack fuel vm) := by
  intro fuel
  induction fuel with
  | zero => intro vm; exact same_heap_refl _
  | succ n ih =>
    intro vm
    simp only [unwind_stack]
    cases hp : pop_frame false vm with
    | error e => exact same_heap_refl _
    | ok r =>
      obtain ⟨r1, vm1⟩ := r
      show same_heap vm (unwind_stack n vm1)
      exact same_heap_trans (pop_frame_heap hp) (ih vm1)

theorem take_block_start_pos (size : Nat) : ∀ (free : List mem_block) (a : Nat)
    (free1 : List mem_block), (∀ b ∈ free, 0 < b.start) →
    take_block size free = some (a, free1) → 0 < a ∧ ∀ c ∈ free1, 0 < c.start := by
  intro free
  induction free with
  | nil => intro a free1 _ h; simp [take_block] at h
  | cons b rest ih =>
    intro a free1 hpos h
    have hb := hpos b (List.mem_cons_self _ _)
    have hrest : ∀ c ∈ rest, 0 < c.start := fun c hc => hpos c (List.mem_cons_of_mem _ hc)
    simp only [take_block] at h
    split at h
    · cases h
      refine ⟨hb, ?_⟩
      intro c hc
      split at hc
      · rcases List.mem_cons.1 hc with h1 | h1
        · subst h1; show 0 < b.start + size; omega
        · exact hrest c h1
      · exact hrest c hc
    · cases ht : take_block size rest with
      | none => rw [ht] at h; cases h
      | some r =>
        obtain ⟨a1, rest1⟩ := r
        rw [ht] at h
        cases h
        obtain ⟨h1, h2⟩ := ih a rest1 hrest ht
        refine ⟨h1, ?_⟩
        intro c hc
        rcases List.mem_cons.1 hc with h3 | h3
        · subst h3; exact hb
        · exact h2 c h3

theorem allocate_now_zero {size : Nat} {vm vm1 : VM} {a : Nat}
    (h : allocate_now size vm = some (a, vm1)) (hz : zero_reserved vm) :
    0 < a ∧ zero_reserved vm1 := by
  obtain ⟨hm, hf, hp⟩ := hz
  unfold allocate_now at h
  split at h
  · rename_i a1 free1 ht
    cases h
    obtain ⟨h1, h2⟩ := take_block_start_pos size _ _ _ hf ht
    exact ⟨h1, hm, h2, hp⟩
  · split at h
    · cases h
      exact ⟨hp, hm, hf, Nat.lt_of_lt_of_le hp (Nat.le_add_right _ _)⟩
    · cases h

theorem garbage_collect_zero (size : Nat) {vm : VM} (hz : zero_reserved vm) :
    zero_reserved (garbage_collect size vm).2 := by
  refine ⟨hz.1, ?_, ?_⟩
  · intro b hb
    have h := (garbage_collect_block size vm b hb).2.1
    have hR := RESERVED_MEMORY_eq
    omega
  · show 0 < MEMORY_SIZE
    have := MEMORY_SIZE_eq
    omega

theorem pls_give_memory_zero {size : Nat} {vm vm1 : VM} {a : Nat}
    (h : pls_give_memory size vm = .ok (a, vm1)) (hz : zero_reserved vm) :
    0 < a ∧ zero_reserved vm1 := by
  unfold pls_give_memory at h
  cases h1 : allocate_now size vm with
  | some r =>
    rw [h1] at h
    cases h
    exact allocate_now_zero h1 hz
  | none =>
    rw [h1] at h
    simp only at h
    split at h
    · cases h2 : allocate_now size (garbage_collect size vm).2 with
      | some r =>
        rw [h2] at h
        cases h
        exact allocate_now_zero h2 (garbage_collect_zero size hz)
      | none => rw [h2] at h; cases h
    · cases h

theorem apply_op_zero {op : MemOp} {vm vm1 : VM} (h : apply_op op vm = .ok vm1)
    (hop : respects_zero op) (hz : zero_reserved vm) : zero_reserved vm1 := by
  cases op with
  | push_frame name ret =>
    simp only [apply_op, push_frame] at h
    split at h
    · cases h; exact hz
    · cases h
  | push_auto_frame ret type =>
    simp only [apply_op, push_auto_frame] at h
    split at h
    · cases h; exact hz
    · cases h
  | pop_frame is_ret =>
    simp only [apply_op] at h
    cases hp : pop_frame is_ret vm with
    | error e => rw [hp] at h; cases h
    | ok r =>
      obtain ⟨r1, vm2⟩ := r
      rw [hp] at h
      cases h
      exact zero_reserved_same_heap (pop_frame_heap hp) hz
  | push_stack_entry id val =>
    exact zero_reserved_same_heap (push_entry_heap (show push_entry _ vm = .ok vm1 from h)) hz
  | copy_stack_entry se =>
    exact zero_reserved_same_heap (push_entry_heap (show push_entry _ vm = .ok vm1 from h)) hz
  | overwrite_entry i se =>
    simp only [apply_op] at h
    cases h
    exact hz
  | unwind_stack =>
    simp only [apply_op] at h
    cases h
    exact zero_reserved_same_heap (unwind_stack_heap _ _) hz
  | create_closure =>
    simp only [apply_op] at h
    cases h
    exact hz
  | invoke_closure index =>
    simp only [apply_op, invoke_closure] at h
    split at h
    · exact zero_reserved_same_heap (copy_entries_heap _ h) hz
    · cases h
  | write_memory location d =>
    simp only [apply_op, write_memory] at h
    split at h
    · cases h
      refine ⟨?_, hz.2.1, hz.2.2⟩
      show store vm.memory location d 0 = data.None
      rw [store_other _ _ _ _ (fun h0 => hop h0.symm)]
      exact hz.1
    · cases h
  | pls_give_memory size =>
    simp only [apply_op] at h
    cases hp : pls_give_memory size vm with
    | error e => rw [hp] at h; cases h
    | ok r =>
      obtain ⟨a, vm2⟩ := r
      rw [hp] at h
      cases h
      exact (pls_give_memory_zero hp hz).2
  | here_u_go a size =>
    simp only [apply_op] at h
    cases h
    refine ⟨hz.1, ?_, hz.2.2⟩
    intro b hb
    rcases List.mem_cons.1 hb with h1 | h1
    · subst h1; exact Nat.pos_of_ne_zero hop
    · exact hz.2.1 b h1
  | garbage_collect size =>
    simp only [apply_op] at h
    cases h
    exact garbage_collect_zero size hz
  | push_arg t =>
    simp only [apply_op, push_arg] at h
    split at h
    · cases h; exact hz
    · cases h
  | pop_arg =>
    simp only [apply_op] at h
    cases hp : pop_arg vm with
    | error e => rw [hp] at h; cases h
    | ok r =>
      obtain ⟨t, vm2⟩ := r
      rw [hp] at h
      cases h
      unfold pop_arg at hp
      split at hp
      · cases hp
      · cases hp; exact hz
  | clear_arg_stack =>
    simp only [apply_op] at h
    cases h
    exact hz
  | push_mem_reg memory_register =>
    simp only [apply_op] at h
    cases h
    exact hz
  | pop_mem_reg =>
    simp only [apply_op] at h
    cases hp : pop_mem_reg vm with
    | error e => rw [hp] at h; cases h
    | ok r =>
      obtain ⟨t, vm2⟩ := r
      rw [hp] at h
      cases h
      unfold pop_mem_reg at hp
      split at hp
      · cases hp
      · cases hp; exact hz

theorem run_ops_zero : ∀ (ops : List MemOp) {vm vm1 : VM},
    run_ops ops vm = .ok vm1 → (∀ op ∈ ops, respects_zero op) → zero_reserved vm →
    zero_reserved vm1 := by
  intro ops
  induction ops with
  | nil => intro vm vm1 h _ hz; cases h; exact hz
  | cons op rest ih =>
    intro vm vm1 h hops hz
    simp only [run_ops] at h
    cases hp : apply_op op vm with
    | error e => rw [hp] at h; cases h
    | ok vm2 =>
      rw [hp] at h
      exact ih h (fun o ho => hops o (List.mem_cons_of_mem _ ho))
        (apply_op_zero hp (hops op (List.mem_cons_self _ _)) hz)

theorem zero_reserved_init : zero_reserved init_memory := by
  refine ⟨rfl, ?_, by decide⟩
  intro b hb
  cases hb

/-! ### Runs of the callers of the allocator -/

theorem apply_op_same_free {op : MemOp} {vm vm1 : VM} (h : apply_op op vm = .ok vm1)
    (hop : allocator_op op = false) :
    vm1.free_memory = vm.free_memory ∧ vm1.memory_pointer = vm.memory_pointer := by
  cases op with
  | push_frame name ret =>
    simp only [apply_op, push_frame] at h
    split at h
    · cases h; exact ⟨rfl, rfl⟩
    · cases h
  | push_auto_frame ret type =>
    simp only [apply_op, push_auto_frame] at h
    split at h
    · cases h; exact ⟨rfl, rfl⟩
    · cases h
  | pop_frame is_ret =>
    simp only [apply_op] at h
    cases hp : pop_frame is_ret vm with
    | error e => rw [hp] at h; cases h
    | ok r =>
      obtain ⟨r1, vm2⟩ := r
      rw [hp] at h
      cases h
      exact (pop_frame_heap hp).2
  | push_stack_entry id val =>
    exact (push_entry_heap (show push_entry _ vm = .ok vm1 from h)).2
  | copy_stack_entry se =>
    exact (push_entry_heap (show push_entry _ vm = .ok vm1 from h)).2
  | overwrite_entry i se =>
    simp only [apply_op] at h
    cases h
    exact ⟨rfl, rfl⟩
  | unwind_stack =>
    simp only [apply_op] at h
    cases h
    exact (unwind_stack_heap _ _).2
  | create_closure =>
    simp only [apply_op] at h
    cases h
    exact ⟨rfl, rfl⟩
  | invoke_closure index =>
    simp only [apply_op, invoke_closure] at h
    split at h
    · exact (copy_entries_heap _ h).2
    · cases h
  | write_memory location d =>
    simp only [apply_op, write_memory] at h
    split at h
    · cases h; exact ⟨rfl, rfl⟩
    · cases h
  | pls_give_memory size => cases hop
  | here_u_go a size => cases hop
  | garbage_collect size => cases hop
  | push_arg t =>
    simp only [apply_op, push_arg] at h
    split at h
    · cases h; exact ⟨rfl, rfl⟩
    · cases h
  | pop_arg =>
    simp only [apply_op] at h
    cases hp : pop_arg vm with
    | error e => rw [hp] at h; cases h
    | ok r =>
      obtain ⟨t, vm2⟩ := r
      rw [hp] at h
      cases h
      unfold pop_arg at hp
      split at hp
      · cases hp
      · cases hp; exact ⟨rfl, rfl⟩
  | clear_arg_stack =>
    simp only [apply_op] at h
    cases h
    exact ⟨rfl, rfl⟩
  | push_mem_reg memory_register =>
    simp only [apply_op] at h
    cases h
    exact ⟨rfl, rfl⟩
  | pop_mem_reg =>
    simp only [apply_op] at h
    cases hp : pop_mem_reg vm with
    | error e => rw [hp] at h; cases h
    | ok r =>
      obtain ⟨t, vm2⟩ := r
      rw [hp] at h
      cases h
      unfold pop_mem_reg at hp
      split at hp
      · cases hp
      · cases hp; exact ⟨rfl, rfl⟩

theorem alloc_inv_same_free {vm vm1 : VM} {live : List (Nat × Nat)}
    (h : vm1.free_memory = vm.free_memory ∧ vm1.memory_pointer = vm.memory_pointer)
    (hinv : alloc_inv vm live) : alloc_inv vm1 live := by
  unfold alloc_inv
  rw [h.1, h.2]
  exact hinv

theorem alloc_inv_filter {vm : VM} {live : List (Nat × Nat)} (p : Nat × Nat → Bool)
    (hinv : alloc_inv vm live) : alloc_inv vm (live.filter p) := by
  obtain ⟨i1, i2, i3, i4, i5, i6, i7⟩ := hinv
  exact ⟨i1, i2, i3, i4, fun r hr => i5 r (List.mem_of_mem_filter hr),
    List.Pairwise.sublist (List.filter_sublist _) i6,
    fun r hr => i7 r (List.mem_of_mem_filter hr)⟩

/-- Every address of a range that survives a collection is reachable. -/
theorem range_marked_reachable {vm : VM} {r : Nat × Nat}
    (h : range_marked (mark vm) r = true) :
    ∀ x, r.1 ≤ x → x < r.1 + r.2 → Reachable vm x := by
  intro x h1 h2
  unfold range_marked at h
  rw [List.all_eq_true] at h
  have hx := h x (by rw [List.mem_range']; exact ⟨x - r.1, by omega, by omega⟩)
  exact ((mem_mark vm x).1 (of_decide_eq_true hx)).1

/-- A range that is marked in full survives, and no other. -/
theorem mem_survivors (vm : VM) (live : List (Nat × Nat)) (r : Nat × Nat) :
    r ∈ survivors vm live ↔
      r ∈ live ∧ ∀ x, r.1 ≤ x → x < r.1 + r.2 → Reachable vm x ∧ x < MEMORY_SIZE := by
  unfold survivors range_marked
  rw [List.mem_filter, List.all_eq_true]
  constructor
  · rintro ⟨hr, h⟩
    refine ⟨hr, fun x h1 h2 => ?_⟩
    have hx := h x (by rw [List.mem_range']; exact ⟨x - r.1, by omega, by omega⟩)
    exact (mem_mark vm x).1 (of_decide_eq_true hx)
  · rintro ⟨hr, h⟩
    refine ⟨hr, fun x hx => ?_⟩
    rw [List.mem_range'] at hx
    obtain ⟨i, hi, hxi⟩ := hx
    exact decide_eq_true ((mem_mark vm x).2 (h x (by omega) (by omega)))

theorem garbage_collect_survivors_inv {vm : VM} {live : List (Nat × Nat)} (size : Nat)
    (hinv : alloc_inv vm live) :
    alloc_inv (garbage_collect size vm).2 (survivors vm live) :=
  garbage_collect_inv size (alloc_inv_filter _ hinv)
    (fun _ hr => range_marked_reachable (List.mem_filter.1 hr).2)

theorem client_step_other {op : MemOp} (st : VM × List (Nat × Nat))
    (hop : allocator_op op = false) :
    client_step op st =
      match apply_op op st.1 with
      | .ok vm1 => some (vm1, st.2)
      | .error _ => none := by
  cases op <;> first | rfl | cases hop

/-- A step of the callers is the operation itself on the machine. -/
theorem client_step_apply_op {op : MemOp} {st st1 : VM × List (Nat × Nat)}
    (h : client_step op st = some st1) : apply_op op st.1 = .ok st1.1 := by
  cases hop : allocator_op op with
  | false =>
    rw [client_step_other st hop] at h
    cases hp : apply_op op st.1 with
    | error e => rw [hp] at h; cases h
    | ok vm1 => rw [hp] at h; cases h; rfl
  | true =>
    cases op with
    | pls_give_memory size =>
      simp only [client_step] at h
      cases hp : pls_give_memory size st.1 with
      | error e => rw [hp] at h; cases h
      | ok r =>
        obtain ⟨a, vm1⟩ := r
        rw [hp] at h
        cases h
        simp only [apply_op, hp]
    | here_u_go a size =>
      simp only [client_step] at h
      split at h
      · cases h; rfl
      · cases h
    | garbage_collect size =>
      simp only [client_step] at h
      cases h
      rfl
    | _ => cases hop

theorem client_step_inv {op : MemOp} {st st1 : VM × List (Nat × Nat)}
    (hinv : alloc_inv st.1 st.2) (h : client_step op st = some st1) :
    alloc_inv st1.1 st1.2 := by
  cases hop : allocator_op op with
  | false =>
    rw [client_step_other st hop] at h
    cases hp : apply_op op st.1 with
    | error e => rw [hp] at h; cases h
    | ok vm1 =>
      rw [hp] at h
      cases h
      exact alloc_inv_same_free (apply_op_same_free hp hop) hinv
  | true =>
    cases op with
    | pls_give_memory size =>
      simp only [client_step] at h
      cases hp : pls_give_memory size st.1 with
      | error e => rw [hp] at h; cases h
      | ok r =>
        obtain ⟨a, vm1⟩ := r
        rw [hp] at h
        unfold pls_give_memory at hp
        cases hnow : allocate_now size st.1 with
        | some r2 =>
          rw [hnow] at h hp
          cases h
          simp only [Except.ok.injEq] at hp
          rw [hp] at hnow
          exact allocate_now_inv hinv hnow
        | none =>
          rw [hnow] at h hp
          cases h
          simp only at hp
          split at hp
          · cases hnow2 : allocate_now size (garbage_collect size st.1).2 with
            | some r3 =>
              rw [hnow2] at hp
              simp only [Except.ok.injEq] at hp
              rw [hp] at hnow2
              exact allocate_now_inv (garbage_collect_survivors_inv size hinv) hnow2
            | none => rw [hnow2] at hp; cases hp
          · cases hp
    | here_u_go a size =>
      simp only [client_step] at h
      split at h
      · rename_i hheld
        cases h
        exact here_u_go_inv hinv hheld
      · cases h
    | garbage_collect size =>
      simp only [client_step] at h
      cases h
      exact garbage_collect_survivors_inv size hinv
    | _ => cases hop

theorem run_client_ops_inv : ∀ (ops : List MemOp) (st st1 : VM × List (Nat × Nat)),
    alloc_inv st.1 st.2 → run_client_ops ops st = some st1 → alloc_inv st1.1 st1.2 := by
  intro ops
  induction ops with
  | nil =>
    intro st st1 hinv hrun
    simp only [run_client_ops, Option.some.injEq] at hrun
    rw [← hrun]
    exact hinv
  | cons op ops ih =>
    intro st st1 hinv hrun
    simp only [run_client_ops] at hrun
    cases hstep : client_step op st with
    | none => rw [hstep] at hrun; cases hrun
    | some st2 =>
      rw [hstep] at hrun
      exact ih st2 st1 (client_step_inv hinv hstep) hrun

/-- A step of the callers that is no write to location 0 leaves address 0 to
the machine: a release is of a held range, which lies above the reserved
cells. -/
theorem client_step_respects_zero {op : MemOp} {st st1 : VM × List (Nat × Nat)}
    (hinv : alloc_inv st.1 st.2) (h : client_step op st = some st1)
    (hw : ∀ d, op ≠ MemOp.write_memory 0 d) : respects_zero op := by
  cases op with
  | write_memory location d =>
    show location ≠ 0
    intro h0
    subst h0
    exact hw d rfl
  | here_u_go a size =>
    show a ≠ 0
    simp only [client_step] at h
    split at h
    · rename_i hheld
      have := hinv.2.2.2.2.1 (a, size) hheld
      have hR := RESERVED_MEMORY_eq
      simp only at this
      omega
    · cases h
  | _ => exact True.intro

theorem run_client_ops_zero : ∀ (ops : List MemOp) (st st1 : VM × List (Nat × Nat)),
    alloc_inv st.1 st.2 → zero_reserved st.1 → (∀ d, MemOp.write_memory 0 d ∉ ops) →
    run_client_ops ops st = some st1 → zero_reserved st1.1 := by
  intro ops
  induction ops with
  | nil =>
    intro st st1 _ hz _ hrun
    simp only [run_client_ops, Option.some.injEq] at hrun
    rw [← hrun]
    exact hz
  | cons op ops ih =>
    intro st st1 hinv hz hw hrun
    simp only [run_client_ops] at hrun
    cases hstep : client_step op st with
    | none => rw [hstep] at hrun; cases hrun
    | some st2 =>
      rw [hstep] at hrun
      refine ih st2 st1 (client_step_inv hinv hstep) ?_
        (fun d hd => hw d (List.mem_cons_of_mem _ hd)) hrun
      exact apply_op_zero (client_step_apply_op hstep)
        (client_step_respects_zero hinv hstep
          (fun d hd => hw d (by rw [hd]; exact List.mem_cons_self _ _))) hz

theorem mark_filled_machine : mark filled_machine = [2] := rfl

/-- At a marked address outside a run, the sweep goes on to the next
address. -/
theorem sweep_none_marked (marked : List Nat) (hi n : Nat) (h : hi - (n + 1) ∈ marked) :
    sweep marked hi (n + 1) none = sweep marked hi n none := by
  simp only [sweep, if_pos h]

theorem garbage_collect_filled_machine :
    garbage_collect 1 filled_machine =
      (true, { filled_machine with free_memory := [{ size := 129058, start := 3 }] }) := by
  have hsweep : sweep [2] MEMORY_SIZE (MEMORY_SIZE - RESERVED_MEMORY) none =
      [{ size := 129058, start := 3 }] := by
    have h1 : sweep [2] MEMORY_SIZE (MEMORY_SIZE - RESERVED_MEMORY) none =
        sweep [2] MEMORY_SIZE 129058 none :=
      sweep_none_marked [2] MEMORY_SIZE 129058 (by decide)
    have h2 : sweep [2] MEMORY_SIZE 129058 none = [{ size := 129058, start := 3 }] :=
      sweep_none_all_free [2] MEMORY_SIZE 129057 (by decide)
        (fun x hx _ hmem => by
          have hM := MEMORY_SIZE_eq
          simp only [List.mem_singleton] at hmem
          omega)
    rw [h1, h2]
  have hvm : (garbage_collect 1 filled_machine).2 =
      { filled_machine with free_memory := [{ size := 129058, start := 3 }] } := by
    rw [garbage_collect_snd, mark_filled_machine, hsweep]
    rfl
  have hflag := garbage_collect_fst 1 filled_machine
  rw [hvm] at hflag
  exact Prod.ext hflag hvm

theorem allocate_now_filled_machine : allocate_now 1 filled_machine = none := by
  simp [allocate_now, take_block, init_memory, MEMORY_SIZE, filled_machine]

theorem pls_give_memory_filled_machine :
    pls_give_memory 1 filled_machine = .ok (3, refilled_machine) := by
  unfold pls_give_memory
  rw [allocate_now_filled_machine]
  simp only
  rw [garbage_collect_filled_machine]
  simp [allocate_now, take_block, refilled_machine]

theorem survivors_filled_machine :
    survivors filled_machine [(3, 129058), (2, 1)] = [(2, 1)] := by
  unfold survivors
  rw [mark_filled_machine]
  rfl

/-- An allocation that finds no room: the live ranges after it are the range
returned and the survivors of the collection. -/
theorem client_step_collect (size a : Nat) (vm vm1 : VM) (live : List (Nat × Nat))
    (hp : pls_give_memory size vm = .ok (a, vm1)) (hnow : allocate_now size vm = none) :
    client_step (MemOp.pls_give_memory size) (vm, live) =
      some (vm1, (a, size) :: survivors vm live) := by
  simp only [client_step, hp, hnow]

theorem run_client_ops_cons (op : MemOp) (ops : List MemOp) (st st1 : VM × List (Nat × Nat))
    (h : client_step op st = some st1) :
    run_client_ops (op :: ops) st = run_client_ops ops st1 := by
  simp only [run_client_ops, h]

/-- The run of the allocator example: the last allocation finds no room, the
collection frees the range `(3, 129058)`, which no root refers to, and keeps
the range `(2, 1)`, to which the variable `x` is bound; the allocation then
returns address 3. -/
theorem allocator_example_run :
    run_client_ops allocator_example (init_memory, []) =
      some (refilled_machine, [(3, 1), (2, 1)]) := by
  have s1 : client_step (MemOp.pls_give_memory 1) (init_memory, []) =
      some ({ init_memory with memory_pointer := 3 }, [(2, 1)]) := rfl
  have s2 : client_step (MemOp.push_stack_entry "x" 2)
      ({ init_memory with memory_pointer := 3 }, [(2, 1)]) =
      some ({ init_memory with
        call_stack := store init_memory.call_stack 1
          { id := "x", val := 2, is_closure := false,
            tag := frame_tag.variable, enclosing := 0 },
        stack_pointer := 2,
        memory_pointer := 3 }, [(2, 1)]) := rfl
  have s3 : client_step (MemOp.pls_give_memory 129058)
      ({ init_memory with
        call_stack := store init_memory.call_stack 1
          { id := "x", val := 2, is_closure := false,
            tag := frame_tag.variable, enclosing := 0 },
        stack_pointer := 2,
        memory_pointer := 3 }, [(2, 1)]) =
      some (filled_machine, [(3, 129058), (2, 1)]) := rfl
  have s4 : client_step (MemOp.pls_give_memory 1) (filled_machine, [(3, 129058), (2, 1)]) =
      some (refilled_machine, [(3, 1), (2, 1)]) := by
    rw [client_step_collect 1 3 _ _ _ pls_give_memory_filled_machine
      allocate_now_filled_machine, survivors_filled_machine]
  rw [allocator_example, run_client_ops_cons _ _ _ _ s1, run_client_ops_cons _ _ _ _ s2,
    run_client_ops_cons _ _ _ _ s3, run_client_ops_cons _ _ _ _ s4, run_client_ops]

/-- C8: along every sequence of calls of the memory module from the initial
machine in which callers release only ranges they currently hold, the live
allocated ranges (those handed out by `pls_give_memory` and since then neither
released nor reclaimed by a collection) are such that no address belongs to
two of them, every live range `(a, n)` satisfies `1 ≤ a` and
`a + n ≤ MEMORY_SIZE`, and no address of a live range is free: it lies below
the bump pointer and in no free block.  Every allocation request that
succeeds after the sequence returns an address `a` with `1 ≤ a` and
`a + size ≤ MEMORY_SIZE`. -/
theorem alloc_safety (ops : List MemOp) (vm : VM) (live : List (Nat × Nat))
    (hrun : run_client_ops ops (init_memory, []) = some (vm, live)) :
    live.Pairwise (fun r t =>
      ∀ x, ¬ (r.1 ≤ x ∧ x < r.1 + r.2 ∧ t.1 ≤ x ∧ x < t.1 + t.2)) ∧
    (∀ r ∈ live, 1 ≤ r.1 ∧ r.1 + r.2 ≤ MEMORY_SIZE) ∧
    (∀ r ∈ live, r.1 + r.2 ≤ vm.memory_pointer ∧
      ∀ b ∈ vm.free_memory, ∀ x,
        ¬ (r.1 ≤ x ∧ x < r.1 + r.2 ∧ b.start ≤ x ∧ x < b.start + b.size)) ∧
    (∀ (size a : Nat) (vm1 : VM), pls_give_memory size vm = .ok (a, vm1) →
      1 ≤ a ∧ a + size ≤ MEMORY_SIZE) := by
  have hinv := run_client_ops_inv ops (init_memory, []) (vm, live) alloc_inv_init hrun
  have ⟨_, i2, _, _, i5, i6, i7⟩ := hinv
  have hR := RESERVED_MEMORY_eq
  refine ⟨?_, ?_, ?_, ?_⟩
  · refine List.Pairwise.imp ?_ i6
    intro r t hap x hx
    unfold apart at hap
    omega
  · intro r hr
    have := i5 r hr
    simp only at this i2
    omega
  · intro r hr
    refine ⟨(i5 r hr).2, ?_⟩
    intro b hb x hx
    have hap := i7 r hr b hb
    unfold apart at hap
    omega
  · intro size a vm1 hp
    have hstep : client_step (MemOp.pls_give_memory size) (vm, live) =
        some (vm1, (a, size) ::
          (match allocate_now size vm with
           | some _ => live
           | none => survivors vm live)) := by
      simp only [client_step, hp]
    obtain ⟨_, j2, _, _, j5, _, _⟩ := client_step_inv hinv hstep
    have := j5 (a, size) (List.mem_cons_self _ _)
    simp only at this j2
    omega

/-- C8, witness: on the initial machine, an allocation of one cell, the
declaration of a variable bound to it, an allocation of the rest of the
address space, and an allocation of one more cell.  The last call invokes the
collector, which reclaims the second range and keeps the first; the two live
ranges are then `(3, 1)` and `(2, 1)`. -/
theorem alloc_safety_witness :
    [((3 : Nat), (1 : Nat)), (2, 1)].Pairwise (fun r t =>
      ∀ x, ¬ (r.1 ≤ x ∧ x < r.1 + r.2 ∧ t.1 ≤ x ∧ x < t.1 + t.2)) ∧
    (∀ r ∈ [((3 : Nat), (1 : Nat)), (2, 1)], 1 ≤ r.1 ∧ r.1 + r.2 ≤ MEMORY_SIZE) ∧
    (∀ r ∈ [((3 : Nat), (1 : Nat)), (2, 1)], r.1 + r.2 ≤ refilled_machine.memory_pointer ∧
      ∀ b ∈ refilled_machine.free_memory, ∀ x,
        ¬ (r.1 ≤ x ∧ x < r.1 + r.2 ∧ b.start ≤ x ∧ x < b.start + b.size)) :=
  have h := alloc_safety allocator_example refilled_machine [(3, 1), (2, 1)]
    allocator_example_run
  ⟨h.1, h.2.1, h.2.2.1⟩

/-- Address 0 under callers that never write to it: in every machine state
reached from the initial one by a run of the callers in which no
`write_memory` names location 0 (a release is of a held range, and every held
range lies above the reserved cells), address 0 holds the None value, no free
block covers address 0, no live range contains address 0, and every allocation
request that succeeds returns an address above 0 and leaves a state of the
same kind. -/
theorem address_zero_reserved (ops : List MemOp) (vm : VM) (live : List (Nat × Nat))
    (hops : ∀ d, MemOp.write_memory 0 d ∉ ops)
    (hrun : run_client_ops ops (init_memory, []) = some (vm, live)) :
    vm.memory 0 = data.None ∧
    (∀ b ∈ vm.free_memory, ¬ (b.start ≤ 0 ∧ 0 < b.start + b.size)) ∧
    (∀ r ∈ live, ¬ (r.1 ≤ 0 ∧ 0 < r.1 + r.2)) ∧
    (∀ (size a : Nat) (vm1 : VM), pls_give_memory size vm = .ok (a, vm1) →
      ¬ (a ≤ 0 ∧ 0 < a + size) ∧ 0 < a ∧ zero_reserved vm1) := by
  have hz := run_client_ops_zero ops (init_memory, []) (vm, live) alloc_inv_init
    zero_reserved_init hops hrun
  have hinv := run_client_ops_inv ops (init_memory, []) (vm, live) alloc_inv_init hrun
  have hR := RESERVED_MEMORY_eq
  refine ⟨hz.1, ?_, ?_, ?_⟩
  · intro b hb hcov
    have := hz.2.1 b hb
    omega
  · intro r hr hcov
    have := hinv.2.2.2.2.1 r hr
    omega
  · intro size a vm1 h
    obtain ⟨h1, h2⟩ := pls_give_memory_zero h hz
    exact ⟨fun hcov => by omega, h1, h2⟩

namespace ast

theorem bind_ok {α β : Type} {x : Parse α} {f : α → Parse β} {st st1 : ParseState} {a : α}
    (h : x st = .ok (a, st1)) : (x >>= f) st = f a st1 := by
  show Parse.bind x f st = f a st1
  unfold Parse.bind
  rw [h]

theorem bind_error {α β : Type} {x : Parse α} {f : α → Parse β} {st : ParseState} {e : Stop}
    (h : x st = .error e) : (x >>= f) st = .error e := by
  show Parse.bind x f st = .error e
  unfold Parse.bind
  rw [h]

theorem pure_apply {α : Type} (a : α) (st : ParseState) :
    (pure a : Parse α) st = .ok (a, st) := rfl

theorem at_index_tokens (st : ParseState) (i : Int) : (at_index st i).tokens = st.tokens := rfl

theorem at_index_curr (st : ParseState) (i : Int) : (at_index st i).curr_index = i := rfl

theorem at_index_at_index (st : ParseState) (i j : Int) :
    at_index (at_index st i) j = at_index st j := rfl

theorem at_index_thrown (st : ParseState) (i : Int) :
    (at_index st i).error_thrown = st.error_thrown := rfl

theorem at_index_host (st : ParseState) (i : Int) : (at_index st i).host = st.host := rfl

theorem read_token_at (st : ParseState) (i : Nat) (t : token)
    (h : st.tokens.get? i = some t) : read_token (i : Int) st = .ok (t, st) := by
  unfold read_token
  rw [if_pos (Int.ofNat_nonneg i), Int.toNat_ofNat, h]

theorem is_at_end_at (st : ParseState) (i : Nat) :
    is_at_end (at_index st i) = .ok (decide (i = st.tokens.length), at_index st i) := by
  unfold is_at_end
  simp [at_index]

theorem peek_at (st : ParseState) (i : Nat) (t : token) (h : st.tokens.get? i = some t) :
    peek (at_index st i) = .ok (t, at_index st i) :=
  read_token_at (at_index st i) i t h

theorem previous_at (st : ParseState) (i : Nat) (t : token) (h : st.tokens.get? i = some t) :
    previous (at_index st ((i : Int) + 1)) = .ok (t, at_index st ((i : Int) + 1)) := by
  unfold previous
  rw [at_index_curr, Int.add_sub_cancel]
  exact read_token_at (at_index st _) i t h

theorem advance_at (st : ParseState) (i : Nat) (t : token) (h : st.tokens.get? i = some t) :
    advance (at_index st i) = .ok (t, at_index st ((i : Int) + 1)) := by
  have hlt : i < st.tokens.length := (List.get?_eq_some.1 h).1
  have hne : decide (i = st.tokens.length) = false := by simp; omega
  unfold advance
  rw [bind_ok (is_at_end_at st i), hne]
  simp only [Bool.false_eq_true, if_false]
  have h1 : get_curr_index (at_index st i) = .ok ((i : Int), at_index st i) := rfl
  rw [bind_ok h1]
  have h2 : set_curr_index ((i : Int) + 1) (at_index st i) =
      .ok ((), at_index st ((i : Int) + 1)) := rfl
  rw [bind_ok h2]
  exact previous_at st i t h

theorem check_at (st : ParseState) (i : Nat) (t : token) (h : st.tokens.get? i = some t)
    (ty : token_type) :
    check ty (at_index st i) = .ok (decide (t.t_type = ty), at_index st i) := by
  have hlt : i < st.tokens.length := (List.get?_eq_some.1 h).1
  have hne : decide (i = st.tokens.length) = false := by simp; omega
  unfold check
  rw [bind_ok (is_at_end_at st i), hne]
  simp only [Bool.false_eq_true, if_false]
  rw [bind_ok (peek_at st i t h)]
  rfl

theorem check_end (st : ParseState) (i : Nat) (h : i = st.tokens.length) (ty : token_type) :
    check ty (at_index st i) = .ok (false, at_index st i) := by
  have hne : decide (i = st.tokens.length) = true := by simp [h]
  unfold check
  rw [bind_ok (is_at_end_at st i), hne]
  rfl

theorem fnmatch_end (st : ParseState) (i : Nat) (h : i = st.tokens.length) :
    ∀ types : List token_type, fnmatch types (at_index st i) = .ok (false, at_index st i) := by
  intro types
  induction types with
  | nil => rfl
  | cons ty rest ih =>
    unfold fnmatch
    rw [bind_ok (check_end st i h ty)]
    simpa using ih

theorem fnmatch_skip (st : ParseState) (i : Nat) (t : token)
    (h : st.tokens.get? i = some t) :
    ∀ types : List token_type, t.t_type ∉ types →
      fnmatch types (at_index st i) = .ok (false, at_index st i) := by
  intro types
  induction types with
  | nil => intro _; rfl
  | cons ty rest ih =>
    intro hn
    have h1 : decide (t.t_type = ty) = false := by
      simp only [decide_eq_false_iff_not]
      exact fun he => hn (he ▸ List.mem_cons_self _ _)
    unfold fnmatch
    rw [bind_ok (check_at st i t h ty), h1]
    simpa using ih (fun hm => hn (List.mem_cons_of_mem _ hm))

theorem fnmatch_take (st : ParseState) (i : Nat) (t : token)
    (h : st.tokens.get? i = some t) :
    ∀ types : List token_type, t.t_type ∈ types →
      fnmatch types (at_index st i) = .ok (true, at_index st ((i : Int) + 1)) := by
  intro types
  induction types with
  | nil => intro hm; cases hm
  | cons ty rest ih =>
    intro hm
    unfold fnmatch
    rw [bind_ok (check_at st i t h ty)]
    by_cases he : t.t_type = ty
    · have h1 : decide (t.t_type = ty) = true := by simp [he]
      rw [h1]
      simp only [if_true]
      rw [bind_ok (advance_at st i t h)]
      rfl
    · have h1 : decide (t.t_type = ty) = false := by simp [he]
      rw [h1]
      rcases List.mem_cons.1 hm with h2 | h2
      · exact absurd h2 he
      · simpa using ih h2

end ast

/-! ### Parser: operands and binary levels -/

namespace ast

theorem binary_loop_end (types : List token_type) (next : Parse expr) (fuel : Nat)
    (left : expr) (st : ParseState) (i : Nat) (h : i = st.tokens.length) :
    binary_loop types next (fuel + 1) left (at_index st i) = .ok (left, at_index st i) := by
  unfold binary_loop
  rw [bind_ok (fnmatch_end st i h types)]
  rfl

theorem binary_loop_skip (types : List token_type) (next : Parse expr) (fuel : Nat)
    (left : expr) (st : ParseState) (i : Nat) (t : token)
    (h : st.tokens.get? i = some t) (hn : t.t_type ∉ types) :
    binary_loop types next (fuel + 1) left (at_index st i) = .ok (left, at_index st i) := by
  unfold binary_loop
  rw [bind_ok (fnmatch_skip st i t h types hn)]
  rfl

theorem binary_loop_take (types : List token_type) (next : Parse expr) (fuel : Nat)
    (left right : expr) (st st2 : ParseState) (i : Nat) (t : token)
    (h : st.tokens.get? i = some t) (hm : t.t_type ∈ types)
    (hnext : next (at_index st ((i : Int) + 1)) = .ok (right, st2)) :
    binary_loop types next (fuel + 1) left (at_index st i) =
      binary_loop types next fuel (expr.E_BINARY left t right) st2 := by
  conv => lhs; unfold binary_loop
  rw [bind_ok (fnmatch_take st i t h types hm)]
  simp only [if_true]
  rw [bind_ok (previous_at st i t h), bind_ok hnext]
  rfl

/-- The token at `i` is a literal and the token after it, if any, opens no
access: `unary()` returns the literal and stands after it. -/
theorem unary_operand (st : ParseState) (i : Nat) (t : token)
    (h : st.tokens.get? i = some t) (hlit : t.t_type ∈ literal_types)
    (hnext : ∀ u, st.tokens.get? (i + 1) = some u →
      u.t_type ∉ [token_type.T_LEFT_BRACK, token_type.T_DOT, token_type.T_LEFT_PAREN])
    (fuel : Nat) :
    unary (fuel + 3) (at_index st i) =
      .ok (expr.E_LITERAL t, at_index st ((i : Int) + 1)) := by
  have hnu : t.t_type ∉ [token_type.T_MINUS, token_type.T_NOT, token_type.T_TILDE] := by
    intro hm
    revert hlit
    generalize t.t_type = ty at hm
    fin_cases hm <;> decide
  have hprim : primary (fuel + 1) (at_index st i) =
      .ok (expr.E_LITERAL t, at_index st ((i : Int) + 1)) := by
    have hlit1 : t.t_type ∈ [token_type.T_STRING, token_type.T_NUMBER, token_type.T_TRUE,
        token_type.T_FALSE, token_type.T_NONE, token_type.T_IDENTIFIER,
        token_type.T_OBJ_TYPE] := hlit
    unfold primary
    rw [bind_ok (fnmatch_take st i t h _ hlit1)]
    simp only [if_true]
    rw [bind_ok (previous_at st i t h)]
    rfl
  have hloop : access_loop (fuel + 1) (expr.E_LITERAL t) (at_index st ((i : Int) + 1)) =
      .ok (expr.E_LITERAL t, at_index st ((i : Int) + 1)) := by
    unfold access_loop
    have hcast : ((i : Int) + 1) = ((i + 1 : Nat) : Int) := by push_cast; rfl
    rw [hcast]
    cases hg : st.tokens.get? (i + 1) with
    | none =>
      have hlt : i < st.tokens.length := (List.get?_eq_some.1 h).1
      have hge := List.get?_eq_none.1 hg
      rw [bind_ok (fnmatch_end st (i + 1) (by omega) _)]
      rfl
    | some u =>
      rw [bind_ok (fnmatch_skip st (i + 1) u hg _ (hnext u hg))]
      rfl
  have hacc : access (fuel + 2) (at_index st i) =
      .ok (expr.E_LITERAL t, at_index st ((i : Int) + 1)) := by
    unfold access
    rw [bind_ok hprim]
    exact hloop
  unfold unary
  rw [bind_ok (fnmatch_skip st i t h _ hnu)]
  exact hacc

theorem level_succ (d : Nat) (hd : d < 6) (fuel : Nat) :
    level (d + 1) (fuel + 1) =
      (level d fuel >>= fun left =>
        binary_loop (level_types (d + 1)) (level d fuel) fuel left) := by
  interval_cases d
  · show factor (fuel + 1) = _
    unfold factor; rfl
  · show term (fuel + 1) = _
    unfold term; rfl
  · show range (fuel + 1) = _
    unfold range; rfl
  · show comparison (fuel + 1) = _
    unfold comparison; rfl
  · show ast.and (fuel + 1) = _
    unfold ast.and; rfl
  · show ast.or (fuel + 1) = _
    unfold ast.or; rfl

theorem rank_spec : ∀ t ∈ infix_operators, ∀ d < 6,
    (1 ≤ rank t ∧ rank t ≤ 6) ∧ (t ∈ level_types (d + 1) ↔ rank t = d + 1) := by
  decide

theorem rank_precedence : ∀ ta ∈ infix_operators, ∀ tb ∈ infix_operators,
    (precedence (make_token tb (make_data_str "")) ≤
      precedence (make_token ta (make_data_str "")) ↔ rank ta ≤ rank tb) := by
  decide

theorem precedence_type (op : token) :
    precedence op = precedence (make_token op.t_type (make_data_str "")) := rfl

theorem infix_not_access : ∀ t ∈ infix_operators,
    t ∉ [token_type.T_LEFT_BRACK, token_type.T_DOT, token_type.T_LEFT_PAREN] := by
  decide

/-- The loop of a binary level on the five tokens `x a y b z`, at the
positions of `a`, of `b` and of the end. -/
theorem binary_loop_five (st : ParseState) (x a y b z : token)
    (ht : st.tokens = [x, a, y, b, z]) (types : List token_type) (next : Parse expr)
    (fuel : Nat) (left : expr) :
    (binary_loop types next (fuel + 1) left (at_index st 5) = .ok (left, at_index st 5)) ∧
    (a.t_type ∉ types →
      binary_loop types next (fuel + 1) left (at_index st 1) = .ok (left, at_index st 1)) ∧
    (b.t_type ∉ types →
      binary_loop types next (fuel + 1) left (at_index st 3) = .ok (left, at_index st 3)) ∧
    (∀ right st2, a.t_type ∈ types → next (at_index st 2) = .ok (right, st2) →
      binary_loop types next (fuel + 1) left (at_index st 1) =
        binary_loop types next fuel (expr.E_BINARY left a right) st2) ∧
    (∀ right st2, b.t_type ∈ types → next (at_index st 4) = .ok (right, st2) →
      binary_loop types next (fuel + 1) left (at_index st 3) =
        binary_loop types next fuel (expr.E_BINARY left b right) st2) := by
  have h1 : st.tokens.get? 1 = some a := by rw [ht]; rfl
  have h3 : st.tokens.get? 3 = some b := by rw [ht]; rfl
  have h5 : 5 = st.tokens.length := by rw [ht]; rfl
  exact ⟨binary_loop_end types next fuel left st 5 h5,
    fun hn => binary_loop_skip types next fuel left st 1 a h1 hn,
    fun hn => binary_loop_skip types next fuel left st 3 b h3 hn,
    fun right st2 hm hnext => binary_loop_take types next fuel left right st st2 1 a h1 hm hnext,
    fun right st2 hm hnext => binary_loop_take types next fuel left right st st2 3 b h3 hm hnext⟩

/-- On the five tokens `x a y b z`, `unary()` at an operand returns its
literal. -/
theorem unary_five (st : ParseState) (x a y b z : token)
    (ht : st.tokens = [x, a, y, b, z])
    (hx : x.t_type ∈ literal_types) (hy : y.t_type ∈ literal_types)
    (hz : z.t_type ∈ literal_types)
    (ha : a.t_type ∈ infix_operators) (hb : b.t_type ∈ infix_operators) (fuel : Nat) :
    unary (fuel + 3) (at_index st 0) = .ok (expr.E_LITERAL x, at_index st 1) ∧
    unary (fuel + 3) (at_index st 2) = .ok (expr.E_LITERAL y, at_index st 3) ∧
    unary (fuel + 3) (at_index st 4) = .ok (expr.E_LITERAL z, at_index st 5) := by
  have h0 : st.tokens.get? 0 = some x := by rw [ht]; rfl
  have h2 : st.tokens.get? 2 = some y := by rw [ht]; rfl
  have h4 : st.tokens.get? 4 = some z := by rw [ht]; rfl
  refine ⟨unary_operand st 0 x h0 hx ?_ fuel, unary_operand st 2 y h2 hy ?_ fuel,
    unary_operand st 4 z h4 hz ?_ fuel⟩
  · intro u hu
    rw [ht] at hu
    cases hu
    exact infix_not_access _ ha
  · intro u hu
    rw [ht] at hu
    cases hu
    exact infix_not_access _ hb
  · intro u hu
    rw [ht] at hu
    cases hu

/-- On the five tokens `x a y b z`, every level from `unary` to `or` returns
the literal of `z` at `z`. -/
theorem level_z (st : ParseState) (x a y b z : token)
    (ht : st.tokens = [x, a, y, b, z])
    (hx : x.t_type ∈ literal_types) (hy : y.t_type ∈ literal_types)
    (hz : z.t_type ∈ literal_types)
    (ha : a.t_type ∈ infix_operators) (hb : b.t_type ∈ infix_operators) :
    ∀ d, d ≤ 6 → ∀ fuel,
      level d (fuel + d + 3) (at_index st 4) = .ok (expr.E_LITERAL z, at_index st 5) := by
  intro d
  induction d with
  | zero => intro _ fuel; exact (unary_five st x a y b z ht hx hy hz ha hb fuel).2.2
  | succ d ih =>
    intro hd fuel
    have hN : fuel + (d + 1) + 3 = (fuel + d + 3) + 1 := by omega
    rw [hN, level_succ d (by omega), bind_ok (ih (by omega) fuel)]
    exact (binary_loop_five st x a y b z ht _ _ (fuel + d + 2) _).1

/-- On the five tokens `x a y b z`, the level at depth `d` returns at `y` the
binary node `y b z` if the level of `b` is at most `d`, and the literal of `y`
otherwise. -/
theorem level_y (st : ParseState) (x a y b z : token)
    (ht : st.tokens = [x, a, y, b, z])
    (hx : x.t_type ∈ literal_types) (hy : y.t_type ∈ literal_types)
    (hz : z.t_type ∈ literal_types)
    (ha : a.t_type ∈ infix_operators) (hb : b.t_type ∈ infix_operators) :
    ∀ d, d ≤ 6 → ∀ fuel,
      level d (fuel + d + 3) (at_index st 2) =
        .ok (if rank b.t_type ≤ d then
              (expr.E_BINARY (expr.E_LITERAL y) b (expr.E_LITERAL z), at_index st 5)
             else (expr.E_LITERAL y, at_index st 3)) := by
  intro d
  induction d with
  | zero =>
    intro _ fuel
    have hr := (rank_spec _ hb 0 (by decide)).1.1
    rw [if_neg (by omega)]
    exact (unary_five st x a y b z ht hx hy hz ha hb fuel).2.1
  | succ d ih =>
    intro hd fuel
    have hN : fuel + (d + 1) + 3 = (fuel + d + 3) + 1 := by omega
    have hmem := (rank_spec _ hb d (by omega)).2
    have IH := ih (by omega) fuel
    have hZ := level_z st x a y b z ht hx hy hz ha hb d (by omega) fuel
    rw [hN, level_succ d (by omega)]
    by_cases h1 : rank b.t_type ≤ d
    · rw [if_pos h1] at IH
      rw [bind_ok IH, if_pos (by omega)]
      exact (binary_loop_five st x a y b z ht _ _ (fuel + d + 2) _).1
    · rw [if_neg h1] at IH
      rw [bind_ok IH]
      by_cases h2 : rank b.t_type = d + 1
      · rw [if_pos (by omega)]
        have hstep := (binary_loop_five st x a y b z ht (level_types (d + 1))
          (level d (fuel + d + 3)) (fuel + d + 2) (expr.E_LITERAL y)).2.2.2.2 _ _
          (hmem.2 h2) hZ
        rw [show fuel + d + 3 = fuel + d + 2 + 1 from rfl] at hstep ⊢
        rw [hstep]
        exact (binary_loop_five st x a y b z ht _ _ (fuel + d + 1) _).1
      · rw [if_neg (by omega)]
        exact (binary_loop_five st x a y b z ht _ _ (fuel + d + 2) _).2.2.1
          (fun hm => h2 (hmem.1 hm))

/-- On the five tokens `x a y b z`, what the level at depth `d` returns at
`x`: the literal of `x` while the level of `a` is deeper than `d`; otherwise
`x a (y b z)` if `b` belongs to a level strictly inside that of `a`, else
`(x a y) b z` if the level of `b` is at most `d`, else `x a y`. -/
theorem level_x (st : ParseState) (x a y b z : token)
    (ht : st.tokens = [x, a, y, b, z])
    (hx : x.t_type ∈ literal_types) (hy : y.t_type ∈ literal_types)
    (hz : z.t_type ∈ literal_types)
    (ha : a.t_type ∈ infix_operators) (hb : b.t_type ∈ infix_operators) :
    ∀ d, d ≤ 6 → ∀ fuel,
      level d (fuel + d + 3) (at_index st 0) =
        .ok (if rank a.t_type ≤ d then
              (if rank b.t_type < rank a.t_type then
                (expr.E_BINARY (expr.E_LITERAL x) a
                  (expr.E_BINARY (expr.E_LITERAL y) b (expr.E_LITERAL z)), at_index st 5)
               else if rank b.t_type ≤ d then
                (expr.E_BINARY (expr.E_BINARY (expr.E_LITERAL x) a (expr.E_LITERAL y)) b
                  (expr.E_LITERAL z), at_index st 5)
               else (expr.E_BINARY (expr.E_LITERAL x) a (expr.E_LITERAL y), at_index st 3))
             else (expr.E_LITERAL x, at_index st 1)) := by
  intro d
  induction d with
  | zero =>
    intro _ fuel
    have hr := (rank_spec _ ha 0 (by decide)).1.1
    rw [if_neg (by omega)]
    exact (unary_five st x a y b z ht hx hy hz ha hb fuel).1
  | succ d ih =>
    intro hd fuel
    have hN : fuel + (d + 1) + 3 = (fuel + d + 3) + 1 := by omega
    have hma := (rank_spec _ ha d (by omega)).2
    have hmb := (rank_spec _ hb d (by omega)).2
    have IH := ih (by omega) fuel
    have hY := level_y st x a y b z ht hx hy hz ha hb d (by omega) fuel
    have hZ := level_z st x a y b z ht hx hy hz ha hb d (by omega) fuel
    have hloop := fun f left =>
      binary_loop_five st x a y b z ht (level_types (d + 1)) (level d (fuel + d + 3)) f left
    have e3 : fuel + d + 3 = fuel + d + 2 + 1 := rfl
    have e2 : fuel + d + 2 = fuel + d + 1 + 1 := rfl
    have e1 : fuel + d + 1 = fuel + d + 1 := rfl
    rw [hN, level_succ d (by omega)]
    by_cases h1 : rank a.t_type ≤ d
    · rw [if_pos h1] at IH
      rw [if_pos (by omega)]
      by_cases h2 : rank b.t_type < rank a.t_type
      · rw [if_pos h2] at IH
        rw [bind_ok IH, if_pos h2]
        exact (hloop (fuel + d + 2) _).1
      · rw [if_neg h2] at IH
        rw [if_neg h2]
        by_cases h3 : rank b.t_type ≤ d
        · rw [if_pos h3] at IH
          rw [bind_ok IH, if_pos (by omega)]
          exact (hloop (fuel + d + 2) _).1
        · rw [if_neg h3] at IH
          rw [bind_ok IH]
          by_cases h4 : rank b.t_type = d + 1
          · rw [if_pos (by omega)]
            have hstep := (hloop (fuel + d + 2)
              (expr.E_BINARY (expr.E_LITERAL x) a (expr.E_LITERAL y))).2.2.2.2 _ _
              (hmb.2 h4) hZ
            rw [e3]
            rw [hstep]
            exact (hloop (fuel + d + 1) _).1
          · rw [if_neg (by omega)]
            exact (hloop (fuel + d + 2) _).2.2.1 (fun hm => h4 (hmb.1 hm))
    · rw [if_neg h1] at IH
      rw [bind_ok IH]
      by_cases h2 : rank a.t_type = d + 1
      · rw [if_pos (by omega)]
        by_cases h3 : rank b.t_type ≤ d
        · rw [if_pos h3] at hY
          have hstep := (hloop (fuel + d + 2) (expr.E_LITERAL x)).2.2.2.1 _ _ (hma.2 h2) hY
          rw [e3, hstep, if_pos (by omega)]
          exact (hloop (fuel + d + 1) _).1
        · rw [if_neg h3] at hY
          have hstep := (hloop (fuel + d + 2) (expr.E_LITERAL x)).2.2.2.1 _ _ (hma.2 h2) hY
          rw [e3, hstep, if_neg (by omega)]
          by_cases h4 : rank b.t_type = d + 1
          · rw [if_pos (by omega)]
            have hstep2 := (hloop (fuel + d + 1)
              (expr.E_BINARY (expr.E_LITERAL x) a (expr.E_LITERAL y))).2.2.2.2 _ _
              (hmb.2 h4) hZ
            rw [e2, hstep2]
            exact (hloop (fuel + d) _).1
          · rw [if_neg (by omega)]
            exact (hloop (fuel + d + 1) _).2.2.1 (fun hm => h4 (hmb.1 hm))
      · rw [if_neg (by omega)]
        exact (hloop (fuel + d + 2) _).2.1 (fun hm => h2 (hma.1 hm))

theorem parse_statement_switch_literal (fuel : Nat) (first : token)
    (h : first.t_type ∈ literal_types) :
    parse_statement_switch (fuel + 1) first =
      (do
        let i ← get_curr_index
        set_curr_index (i - 1)
        let e ← expression fuel
        pure (statement.S_EXPR e)) := by
  unfold parse_statement_switch
  simp only [literal_types, List.mem_cons, List.mem_singleton, List.mem_nil_iff,
    or_false] at h
  rcases h with h | h | h | h | h | h | h <;> rw [h]

/-- On the five tokens `x a y b z`, with no error thrown before, the statement
that `parse_statement_list()` returns. -/
theorem parse_statement_list_five (st : ParseState) (x a y b z : token)
    (ht : st.tokens = [x, a, y, b, z]) (hthrown : st.error_thrown = false)
    (hx : x.t_type ∈ literal_types) (hy : y.t_type ∈ literal_types)
    (hz : z.t_type ∈ literal_types)
    (ha : a.t_type ∈ infix_operators) (hb : b.t_type ∈ infix_operators) (fuel : Nat) :
    parse_statement_list (fuel + 16) (at_index st 0) =
      .ok ([statement.S_EXPR
        (if rank b.t_type < rank a.t_type then
          expr.E_BINARY (expr.E_LITERAL x) a
            (expr.E_BINARY (expr.E_LITERAL y) b (expr.E_LITERAL z))
         else
          expr.E_BINARY (expr.E_BINARY (expr.E_LITERAL x) a (expr.E_LITERAL y)) b
            (expr.E_LITERAL z))], at_index st 5) := by
  have h0 : st.tokens.get? 0 = some x := by rw [ht]; rfl
  have h4 : st.tokens.get? 4 = some z := by rw [ht]; rfl
  have h5 : 5 = st.tokens.length := by rw [ht]; rfl
  have hra := (rank_spec _ ha 0 (by decide)).1
  have hrb := (rank_spec _ hb 0 (by decide)).1
  have hend : ∀ types, fnmatch types (at_index st 5) = .ok (false, at_index st 5) :=
    fnmatch_end st 5 h5
  have hthrown5 : get_error_thrown (at_index st 5) = .ok (false, at_index st 5) := by
    unfold get_error_thrown
    rw [at_index_thrown, hthrown]
  -- the expression
  have hor : ∃ tree, tree = (if rank b.t_type < rank a.t_type then
          expr.E_BINARY (expr.E_LITERAL x) a
            (expr.E_BINARY (expr.E_LITERAL y) b (expr.E_LITERAL z))
         else
          expr.E_BINARY (expr.E_BINARY (expr.E_LITERAL x) a (expr.E_LITERAL y)) b
            (expr.E_LITERAL z)) ∧
      ast.or (fuel + 9) (at_index st 0) = .ok (tree, at_index st 5) := by
    refine ⟨_, rfl, ?_⟩
    have h := level_x st x a y b z ht hx hy hz ha hb 6 (Nat.le_refl 6) fuel
    rw [if_pos hra.2] at h
    by_cases h2 : rank b.t_type < rank a.t_type
    · rw [if_pos h2] at h
      rw [if_pos h2]
      exact h
    · rw [if_neg h2, if_pos hrb.2] at h
      rw [if_neg h2]
      exact h
  obtain ⟨tree, htree, hor⟩ := hor
  rw [← htree]
  have hlvalue : lvalue (fuel + 10) (at_index st 0) = .ok (tree, at_index st 5) := by
    unfold lvalue
    have hprev : previous (at_index st 5) = .ok (z, at_index st 5) := previous_at st 4 z h4
    rw [bind_ok hor, bind_ok hprev]
    rfl
  have hassign : assignment (fuel + 11) (at_index st 0) = .ok (tree, at_index st 5) := by
    unfold assignment
    rw [bind_ok hlvalue, bind_ok (hend _)]
    simp only [Bool.false_eq_true, if_false]
    rw [bind_ok (hend _)]
    rfl
  have hexpr : expression (fuel + 12) (at_index st 0) = .ok (tree, at_index st 5) := by
    unfold expression
    rw [bind_ok hassign, bind_ok hthrown5]
    rfl
  have hswitch : parse_statement_switch (fuel + 13) x (at_index st 1) =
      .ok (statement.S_EXPR tree, at_index st 5) := by
    rw [parse_statement_switch_literal _ _ hx]
    have h1 : get_curr_index (at_index st 1) = .ok ((1 : Int), at_index st 1) := rfl
    have h2 : set_curr_index ((1 : Int) - 1) (at_index st 1) = .ok ((), at_index st 0) := rfl
    rw [bind_ok h1, bind_ok h2, bind_ok hexpr]
    rfl
  have hstmt : parse_statement (fuel + 14) (at_index st 0) =
      .ok (statement.S_EXPR tree, at_index st 5) := by
    unfold parse_statement
    have hadv : advance (at_index st 0) = .ok (x, at_index st 1) := advance_at st 0 x h0
    rw [bind_ok hadv, bind_ok hswitch, bind_ok (hend _), bind_ok hthrown5]
    rfl
  have hloop : parse_statement_list_loop (fuel + 15) [] (at_index st 0) =
      .ok ([statement.S_EXPR tree], at_index st 5) := by
    unfold parse_statement_list_loop
    rw [bind_ok hstmt]
    have hat : is_at_end (at_index st 5) = .ok (true, at_index st 5) := by
      have h := is_at_end_at st 5
      have hd : decide (5 = st.tokens.length) = true := by simp [ht]
      rw [hd] at h
      exact h
    rw [bind_ok hat]
    rfl
  unfold parse_statement_list
  rw [bind_ok hloop, bind_ok hthrown5]
  rfl

end ast

/-- C19: the expression parser groups as the `precedence()` table says.  For
all literal operands `x`, `y`, `z` and infix operators `a`, `b` of the six
binary levels, `generate_ast` on the tokens `x a y b z` returns, given fuel 16
or more and whatever the state of the process was, without reporting an error,
the single expression statement `(x a y) b z` when
`precedence(a) >= precedence(b)`, and `x a (y b z)` when
`precedence(a) < precedence(b)`. -/
theorem parser_grouping_follows_precedence (x a y b z : ast.token) (st : ast.ParseState)
    (fuel : Nat)
    (hx : x.t_type ∈ ast.literal_types) (hy : y.t_type ∈ ast.literal_types)
    (hz : z.t_type ∈ ast.literal_types)
    (ha : a.t_type ∈ ast.infix_operators) (hb : b.t_type ∈ ast.infix_operators)
    (hfuel : 16 ≤ fuel) :
    ast.generate_ast fuel [x, a, y, b, z] st =
      .ok ([ast.statement.S_EXPR
        (if ast.precedence b ≤ ast.precedence a then
          ast.expr.E_BINARY (ast.expr.E_BINARY (ast.expr.E_LITERAL x) a (ast.expr.E_LITERAL y))
            b (ast.expr.E_LITERAL z)
         else
          ast.expr.E_BINARY (ast.expr.E_LITERAL x) a
            (ast.expr.E_BINARY (ast.expr.E_LITERAL y) b (ast.expr.E_LITERAL z)))],
        { st with error_thrown := false, tokens := [x, a, y, b, z], curr_index := 5 }) := by
  obtain ⟨k, rfl⟩ : ∃ k, fuel = k + 16 := ⟨fuel - 16, by omega⟩
  have hprec := ast.rank_precedence _ ha _ hb
  rw [← ast.precedence_type, ← ast.precedence_type] at hprec
  have h := ast.parse_statement_list_five
    { st with error_thrown := false, tokens := [x, a, y, b, z], curr_index := 0 }
    x a y b z rfl rfl hx hy hz ha hb k
  unfold ast.generate_ast
  by_cases hp : ast.precedence b ≤ ast.precedence a
  · rw [if_pos hp]
    rw [if_neg (by have := hprec.1 hp; omega)] at h
    exact h
  · rw [if_neg hp]
    rw [if_pos (by
      by_contra hc
      exact hp (hprec.2 (by omega)))] at h
    exact h

/-- C19, witness: the tokens of `1 + 2 * 3`. -/
theorem parser_grouping_follows_precedence_witness :
    ∃ st, ast.generate_ast 16 ast.sum_product_tokens (ast.init_state false) =
      .ok ([ast.statement.S_EXPR
        (ast.expr.E_BINARY
          (ast.expr.E_LITERAL { t_type := ast.token_type.T_NUMBER, t_line := 1, t_col := 1,
                                t_data := ast.token_data.number 1 })
          { t_type := ast.token_type.T_PLUS, t_line := 1, t_col := 3,
            t_data := ast.make_data_str "+" }
          (ast.expr.E_BINARY
            (ast.expr.E_LITERAL { t_type := ast.token_type.T_NUMBER, t_line := 1, t_col := 5,
                                  t_data := ast.token_data.number 2 })
            { t_type := ast.token_type.T_STAR, t_line := 1, t_col := 7,
              t_data := ast.make_data_str "*" }
            (ast.expr.E_LITERAL { t_type := ast.token_type.T_NUMBER, t_line := 1, t_col := 9,
                                  t_data := ast.token_data.number 3 })))], st) :=
  ⟨_, parser_grouping_follows_precedence _ _ _ _ _ (ast.init_state false) 16
    (by decide) (by decide) (by decide) (by decide) (by decide) (by decide)⟩

/-! ### Parser: errors that are not flagged, and a loop that does not end -/

namespace ast

theorem bind_step {α β : Type} (x : Parse α) (f : α → Parse β) (st st1 : ParseState)
    (a : α) (r : Except Stop (β × ParseState)) (h : x st = .ok (a, st1)) (h2 : f a st1 = r) :
    (x >>= f) st = r := by
  rw [bind_ok h]
  exact h2

theorem consume_take (st : ParseState) (i : Nat) (t : token)
    (h : st.tokens.get? i = some t) :
    consume t.t_type (at_index st i) = .ok ((), at_index st ((i : Int) + 1)) := by
  unfold consume
  rw [bind_ok (check_at st i t h t.t_type)]
  simp only [decide_True, if_true]
  rw [bind_ok (advance_at st i t h)]
  rfl

theorem report_returns (message : String) (st : ParseState)
    (hstrict : st.host.SETTINGS_STRICT_ERROR = false) (halive : st.host.exit_status = none) :
    report message st = .ok ((), { st with host := error_lexer message st.host }) := by
  have h : (error_lexer message st.host).exit_status = none := by
    unfold error_lexer report_error
    rw [hstrict]
    exact halive
  unfold report
  rw [h]

/-- In a process that does not exit on errors, the loop of `identifier_list()`
at a token that is no identifier does not end: no amount of fuel suffices. -/
theorem identifier_list_loop_stuck (i : Nat) (p t : token)
    (ht : t.t_type ≠ token_type.T_IDENTIFIER) :
    ∀ (fuel : Nat) (list : List expr) (st : ParseState),
      st.tokens.get? i = some p → st.tokens.get? (i + 1) = some t →
      st.host.SETTINGS_STRICT_ERROR = false → st.host.exit_status = none →
      identifier_list_loop fuel list (at_index st ((i : Int) + 1)) =
        .error Stop.out_of_fuel := by
  intro fuel
  induction fuel with
  | zero => intro list st _ _ _ _; rfl
  | succ n ih =>
    intro list st hp hcur hstrict halive
    have hskip : fnmatch [token_type.T_IDENTIFIER] (at_index st ((i : Int) + 1)) =
        .ok (false, at_index st ((i : Int) + 1)) :=
      fnmatch_skip st (i + 1) t hcur _ (by simpa using ht)
    have hrep := report_returns AST_EXPECTED_IDENTIFIER (at_index st ((i : Int) + 1))
      hstrict halive
    have hset : set_error_thrown
        { at_index st ((i : Int) + 1) with
          host := error_lexer AST_EXPECTED_IDENTIFIER st.host } =
        .ok ((), at_index { st with
          host := error_lexer AST_EXPECTED_IDENTIFIER st.host, error_thrown := true }
          ((i : Int) + 1)) := rfl
    have hstrict1 : (error_lexer AST_EXPECTED_IDENTIFIER st.host).SETTINGS_STRICT_ERROR =
        false := by
      simp [error_lexer, report_error, hstrict]
    have halive1 : (error_lexer AST_EXPECTED_IDENTIFIER st.host).exit_status = none := by
      simp [error_lexer, report_error, hstrict, halive]
    unfold identifier_list_loop
    rw [bind_ok hskip]
    simp only [Bool.false_eq_true, if_false]
    rw [bind_ok (previous_at st i p hp), bind_ok hrep]
    exact bind_step _ _ _ _ _ _ hset (ih list _ hp hcur hstrict1 halive1)

/-- In a process that does not exit on errors, on the tokens of
`struct A => (1)` the member loop of the struct statement, entered at the
parenthesis, does not end: it calls `identifier_list()` at the number. -/
theorem struct_members_stuck (st : ParseState) (hst : st.tokens = struct_tokens)
    (hstrict : st.host.SETTINGS_STRICT_ERROR = false) (halive : st.host.exit_status = none)
    (fuel : Nat) :
    struct_members fuel [] [] 0 (at_index st 3) = .error Stop.out_of_fuel := by
  cases fuel with
  | zero => rfl
  | succ fuel =>
    obtain ⟨t3, h3, hty3⟩ : ∃ t, st.tokens.get? 3 = some t ∧
        t.t_type = token_type.T_LEFT_PAREN := ⟨_, by rw [hst]; rfl, rfl⟩
    obtain ⟨t4, h4, hty4⟩ : ∃ t, st.tokens.get? 4 = some t ∧
        t.t_type = token_type.T_NUMBER := ⟨_, by rw [hst]; rfl, rfl⟩
    have hm : fnmatch [token_type.T_LEFT_PAREN, token_type.T_LEFT_BRACK] (at_index st 3) =
        .ok (true, at_index st 4) := fnmatch_take st 3 t3 h3 _ (by rw [hty3]; decide)
    have hprev : previous (at_index st 4) = .ok (t3, at_index st 4) := previous_at st 3 t3 h3
    have hcur : get_curr_index (at_index st 4) = .ok ((4 : Int), at_index st 4) := rfl
    have hm2 : fnmatch [token_type.T_RIGHT_PAREN] (at_index st 4) =
        .ok (false, at_index st 4) := fnmatch_skip st 4 t4 h4 _ (by rw [hty4]; decide)
    have hstuck : identifier_list fuel (at_index st 4) = .error Stop.out_of_fuel :=
      identifier_list_loop_stuck 3 t3 t4 (by rw [hty4]; decide) fuel [] st h3 h4 hstrict halive
    unfold struct_members
    rw [bind_ok hm]
    simp only [if_true]
    rw [bind_ok hprev, if_pos hty3]
    rw [bind_ok hcur, bind_ok hm2]
    simp only [Bool.false_eq_true, if_false]
    rw [bind_error hstuck]

theorem parse_statement_switch_stuck (st : ParseState) (first : token)
    (hfirst : first.t_type = token_type.T_STRUCT) (hst : st.tokens = struct_tokens)
    (hstrict : st.host.SETTINGS_STRICT_ERROR = false) (halive : st.host.exit_status = none)
    (fuel : Nat) :
    parse_statement_switch fuel first (at_index st 1) = .error Stop.out_of_fuel := by
  cases fuel with
  | zero => rfl
  | succ fuel =>
    obtain ⟨t1, h1, hty1⟩ : ∃ t, st.tokens.get? 1 = some t ∧
        t.t_type = token_type.T_IDENTIFIER := ⟨_, by rw [hst]; rfl, rfl⟩
    obtain ⟨t2, h2, hty2⟩ : ∃ t, st.tokens.get? 2 = some t ∧
        t.t_type = token_type.T_DEFFN := ⟨_, by rw [hst]; rfl, rfl⟩
    have hm : fnmatch [token_type.T_IDENTIFIER] (at_index st 1) =
        .ok (true, at_index st 2) := fnmatch_take st 1 t1 h1 _ (by rw [hty1]; decide)
    have hprev : previous (at_index st 2) = .ok (t1, at_index st 2) := previous_at st 1 t1 h1
    have hempty : ∃ e, empty_token (at_index st 2) = .ok (e, at_index st 2) := ⟨_, rfl⟩
    obtain ⟨e, hempty⟩ := hempty
    have hm1 : fnmatch [token_type.T_COLON] (at_index st 2) =
        .ok (false, at_index st 2) := fnmatch_skip st 2 t2 h2 _ (by rw [hty2]; decide)
    have hcons : consume token_type.T_DEFFN (at_index st 2) = .ok ((), at_index st 3) := by
      have h := consume_take st 2 t2 h2
      rw [hty2] at h
      exact h
    unfold parse_statement_switch
    rw [hfirst]
    simp only []
    rw [bind_ok hm]
    simp only [if_true]
    rw [bind_ok (pure_apply () _), bind_ok hprev, bind_ok hempty, bind_ok hm1]
    simp only [Bool.false_eq_true, if_false]
    rw [bind_ok (pure_apply e _), bind_ok hcons]
    rw [bind_error (struct_members_stuck st hst hstrict halive fuel)]

theorem parse_statement_list_stuck (st : ParseState) (hst : st.tokens = struct_tokens)
    (hstrict : st.host.SETTINGS_STRICT_ERROR = false) (halive : st.host.exit_status = none)
    (fuel : Nat) :
    parse_statement_list fuel (at_index st 0) = .error Stop.out_of_fuel := by
  obtain ⟨t0, h0, hty0⟩ : ∃ t, st.tokens.get? 0 = some t ∧
      t.t_type = token_type.T_STRUCT := ⟨_, by rw [hst]; rfl, rfl⟩
  have hadv : advance (at_index st 0) = .ok (t0, at_index st 1) := advance_at st 0 t0 h0
  have hstmt : ∀ fuel, parse_statement fuel (at_index st 0) = .error Stop.out_of_fuel := by
    intro fuel
    cases fuel with
    | zero => rfl
    | succ fuel =>
      unfold parse_statement
      rw [bind_ok hadv,
        bind_error (parse_statement_switch_stuck st t0 hty0 hst hstrict halive fuel)]
  have hloop : ∀ fuel, parse_statement_list_loop fuel [] (at_index st 0) =
      .error Stop.out_of_fuel := by
    intro fuel
    cases fuel with
    | zero => rfl
    | succ fuel =>
      unfold parse_statement_list_loop
      rw [bind_error (hstmt fuel)]
  cases fuel with
  | zero => rfl
  | succ fuel =>
    unfold parse_statement_list
    rw [bind_error (hloop fuel)]

theorem bind_ok_inv {α β : Type} {x : Parse α} {f : α → Parse β} {st : ParseState}
    {r : β × ParseState} (h : (x >>= f) st = .ok r) :
    ∃ a st1, x st = .ok (a, st1) ∧ f a st1 = .ok r := by
  have h1 : Parse.bind x f st = .ok r := h
  unfold Parse.bind at h1
  cases hx : x st with
  | error e => rw [hx] at h1; cases h1
  | ok p =>
    obtain ⟨a, st1⟩ := p
    rw [hx] at h1
    exact ⟨a, st1, rfl, h1⟩

/-- The list that the loop of `parse_statement_list()` returns has a node. -/
theorem parse_statement_list_loop_ne_nil : ∀ (fuel : Nat) (ast : List statement)
    (st st1 : ParseState) (r : List statement),
    parse_statement_list_loop fuel ast st = .ok (r, st1) → r ≠ [] := by
  intro fuel
  induction fuel with
  | zero => intro ast st st1 r h; cases h
  | succ n ih =>
    intro ast st st1 r h
    unfold parse_statement_list_loop at h
    obtain ⟨sm, s1, _, h2⟩ := bind_ok_inv h
    obtain ⟨at_end, s2, _, h3⟩ := bind_ok_inv h2
    cases at_end with
    | true =>
      simp only [if_true] at h3
      cases h3
      simp
    | false =>
      simp only [Bool.false_eq_true, if_false] at h3
      obtain ⟨p, s3, _, h4⟩ := bind_ok_inv h3
      split at h4
      · exact ih _ _ _ _ h4
      · cases h4
        simp

/-- Whenever `generate_ast` returns, the AST is null exactly when
`ast_error_flag()` is true afterwards. -/
theorem generate_ast_null_iff_flag (fuel : Nat) (_tokens : List token)
    (st st1 : ParseState) (r : List statement)
    (h : generate_ast fuel _tokens st = .ok (r, st1)) :
    r = [] ↔ ast_error_flag st1 = true := by
  unfold generate_ast at h
  cases fuel with
  | zero => cases h
  | succ n =>
    unfold parse_statement_list at h
    obtain ⟨ast, s1, h1, h2⟩ := bind_ok_inv h
    obtain ⟨thrown, s2, h3, h4⟩ := bind_ok_inv h2
    have hs : thrown = s1.error_thrown ∧ s2 = s1 := by
      unfold get_error_thrown at h3
      cases h3
      exact ⟨rfl, rfl⟩
    obtain ⟨hthrown, hs2⟩ := hs
    subst hs2
    unfold ast_error_flag
    cases ht : s2.error_thrown with
    | true =>
      rw [hthrown, ht] at h4
      simp only [if_true] at h4
      cases h4
      simp [ht]
    | false =>
      rw [hthrown, ht] at h4
      simp only [Bool.false_eq_true, if_false] at h4
      cases h4
      simp only [ht, Bool.false_eq_true, iff_false]
      exact parse_statement_list_loop_ne_nil n [] _ _ _ h1

end ast

/-- C18: on the tokens of `req ;`, in a process that does not exit on errors,
`generate_ast` returns, for every amount of fuel from 4 on: a syntax error
(`AST_UNRECOGNIZED_IMPORT`) has been reported, yet the AST returned is not
null (it holds the import statement, its name never assigned) and
`ast_error_flag()` is false afterwards. -/
theorem import_error_not_flagged (k : Nat) :
    ∃ st, ast.generate_ast (k + 4) ast.import_tokens (ast.init_state false) =
        .ok ([ast.statement.S_IMPORT none], st) ∧
      st.host.reported = [(error_kind.Parser, ast.AST_UNRECOGNIZED_IMPORT)] ∧
      st.host.exit_status = none ∧
      ast.ast_error_flag st = false :=
  ⟨_, rfl, rfl, rfl, rfl⟩

/-- C20: on the tokens of `struct A => (1)`, in a process that does not exit
on errors, `generate_ast` does not terminate: whatever the fuel, the run is
still inside the loop of `identifier_list()`, which reports
`AST_EXPECTED_IDENTIFIER` at the number and consumes no token. -/
theorem generate_ast_diverges (fuel : Nat) :
    ast.generate_ast fuel ast.struct_tokens (ast.init_state false) =
      .error ast.Stop.out_of_fuel :=
  ast.parse_statement_list_stuck
    { ast.init_state false with
      error_thrown := false, tokens := ast.struct_tokens, curr_index := 0 }
    rfl rfl rfl fuel

/-! ### The error flag -/

theorem apply_error_op_flag (op : ErrorOp) (h : Host) (hflag : h.error_flag = false) :
    (apply_error_op op h).error_flag = false := by
  cases op with
  | reset_error_flag => rfl
  | error_general message => exact (report_error_spec _ message h).2.2.2.1.trans hflag
  | error_lexer message => exact (report_error_spec _ message h).2.2.2.1.trans hflag
  | error_compile message => exact (report_error_spec _ message h).2.2.2.1.trans hflag
  | error_runtime message => exact (report_error_spec _ message h).2.2.2.1.trans hflag

theorem run_error_ops_flag : ∀ (ops : List ErrorOp) (h : Host), h.error_flag = false →
    (run_error_ops ops h).error_flag = false := by
  intro ops
  induction ops with
  | nil => intro h hflag; exact hflag
  | cons op rest ih => intro h hflag; exact ih _ (apply_error_op_flag op h hflag)

/-- C29: from a process state in which `error_flag` has its initial value
`false`, after every sequence of operations of the error module
(`reset_error_flag`, `error_general`, `error_lexer`, `error_compile`,
`error_runtime`) `get_error_flag()` returns false; and in any state whatever,
none of the four reporters changes what `get_error_flag()` returns. -/
theorem get_error_flag_stays_false (ops : List ErrorOp) (h : Host)
    (hinit : h.error_flag = false) :
    get_error_flag (run_error_ops ops h) = false ∧
    (∀ (message : String) (h1 : Host),
      get_error_flag (error_general message h1) = get_error_flag h1 ∧
      get_error_flag (error_lexer message h1) = get_error_flag h1 ∧
      get_error_flag (error_compile message h1) = get_error_flag h1 ∧
      get_error_flag (error_runtime message h1) = get_error_flag h1) :=
  ⟨run_error_ops_flag ops h hinit, fun message h1 =>
    ⟨(report_error_spec _ message h1).2.2.2.1, (report_error_spec _ message h1).2.2.2.1,
     (report_error_spec _ message h1).2.2.2.1, (report_error_spec _ message h1).2.2.2.1⟩⟩

/-- C29, witness: four reports, one of each kind, on the initial host. -/
theorem get_error_flag_stays_false_witness :
    get_error_flag (run_error_ops
      [ErrorOp.error_general "a", ErrorOp.error_lexer "b", ErrorOp.error_compile "c",
       ErrorOp.error_runtime "d"] (init_host false)) = false :=
  (get_error_flag_stays_false
    [ErrorOp.error_general "a", ErrorOp.error_lexer "b", ErrorOp.error_compile "c",
     ErrorOp.error_runtime "d"] (init_host false) rfl).1

/-! ### Native calls of unknown functions -/

theorem find_native_none (function_name : String) :
    ∀ table : List native_function, (∀ f ∈ table, f.name ≠ function_name) →
      find_native function_name table = none := by
  intro table
  induction table with
  | nil => intro _; rfl
  | cons f rest ih =>
    intro h
    simp only [find_native]
    rw [if_neg (h f (List.mem_cons_self _ _))]
    exact ih (fun g hg => h g (List.mem_cons_of_mem _ hg))

/-- C24: for every function name that no entry of the native-function table
carries, `native_call` reports the runtime error `VM_INVALID_NATIVE_CALL`
(and nothing else) and leaves the machine as it was: argument stack and
argument pointer included, nothing is popped and nothing is pushed. -/
theorem native_call_unknown (function_name : String) (expected_args : Int) (h : Host)
    (hname : ∀ f ∈ native_functions, f.name ≠ function_name) :
    ∃ h1, native_call function_name expected_args h = .ok h1 ∧
      h1.reported = h.reported ++
        [(error_kind.Runtime, VM_INVALID_NATIVE_CALL function_name)] ∧
      h1.vm = h.vm ∧ h1.vm.arg_pointer = h.vm.arg_pointer ∧
      h1.vm.arg_stack = h.vm.arg_stack := by
  refine ⟨error_runtime (VM_INVALID_NATIVE_CALL function_name) h, ?_, ?_, ?_, ?_, ?_⟩
  · unfold native_call
    rw [find_native_none function_name native_functions hname]
  · exact (report_error_spec _ _ h).2.1
  · exact (report_error_spec _ _ h).2.2.1
  · exact congrArg (fun vm => vm.arg_pointer) (report_error_spec _ _ h).2.2.1
  · exact congrArg (fun vm => vm.arg_stack) (report_error_spec _ _ h).2.2.1

/-- C24, witness: the name `sqrt` on the host that holds two arguments. -/
theorem native_call_unknown_witness :
    ∃ h1, native_call "sqrt" 1 examine_host = .ok h1 ∧
      h1.reported = [(error_kind.Runtime, VM_INVALID_NATIVE_CALL "sqrt")] ∧
      h1.vm.arg_pointer = 2 :=
  have h := native_call_unknown "sqrt" 1 examine_host (by decide)
  ⟨h.choose, h.choose_spec.1, h.choose_spec.2.1, h.choose_spec.2.2.2.1⟩

/-! ### Parser: reads of the token array -/

/-- C21: on the one-token array of the source text `ret`, `generate_ast`
reads `tokens[1]`, outside the array: the `T_RET` case of `parse_statement`
looks at `peek()` without asking `is_at_end()` first.  This holds for every
amount of fuel from 4 on, and whether the process exits on errors or not. -/
theorem ret_lookahead_out_of_bounds (k : Nat) (strict : Bool) :
    ast.generate_ast (k + 4) ast.ret_tokens (ast.init_state strict) =
      .error (ast.Stop.out_of_bounds 1) ∧
    ast.ret_tokens.length = 1 :=
  ⟨rfl, rfl⟩

/-! ### The native `reverseString` -/

theorem reverse_loop_length (len : Nat) : ∀ (n : Nat) (t : List Nat),
    (reverse_loop len n t).length = t.length := by
  intro n
  induction n with
  | zero => intro t; rfl
  | succ n ih =>
    intro t
    simp only [reverse_loop]
    rw [ih]
    simp

/-- The swap loop, started after `k` swaps on a list that already has its
first `k` and last `k` characters exchanged, ends with every character
exchanged with its mirror image. -/
theorem reverse_loop_spec (l : List Nat) : ∀ (n k : Nat) (t : List Nat),
    k + n = l.length / 2 → t.length = l.length →
    (∀ j, j < l.length →
      t.getD j 0 = if j < k ∨ l.length - k ≤ j then l.getD (l.length - 1 - j) 0
        else l.getD j 0) →
    ∀ j, j < l.length →
      (reverse_loop l.length n t).getD j 0 = l.getD (l.length - 1 - j) 0 := by
  intro n
  induction n with
  | zero =>
    intro k t hk hlen hinv j hj
    simp only [reverse_loop]
    rw [hinv j hj]
    split
    · rfl
    · rename_i hmid
      have : j = l.length - 1 - j := by omega
      rw [← this]
  | succ n ih =>
    intro k t hk hlen hinv j hj
    have hi : l.length / 2 - (n + 1) = k := by omega
    simp only [reverse_loop]
    rw [hi]
    apply ih (k + 1) _ (by omega) (by simp [hlen]) _ j hj
    intro m hm
    have hk1 : k < l.length := by omega
    have hk2 : l.length - k - 1 < l.length := by omega
    simp only [List.getD_eq_getElem?_getD, List.getElem?_set]
    have h1 := hinv k hk1
    have h2 := hinv (l.length - k - 1) hk2
    have h3 := hinv m hm
    simp only [List.getD_eq_getElem?_getD] at h1 h2 h3
    rw [if_neg (by omega)] at h1
    rw [if_neg (by omega)] at h2
    by_cases hm1 : l.length - k - 1 = m
    · rw [if_pos hm1]
      simp only [List.length_set, hlen, hm, if_true, Option.getD_some]
      rw [h1, if_pos (Or.inr (by omega))]
      have he : k = l.length - 1 - m := by omega
      rw [← he, if_pos hk2]
      rfl
    · rw [if_neg hm1]
      by_cases hm2 : k = m
      · rw [if_pos hm2]
        simp only [hlen, hm, if_true, Option.getD_some]
        rw [h2, if_pos (Or.inl (by omega))]
        have he : l.length - k - 1 = l.length - 1 - m := by omega
        rw [← he, if_pos hk1]
        rfl
      · rw [if_neg hm2, h3]
        by_cases hc : m < k ∨ l.length - k ≤ m
        · rw [if_pos hc, if_pos (by omega)]
        · rw [if_neg hc, if_neg (by omega)]

/-- What the swap loop of `native_reverseString` computes, the size of the
copy buffer left aside: a string of the same length whose byte at `i` is the
byte of the argument at `len - 1 - i`. -/
theorem native_reverseString_value (s : List Nat) :
    (reverse_loop s.length (s.length / 2) s).length = s.length ∧
    ∀ i, i < s.length →
      (reverse_loop s.length (s.length / 2) s).getD i 0 = s.getD (s.length - 1 - i) 0 := by
  refine ⟨reverse_loop_length _ _ _, ?_⟩
  intro i hi
  exact reverse_loop_spec s (s.length / 2) 0 s (Nat.zero_add _) rfl
    (fun j hj => by
      rw [if_neg]
      rintro (h | h)
      · omega
      · omega) i hi

/-- C25: `native_reverseString` copies its argument into a buffer of one
byte: `make_data_str("")` allocates `strlen("") + 1 = 1` byte and
`strcpy(t.t_data.string, string)` writes `strlen(string) + 1` bytes into it.
For the argument `ab` (the bytes 97 and 98) that is 3 bytes into 1, and so for
every string but the empty one the copy writes past the end of the buffer:
what the C code does from there on is not defined.  The swap loop, were there
room for the copy, would leave `ba`. -/
theorem native_reverseString_overflows :
    native_reverseString_allocated = 1 ∧
    native_reverseString_copied [data.Str [97, 98]] = 3 ∧
    native_reverseString_allocated < native_reverseString_copied [data.Str [97, 98]] ∧
    (∀ s : List Nat, native_reverseString_copied [data.Str s] = s.length + 1) ∧
    (∀ memory : Nat → data,
      native_reverseString memory [data.Str [97, 98]] =
        .error (native_fault.buffer_write 1 3)) ∧
    (∀ (memory : Nat → data) (s : List Nat), s ≠ [] →
      native_reverseString memory [data.Str s] =
        .error (native_fault.buffer_write 1 (s.length + 1))) ∧
    reverse_loop 2 1 [97, 98] = [98, 97] := by
  refine ⟨rfl, rfl, by decide, fun _ => rfl, fun _ => rfl, ?_, rfl⟩
  intro memory s hs
  cases s with
  | nil => exact absurd rfl hs
  | cons b rest =>
    have hlt : native_reverseString_allocated < (b :: rest).length + 1 := by
      simp [native_reverseString_allocated, make_data_str_size]
    simp only [native_reverseString, List.getD_cons_zero, native_to_string, if_pos hlt]
    rfl

/-! ### Scanner: the token array -/

namespace scanner

theorem emitted_append_token (t : token) (s : ScanState) :
    emitted (append_token t s) = emitted s ++ [t] ∧
    (append_token t s).t_curr = s.t_curr + 1 := by
  refine ⟨?_, rfl⟩
  show (List.range (s.t_curr + 1)).map (store s.tokens s.t_curr t) = _
  rw [List.range_succ, List.map_append]
  congr 1
  · apply List.map_congr_left
    intro i hi
    have := List.mem_range.1 hi
    exact store_other _ _ _ _ (by omega)
  · simp [store_same]

theorem emitted_grow_tokens (s : ScanState) :
    emitted (grow_tokens s) = emitted s ∧ (grow_tokens s).t_curr = s.t_curr ∧
    (grow_tokens s).errors = s.errors ∧ (grow_tokens s).current = s.current ∧
    (grow_tokens s).source = s.source ∧ (grow_tokens s).line = s.line := by
  unfold grow_tokens
  split <;> exact ⟨rfl, rfl, rfl, rfl, rfl, rfl⟩

/-- Outside the `ELSE`/`IF` case and the three constant tokens, `add_token_V`
appends the token made of `type`, `line` and `val`. -/
theorem add_token_V_plain (type : token_type) (val : data) (s : ScanState)
    (h1 : type ≠ token_type.IF) (h2 : type ≠ token_type.NONE)
    (h3 : type ≠ token_type.TRUE) (h4 : type ≠ token_type.FALSE) :
    emitted (add_token_V type val s) =
      emitted s ++ [{ t_type := type, t_line := s.line, t_data := val }] ∧
    (add_token_V type val s).t_curr = s.t_curr + 1 ∧
    (add_token_V type val s).errors = s.errors ∧
    (add_token_V type val s).current = s.current ∧
    (add_token_V type val s).source = s.source ∧
    (add_token_V type val s).line = s.line := by
  unfold add_token_V
  rw [if_neg (fun h => h1 h.2.2), if_neg h2, if_neg h3, if_neg h4]
  obtain ⟨g1, g2, g3, g4, g5, g6⟩ := emitted_grow_tokens
    (append_token { t_type := type, t_line := s.line, t_data := val } s)
  obtain ⟨a1, a2⟩ := emitted_append_token { t_type := type, t_line := s.line, t_data := val } s
  exact ⟨g1.trans a1, g2.trans a2, g3, g4, g5, g6⟩

theorem only_advanced_refl (s : ScanState) : only_advanced s s := ⟨rfl, Nat.le_refl _⟩

theorem only_advanced_trans {s s1 s2 : ScanState} (h1 : only_advanced s s1)
    (h2 : only_advanced s1 s2) : only_advanced s s2 := by
  obtain ⟨e1, l1⟩ := h1
  obtain ⟨e2, l2⟩ := h2
  refine ⟨?_, Nat.le_trans l1 l2⟩
  rw [e2]
  rw [e1]

theorem only_advanced_advance (s : ScanState) : only_advanced s (advance s).2 :=
  ⟨rfl, Nat.le_succ _⟩

theorem advance_while_only_advanced (p : Char → Bool) : ∀ (n : Nat) (s : ScanState),
    only_advanced s (advance_while p n s) := by
  intro n
  induction n with
  | zero => intro s; exact only_advanced_refl s
  | succ n ih =>
    intro s
    unfold advance_while
    split
    · exact only_advanced_trans (only_advanced_advance s) (ih _)
    · exact only_advanced_refl s

theorem fraction_only_advanced (s : ScanState) : only_advanced s (fraction s) := by
  unfold fraction
  split
  · exact only_advanced_trans (only_advanced_advance s) (advance_while_only_advanced _ _ _)
  · exact only_advanced_refl s

end scanner

/-! ### Scanner: a minus sign before a digit -/

namespace scanner

theorem source_at_get (s : ScanState) (i : Nat) (c : Char) (h : s.source.get? i = some c) :
    source_at s i = c := by
  unfold source_at
  rw [List.getD_eq_getElem?_getD, ← List.get?_eq_getElem?, h]
  rfl

theorem peek_get (s : ScanState) (c : Char) (h : s.source.get? s.current = some c) :
    peek s = c := by
  have hlt : s.current < s.source.length := (List.get?_eq_some.1 h).1
  unfold peek is_at_end
  rw [if_neg (by simp; omega)]
  exact source_at_get s _ c h

/-- The `case '-'` of `scan_token`. -/
theorem scan_token_minus (fuel : Nat) (s : ScanState) (h : (advance s).1 = '-') :
    scan_token (fuel + 1) s =
      if is_digit (peek (advance s).2) then some (handle_number (advance (advance s).2).2)
      else some (add_token token_type.MINUS (advance s).2) := by
  unfold scan_token
  simp only []
  rw [h]
  rw [if_neg (by decide), if_neg (by decide), if_neg (by decide), if_neg (by decide),
    if_neg (by decide), if_neg (by decide), if_neg (by decide), if_neg (by decide),
    if_neg (by decide), if_neg (by decide), if_pos rfl]

theorem handle_number_spec (s : ScanState) :
    ∃ s3, only_advanced s s3 ∧
      handle_number s = add_token_V token_type.NUMBER (make_data_num (lexeme s3)) s3 :=
  ⟨_, only_advanced_trans (advance_while_only_advanced is_digit _ s)
    (fraction_only_advanced _), rfl⟩

theorem drop_two (l : List Char) (p : Nat) (c d : Char) (hc : l.get? p = some c)
    (hd : l.get? (p + 1) = some d) : l.drop p = c :: d :: l.drop (p + 2) := by
  have h1 := List.get?_eq_some.1 hc
  have h2 := List.get?_eq_some.1 hd
  obtain ⟨l1, e1⟩ := h1
  obtain ⟨l2, e2⟩ := h2
  rw [List.drop_eq_getElem_cons l1, List.drop_eq_getElem_cons l2]
  rw [List.get_eq_getElem] at e1 e2
  rw [e1, e2]

theorem take_length_takeWhile (p : Char → Bool) : ∀ l : List Char,
    l.take (l.takeWhile p).length = l.takeWhile p := by
  intro l
  induction l with
  | nil => rfl
  | cons c rest ih =>
    rw [List.takeWhile_cons]
    cases hc : p c with
    | true => simp only [if_true, List.length_cons, List.take_succ_cons, ih]
    | false => simp

theorem drop_length_takeWhile (p : Char → Bool) : ∀ l : List Char,
    l.drop (l.takeWhile p).length = l.dropWhile p := by
  intro l
  induction l with
  | nil => rfl
  | cons c rest ih =>
    rw [List.takeWhile_cons, List.dropWhile_cons]
    cases hc : p c with
    | true => simp only [if_true, List.length_cons, List.drop_succ_cons, ih]
    | false => simp

theorem take_fraction_text (l : List Char) :
    l.take (fraction_text l).length = fraction_text l := by
  match l with
  | [] => rfl
  | [c] => rfl
  | c :: d :: rest =>
    by_cases hc : c = '.' ∧ is_digit d = true
    · simp only [fraction_text, if_pos hc, List.length_cons, List.take_succ_cons,
        take_length_takeWhile]
    · simp only [fraction_text, if_neg hc, List.length_nil, List.take_zero]

theorem take_number_text (l : List Char) :
    l.take (number_text l).length = number_text l := by
  unfold number_text
  have h := List.takeWhile_append_dropWhile is_digit l
  generalize l.takeWhile is_digit = a at h
  generalize l.dropWhile is_digit = b at h
  subst h
  rw [List.length_append, List.take_append, take_fraction_text]

theorem number_text_cons (d : Char) (l : List Char) (hd : is_digit d = true) :
    number_text (d :: l) = d :: number_text l := by
  unfold number_text
  rw [List.takeWhile_cons, List.dropWhile_cons, hd]
  simp only [if_true, List.cons_append]

theorem drop_cons_get (l : List Char) (n : Nat) (c : Char) (t : List Char)
    (h : l.drop n = c :: t) : l.get? n = some c ∧ l.drop (n + 1) = t := by
  constructor
  · rw [List.get?_eq_getElem?, ← List.head?_drop, h]
    rfl
  · rw [← List.tail_drop, h]
    rfl

theorem peek_next_get (s : ScanState) (d : Char) (h : s.source.get? (s.current + 1) = some d) :
    peek_next s = d := by
  have hlt : s.current + 1 < s.source.length := (List.get?_eq_some.1 h).1
  unfold peek_next
  rw [if_neg (by omega)]
  exact source_at_get s _ d h

theorem peek_end (s : ScanState) (h : s.source.length ≤ s.current) :
    peek s = Char.ofNat 0 := by
  unfold peek is_at_end
  rw [if_pos (by simpa using h)]

/-- A loop `while (p(peek())) advance();`, given enough iterations, stops at
the first character that `p` rejects or at the end of the source, where
`peek()` is zero. -/
theorem advance_while_spec (p : Char → Bool) (hp : p (Char.ofNat 0) = false) :
    ∀ (n : Nat) (s : ScanState), s.source.length - s.current ≤ n →
    advance_while p n s =
      { s with current := s.current + ((s.source.drop s.current).takeWhile p).length } := by
  intro n
  induction n with
  | zero =>
    intro s h
    have hd : s.source.drop s.current = [] := List.drop_eq_nil_of_le (by omega)
    rw [hd]
    rfl
  | succ n ih =>
    intro s h
    unfold advance_while
    by_cases hend : s.source.length ≤ s.current
    · have hd : s.source.drop s.current = [] := List.drop_eq_nil_of_le hend
      rw [peek_end s hend, hp, hd]
      rfl
    · have hlt : s.current < s.source.length := by omega
      have hd := List.drop_eq_getElem_cons hlt
      have hpeek : peek s = s.source[s.current] :=
        peek_get s _ (by rw [List.get?_eq_getElem?, List.getElem?_eq_getElem hlt])
      rw [hpeek, hd, List.takeWhile_cons]
      cases hc : p s.source[s.current] with
      | true =>
        simp only [if_true, List.length_cons]
        rw [ih _ (by
          show s.source.length - (s.current + 1) ≤ n
          omega)]
        simp only [advance]
        congr 1
        omega
      | false =>
        simp only [Bool.false_eq_true, if_false]
        rfl

theorem is_digit_zero : is_digit (Char.ofNat 0) = false := by decide

/-- The fractional part of `handle_number`, consumed in full. -/
theorem fraction_spec (s : ScanState) :
    fraction s =
      { s with current := s.current + (fraction_text (s.source.drop s.current)).length } := by
  unfold fraction
  match hl : s.source.drop s.current with
  | [] =>
    have hend : s.source.length ≤ s.current := by
      have := congrArg List.length hl
      rw [List.length_drop] at this
      simp only [List.length_nil] at this
      omega
    rw [peek_end s hend, if_neg (fun h => absurd h.1 (by decide))]
    rfl
  | [c] =>
    have hend : s.source.length ≤ s.current + 1 := by
      have := congrArg List.length hl
      rw [List.length_drop] at this
      simp only [List.length_cons, List.length_nil] at this
      omega
    have hn : peek_next s = Char.ofNat 0 := by
      unfold peek_next
      rw [if_pos hend]
    rw [hn, is_digit_zero, if_neg (fun h => absurd h.2 (by decide))]
    rfl
  | c :: d :: rest =>
    obtain ⟨g1, t1⟩ := drop_cons_get _ _ _ _ hl
    obtain ⟨g2, t2⟩ := drop_cons_get _ _ _ _ t1
    rw [peek_get s c g1, peek_next_get s d g2]
    show (if c = '.' ∧ is_digit d = true then _ else _) = _
    by_cases hc : c = '.' ∧ is_digit d = true
    · rw [if_pos hc]
      have hw := advance_while_spec is_digit is_digit_zero
        ((advance s).2.source.length - (advance s).2.current) (advance s).2 (Nat.le_refl _)
      rw [show s.source.length - (advance s).2.current =
        (advance s).2.source.length - (advance s).2.current from rfl, hw]
      show ({ s with current := s.current + 1 +
        ((s.source.drop (s.current + 1)).takeWhile is_digit).length } : ScanState) = _
      rw [t1, List.takeWhile_cons, hc.2]
      simp only [fraction_text, if_pos hc, if_true, List.length_cons]
      congr 1
      omega
    · rw [if_neg hc]
      simp only [fraction_text, if_neg hc]
      rfl

/-- The function `handle_number()` consumes the numeral that starts at
`current` and emits the text from `start` to its end. -/
theorem handle_number_exact (s : ScanState) :
    handle_number s =
      add_token_V token_type.NUMBER
        (make_data_num (lexeme
          { s with current := s.current + (number_text (s.source.drop s.current)).length }))
        { s with current := s.current + (number_text (s.source.drop s.current)).length } := by
  have h1 := advance_while_spec is_digit is_digit_zero (s.source.length - s.current) s
    (Nat.le_refl _)
  have h2 : fraction (advance_while is_digit (s.source.length - s.current) s) =
      { s with current := s.current + (number_text (s.source.drop s.current)).length } := by
    rw [h1, fraction_spec]
    show ({ s with current := s.current +
        ((s.source.drop s.current).takeWhile is_digit).length +
        (fraction_text (s.source.drop (s.current +
          ((s.source.drop s.current).takeWhile is_digit).length))).length } : ScanState) = _
    have hdd : s.source.drop (s.current +
        ((s.source.drop s.current).takeWhile is_digit).length) =
        (s.source.drop s.current).dropWhile is_digit := by
      rw [← drop_length_takeWhile, List.drop_drop]
    rw [hdd]
    unfold number_text
    rw [List.length_append, Nat.add_assoc]
  unfold handle_number
  rw [h2]

end scanner

/-- C26 (as amended): wherever `scan_token` starts a token at a `-` that a
digit `d` follows (the scanner has set `start` to `current`, and the source
holds `-` there and `d` after it), whatever tokens came before, it returns
with exactly one more token, of type `NUMBER` and no `MINUS`.  The numeral
that `strtod` converts is the `-` and the numeral that starts after it: the
digits from `d` on and, when a `.` and a digit follow them, the `.` and the
digits after it.  The scanner stands right after that numeral, and no error
is reported. -/
theorem minus_before_digit_is_sign (fuel : Nat) (s : scanner.ScanState) (d : Char)
    (hstart : s.start = s.current)
    (hminus : s.source.get? s.current = some '-')
    (hnext : s.source.get? (s.current + 1) = some d)
    (hd : scanner.is_digit d = true) :
    ∃ s1, scanner.scan_token (fuel + 1) s = some s1 ∧
      scanner.emitted s1 = scanner.emitted s ++
        [{ t_type := scanner.token_type.NUMBER, t_line := s.line,
           t_data := scanner.data.number
             ('-' :: scanner.number_text (s.source.drop (s.current + 1))) }] ∧
      (∃ rest, scanner.number_text (s.source.drop (s.current + 1)) = d :: rest) ∧
      s1.current =
        s.current + 1 + (scanner.number_text (s.source.drop (s.current + 1))).length ∧
      s1.errors = s.errors ∧ s1.source = s.source ∧ s1.line = s.line := by
  have hc : (scanner.advance s).1 = '-' := scanner.source_at_get s _ _ hminus
  have hpeek : scanner.peek (scanner.advance s).2 = d :=
    scanner.peek_get (scanner.advance s).2 d hnext
  have hdrop := scanner.drop_two s.source s.current _ _ hminus hnext
  have hdrop1 : s.source.drop (s.current + 1) = d :: s.source.drop (s.current + 2) :=
    (scanner.drop_cons_get _ _ _ _ hdrop).2
  have hnum : scanner.number_text (s.source.drop (s.current + 1)) =
      d :: scanner.number_text (s.source.drop (s.current + 2)) := by
    rw [hdrop1, scanner.number_text_cons d _ hd]
  rw [scanner.scan_token_minus fuel s hc, hpeek, if_pos hd, scanner.handle_number_exact]
  generalize hs3 : ({ (scanner.advance (scanner.advance s).2).2 with
    current := (scanner.advance (scanner.advance s).2).2.current +
      (scanner.number_text ((scanner.advance (scanner.advance s).2).2.source.drop
        (scanner.advance (scanner.advance s).2).2.current)).length } : scanner.ScanState) = s3
  have hcur : s3.current =
      s.current + 2 + (scanner.number_text (s.source.drop (s.current + 2))).length := by
    rw [← hs3]; rfl
  have hsrc : s3.source = s.source := by rw [← hs3]; rfl
  have hst : s3.start = s.current := by rw [← hs3]; exact hstart
  have hline : s3.line = s.line := by rw [← hs3]; rfl
  have hem : scanner.emitted s3 = scanner.emitted s := by rw [← hs3]; rfl
  have herr : s3.errors = s.errors := by rw [← hs3]; rfl
  have hlex : scanner.lexeme s3 =
      '-' :: scanner.number_text (s.source.drop (s.current + 1)) := by
    unfold scanner.lexeme
    rw [hsrc, hst, hcur, hdrop, hnum]
    have hk : s.current + 2 + (scanner.number_text (s.source.drop (s.current + 2))).length -
        s.current = (scanner.number_text (s.source.drop (s.current + 2))).length + 1 + 1 := by
      omega
    rw [hk, List.take_succ_cons, List.take_succ_cons, scanner.take_number_text]
  obtain ⟨a1, _, a3, a4, a5, a6⟩ := scanner.add_token_V_plain scanner.token_type.NUMBER
    (scanner.make_data_num (scanner.lexeme s3)) s3 (by decide) (by decide) (by decide)
    (by decide)
  refine ⟨_, rfl, ?_, ⟨_, hnum⟩, ?_, ?_, ?_, ?_⟩
  · rw [a1, hem, hline, hlex]
    rfl
  · rw [a4, hcur, hnum, List.length_cons]
    omega
  · rw [a3, herr]
  · rw [a5, hsrc]
  · rw [a6, hline]

/-- C26, witness: the source text `3-12.5` scanned at its `-`, after the
`3`: one `NUMBER` token with the numeral `-12.5`, and the scanner at the end
of the source; and the two `NUMBER` tokens `3` and `-1` of the source text
`3-1`. -/
theorem minus_before_digit_is_sign_witness :
    (∃ s1, scanner.scan_token 1
        { scanner.init_scan with
          source := scanner.three_minus_fraction, current := 1, start := 1 } = some s1 ∧
      scanner.emitted s1 =
        [{ t_type := scanner.token_type.NUMBER, t_line := 1,
           t_data := scanner.data.number ['-', '1', '2', '.', '5'] }] ∧
      s1.current = 6 ∧ s1.errors = []) ∧
    (scanner.scan_tokens 3 scanner.three_minus_one scanner.init_scan).map scanner.emitted =
      some [{ t_type := scanner.token_type.NUMBER, t_line := 1,
              t_data := scanner.data.number ['3'] },
            { t_type := scanner.token_type.NUMBER, t_line := 1,
              t_data := scanner.data.number ['-', '1'] }] :=
  have h := minus_before_digit_is_sign 0
    { scanner.init_scan with source := scanner.three_minus_fraction, current := 1, start := 1 }
    '1' rfl rfl rfl rfl
  ⟨⟨h.choose, h.choose_spec.1, h.choose_spec.2.1, h.choose_spec.2.2.2.1,
    h.choose_spec.2.2.2.2.1⟩, rfl⟩

/-- C26, counterexample: three sources in which a `-` is immediately followed
by the digit `1` and no `NUMBER` token is emitted, so that the `-` is the sign
of none: inside the string literal `"-1"` it is part of the one `STRING`
token, inside the line comment made of two slashes and `-1` it is skipped, no token being emitted,
and inside the object type `<a-1>` it is part of the one `OBJ_TYPE` token. -/
theorem minus_before_digit_no_number :
    (scanner.quoted_minus_one.get? 1 = some '-' ∧
      scanner.quoted_minus_one.get? 2 = some '1' ∧ scanner.is_digit '1' = true ∧
      (scanner.scan_tokens 2 scanner.quoted_minus_one scanner.init_scan).map scanner.emitted =
        some [{ t_type := scanner.token_type.STRING, t_line := 1,
                t_data := scanner.data.string ['-', '1'] }]) ∧
    (scanner.comment_minus_one.get? 2 = some '-' ∧
      scanner.comment_minus_one.get? 3 = some '1' ∧
      (scanner.scan_tokens 2 scanner.comment_minus_one scanner.init_scan).map scanner.emitted =
        some []) ∧
    (scanner.obj_type_minus_one.get? 2 = some '-' ∧
      scanner.obj_type_minus_one.get? 3 = some '1' ∧
      (scanner.scan_tokens 2 scanner.obj_type_minus_one scanner.init_scan).map
          scanner.emitted =
        some [{ t_type := scanner.token_type.OBJ_TYPE, t_line := 1,
                t_data := scanner.data.string ['a', '-', '1'] }]) :=
  ⟨⟨rfl, rfl, rfl, rfl⟩, ⟨rfl, rfl, rfl⟩, ⟨rfl, rfl, rfl⟩⟩

/-! ### Scanner: an object type in angle brackets -/

namespace scanner

theorem takeWhile_ne_spec (stop : Char) : ∀ l : List Char,
    (stop ∈ l → (l.takeWhile (fun c => c != stop)).length < l.length) ∧
    (stop ∉ l → l.takeWhile (fun c => c != stop) = l) ∧
    l.take (l.takeWhile (fun c => c != stop)).length = l.takeWhile (fun c => c != stop) := by
  intro l
  induction l with
  | nil => simp
  | cons c rest ih =>
    by_cases hc : c = stop
    · subst hc
      simp [List.takeWhile]
    · have hb : (c != stop) = true := by simp [hc]
      obtain ⟨h1, h2, h3⟩ := ih
      rw [List.takeWhile_cons, hb]
      refine ⟨?_, ?_, ?_⟩
      · intro hm
        rcases List.mem_cons.1 hm with h | h
        · exact absurd h.symm hc
        · simpa using h1 h
      · intro hm
        simp only [if_true]
        rw [h2 (fun h => hm (List.mem_cons_of_mem _ h))]
      · simp only [if_true, List.length_cons, List.take_succ_cons]
        rw [h3]

/-- The loop of `handle_obj_type` and `handle_string`, given enough
iterations, stops at the first `stop` character or at the end of the source,
and has counted the line feeds passed. -/
theorem advance_to_spec (stop : Char) : ∀ (n : Nat) (s : ScanState),
    s.source.length - s.current ≤ n →
    advance_to stop n s =
      moved s ((s.source.drop s.current).takeWhile (fun c => c != stop)).length
        (((s.source.drop s.current).takeWhile (fun c => c != stop)).count (Char.ofNat 10)) := by
  intro n
  induction n with
  | zero =>
    intro s h
    have hd : s.source.drop s.current = [] := List.drop_eq_nil_of_le (by omega)
    rw [hd]
    rfl
  | succ n ih =>
    intro s h
    unfold advance_to
    by_cases hend : s.source.length ≤ s.current
    · have hd : s.source.drop s.current = [] := List.drop_eq_nil_of_le hend
      have he : is_at_end s = true := by simp [is_at_end, hend]
      rw [if_neg (by rw [he]; simp), hd]
      rfl
    · have hlt : s.current < s.source.length := by omega
      have hd := List.drop_eq_getElem_cons hlt
      have hpeek : peek s = s.source[s.current] :=
        peek_get s _ (by rw [List.get?_eq_getElem?, List.getElem?_eq_getElem hlt])
      have he : is_at_end s = false := by simp [is_at_end, hlt]
      rw [hpeek, he, hd]
      by_cases hc : s.source[s.current] = stop
      · rw [if_neg (fun h => h.1 hc)]
        have hb : (s.source[s.current] != stop) = false := by simp [hc]
        rw [List.takeWhile_cons, hb]
        rfl
      · rw [if_pos ⟨hc, rfl⟩]
        have hb : (s.source[s.current] != stop) = true := by simp [hc]
        rw [List.takeWhile_cons, hb]
        simp only [if_true, List.length_cons]
        by_cases hnl : s.source[s.current] = Char.ofNat 10
        · rw [if_pos hnl, List.count_cons, if_pos (by simp [hnl])]
          rw [ih _ (by
            show s.source.length - (s.current + 1) ≤ n
            omega)]
          simp only [advance, moved]
          congr 1
          · omega
          · omega
        · rw [if_neg hnl, List.count_cons, if_neg (by simp [hnl])]
          rw [ih _ (by
            show s.source.length - (s.current + 1) ≤ n
            omega)]
          simp only [advance, moved]
          congr 1
          omega

end scanner

namespace scanner

/-- The `case '<'` of `scan_token`. -/
theorem scan_token_less (fuel : Nat) (s : ScanState) (h : (advance s).1 = '<') :
    scan_token (fuel + 1) s =
      if (match_char '=' (advance s).2).1 then
        some (add_token token_type.LESS_EQUAL (match_char '=' (advance s).2).2)
      else if is_alpha (peek (advance s).2) then some (handle_obj_type (advance s).2)
      else some (add_token token_type.LESS (advance s).2) := by
  unfold scan_token
  simp only []
  rw [h]
  rw [if_neg (by decide), if_neg (by decide), if_neg (by decide), if_neg (by decide),
    if_neg (by decide), if_neg (by decide), if_neg (by decide), if_neg (by decide),
    if_neg (by decide), if_neg (by decide), if_neg (by decide), if_neg (by decide),
    if_neg (by decide), if_neg (by decide), if_neg (by decide), if_neg (by decide),
    if_neg (by decide), if_neg (by decide), if_neg (by decide), if_neg (by decide),
    if_neg (by decide), if_pos rfl]

theorem match_char_other (expected c : Char) (s : ScanState)
    (h : s.source.get? s.current = some c) (hne : c ≠ expected) :
    match_char expected s = (false, s) := by
  have hlt : s.current < s.source.length := (List.get?_eq_some.1 h).1
  unfold match_char is_at_end
  rw [if_neg (by simp; omega), source_at_get s _ c h, if_pos hne]

theorem is_alpha_ne_equal (a : Char) (ha : is_alpha a = true) : a ≠ '=' := by
  intro h
  subst h
  revert ha
  decide

/-- What `handle_obj_type()` does from the character after the `<` at
`start`: with `text` the characters before the first `>`, an `OBJ_TYPE` token
of that text if there is a `>`, and the error and the end of the source if
there is none. -/
theorem handle_obj_type_spec (s : ScanState) (hstart : s.start + 1 = s.current)
    (hle : s.current ≤ s.source.length) :
    ('>' ∈ s.source.drop s.current →
      emitted (handle_obj_type s) = emitted s ++
        [{ t_type := token_type.OBJ_TYPE,
           t_line := s.line + ((s.source.drop s.current).takeWhile
              (fun c => c != '>')).count (Char.ofNat 10),
           t_data := data.string ((s.source.drop s.current).takeWhile (fun c => c != '>')) }] ∧
      (handle_obj_type s).errors = s.errors ∧
      (handle_obj_type s).current = s.current +
        ((s.source.drop s.current).takeWhile (fun c => c != '>')).length + 1) ∧
    ('>' ∉ s.source.drop s.current →
      emitted (handle_obj_type s) = emitted s ∧
      (handle_obj_type s).errors = s.errors ++
        [(s.line + (s.source.drop s.current).count (Char.ofNat 10), "SYNTAX_ERROR")] ∧
      (handle_obj_type s).current = s.source.length) := by
  obtain ⟨t1, t2, t3⟩ := takeWhile_ne_spec '>' (s.source.drop s.current)
  have hloop := advance_to_spec '>' (s.source.length - s.current) s (Nat.le_refl _)
  unfold handle_obj_type
  rw [hloop]
  generalize hseg : (s.source.drop s.current).takeWhile (fun c => c != '>') = seg at *
  have hdl : (s.source.drop s.current).length = s.source.length - s.current :=
    List.length_drop _ _
  constructor
  · intro hm
    have hlt := t1 hm
    rw [hdl] at hlt
    unfold close_delimited
    have he : is_at_end (moved s seg.length (seg.count (Char.ofNat 10))) = false := by
      simp only [is_at_end, decide_eq_false_iff_not]
      show ¬ s.source.length ≤ s.current + seg.length
      omega
    rw [he]
    simp only [Bool.false_eq_true, if_false]
    have hval : ((moved s seg.length (seg.count (Char.ofNat 10))).source.drop
        ((moved s seg.length (seg.count (Char.ofNat 10))).start + 1)).take
        ((advance (moved s seg.length (seg.count (Char.ofNat 10)))).2.current - 2 -
          (moved s seg.length (seg.count (Char.ofNat 10))).start) = seg := by
      show (s.source.drop (s.start + 1)).take (s.current + seg.length + 1 - 2 - s.start) = seg
      have hk : s.current + seg.length + 1 - 2 - s.start = seg.length := by omega
      rw [hk, hstart]
      exact t3
    rw [hval]
    obtain ⟨a1, _, a3, a4, _, _⟩ := add_token_V_plain token_type.OBJ_TYPE
      (make_data_str seg) (advance (moved s seg.length (seg.count (Char.ofNat 10)))).2
      (by decide) (by decide) (by decide) (by decide)
    exact ⟨a1, a3, a4⟩
  · intro hm
    have hall := t2 hm
    have hlen : seg.length = s.source.length - s.current := by rw [hall, hdl]
    unfold close_delimited
    have he : is_at_end (moved s seg.length (seg.count (Char.ofNat 10))) = true := by
      simp only [is_at_end, decide_eq_true_eq]
      show s.source.length ≤ s.current + seg.length
      omega
    rw [he]
    simp only [if_true]
    refine ⟨rfl, ?_, ?_⟩
    · rw [← hall]
      rfl
    · show s.current + seg.length = s.source.length
      omega

end scanner

/-- C27 (as amended): wherever `scan_token` starts a token at a `<` that a
letter or underscore `a` follows (the scanner has set `start` to `current`),
it emits no `LESS` token.  With `text` the source text after
the `<` up to the next `>`: if a later `>` exists, exactly one token is
added, of type `OBJ_TYPE` and value `text`, no error is reported and the
scanner stands after that `>`; if none exists, no token is added, the error
`SYNTAX_ERROR` is reported and the scanner stands at the end of the source. -/
theorem less_before_letter_is_obj_type (fuel : Nat) (s : scanner.ScanState) (a : Char)
    (hstart : s.start = s.current)
    (hless : s.source.get? s.current = some '<')
    (hnext : s.source.get? (s.current + 1) = some a)
    (ha : scanner.is_alpha a = true) :
    ∃ s1, scanner.scan_token (fuel + 1) s = some s1 ∧
      ('>' ∈ s.source.drop (s.current + 1) →
        scanner.emitted s1 = scanner.emitted s ++
          [{ t_type := scanner.token_type.OBJ_TYPE,
             t_line := s.line + ((s.source.drop (s.current + 1)).takeWhile
                (fun c => c != '>')).count (Char.ofNat 10),
             t_data := scanner.data.string
                ((s.source.drop (s.current + 1)).takeWhile (fun c => c != '>')) }] ∧
        s1.errors = s.errors ∧
        s1.current = s.current + 1 +
          ((s.source.drop (s.current + 1)).takeWhile (fun c => c != '>')).length + 1) ∧
      ('>' ∉ s.source.drop (s.current + 1) →
        scanner.emitted s1 = scanner.emitted s ∧
        s1.errors = s.errors ++
          [(s.line + (s.source.drop (s.current + 1)).count (Char.ofNat 10), "SYNTAX_ERROR")] ∧
        s1.current = s.source.length) := by
  have hc : (scanner.advance s).1 = '<' := scanner.source_at_get s _ _ hless
  have hpeek : scanner.peek (scanner.advance s).2 = a :=
    scanner.peek_get (scanner.advance s).2 a hnext
  have hmatch : scanner.match_char '=' (scanner.advance s).2 = (false, (scanner.advance s).2) :=
    scanner.match_char_other '=' a _ hnext (scanner.is_alpha_ne_equal a ha)
  rw [scanner.scan_token_less fuel s hc, hmatch, hpeek, ha]
  simp only [Bool.false_eq_true, if_false, if_true]
  obtain ⟨h1, h2⟩ := scanner.handle_obj_type_spec (scanner.advance s).2
    (by show s.start + 1 = s.current + 1; rw [hstart])
    (Nat.le_of_lt (List.get?_eq_some.1 hnext).1)
  refine ⟨_, rfl, ?_, ?_⟩
  · intro hm
    exact h1 hm
  · intro hm
    exact h2 hm

/-- C27, witness: the source text `<Number> x` scanned at its start gives the
one token `OBJ_TYPE` with the text `Number`; the source text `a <b` scanned at
its `<` gives no token and the error. -/
theorem less_before_letter_is_obj_type_witness :
    (∃ s1, scanner.scan_token 1 { scanner.init_scan with source := scanner.obj_type_source } =
        some s1 ∧
      scanner.emitted s1 =
        [{ t_type := scanner.token_type.OBJ_TYPE, t_line := 1,
           t_data := scanner.data.string ['N', 'u', 'm', 'b', 'e', 'r'] }] ∧
      s1.errors = [] ∧ s1.current = 8) ∧
    (∃ s1, scanner.scan_token 1
        { scanner.init_scan with
          source := scanner.open_obj_type_source, current := 2, start := 2 } = some s1 ∧
      scanner.emitted s1 = [] ∧ s1.errors = [(1, "SYNTAX_ERROR")] ∧ s1.current = 4) :=
  have h := less_before_letter_is_obj_type 0
    { scanner.init_scan with source := scanner.obj_type_source } 'N' rfl rfl rfl rfl
  have g := less_before_letter_is_obj_type 0
    { scanner.init_scan with
      source := scanner.open_obj_type_source, current := 2, start := 2 } 'b' rfl rfl rfl rfl
  ⟨⟨h.choose, h.choose_spec.1, (h.choose_spec.2.1 (by decide)).1,
     (h.choose_spec.2.1 (by decide)).2.1, (h.choose_spec.2.1 (by decide)).2.2⟩,
   ⟨g.choose, g.choose_spec.1, (g.choose_spec.2.2 (by decide)).1,
     (g.choose_spec.2.2 (by decide)).2.1, (g.choose_spec.2.2 (by decide)).2.2⟩⟩

/-- C27, counterexample: two sources in which a `<` is immediately followed
by a letter and no `OBJ_TYPE` token is emitted for it.  In `<a<b>` the second
`<`, which `b` follows, lies in the text of the object type that the first
`<` opens: the one token emitted is the `OBJ_TYPE` with the text `a<b`, and
none has the text `b`.  In the string literal `"<a>"` the `<` is part of the
one `STRING` token. -/
theorem less_before_letter_no_obj_type :
    (scanner.nested_less_source.get? 2 = some '<' ∧
      scanner.nested_less_source.get? 3 = some 'b' ∧ scanner.is_alpha 'b' = true ∧
      (scanner.scan_tokens 2 scanner.nested_less_source scanner.init_scan).map
          scanner.emitted =
        some [{ t_type := scanner.token_type.OBJ_TYPE, t_line := 1,
                t_data := scanner.data.string ['a', '<', 'b'] }]) ∧
    (scanner.quoted_obj_type.get? 1 = some '<' ∧
      scanner.quoted_obj_type.get? 2 = some 'a' ∧ scanner.is_alpha 'a' = true ∧
      (scanner.scan_tokens 2 scanner.quoted_obj_type scanner.init_scan).map scanner.emitted =
        some [{ t_type := scanner.token_type.STRING, t_line := 1,
                t_data := scanner.data.string ['<', 'a', '>'] }]) :=
  ⟨⟨rfl, rfl, rfl, rfl⟩, ⟨rfl, rfl, rfl, rfl⟩⟩

/-! ### Scanner: `else if` -/

namespace scanner

theorem emitted_store_last (s : ScanState) (t : token) (h : s.t_curr ≠ 0) :
    emitted { s with tokens := store s.tokens (s.t_curr - 1) t } =
      (emitted s).dropLast ++ [t] := by
  obtain ⟨m, hm⟩ : ∃ m, s.t_curr = m + 1 := ⟨s.t_curr - 1, by omega⟩
  show (List.range s.t_curr).map (store s.tokens (s.t_curr - 1) t) =
    ((List.range s.t_curr).map s.tokens).dropLast ++ [t]
  rw [hm, List.range_succ, List.map_append, List.map_append]
  simp only [List.map_cons, List.map_nil, Nat.add_sub_cancel, store_same,
    List.dropLast_concat]
  congr 1
  apply List.map_congr_left
  intro i hi
  have := List.mem_range.1 hi
  exact store_other _ _ _ _ (by omega)

end scanner

/-- C28: when `add_token_V` is called with type `IF` and the last token
emitted is an `ELSE`, that token is replaced by the `ELSEIF` token: the number
of tokens stays, the tokens before it stay, and no `IF` token is added.  In
every other case exactly one token is appended, of the type asked for, and
the tokens emitted before stay. -/
theorem add_token_V_else_if (type : scanner.token_type) (val : scanner.data)
    (s : scanner.ScanState) :
    ((s.t_curr ≠ 0 ∧ (s.tokens (s.t_curr - 1)).t_type = scanner.token_type.ELSE ∧
        type = scanner.token_type.IF) →
      (scanner.add_token_V type val s).t_curr = s.t_curr ∧
      scanner.emitted (scanner.add_token_V type val s) =
        (scanner.emitted s).dropLast ++ [scanner.elseif_token s] ∧
      (scanner.elseif_token s).t_type = scanner.token_type.ELSEIF ∧
      (scanner.emitted (scanner.add_token_V type val s)).length =
        (scanner.emitted s).length) ∧
    (¬ (s.t_curr ≠ 0 ∧ (s.tokens (s.t_curr - 1)).t_type = scanner.token_type.ELSE ∧
        type = scanner.token_type.IF) →
      (scanner.add_token_V type val s).t_curr = s.t_curr + 1 ∧
      ∃ t, t.t_type = type ∧
        scanner.emitted (scanner.add_token_V type val s) = scanner.emitted s ++ [t]) := by
  constructor
  · intro h
    have hem := scanner.emitted_store_last s (scanner.elseif_token s) h.1
    obtain ⟨g1, g2, _⟩ := scanner.emitted_grow_tokens
      { s with tokens := store s.tokens (s.t_curr - 1) (scanner.elseif_token s) }
    unfold scanner.add_token_V
    rw [if_pos h]
    refine ⟨g2, g1.trans hem, rfl, ?_⟩
    rw [g1, hem]
    have hne : scanner.emitted s ≠ [] := by
      intro h0
      have hl : (scanner.emitted s).length = s.t_curr := by simp [scanner.emitted]
      rw [h0] at hl
      exact h.1 hl.symm
    simp only [List.length_append, List.length_dropLast, List.length_singleton]
    have hpos : 0 < (scanner.emitted s).length := List.length_pos.2 hne
    omega
  · intro h
    have key : ∀ t : scanner.token,
        (scanner.grow_tokens (scanner.append_token t s)).t_curr = s.t_curr + 1 ∧
        scanner.emitted (scanner.grow_tokens (scanner.append_token t s)) =
          scanner.emitted s ++ [t] := fun t =>
      ⟨(scanner.emitted_grow_tokens _).2.1.trans (scanner.emitted_append_token t s).2,
       (scanner.emitted_grow_tokens _).1.trans (scanner.emitted_append_token t s).1⟩
    unfold scanner.add_token_V
    rw [if_neg h]
    by_cases h1 : type = scanner.token_type.NONE
    · rw [if_pos h1]
      exact ⟨(key _).1, _, h1.symm, (key _).2⟩
    · rw [if_neg h1]
      by_cases h2 : type = scanner.token_type.TRUE
      · rw [if_pos h2]
        exact ⟨(key _).1, _, h2.symm, (key _).2⟩
      · rw [if_neg h2]
        by_cases h3 : type = scanner.token_type.FALSE
        · rw [if_pos h3]
          exact ⟨(key _).1, _, h3.symm, (key _).2⟩
        · rw [if_neg h3]
          exact ⟨(key _).1, _, rfl, (key _).2⟩

/-- C28, witness: the source text `else if` scans to the single token
`ELSEIF`; the call of `add_token_V` for its `if`, after the `ELSE`, and a call
for a `LET` on the empty array. -/
theorem add_token_V_else_if_witness :
    (scanner.scan_tokens 5 scanner.else_if scanner.init_scan).map scanner.emitted =
      some [{ t_type := scanner.token_type.ELSEIF, t_line := 1,
              t_data := scanner.data.string ['e', 'l', 's', 'e', ' ', 'i', 'f'] }] ∧
    (scanner.add_token_V scanner.token_type.IF (scanner.make_data_str ['i', 'f'])
      (scanner.add_token_V scanner.token_type.ELSE (scanner.make_data_str ['e', 'l', 's', 'e'])
        { scanner.init_scan with tokens_alloc_size := 7 })).t_curr = 1 ∧
    (scanner.add_token_V scanner.token_type.LET (scanner.make_data_str ['l', 'e', 't'])
      { scanner.init_scan with tokens_alloc_size := 7 }).t_curr = 1 :=
  ⟨rfl,
   ((add_token_V_else_if scanner.token_type.IF (scanner.make_data_str ['i', 'f'])
      (scanner.add_token_V scanner.token_type.ELSE (scanner.make_data_str ['e', 'l', 's', 'e'])
        { scanner.init_scan with tokens_alloc_size := 7 })).1 ⟨by decide, rfl, rfl⟩).1,
   ((add_token_V_else_if scanner.token_type.LET (scanner.make_data_str ['l', 'e', 't'])
      { scanner.init_scan with tokens_alloc_size := 7 }).2
        (fun h => scanner.token_type.noConfusion h.2.2)).1⟩

/-! ### Parser: parameter lists and the struct statement -/

namespace ast

theorem reverse_parameters_eq : ∀ (parameters prev : List expr),
    reverse_parameters parameters prev = parameters.reverse ++ prev := by
  intro parameters
  induction parameters with
  | nil => intro prev; rfl
  | cons e next ih =>
    intro prev
    simp only [reverse_parameters, List.reverse_cons, List.append_assoc]
    rw [ih]
    rfl

theorem default_init_statements_eq : ∀ ms : List token,
    default_init_statements (ms.map expr.E_LITERAL) = ms.map member_assignment ++ [ret_this] := by
  intro ms
  induction ms with
  | nil => rfl
  | cons m rest ih =>
    simp only [List.map_cons, default_init_statements, List.cons_append]
    rw [ih]
    rfl

theorem fnmatch_none (st : ParseState) (i : Nat) (types : List token_type)
    (hi : i ≤ st.tokens.length)
    (h : ∀ u, st.tokens.get? i = some u → u.t_type ∉ types) :
    fnmatch types (at_index st i) = .ok (false, at_index st i) := by
  cases hg : st.tokens.get? i with
  | none =>
    have hge := List.get?_eq_none.1 hg
    exact fnmatch_end st i (by omega) types
  | some u => exact fnmatch_skip st i u hg types (h u hg)

end ast

namespace ast

theorem get?_append_mid (pre post : List token) (x : token) :
    (pre ++ x :: post).get? pre.length = some x := by
  rw [List.get?_eq_getElem?, List.getElem?_append_right (Nat.le_refl _), Nat.sub_self]
  simp

theorem get?_append_after (pre mid post : List token) :
    (pre ++ mid ++ post).get? (pre.length + mid.length) = post.head? := by
  rw [List.get?_eq_getElem?, List.getElem?_append_right (by simp)]
  simp [List.head?_eq_getElem?]

/-- The loop of `identifier_list()` on identifiers separated by commas and
followed by no comma returns their literals, in order, and stands after the
last one. -/
theorem identifier_list_loop_members (comma : token)
    (hcomma : comma.t_type = token_type.T_COMMA) :
    ∀ (ms : List token), ms ≠ [] → (∀ m ∈ ms, m.t_type = token_type.T_IDENTIFIER) →
    ∀ (pre post : List token) (list : List expr) (st : ParseState) (fuel : Nat),
      st.tokens = pre ++ separated comma ms ++ post →
      (∀ u, post.head? = some u → u.t_type ≠ token_type.T_COMMA) →
      identifier_list_loop (fuel + ms.length) list (at_index st pre.length) =
        .ok (list ++ ms.map expr.E_LITERAL,
          at_index st ((pre.length + (separated comma ms).length : Nat) : Int)) := by
  intro ms
  induction ms with
  | nil => intro h; exact absurd rfl h
  | cons m rest ih =>
    intro _ hid pre post list st fuel ht hpost
    have hm : m.t_type = token_type.T_IDENTIFIER := hid m (List.mem_cons_self _ _)
    have hget : st.tokens.get? pre.length = some m := by
      rw [ht]
      show (pre ++ (m :: _) ++ post).get? pre.length = some m
      rw [List.append_assoc, List.cons_append]
      exact get?_append_mid _ _ _
    show identifier_list_loop (fuel + rest.length + 1) list _ = _
    unfold identifier_list_loop
    refine bind_step _ _ _ _ _ _
      (fnmatch_take st pre.length m hget _ (by rw [hm]; exact List.mem_singleton_self _)) ?_
    simp only [if_true]
    refine bind_step _ _ _ _ _ _ (previous_at st pre.length m hget) ?_
    cases rest with
    | nil =>
      have hnone : fnmatch [token_type.T_COMMA] (at_index st ((pre.length + 1 : Nat) : Int)) =
          .ok (false, at_index st ((pre.length + 1 : Nat) : Int)) := by
        apply fnmatch_none
        · rw [ht]; simp [separated]
        · intro u hu
          rw [ht] at hu
          have := get?_append_after pre [m] post
          simp only [List.length_singleton] at this
          simp only [separated, List.flatMap_nil] at hu
          rw [this] at hu
          simpa using hpost u hu
      refine bind_step _ _ _ _ _ _ hnone ?_
      simp only [Bool.false_eq_true, if_false]
      rfl
    | cons m2 rest2 =>
      have hget2 : st.tokens.get? (pre.length + 1) = some comma := by
        rw [ht]
        show (pre ++ (m :: comma :: _) ++ post).get? (pre.length + 1) = some comma
        have := get?_append_mid (pre ++ [m]) ((m2 :: rest2.flatMap (fun r => [comma, r])) ++ post) comma
        simpa [List.append_assoc] using this
      have htake : fnmatch [token_type.T_COMMA] (at_index st ((pre.length + 1 : Nat) : Int)) =
          .ok (true, at_index st (((pre.length + 1 : Nat) : Int) + 1)) :=
        fnmatch_take st (pre.length + 1) comma hget2 _
          (by rw [hcomma]; exact List.mem_singleton_self _)
      refine bind_step _ _ _ _ _ _ htake ?_
      simp only [if_true]
      have hrec := ih (List.cons_ne_nil _ _)
        (fun x hx => hid x (List.mem_cons_of_mem _ hx)) (pre ++ [m, comma]) post
        (list ++ [make_lit_expr m]) st fuel
        (by rw [ht]; simp [separated, List.append_assoc]) hpost
      have hlen : (pre ++ [m, comma]).length = pre.length + 2 := by simp
      rw [hlen] at hrec
      have hfuel : fuel + (m2 :: rest2).length = fuel + (rest2.length + 1) := rfl
      rw [hfuel] at hrec
      have hsep : pre.length + 2 + (separated comma (m2 :: rest2)).length =
          pre.length + (separated comma (m :: m2 :: rest2)).length := by
        simp [separated]
        omega
      rw [hsep] at hrec
      have hlist : list ++ [make_lit_expr m] ++ List.map expr.E_LITERAL (m2 :: rest2) =
          list ++ List.map expr.E_LITERAL (m :: m2 :: rest2) := by
        simp [make_lit_expr]
      rw [hlist] at hrec
      exact hrec


theorem identifier_list_members (comma : token) (hcomma : comma.t_type = token_type.T_COMMA)
    (ms : List token) (hne : ms ≠ []) (hid : ∀ m ∈ ms, m.t_type = token_type.T_IDENTIFIER)
    (pre post : List token) (st : ParseState) (fuel : Nat) (hfuel : ms.length ≤ fuel)
    (ht : st.tokens = pre ++ separated comma ms ++ post)
    (hpost : ∀ u, post.head? = some u → u.t_type ≠ token_type.T_COMMA) :
    identifier_list fuel (at_index st pre.length) =
      .ok (ms.map expr.E_LITERAL,
        at_index st ((pre.length + (separated comma ms).length : Nat) : Int)) := by
  obtain ⟨k, rfl⟩ : ∃ k, fuel = k + ms.length := ⟨fuel - ms.length, by omega⟩
  have h := identifier_list_loop_members comma hcomma ms hne hid pre post [] st k ht hpost
  rw [List.nil_append] at h
  exact h

/-- The member loop of the struct statement on `(m1, ..., mn)` followed by a
semicolon: the literals of the members, and `saved_before_iden` at the first
member. -/
theorem struct_members_group (punct : token_type → token) (hpunct : ∀ ty, (punct ty).t_type = ty)
    (name : token) (ms : List token) (hid : ∀ m ∈ ms, m.t_type = token_type.T_IDENTIFIER)
    (st : ParseState) (ht : st.tokens = struct_statement punct name ms)
    (fuel : Nat) (hfuel : ms.length + 2 ≤ fuel) :
    struct_members fuel [] [] 0 (at_index st 3) =
      .ok (([], ms.map expr.E_LITERAL, 4),
        at_index st ((5 + (separated (punct token_type.T_COMMA) ms).length : Nat) : Int)) := by
  obtain ⟨g, rfl⟩ : ∃ g, fuel = g + 1 := ⟨fuel - 1, by omega⟩
  have h3 : st.tokens.get? 3 = some (punct token_type.T_LEFT_PAREN) := by rw [ht]; rfl
  have hlen : st.tokens.length = 6 + (separated (punct token_type.T_COMMA) ms).length := by
    rw [ht]
    simp [struct_statement]
    omega
  have hrp : st.tokens.get? (4 + (separated (punct token_type.T_COMMA) ms).length) =
      some (punct token_type.T_RIGHT_PAREN) := by
    rw [ht]
    have := get?_append_after
      [punct token_type.T_STRUCT, name, punct token_type.T_DEFFN, punct token_type.T_LEFT_PAREN]
      (separated (punct token_type.T_COMMA) ms)
      [punct token_type.T_RIGHT_PAREN, punct token_type.T_SEMICOLON]
    exact this
  have hsemi : st.tokens.get? (5 + (separated (punct token_type.T_COMMA) ms).length) =
      some (punct token_type.T_SEMICOLON) := by
    rw [ht]
    have := get?_append_mid
      ([punct token_type.T_STRUCT, name, punct token_type.T_DEFFN,
        punct token_type.T_LEFT_PAREN] ++
        separated (punct token_type.T_COMMA) ms ++ [punct token_type.T_RIGHT_PAREN])
      [] (punct token_type.T_SEMICOLON)
    simp only [List.length_append, List.length_cons, List.length_nil, List.append_assoc,
      List.cons_append, List.nil_append] at this
    unfold struct_statement
    simp only [List.append_assoc, List.cons_append, List.nil_append]
    rw [← this]
    congr 1
    omega
  -- the last iteration, at the semicolon
  have hlast : ∀ (k : Nat) (ims : List expr),
      struct_members (k + 1) [] ims 4
        (at_index st ((5 + (separated (punct token_type.T_COMMA) ms).length : Nat) : Int)) =
      .ok (([], ims, 4),
        at_index st ((5 + (separated (punct token_type.T_COMMA) ms).length : Nat) : Int)) := by
    intro k ims
    unfold struct_members
    refine bind_step _ _ _ _ _ _
      (fnmatch_skip st _ _ hsemi _ (by rw [hpunct]; decide)) ?_
    simp only [Bool.false_eq_true, if_false]
    rfl
  unfold struct_members
  refine bind_step _ _ _ _ _ _
    (fnmatch_take st 3 _ h3 _ (by rw [hpunct]; decide)) ?_
  simp only [if_true]
  refine bind_step _ _ _ _ _ _ (previous_at st 3 _ h3) ?_
  rw [if_pos (hpunct _)]
  refine bind_step _ _ _ (at_index st 4) 4 _ rfl ?_
  cases ms with
  | nil =>
    have h4 : st.tokens.get? 4 = some (punct token_type.T_RIGHT_PAREN) := hrp
    refine bind_step _ _ _ _ _ _
      (fnmatch_take st 4 _ h4 _ (by rw [hpunct]; decide)) ?_
    simp only [if_true]
    obtain ⟨k, rfl⟩ : ∃ k, g = k + 1 := ⟨g - 1, by simp at hfuel; omega⟩
    exact hlast k []
  | cons m rest =>
    have h4 : st.tokens.get? 4 = some m := by rw [ht]; rfl
    refine bind_step _ _ _ _ _ _
      (fnmatch_skip st 4 _ h4 _ (by rw [hid m (List.mem_cons_self _ _)]; decide)) ?_
    simp only [Bool.false_eq_true, if_false]
    have hil := identifier_list_members (punct token_type.T_COMMA) (hpunct _) (m :: rest)
      (List.cons_ne_nil _ _) hid
      [punct token_type.T_STRUCT, name, punct token_type.T_DEFFN, punct token_type.T_LEFT_PAREN]
      [punct token_type.T_RIGHT_PAREN, punct token_type.T_SEMICOLON] st g
      (by simp at hfuel ⊢; omega) ht
      (by intro u hu; cases hu; rw [hpunct]; decide)
    refine bind_step _ _ _ _ _ _ hil ?_
    have hcons := consume_take st _ _ hrp
    rw [hpunct] at hcons
    refine bind_step _ _ _ _ _ _ hcons ?_
    obtain ⟨k, rfl⟩ : ∃ k, g = k + 1 := ⟨g - 1, by simp at hfuel; omega⟩
    have e : ((4 + (separated (punct token_type.T_COMMA) (m :: rest)).length : Nat) : Int) + 1 =
        ((5 + (separated (punct token_type.T_COMMA) (m :: rest)).length : Nat) : Int) := by
      push_cast
      omega
    rw [e]
    exact hlast k (List.map expr.E_LITERAL (m :: rest))


theorem make_func_expr_ok (parameters : List expr) (body : statement) (st : ParseState)
    (t : token) (h : peek st = .ok (t, st)) :
    make_func_expr parameters body st =
      .ok (expr.E_FUNCTION parameters.reverse body t.t_line t.t_col, st) := by
  unfold make_func_expr
  rw [bind_ok h, reverse_parameters_eq, List.append_nil]
  rfl

/-- The `T_STRUCT` case of `parse_statement` on `struct name => (m1, ..., mn);`,
entered after the keyword. -/
theorem parse_statement_switch_struct (punct : token_type → token)
    (hpunct : ∀ ty, (punct ty).t_type = ty) (first name : token)
    (hfirst : first.t_type = token_type.T_STRUCT)
    (hname : name.t_type = token_type.T_IDENTIFIER)
    (ms : List token) (hid : ∀ m ∈ ms, m.t_type = token_type.T_IDENTIFIER)
    (st : ParseState) (ht : st.tokens = struct_statement punct name ms)
    (fuel : Nat) (hfuel : ms.length + 3 ≤ fuel) :
    parse_statement_switch fuel first (at_index st 1) =
      .ok (statement.S_STRUCT name
          (expr.E_FUNCTION (ms.map expr.E_LITERAL).reverse
            (statement.S_BLOCK (ms.map member_assignment ++ [ret_this]))
            (punct token_type.T_SEMICOLON).t_line (punct token_type.T_SEMICOLON).t_col)
          { t_type := token_type.T_EMPTY, t_line := st.line, t_col := st.col,
            t_data := make_data_str "" }
          (ms.map expr.E_LITERAL) [],
        at_index st ((5 + (separated (punct token_type.T_COMMA) ms).length : Nat) : Int)) := by
  obtain ⟨g, rfl⟩ : ∃ g, fuel = g + 1 := ⟨fuel - 1, by omega⟩
  have h1 : st.tokens.get? 1 = some name := by rw [ht]; rfl
  have h2 : st.tokens.get? 2 = some (punct token_type.T_DEFFN) := by rw [ht]; rfl
  have hsemi : st.tokens.get? (5 + (separated (punct token_type.T_COMMA) ms).length) =
      some (punct token_type.T_SEMICOLON) := by
    have := get?_append_mid
      ([punct token_type.T_STRUCT, name, punct token_type.T_DEFFN,
        punct token_type.T_LEFT_PAREN] ++
        separated (punct token_type.T_COMMA) ms ++ [punct token_type.T_RIGHT_PAREN])
      [] (punct token_type.T_SEMICOLON)
    simp only [List.length_append, List.length_cons, List.length_nil, List.append_assoc,
      List.cons_append, List.nil_append] at this
    rw [ht]
    unfold struct_statement
    simp only [List.append_assoc, List.cons_append, List.nil_append]
    rw [← this]
    congr 1
    omega
  have hcons : consume token_type.T_DEFFN (at_index st 2) = .ok ((), at_index st 3) := by
    have h := consume_take st 2 _ h2
    rw [hpunct] at h
    exact h
  have hsm := struct_members_group punct hpunct name ms hid st ht g (by omega)
  have hpeek : peek (at_index st
      ((5 + (separated (punct token_type.T_COMMA) ms).length : Nat) : Int)) =
      .ok (punct token_type.T_SEMICOLON, at_index st
        ((5 + (separated (punct token_type.T_COMMA) ms).length : Nat) : Int)) :=
    peek_at st _ _ hsemi
  unfold parse_statement_switch
  rw [hfirst]
  simp only []
  refine bind_step _ _ _ _ _ _
    (fnmatch_take st 1 name h1 _ (by rw [hname]; decide)) ?_
  simp only [if_true]
  refine bind_step _ _ _ _ _ _ (pure_apply () _) ?_
  refine bind_step _ _ _ _ _ _ (previous_at st 1 name h1) ?_
  refine bind_step empty_token _ _ (at_index st 2) _ _ rfl ?_
  refine bind_step _ _ _ _ _ _
    (fnmatch_skip st 2 _ h2 _ (by rw [hpunct]; decide)) ?_
  simp only [Bool.false_eq_true, if_false]
  refine bind_step _ _ _ _ _ _ (pure_apply _ _) ?_
  refine bind_step _ _ _ _ _ _ hcons ?_
  refine bind_step _ _ _ _ _ _ hsm ?_
  simp only []
  rw [default_init_statements_eq]
  cases ms with
  | nil =>
    simp only [List.map_nil]
    refine bind_step _ _ _ _ _ _ (pure_apply _ _) ?_
    refine bind_step _ _ _ _ _ _ (make_func_expr_ok _ _ _ _ hpeek) ?_
    rfl
  | cons m rest =>
    simp only [List.map_cons]
    have hil := identifier_list_members (punct token_type.T_COMMA) (hpunct _) (m :: rest)
      (List.cons_ne_nil _ _) hid
      [punct token_type.T_STRUCT, name, punct token_type.T_DEFFN, punct token_type.T_LEFT_PAREN]
      [punct token_type.T_RIGHT_PAREN, punct token_type.T_SEMICOLON] st g
      (by simp at hfuel ⊢; omega) ht
      (by intro u hu; cases hu; rw [hpunct]; decide)
    refine bind_step get_curr_index _ _ _ _ _ rfl ?_
    refine bind_step (set_curr_index 4) _ _ (at_index st 4) () _ rfl ?_
    refine bind_step _ _ _ _ _ _ hil ?_
    refine bind_step (set_curr_index _) _ _
      (at_index st ((5 + (separated (punct token_type.T_COMMA) (m :: rest)).length : Nat) : Int))
      () _ rfl ?_
    refine bind_step _ _ _ _ _ _ (pure_apply _ _) ?_
    refine bind_step _ _ _ _ _ _ (make_func_expr_ok _ _ _ _ hpeek) ?_
    rfl


/-- On the tokens of `struct name => (m1, ..., mn);`, with no error thrown
before, `parse_statement_list()` returns the one struct statement with its
default initiation function. -/
theorem parse_statement_list_struct (punct : token_type → token)
    (hpunct : ∀ ty, (punct ty).t_type = ty) (name : token)
    (hname : name.t_type = token_type.T_IDENTIFIER)
    (ms : List token) (hid : ∀ m ∈ ms, m.t_type = token_type.T_IDENTIFIER)
    (s0 : ParseState) (ht : s0.tokens = struct_statement punct name ms)
    (hthrown : s0.error_thrown = false) (fuel : Nat) (hfuel : ms.length + 6 ≤ fuel) :
    parse_statement_list fuel (at_index s0 0) =
      .ok ([statement.S_STRUCT name
          (expr.E_FUNCTION (ms.map expr.E_LITERAL).reverse
            (statement.S_BLOCK (ms.map member_assignment ++ [ret_this]))
            (punct token_type.T_SEMICOLON).t_line (punct token_type.T_SEMICOLON).t_col)
          { t_type := token_type.T_EMPTY, t_line := s0.line, t_col := s0.col,
            t_data := make_data_str "" }
          (ms.map expr.E_LITERAL) []],
        at_index s0 (((struct_statement punct name ms).length : Nat) : Int)) := by
  obtain ⟨g, rfl⟩ : ∃ g, fuel = g + 3 := ⟨fuel - 3, by omega⟩
  have h0 : s0.tokens.get? 0 = some (punct token_type.T_STRUCT) := by rw [ht]; rfl
  have hlen : (struct_statement punct name ms).length =
      6 + (separated (punct token_type.T_COMMA) ms).length := by
    simp [struct_statement]
    omega
  have hsemi : s0.tokens.get? (5 + (separated (punct token_type.T_COMMA) ms).length) =
      some (punct token_type.T_SEMICOLON) := by
    have := get?_append_mid
      ([punct token_type.T_STRUCT, name, punct token_type.T_DEFFN,
        punct token_type.T_LEFT_PAREN] ++
        separated (punct token_type.T_COMMA) ms ++ [punct token_type.T_RIGHT_PAREN])
      [] (punct token_type.T_SEMICOLON)
    simp only [List.length_append, List.length_cons, List.length_nil, List.append_assoc,
      List.cons_append, List.nil_append] at this
    rw [ht]
    unfold struct_statement
    simp only [List.append_assoc, List.cons_append, List.nil_append]
    rw [← this]
    congr 1
    omega
  have hswitch := parse_statement_switch_struct punct hpunct (punct token_type.T_STRUCT) name
    (hpunct _) hname ms hid s0 ht g (by omega)
  have e : ((5 + (separated (punct token_type.T_COMMA) ms).length : Nat) : Int) + 1 =
      (((struct_statement punct name ms).length : Nat) : Int) := by
    rw [hlen]
    push_cast
    omega
  have hthrown1 : ∀ j, get_error_thrown (at_index s0 j) = .ok (false, at_index s0 j) := by
    intro j
    unfold get_error_thrown
    rw [at_index_thrown, hthrown]
  generalize statement.S_STRUCT name _ _ _ _ = sm at hswitch ⊢
  have hstmt : parse_statement (g + 1) (at_index s0 0) =
      .ok (sm, at_index s0 (((struct_statement punct name ms).length : Nat) : Int)) := by
    unfold parse_statement
    refine bind_step _ _ _ _ _ _ (advance_at s0 0 _ h0) ?_
    refine bind_step _ _ _ _ _ _ hswitch ?_
    refine bind_step _ _ _ _ _ _
      (fnmatch_take s0 _ _ hsemi _ (by rw [hpunct]; decide)) ?_
    rw [e]
    refine bind_step _ _ _ _ _ _ (hthrown1 _) ?_
    rfl
  have hend : is_at_end (at_index s0 (((struct_statement punct name ms).length : Nat) : Int)) =
      .ok (true, at_index s0 (((struct_statement punct name ms).length : Nat) : Int)) := by
    have h := is_at_end_at s0 (struct_statement punct name ms).length
    rw [ht] at h
    simpa using h
  have hloop : parse_statement_list_loop (g + 1 + 1) [] (at_index s0 0) =
      .ok ([sm], at_index s0 (((struct_statement punct name ms).length : Nat) : Int)) := by
    unfold parse_statement_list_loop
    refine bind_step _ _ _ _ _ _ hstmt ?_
    refine bind_step _ _ _ _ _ _ hend ?_
    rfl
  show parse_statement_list (g + 2 + 1) (at_index s0 0) = _
  unfold parse_statement_list
  refine bind_step _ _ _ _ _ _ hloop ?_
  refine bind_step _ _ _ _ _ _ (hthrown1 _) ?_
  rfl

end ast

namespace ast


/-! ### Parser: the struct statement, whenever it returns -/

/-- The loop of `identifier_list()` appends literals only. -/
theorem identifier_list_loop_literals : ∀ (fuel : Nat) (ms : List token) (st : ParseState)
    (r : List expr) (st1 : ParseState),
    identifier_list_loop fuel (ms.map expr.E_LITERAL) st = .ok (r, st1) →
    ∃ ms1 : List token, r = ms1.map expr.E_LITERAL := by
  intro fuel
  induction fuel with
  | zero => intro ms st r st1 h; cases h
  | succ fuel ih =>
    intro ms st r st1 h
    unfold identifier_list_loop at h
    obtain ⟨m, s1, _, h⟩ := bind_ok_inv h
    cases m with
    | true =>
      simp only [if_true] at h
      obtain ⟨t, s2, _, h⟩ := bind_ok_inv h
      obtain ⟨m2, s3, _, h⟩ := bind_ok_inv h
      have e : ms.map expr.E_LITERAL ++ [make_lit_expr t] = (ms ++ [t]).map expr.E_LITERAL := by
        simp [make_lit_expr]
      rw [e] at h
      cases m2 with
      | true =>
        simp only [if_true] at h
        exact ih _ _ _ _ h
      | false =>
        simp only [Bool.false_eq_true, if_false] at h
        cases h
        exact ⟨_, rfl⟩
    | false =>
      simp only [Bool.false_eq_true, if_false] at h
      obtain ⟨_, s2, _, h⟩ := bind_ok_inv h
      obtain ⟨_, s3, _, h⟩ := bind_ok_inv h
      obtain ⟨_, s4, _, h⟩ := bind_ok_inv h
      exact ih _ _ _ _ h

theorem identifier_list_literals (fuel : Nat) (st : ParseState)
    (r : List expr) (st1 : ParseState) (h : identifier_list fuel st = .ok (r, st1)) :
    ∃ ms1 : List token, r = ms1.map expr.E_LITERAL :=
  identifier_list_loop_literals fuel [] st r st1 h

/-- The member loop of the struct statement yields literals only. -/
theorem struct_members_literals : ∀ (fuel : Nat) (sms : List expr) (ms : List token)
    (saved : Int) (st : ParseState) (r : List expr × List expr × Int) (st1 : ParseState),
    struct_members fuel sms (ms.map expr.E_LITERAL) saved st = .ok (r, st1) →
    ∃ ms1 : List token, r.2.1 = ms1.map expr.E_LITERAL := by
  intro fuel
  induction fuel with
  | zero => intro sms ms saved st r st1 h; cases h
  | succ fuel ih =>
    intro sms ms saved st r st1 h
    unfold struct_members at h
    obtain ⟨m, s1, _, h⟩ := bind_ok_inv h
    cases m with
    | true =>
      simp only [if_true] at h
      obtain ⟨p, s2, _, h⟩ := bind_ok_inv h
      by_cases hp : p.t_type = token_type.T_LEFT_PAREN
      · rw [if_pos hp] at h
        obtain ⟨sv, s3, _, h⟩ := bind_ok_inv h
        obtain ⟨m2, s4, _, h⟩ := bind_ok_inv h
        cases m2 with
        | true =>
          simp only [if_true] at h
          exact ih _ _ _ _ _ _ h
        | false =>
          simp only [Bool.false_eq_true, if_false] at h
          obtain ⟨members, s5, hm, h⟩ := bind_ok_inv h
          obtain ⟨_, s6, _, h⟩ := bind_ok_inv h
          obtain ⟨ms1, rfl⟩ := identifier_list_literals _ _ _ _ hm
          exact ih _ _ _ _ _ _ h
      · rw [if_neg hp] at h
        obtain ⟨m2, s4, _, h⟩ := bind_ok_inv h
        cases m2 with
        | true =>
          simp only [if_true] at h
          exact ih _ _ _ _ _ _ h
        | false =>
          simp only [Bool.false_eq_true, if_false] at h
          obtain ⟨members, s5, hm, h⟩ := bind_ok_inv h
          obtain ⟨_, s6, _, h⟩ := bind_ok_inv h
          exact ih _ _ _ _ _ _ h
    | false =>
      simp only [Bool.false_eq_true, if_false] at h
      cases h
      exact ⟨ms, rfl⟩

theorem make_func_expr_inv (parameters : List expr) (body : statement) (st st1 : ParseState)
    (e : expr) (h : make_func_expr parameters body st = .ok (e, st1)) :
    ∃ line col, e = expr.E_FUNCTION parameters.reverse body line col := by
  unfold make_func_expr at h
  obtain ⟨t, s1, _, h⟩ := bind_ok_inv h
  cases h
  rw [reverse_parameters_eq, List.append_nil]
  exact ⟨_, _, rfl⟩

/-- The `T_STRUCT` case of `parse_statement`, whenever it returns: a struct
statement whose initiation function has the default body for its instance
members. -/
theorem parse_statement_switch_struct_inv (fuel : Nat) (first : token) (st st1 : ParseState)
    (sm : statement) (hfirst : first.t_type = token_type.T_STRUCT)
    (h : parse_statement_switch fuel first st = .ok (sm, st1)) :
    ∃ (name : token) (parameters : List expr) (line col : Int) (parent : token)
      (ms : List token) (sms : List expr),
      sm = statement.S_STRUCT name
        (expr.E_FUNCTION parameters
          (statement.S_BLOCK (ms.map member_assignment ++ [ret_this])) line col)
        parent (ms.map expr.E_LITERAL) sms := by
  cases fuel with
  | zero => cases h
  | succ fuel =>
    unfold parse_statement_switch at h
    rw [hfirst] at h
    simp only [] at h
    have tail : ∀ (name parent : token) (r : List expr × List expr × Int)
        (s8 s9 s10 : ParseState) (parameters : List expr) (fc : expr),
        struct_members fuel [] [] 0 s8 = .ok (r, s9) →
        make_func_expr parameters (statement.S_BLOCK (default_init_statements r.2.1)) s10 =
          .ok (fc, st1) →
        sm = statement.S_STRUCT name fc parent r.2.1 r.1 →
        ∃ (name : token) (parameters : List expr) (line col : Int) (parent : token)
          (ms : List token) (sms : List expr),
          sm = statement.S_STRUCT name
            (expr.E_FUNCTION parameters
              (statement.S_BLOCK (ms.map member_assignment ++ [ret_this])) line col)
            parent (ms.map expr.E_LITERAL) sms := by
      intro name parent r s8 s9 s10 parameters fc hsm hfc hsmeq
      obtain ⟨ms, hms⟩ := struct_members_literals fuel [] [] 0 _ _ _ hsm
      obtain ⟨line, col, rfl⟩ := make_func_expr_inv _ _ _ _ _ hfc
      rw [hms, default_init_statements_eq] at hsmeq
      exact ⟨_, _, _, _, _, _, _, hsmeq⟩
    have tail2 : ∀ (name parent : token) (s7 : ParseState),
        (do
          let (static_members, instance_members, saved_before_iden) ←
            struct_members fuel [] [] 0
          let init_fn := default_init_statements instance_members
          let parameters ←
            match instance_members with
            | [] => pure []
            | _ :: _ => do
              let saved_before_pop ← get_curr_index
              set_curr_index saved_before_iden
              let parameters ← identifier_list fuel
              set_curr_index saved_before_pop
              pure parameters
          let function_const ← make_func_expr parameters (statement.S_BLOCK init_fn)
          pure (statement.S_STRUCT name function_const parent instance_members static_members) :
            Parse statement) s7 = .ok (sm, st1) →
        ∃ (name : token) (parameters : List expr) (line col : Int) (parent : token)
          (ms : List token) (sms : List expr),
          sm = statement.S_STRUCT name
            (expr.E_FUNCTION parameters
              (statement.S_BLOCK (ms.map member_assignment ++ [ret_this])) line col)
            parent (ms.map expr.E_LITERAL) sms := by
      intro name parent s7 h
      obtain ⟨r, s8, hsm, h⟩ := bind_ok_inv h
      obtain ⟨sms, ims, saved⟩ := r
      cases ims with
      | nil =>
        obtain ⟨parameters, s9, _, h⟩ := bind_ok_inv h
        obtain ⟨fc, s10, hfc, h⟩ := bind_ok_inv h
        cases h
        exact tail name parent _ _ _ _ _ _ hsm hfc rfl
      | cons e rest =>
        obtain ⟨_, s9, _, h⟩ := bind_ok_inv h
        obtain ⟨_, s10, _, h⟩ := bind_ok_inv h
        obtain ⟨_, s11, _, h⟩ := bind_ok_inv h
        obtain ⟨_, s12, _, h⟩ := bind_ok_inv h
        obtain ⟨parameters, s13, _, h⟩ := bind_ok_inv h
        obtain ⟨fc, s14, hfc, h⟩ := bind_ok_inv h
        cases h
        exact tail name parent _ _ _ _ _ _ hsm hfc rfl
    obtain ⟨m, s1, _, h⟩ := bind_ok_inv h
    cases m
    all_goals simp only [if_true, Bool.false_eq_true, if_false] at h
    all_goals obtain ⟨_, s2, _, h⟩ := bind_ok_inv h
    all_goals obtain ⟨name, s3, _, h⟩ := bind_ok_inv h
    all_goals obtain ⟨parent0, s4, _, h⟩ := bind_ok_inv h
    all_goals obtain ⟨m1, s5, _, h⟩ := bind_ok_inv h
    all_goals cases m1
    all_goals simp only [if_true, Bool.false_eq_true, if_false] at h
    all_goals first
      | (obtain ⟨y, s6, _, h⟩ := bind_ok_inv h
         obtain ⟨_, s7, _, h⟩ := bind_ok_inv h
         exact tail2 _ _ _ h)
      | (obtain ⟨m2, s6, _, h⟩ := bind_ok_inv h
         cases m2
         all_goals simp only [if_true, Bool.false_eq_true, if_false] at h
         all_goals obtain ⟨_, s7, _, h⟩ := bind_ok_inv h
         all_goals obtain ⟨y, s8, _, h⟩ := bind_ok_inv h
         all_goals obtain ⟨_, s9, _, h⟩ := bind_ok_inv h
         all_goals exact tail2 _ _ _ h)


/-! ### Parser: lambdas and definitions -/

theorem level_types_operators : ∀ d < 6, ∀ t ∈ level_types (d + 1), t ∈ infix_operators := by
  decide

theorem continuation_not_operator (ty : token_type) (h : ty ∉ continuation_types) :
    ty ∉ infix_operators := by
  intro hm
  apply h
  unfold continuation_types
  simp only [List.append_assoc, List.mem_append]
  exact Or.inr (Or.inl hm)

theorem literal_not_continuation : ∀ ty ∈ literal_types, ty ∉ continuation_types := by
  decide

theorem cast_succ_index (i : Nat) : ((i : Int) + 1) = ((i + 1 : Nat) : Int) := by
  push_cast
  rfl

/-- After an operand that `unary()` has parsed up to the token at `j`, which
is no infix operator, each binary level returns the operand as it is. -/
theorem level_through (st s : ParseState) (e : expr) (j : Nat)
    (hj : j ≤ st.tokens.length)
    (hnext : ∀ u, st.tokens.get? j = some u → u.t_type ∉ infix_operators)
    (fuel : Nat) (h : unary (fuel + 1) s = .ok (e, at_index st j)) :
    ∀ d, d ≤ 6 → level d (fuel + 1 + d) s = .ok (e, at_index st j) := by
  intro d
  induction d with
  | zero => intro _; exact h
  | succ d ih =>
    intro hd
    have hlv := level_succ d (by omega) (fuel + 1 + d)
    have e1 : fuel + 1 + (d + 1) = fuel + 1 + d + 1 := rfl
    rw [e1, hlv]
    refine bind_step _ _ _ _ _ _ (ih (by omega)) ?_
    have e2 : fuel + 1 + d = (fuel + d) + 1 := by omega
    rw [e2]
    unfold binary_loop
    refine bind_step _ _ _ _ _ _ (fnmatch_none st j _ hj ?_) ?_
    · intro u hu hm
      exact hnext u hu (level_types_operators d (by omega) _ hm)
    · rfl

/-- After an operand that `unary()` has parsed up to the token at `j`, which
continues no expression, `expression()` returns the operand. -/
theorem expression_through (st s : ParseState) (e : expr) (j : Nat) (p : token)
    (hp : st.tokens.get? j = some p)
    (hnext : ∀ u, st.tokens.get? (j + 1) = some u → u.t_type ∉ continuation_types)
    (hthrown : st.error_thrown = false)
    (fuel : Nat) (h : unary (fuel + 1) s = .ok (e, at_index st ((j + 1 : Nat) : Int))) :
    expression (fuel + 10) s = .ok (e, at_index st ((j + 1 : Nat) : Int)) := by
  have hj : j + 1 ≤ st.tokens.length := (List.get?_eq_some.1 hp).1
  have hor : ast.or (fuel + 7) s = .ok (e, at_index st ((j + 1 : Nat) : Int)) :=
    level_through st s e (j + 1) hj
      (fun u hu => continuation_not_operator _ (hnext u hu)) fuel h 6 (Nat.le_refl 6)
  have hprev : previous (at_index st ((j + 1 : Nat) : Int)) =
      .ok (p, at_index st ((j + 1 : Nat) : Int)) := by
    have := previous_at st j p hp
    rw [cast_succ_index] at this
    exact this
  have hlvalue : lvalue (fuel + 8) s = .ok (e, at_index st ((j + 1 : Nat) : Int)) := by
    unfold lvalue
    rw [bind_ok hor, bind_ok hprev]
    rfl
  have hno : ∀ types : List token_type, (∀ ty ∈ types, ty ∈ continuation_types) →
      fnmatch types (at_index st ((j + 1 : Nat) : Int)) =
        .ok (false, at_index st ((j + 1 : Nat) : Int)) := by
    intro types hsub
    exact fnmatch_none st (j + 1) types hj (fun u hu hm => hnext u hu (hsub _ hm))
  have hassign : assignment (fuel + 9) s = .ok (e, at_index st ((j + 1 : Nat) : Int)) := by
    unfold assignment
    rw [bind_ok hlvalue, bind_ok (hno _ (by decide))]
    simp only [Bool.false_eq_true, if_false]
    rw [bind_ok (hno _ (by decide))]
    rfl
  have hth : get_error_thrown (at_index st ((j + 1 : Nat) : Int)) =
      .ok (false, at_index st ((j + 1 : Nat) : Int)) := by
    unfold get_error_thrown
    rw [at_index_thrown, hthrown]
  unfold expression
  rw [bind_ok hassign, bind_ok hth]
  rfl

/-- A literal token that no continuation follows is an expression. -/
theorem expression_operand (st : ParseState) (i : Nat) (t : token)
    (h : st.tokens.get? i = some t) (hlit : t.t_type ∈ literal_types)
    (hnext : ∀ u, st.tokens.get? (i + 1) = some u → u.t_type ∉ continuation_types)
    (hthrown : st.error_thrown = false) (fuel : Nat) :
    expression (fuel + 12) (at_index st i) =
      .ok (expr.E_LITERAL t, at_index st ((i + 1 : Nat) : Int)) := by
  have hu := unary_operand st i t h hlit (fun u hu hm => hnext u hu (by
    unfold continuation_types
    simp only [List.append_assoc, List.mem_append]
    exact Or.inl hm)) fuel
  rw [cast_succ_index] at hu
  exact expression_through st _ _ i t h hnext hthrown (fuel + 2) hu

/-- The loop of `expression_list()` on literal tokens separated by commas and
followed by neither a comma nor a continuation returns their literals, in
order, and stands after the last one. -/
theorem expression_list_loop_operands (comma : token)
    (hcomma : comma.t_type = token_type.T_COMMA) :
    ∀ (ps : List token), ps ≠ [] → (∀ p ∈ ps, p.t_type ∈ literal_types) →
    ∀ (pre post : List token) (list : List expr) (st : ParseState) (fuel : Nat),
      st.tokens = pre ++ separated comma ps ++ post →
      st.error_thrown = false →
      (∀ u, post.head? = some u →
        u.t_type ≠ token_type.T_COMMA ∧ u.t_type ∉ continuation_types) →
      expression_list_loop (fuel + 12 + ps.length) list (at_index st pre.length) =
        .ok (list ++ ps.map expr.E_LITERAL,
          at_index st ((pre.length + (separated comma ps).length : Nat) : Int)) := by
  intro ps
  induction ps with
  | nil => intro h; exact absurd rfl h
  | cons m rest ih =>
    intro _ hid pre post list st fuel ht hthrown hpost
    have hm : m.t_type ∈ literal_types := hid m (List.mem_cons_self _ _)
    have hget : st.tokens.get? pre.length = some m := by
      rw [ht]
      show (pre ++ (m :: _) ++ post).get? pre.length = some m
      rw [List.append_assoc, List.cons_append]
      exact get?_append_mid _ _ _
    show expression_list_loop (fuel + 12 + rest.length + 1) list _ = _
    unfold expression_list_loop
    cases rest with
    | nil =>
      have hnext : ∀ u, st.tokens.get? (pre.length + 1) = some u →
          u.t_type ≠ token_type.T_COMMA ∧ u.t_type ∉ continuation_types := by
        intro u hu
        rw [ht] at hu
        have := get?_append_after pre [m] post
        simp only [List.length_singleton] at this
        simp only [separated, List.flatMap_nil] at hu
        rw [this] at hu
        exact hpost u hu
      have hex := expression_operand st pre.length m hget hm
        (fun u hu => (hnext u hu).2) hthrown fuel
      refine bind_step _ _ _ _ _ _ hex ?_
      have hnone : fnmatch [token_type.T_COMMA] (at_index st ((pre.length + 1 : Nat) : Int)) =
          .ok (false, at_index st ((pre.length + 1 : Nat) : Int)) := by
        apply fnmatch_none
        · rw [ht]; simp [separated]
        · intro u hu hmem
          exact (hnext u hu).1 (List.mem_singleton.1 hmem)
      refine bind_step _ _ _ _ _ _ hnone ?_
      simp only [Bool.false_eq_true, if_false]
      rfl
    | cons m2 rest2 =>
      have hget2 : st.tokens.get? (pre.length + 1) = some comma := by
        rw [ht]
        show (pre ++ (m :: comma :: _) ++ post).get? (pre.length + 1) = some comma
        have := get?_append_mid (pre ++ [m]) ((m2 :: rest2.flatMap (fun r => [comma, r])) ++ post) comma
        simpa [List.append_assoc] using this
      have hex := expression_operand st pre.length m hget hm
        (fun u hu => by
          rw [hget2] at hu
          cases hu
          rw [hcomma]
          decide) hthrown (fuel + (rest2.length + 1))
      have ef : fuel + 12 + (m2 :: rest2).length = fuel + (rest2.length + 1) + 12 := by
        simp only [List.length_cons]
        omega
      rw [ef]
      refine bind_step _ _ _ _ _ _ hex ?_
      have htake : fnmatch [token_type.T_COMMA] (at_index st ((pre.length + 1 : Nat) : Int)) =
          .ok (true, at_index st (((pre.length + 1 : Nat) : Int) + 1)) :=
        fnmatch_take st (pre.length + 1) comma hget2 _
          (by rw [hcomma]; exact List.mem_singleton_self _)
      refine bind_step _ _ _ _ _ _ htake ?_
      simp only [if_true]
      have hrec := ih (List.cons_ne_nil _ _)
        (fun x hx => hid x (List.mem_cons_of_mem _ hx)) (pre ++ [m, comma]) post
        (list ++ [expr.E_LITERAL m]) st fuel
        (by rw [ht]; simp [separated, List.append_assoc]) hthrown hpost
      have hlen : (pre ++ [m, comma]).length = pre.length + 2 := by simp
      rw [hlen] at hrec
      have hfuel : fuel + 12 + (m2 :: rest2).length = fuel + (rest2.length + 1) + 12 := by
        simp only [List.length_cons]
        omega
      rw [hfuel] at hrec
      have hsep : pre.length + 2 + (separated comma (m2 :: rest2)).length =
          pre.length + (separated comma (m :: m2 :: rest2)).length := by
        simp [separated]
        omega
      rw [hsep] at hrec
      have hlist : list ++ [expr.E_LITERAL m] ++ List.map expr.E_LITERAL (m2 :: rest2) =
          list ++ List.map expr.E_LITERAL (m :: m2 :: rest2) := by
        simp
      rw [hlist] at hrec
      have hidx : (((pre.length + 1 : Nat) : Int) + 1) = ((pre.length + 2 : Nat) : Int) := by
        push_cast
        omega
      rw [hidx]
      exact hrec

/-- The function `expression_list(T_RIGHT_PAREN)` on `p1, ..., pn` followed
by the closing parenthesis: the literals of the tokens, in source order; the
parenthesis is left. -/
theorem expression_list_operands (comma close : token)
    (hcomma : comma.t_type = token_type.T_COMMA)
    (hclose : close.t_type = token_type.T_RIGHT_PAREN)
    (ps : List token) (hid : ∀ p ∈ ps, p.t_type ∈ literal_types)
    (pre post : List token) (st : ParseState) (fuel : Nat)
    (ht : st.tokens = pre ++ separated comma ps ++ close :: post)
    (hthrown : st.error_thrown = false) :
    expression_list (fuel + 13 + ps.length) token_type.T_RIGHT_PAREN (at_index st pre.length) =
      .ok (ps.map expr.E_LITERAL,
        at_index st ((pre.length + (separated comma ps).length : Nat) : Int)) := by
  have e1 : fuel + 13 + ps.length = fuel + 12 + ps.length + 1 := by omega
  rw [e1]
  unfold expression_list
  cases ps with
  | nil =>
    have hget : st.tokens.get? pre.length = some close := by
      rw [ht]
      simp only [separated, List.append_nil]
      exact get?_append_mid _ _ _
    refine bind_step _ _ _ _ _ _ (peek_at st _ _ hget) ?_
    rw [if_pos hclose]
    rfl
  | cons p rest =>
    have hp : p.t_type ∈ literal_types := hid p (List.mem_cons_self _ _)
    have hget : st.tokens.get? pre.length = some p := by
      rw [ht]
      show (pre ++ (p :: _) ++ _).get? pre.length = some p
      rw [List.append_assoc, List.cons_append]
      exact get?_append_mid _ _ _
    refine bind_step _ _ _ _ _ _ (peek_at st _ _ hget) ?_
    have hne : p.t_type ≠ token_type.T_RIGHT_PAREN := by
      intro h
      rw [h] at hp
      revert hp
      decide
    rw [if_neg hne]
    have hloop := expression_list_loop_operands comma hcomma (p :: rest)
      (List.cons_ne_nil _ _) hid pre (close :: post) [] st fuel ht hthrown
      (by
        intro u hu
        cases hu
        rw [hclose]
        exact ⟨by decide, by decide⟩)
    rw [List.nil_append] at hloop
    refine bind_step _ _ _ _ _ _ hloop ?_
    have hth : get_error_thrown
        (at_index st ((pre.length + (separated comma (p :: rest)).length : Nat) : Int)) =
        .ok (false,
          at_index st ((pre.length + (separated comma (p :: rest)).length : Nat) : Int)) := by
      unfold get_error_thrown
      rw [at_index_thrown, hthrown]
    refine bind_step _ _ _ _ _ _ hth ?_
    rfl

/-- The default case of `parse_statement`: the token taken is given back and
an expression parsed. -/
theorem parse_statement_switch_default (fuel : Nat) (first : token) (st s1 : ParseState)
    (i : Nat) (e : expr)
    (hdef : parse_statement_switch (fuel + 1) first =
      (do
        let i ← get_curr_index
        set_curr_index (i - 1)
        let e ← expression fuel
        pure (statement.S_EXPR e)))
    (hex : expression fuel (at_index st i) = .ok (e, s1)) :
    parse_statement_switch (fuel + 1) first (at_index st ((i : Int) + 1)) =
      .ok (statement.S_EXPR e, s1) := by
  rw [hdef]
  have h1 : get_curr_index (at_index st ((i : Int) + 1)) =
      .ok ((i : Int) + 1, at_index st ((i : Int) + 1)) := rfl
  have h2 : set_curr_index ((i : Int) + 1 - 1) (at_index st ((i : Int) + 1)) =
      .ok ((), at_index st i) := by
    rw [Int.add_sub_cancel]
    rfl
  refine bind_step _ _ _ _ _ _ h1 ?_
  refine bind_step _ _ _ _ _ _ h2 ?_
  refine bind_step _ _ _ _ _ _ hex ?_
  rfl

/-- A literal token followed by a semicolon is a statement, semicolon
included. -/
theorem parse_statement_operand_semicolon (st : ParseState) (i : Nat) (t semi : token)
    (h : st.tokens.get? i = some t) (hlit : t.t_type ∈ literal_types)
    (hs : st.tokens.get? (i + 1) = some semi) (hsemi : semi.t_type = token_type.T_SEMICOLON)
    (hthrown : st.error_thrown = false) (fuel : Nat) :
    parse_statement (fuel + 14) (at_index st i) =
      .ok (statement.S_EXPR (expr.E_LITERAL t), at_index st ((i + 2 : Nat) : Int)) := by
  have hex := expression_operand st i t h hlit
    (fun u hu => by
      rw [hs] at hu
      cases hu
      rw [hsemi]
      decide) hthrown fuel
  unfold parse_statement
  refine bind_step _ _ _ _ _ _ (advance_at st i t h) ?_
  refine bind_step _ _ _ _ _ _ (parse_statement_switch_default _ _ st _ i _
    (parse_statement_switch_literal _ _ hlit) hex) ?_
  have htake := fnmatch_take st (i + 1) semi hs [token_type.T_SEMICOLON]
    (by rw [hsemi]; exact List.mem_singleton_self _)
  refine bind_step _ _ _ _ _ _ htake ?_
  have hidx : (((i + 1 : Nat) : Int) + 1) = ((i + 2 : Nat) : Int) := by
    push_cast
    omega
  rw [hidx]
  have hth : get_error_thrown (at_index st ((i + 2 : Nat) : Int)) =
      .ok (false, at_index st ((i + 2 : Nat) : Int)) := by
    unfold get_error_thrown
    rw [at_index_thrown, hthrown]
  refine bind_step _ _ _ _ _ _ hth ?_
  rfl

/-- A literal token that ends the input is a statement. -/
theorem parse_statement_operand_end (st : ParseState) (i : Nat) (t : token)
    (h : st.tokens.get? i = some t) (hlit : t.t_type ∈ literal_types)
    (hend : i + 1 = st.tokens.length)
    (hthrown : st.error_thrown = false) (fuel : Nat) :
    parse_statement (fuel + 14) (at_index st i) =
      .ok (statement.S_EXPR (expr.E_LITERAL t), at_index st ((i + 1 : Nat) : Int)) := by
  have hex := expression_operand st i t h hlit
    (fun u hu => by
      have := (List.get?_eq_some.1 hu).1
      omega) hthrown fuel
  unfold parse_statement
  refine bind_step _ _ _ _ _ _ (advance_at st i t h) ?_
  refine bind_step _ _ _ _ _ _ (parse_statement_switch_default _ _ st _ i _
    (parse_statement_switch_literal _ _ hlit) hex) ?_
  refine bind_step _ _ _ _ _ _ (fnmatch_end st (i + 1) hend _) ?_
  have hth : get_error_thrown (at_index st ((i + 1 : Nat) : Int)) =
      .ok (false, at_index st ((i + 1 : Nat) : Int)) := by
    unfold get_error_thrown
    rw [at_index_thrown, hthrown]
  refine bind_step _ _ _ _ _ _ hth ?_
  rfl

/-- The parts of a function after `#:` or `=>`, on the tokens
`(p1, ..., pn) b; c` that start at `pre.length`. -/
theorem function_rest_parse (punct : token_type → token)
    (hpunct : ∀ ty, (punct ty).t_type = ty)
    (ps : List token) (hid : ∀ p ∈ ps, p.t_type ∈ literal_types)
    (b c : token) (hb : b.t_type ∈ literal_types)
    (pre : List token) (st : ParseState)
    (ht : st.tokens = pre ++ function_rest punct ps b c)
    (hthrown : st.error_thrown = false) (fuel : Nat) (hfuel : ps.length + 14 ≤ fuel) :
    consume token_type.T_LEFT_PAREN (at_index st pre.length) =
      .ok ((), at_index st ((pre.length + 1 : Nat) : Int)) ∧
    expression_list fuel token_type.T_RIGHT_PAREN
        (at_index st ((pre.length + 1 : Nat) : Int)) =
      .ok (ps.map expr.E_LITERAL,
        at_index st
          ((pre.length + 1 + (separated (punct token_type.T_COMMA) ps).length : Nat) : Int)) ∧
    consume token_type.T_RIGHT_PAREN
        (at_index st
          ((pre.length + 1 + (separated (punct token_type.T_COMMA) ps).length : Nat) : Int)) =
      .ok ((), at_index st
          ((pre.length + 2 + (separated (punct token_type.T_COMMA) ps).length : Nat) : Int)) ∧
    parse_statement fuel
        (at_index st
          ((pre.length + 2 + (separated (punct token_type.T_COMMA) ps).length : Nat) : Int)) =
      .ok (statement.S_EXPR (expr.E_LITERAL b), at_index st
          ((pre.length + 4 + (separated (punct token_type.T_COMMA) ps).length : Nat) : Int)) ∧
    st.tokens.get? (pre.length + 3 + (separated (punct token_type.T_COMMA) ps).length) =
      some (punct token_type.T_SEMICOLON) ∧
    st.tokens.get? (pre.length + 4 + (separated (punct token_type.T_COMMA) ps).length) =
      some c ∧
    st.tokens.length = pre.length + 5 + (separated (punct token_type.T_COMMA) ps).length := by
  have hlp : st.tokens.get? pre.length = some (punct token_type.T_LEFT_PAREN) := by
    rw [ht]
    exact get?_append_mid _ _ _
  have ht2 : st.tokens = (pre ++ [punct token_type.T_LEFT_PAREN]) ++
      separated (punct token_type.T_COMMA) ps ++
      punct token_type.T_RIGHT_PAREN :: [b, punct token_type.T_SEMICOLON, c] := by
    rw [ht]
    simp [function_rest]
  have hlen1 : (pre ++ [punct token_type.T_LEFT_PAREN]).length = pre.length + 1 := by simp
  have hafter : ∀ (j : Nat) (x : token),
      [punct token_type.T_RIGHT_PAREN, b, punct token_type.T_SEMICOLON, c].get? j = some x →
      st.tokens.get? (pre.length + 1 + (separated (punct token_type.T_COMMA) ps).length + j) =
        some x := by
    intro j x hx
    rw [ht2, List.get?_eq_getElem?, List.getElem?_append_right (by simp; omega)]
    rw [List.get?_eq_getElem?] at hx
    rw [← hx]
    congr 1
    simp
    omega
  have hrp := hafter 0 _ rfl
  have hbody := hafter 1 _ rfl
  have hsemi := hafter 2 _ rfl
  have hc := hafter 3 _ rfl
  refine ⟨?_, ?_, ?_, ?_, ?_, ?_, ?_⟩
  · have h := consume_take st _ _ hlp
    rw [hpunct, cast_succ_index] at h
    exact h
  · have h := expression_list_operands (punct token_type.T_COMMA)
      (punct token_type.T_RIGHT_PAREN) (hpunct _) (hpunct _) ps hid
      (pre ++ [punct token_type.T_LEFT_PAREN]) [b, punct token_type.T_SEMICOLON, c] st
      (fuel - 13 - ps.length) ht2 hthrown
    have ef : fuel - 13 - ps.length + 13 + ps.length = fuel := by omega
    rw [hlen1, ef] at h
    exact h
  · have h := consume_take st _ _ hrp
    rw [hpunct, cast_succ_index] at h
    have e : pre.length + 1 + (separated (punct token_type.T_COMMA) ps).length + 0 + 1 =
        pre.length + 2 + (separated (punct token_type.T_COMMA) ps).length := by omega
    rw [e] at h
    exact h
  · have h := parse_statement_operand_semicolon st
      (pre.length + 2 + (separated (punct token_type.T_COMMA) ps).length) b
      (punct token_type.T_SEMICOLON)
      (by rw [← hbody]; congr 1; omega) hb
      (by rw [← hsemi]; congr 1; omega) (hpunct _) hthrown (fuel - 14)
    have e : pre.length + 2 + (separated (punct token_type.T_COMMA) ps).length + 2 =
        pre.length + 4 + (separated (punct token_type.T_COMMA) ps).length := by omega
    have ef : fuel - 14 + 14 = fuel := by omega
    rw [e, ef] at h
    exact h
  · rw [← hsemi]; congr 1; omega
  · rw [← hc]; congr 1; omega
  · rw [ht2]
    simp
    omega

theorem parse_statement_switch_lambda (fuel : Nat) (first : token)
    (h : first.t_type = token_type.T_LAMBDA) :
    parse_statement_switch (fuel + 1) first =
      (do
        let i ← get_curr_index
        set_curr_index (i - 1)
        let e ← expression fuel
        pure (statement.S_EXPR e)) := by
  unfold parse_statement_switch
  rw [h]

/-- An expression statement that starts the input and ends before the last
token `c`, a literal: `parse_statement_list()` returns the two statements. -/
theorem parse_statement_list_two (st : ParseState) (first c : token) (e : expr) (jc : Nat)
    (fuel : Nat)
    (h0 : st.tokens.get? 0 = some first)
    (hdef : ∀ g, parse_statement_switch (g + 1) first =
      (do
        let i ← get_curr_index
        set_curr_index (i - 1)
        let e ← expression g
        pure (statement.S_EXPR e)))
    (hc : st.tokens.get? jc = some c) (hlen : st.tokens.length = jc + 1)
    (hclit : c.t_type ∈ literal_types) (hthrown : st.error_thrown = false)
    (hex : expression (fuel + 13) (at_index st 0) = .ok (e, at_index st jc)) :
    parse_statement_list (fuel + 17) (at_index st 0) =
      .ok ([statement.S_EXPR e, statement.S_EXPR (expr.E_LITERAL c)],
        at_index st ((jc + 1 : Nat) : Int)) := by
  have hth : ∀ j : Nat, get_error_thrown (at_index st j) = .ok (false, at_index st j) := by
    intro j
    unfold get_error_thrown
    rw [at_index_thrown, hthrown]
  have hcsemi : c.t_type ∉ [token_type.T_SEMICOLON] := by
    intro hm
    rw [List.mem_singleton.1 hm] at hclit
    revert hclit
    decide
  have hcbrace : c.t_type ≠ token_type.T_RIGHT_BRACE := by
    intro hm
    rw [hm] at hclit
    revert hclit
    decide
  have hstmt : parse_statement (fuel + 15) (at_index st 0) =
      .ok (statement.S_EXPR e, at_index st jc) := by
    unfold parse_statement
    refine bind_step _ _ _ _ _ _ (advance_at st 0 first h0) ?_
    refine bind_step _ _ _ _ _ _
      (parse_statement_switch_default _ _ st _ 0 _ (hdef _) hex) ?_
    refine bind_step _ _ _ _ _ _ (fnmatch_skip st jc c hc _ hcsemi) ?_
    refine bind_step _ _ _ _ _ _ (hth jc) ?_
    rfl
  have hstmt2 := parse_statement_operand_end st jc c hc hclit hlen.symm hthrown fuel
  have hloop2 : parse_statement_list_loop (fuel + 15) [statement.S_EXPR e] (at_index st jc) =
      .ok ([statement.S_EXPR e, statement.S_EXPR (expr.E_LITERAL c)],
        at_index st ((jc + 1 : Nat) : Int)) := by
    unfold parse_statement_list_loop
    refine bind_step _ _ _ _ _ _ hstmt2 ?_
    have hat : is_at_end (at_index st ((jc + 1 : Nat) : Int)) =
        .ok (true, at_index st ((jc + 1 : Nat) : Int)) := by
      have h := is_at_end_at st (jc + 1)
      have hd : decide (jc + 1 = st.tokens.length) = true := by simp [hlen]
      rw [hd] at h
      exact h
    refine bind_step _ _ _ _ _ _ hat ?_
    rfl
  have hloop : parse_statement_list_loop (fuel + 16) [] (at_index st 0) =
      .ok ([statement.S_EXPR e, statement.S_EXPR (expr.E_LITERAL c)],
        at_index st ((jc + 1 : Nat) : Int)) := by
    unfold parse_statement_list_loop
    refine bind_step _ _ _ _ _ _ hstmt ?_
    have hat : is_at_end (at_index st jc) = .ok (false, at_index st jc) := by
      have h := is_at_end_at st jc
      have hd : decide (jc = st.tokens.length) = false := by simp [hlen]
      rw [hd] at h
      exact h
    refine bind_step _ _ _ _ _ _ hat ?_
    simp only [Bool.false_eq_true, if_false]
    refine bind_step _ _ _ _ _ _ (peek_at st jc c hc) ?_
    rw [if_pos hcbrace]
    exact hloop2
  unfold parse_statement_list
  refine bind_step _ _ _ _ _ _ hloop ?_
  refine bind_step _ _ _ _ _ _ (hth (jc + 1)) ?_
  rfl

/-- The lambda `#:(p1, ..., pn) b;` before a literal `c`: `unary()` returns
the function whose parameters are the literals `pn, ..., p1`. -/
theorem unary_lambda (punct : token_type → token) (hpunct : ∀ ty, (punct ty).t_type = ty)
    (ps : List token) (hid : ∀ p ∈ ps, p.t_type ∈ literal_types)
    (b c : token) (hb : b.t_type ∈ literal_types) (hc : c.t_type ∈ literal_types)
    (st : ParseState) (ht : st.tokens = lambda_tokens punct ps b c)
    (hthrown : st.error_thrown = false) (fuel : Nat) (hfuel : ps.length + 14 ≤ fuel) :
    unary (fuel + 3) (at_index st 0) =
      .ok (expr.E_FUNCTION (ps.map expr.E_LITERAL).reverse
          (statement.S_EXPR (expr.E_LITERAL b)) c.t_line c.t_col,
        at_index st ((5 + (separated (punct token_type.T_COMMA) ps).length : Nat) : Int)) := by
  have h0 : st.tokens.get? 0 = some (punct token_type.T_LAMBDA) := by rw [ht]; rfl
  obtain ⟨r1, r2, r3, r4, _, r6, _⟩ := function_rest_parse punct hpunct ps hid b c hb
    [punct token_type.T_LAMBDA] st (by rw [ht]; rfl) hthrown fuel hfuel
  simp only [List.length_singleton] at r1 r2 r3 r4 r6
  have e1 : 1 + 1 + (separated (punct token_type.T_COMMA) ps).length =
      2 + (separated (punct token_type.T_COMMA) ps).length := by omega
  have e2 : 1 + 2 + (separated (punct token_type.T_COMMA) ps).length =
      3 + (separated (punct token_type.T_COMMA) ps).length := by omega
  have e4 : 1 + 4 + (separated (punct token_type.T_COMMA) ps).length =
      5 + (separated (punct token_type.T_COMMA) ps).length := by omega
  rw [e1] at r2 r3
  rw [e2] at r3 r4
  rw [e4] at r4 r6
  have hskip : ∀ types : List token_type, token_type.T_LAMBDA ∉ types →
      fnmatch types (at_index st 0) = .ok (false, at_index st 0) := by
    intro types hn
    exact fnmatch_skip st 0 _ h0 types (by rw [hpunct]; exact hn)
  have hprim : primary (fuel + 1) (at_index st 0) =
      .ok (expr.E_FUNCTION (ps.map expr.E_LITERAL).reverse
          (statement.S_EXPR (expr.E_LITERAL b)) c.t_line c.t_col,
        at_index st ((5 + (separated (punct token_type.T_COMMA) ps).length : Nat) : Int)) := by
    unfold primary
    refine bind_step _ _ _ _ _ _ (hskip _ (by decide)) ?_
    simp only [Bool.false_eq_true, if_false]
    refine bind_step _ _ _ _ _ _ (hskip _ (by decide)) ?_
    simp only [Bool.false_eq_true, if_false]
    refine bind_step _ _ _ _ _ _ (hskip _ (by decide)) ?_
    simp only [Bool.false_eq_true, if_false]
    refine bind_step _ _ _ _ _ _
      (fnmatch_take st 0 _ h0 _ (by rw [hpunct]; decide)) ?_
    simp only [if_true]
    refine bind_step _ _ _ _ _ _ r1 ?_
    refine bind_step _ _ _ _ _ _ r2 ?_
    refine bind_step _ _ _ _ _ _ r3 ?_
    refine bind_step _ _ _ _ _ _ r4 ?_
    exact make_func_expr_ok _ _ _ c (peek_at st _ c r6)
  have hloop : access_loop (fuel + 1)
      (expr.E_FUNCTION (ps.map expr.E_LITERAL).reverse
          (statement.S_EXPR (expr.E_LITERAL b)) c.t_line c.t_col)
      (at_index st ((5 + (separated (punct token_type.T_COMMA) ps).length : Nat) : Int)) =
      .ok (expr.E_FUNCTION (ps.map expr.E_LITERAL).reverse
          (statement.S_EXPR (expr.E_LITERAL b)) c.t_line c.t_col,
        at_index st ((5 + (separated (punct token_type.T_COMMA) ps).length : Nat) : Int)) := by
    unfold access_loop
    refine bind_step _ _ _ _ _ _ (fnmatch_skip st _ c r6 _ (by
      intro hm
      revert hc
      generalize c.t_type = ty at hm
      fin_cases hm <;> decide)) ?_
    rfl
  have hacc : access (fuel + 2) (at_index st 0) =
      .ok (expr.E_FUNCTION (ps.map expr.E_LITERAL).reverse
          (statement.S_EXPR (expr.E_LITERAL b)) c.t_line c.t_col,
        at_index st ((5 + (separated (punct token_type.T_COMMA) ps).length : Nat) : Int)) := by
    unfold access
    refine bind_step _ _ _ _ _ _ hprim ?_
    exact hloop
  unfold unary
  refine bind_step _ _ _ _ _ _ (hskip _ (by decide)) ?_
  exact hacc

/-- The tokens `#:(p1, ..., pn) b; c`: `parse_statement_list()` returns the
lambda, its parameters reversed, and the statement `c`. -/
theorem parse_statement_list_lambda (punct : token_type → token)
    (hpunct : ∀ ty, (punct ty).t_type = ty)
    (ps : List token) (hid : ∀ p ∈ ps, p.t_type ∈ literal_types)
    (b c : token) (hb : b.t_type ∈ literal_types) (hc : c.t_type ∈ literal_types)
    (st : ParseState) (ht : st.tokens = lambda_tokens punct ps b c)
    (hthrown : st.error_thrown = false) (fuel : Nat) (hfuel : ps.length + 30 ≤ fuel) :
    parse_statement_list fuel (at_index st 0) =
      .ok ([statement.S_EXPR
            (expr.E_FUNCTION (ps.map expr.E_LITERAL).reverse
              (statement.S_EXPR (expr.E_LITERAL b)) c.t_line c.t_col),
          statement.S_EXPR (expr.E_LITERAL c)],
        at_index st (((lambda_tokens punct ps b c).length : Nat) : Int)) := by
  obtain ⟨g, rfl⟩ : ∃ g, fuel = g + 17 := ⟨fuel - 17, by omega⟩
  have h0 : st.tokens.get? 0 = some (punct token_type.T_LAMBDA) := by rw [ht]; rfl
  obtain ⟨_, _, _, _, r5, r6, r7⟩ := function_rest_parse punct hpunct ps hid b c hb
    [punct token_type.T_LAMBDA] st (by rw [ht]; rfl) hthrown (g + 1) (by omega)
  simp only [List.length_singleton] at r5 r6 r7
  have e3 : 1 + 3 + (separated (punct token_type.T_COMMA) ps).length =
      4 + (separated (punct token_type.T_COMMA) ps).length := by omega
  have e4 : 1 + 4 + (separated (punct token_type.T_COMMA) ps).length =
      4 + (separated (punct token_type.T_COMMA) ps).length + 1 := by omega
  have e5 : 1 + 5 + (separated (punct token_type.T_COMMA) ps).length =
      4 + (separated (punct token_type.T_COMMA) ps).length + 1 + 1 := by omega
  rw [e3] at r5
  rw [e4] at r6
  rw [e5] at r7
  have hu := unary_lambda punct hpunct ps hid b c hb hc st ht hthrown (g + 1) (by omega)
  have e6 : 5 + (separated (punct token_type.T_COMMA) ps).length =
      4 + (separated (punct token_type.T_COMMA) ps).length + 1 := by omega
  rw [e6] at hu
  have hex := expression_through st _ _ _ _ r5
    (fun u hu => by
      rw [r6] at hu
      cases hu
      exact literal_not_continuation _ hc) hthrown (g + 3) hu
  have h := parse_statement_list_two st _ c _ _ g h0
    (fun k => parse_statement_switch_lambda k _ (hpunct _)) r6 r7 hc hthrown hex
  rw [← r7, ht] at h
  exact h

/-- The definition `f => (p1, ..., pn) b;` before a literal `c`:
`expression()` returns the assignment to `f` of the function whose parameters
are the literals `pn, ..., p1`. -/
theorem expression_definition (punct : token_type → token)
    (hpunct : ∀ ty, (punct ty).t_type = ty) (f : token)
    (hf : f.t_type = token_type.T_IDENTIFIER)
    (ps : List token) (hid : ∀ p ∈ ps, p.t_type ∈ literal_types)
    (b c : token) (hb : b.t_type ∈ literal_types)
    (st : ParseState) (ht : st.tokens = definition_tokens punct f ps b c)
    (hthrown : st.error_thrown = false) (fuel : Nat) (hfuel : ps.length + 3 ≤ fuel) :
    expression (fuel + 13) (at_index st 0) =
      .ok (expr.E_ASSIGN (expr.E_LITERAL f)
          (expr.E_FUNCTION (ps.map expr.E_LITERAL).reverse
            (statement.S_EXPR (expr.E_LITERAL b)) c.t_line c.t_col)
          (make_token token_type.T_EQUAL (make_data_str "=")),
        at_index st ((6 + (separated (punct token_type.T_COMMA) ps).length : Nat) : Int)) := by
  have h0 : st.tokens.get? 0 = some f := by rw [ht]; rfl
  have h1 : st.tokens.get? 1 = some (punct token_type.T_DEFFN) := by rw [ht]; rfl
  have hflit : f.t_type ∈ literal_types := by rw [hf]; decide
  obtain ⟨r1, r2, r3, r4, _, r6, _⟩ := function_rest_parse punct hpunct ps hid b c hb
    [f, punct token_type.T_DEFFN] st (by rw [ht]; rfl) hthrown (fuel + 11) (by omega)
  simp only [List.length_cons, List.length_nil] at r1 r2 r3 r4 r6
  have e1 : 0 + 1 + 1 + 1 + (separated (punct token_type.T_COMMA) ps).length =
      3 + (separated (punct token_type.T_COMMA) ps).length := by omega
  have e2 : 0 + 1 + 1 + 2 + (separated (punct token_type.T_COMMA) ps).length =
      4 + (separated (punct token_type.T_COMMA) ps).length := by omega
  have e4 : 0 + 1 + 1 + 4 + (separated (punct token_type.T_COMMA) ps).length =
      6 + (separated (punct token_type.T_COMMA) ps).length := by omega
  rw [e1] at r2 r3
  rw [e2] at r3 r4
  rw [e4] at r4 r6
  have hu := unary_operand st 0 f h0 hflit
    (fun u hu => by
      rw [h1] at hu
      cases hu
      rw [hpunct]
      decide) (fuel + 1)
  have hor : ast.or (fuel + 10) (at_index st ((0 : Nat) : Int)) =
      .ok (expr.E_LITERAL f, at_index st ((1 : Nat) : Int)) :=
    level_through st _ _ 1 (by rw [ht]; simp [definition_tokens])
      (fun u hu => by
        rw [h1] at hu
        cases hu
        rw [hpunct]
        decide) (fuel + 3) hu 6 (Nat.le_refl 6)
  have hlvalue : lvalue (fuel + 11) (at_index st 0) =
      .ok (expr.E_LITERAL f, at_index st ((1 : Nat) : Int)) := by
    unfold lvalue
    refine bind_step _ _ _ _ _ _ hor ?_
    refine bind_step _ _ _ _ _ _ (previous_at st 0 f h0) ?_
    rfl
  have hassign : assignment (fuel + 12) (at_index st 0) =
      .ok (expr.E_ASSIGN (expr.E_LITERAL f)
          (expr.E_FUNCTION (ps.map expr.E_LITERAL).reverse
            (statement.S_EXPR (expr.E_LITERAL b)) c.t_line c.t_col)
          (make_token token_type.T_EQUAL (make_data_str "=")),
        at_index st ((6 + (separated (punct token_type.T_COMMA) ps).length : Nat) : Int)) := by
    unfold assignment
    refine bind_step _ _ _ _ _ _ hlvalue ?_
    refine bind_step _ _ _ _ _ _
      (fnmatch_skip st 1 _ h1 _ (by rw [hpunct]; decide)) ?_
    simp only [Bool.false_eq_true, if_false]
    refine bind_step _ _ _ _ _ _
      (fnmatch_take st 1 _ h1 _ (by rw [hpunct]; decide)) ?_
    simp only [if_true]
    refine bind_step _ _ _ _ _ _ r1 ?_
    refine bind_step _ _ _ _ _ _ r2 ?_
    refine bind_step _ _ _ _ _ _ r3 ?_
    refine bind_step _ _ _ _ _ _ r4 ?_
    refine bind_step _ _ _ _ _ _ (make_func_expr_ok _ _ _ c (peek_at st _ c r6)) ?_
    rfl
  have hth : get_error_thrown
      (at_index st ((6 + (separated (punct token_type.T_COMMA) ps).length : Nat) : Int)) =
      .ok (false,
        at_index st ((6 + (separated (punct token_type.T_COMMA) ps).length : Nat) : Int)) := by
    unfold get_error_thrown
    rw [at_index_thrown, hthrown]
  unfold expression
  refine bind_step _ _ _ _ _ _ hassign ?_
  refine bind_step _ _ _ _ _ _ hth ?_
  rfl

/-- The tokens `f => (p1, ..., pn) b; c`: `parse_statement_list()` returns the
definition, the parameters of its function reversed, and the statement `c`. -/
theorem parse_statement_list_definition (punct : token_type → token)
    (hpunct : ∀ ty, (punct ty).t_type = ty) (f : token)
    (hf : f.t_type = token_type.T_IDENTIFIER)
    (ps : List token) (hid : ∀ p ∈ ps, p.t_type ∈ literal_types)
    (b c : token) (hb : b.t_type ∈ literal_types) (hc : c.t_type ∈ literal_types)
    (st : ParseState) (ht : st.tokens = definition_tokens punct f ps b c)
    (hthrown : st.error_thrown = false) (fuel : Nat) (hfuel : ps.length + 20 ≤ fuel) :
    parse_statement_list fuel (at_index st 0) =
      .ok ([statement.S_EXPR
            (expr.E_ASSIGN (expr.E_LITERAL f)
              (expr.E_FUNCTION (ps.map expr.E_LITERAL).reverse
                (statement.S_EXPR (expr.E_LITERAL b)) c.t_line c.t_col)
              (make_token token_type.T_EQUAL (make_data_str "="))),
          statement.S_EXPR (expr.E_LITERAL c)],
        at_index st (((definition_tokens punct f ps b c).length : Nat) : Int)) := by
  obtain ⟨g, rfl⟩ : ∃ g, fuel = g + 17 := ⟨fuel - 17, by omega⟩
  have h0 : st.tokens.get? 0 = some f := by rw [ht]; rfl
  obtain ⟨_, _, _, _, _, r6, r7⟩ := function_rest_parse punct hpunct ps hid b c hb
    [f, punct token_type.T_DEFFN] st (by rw [ht]; rfl) hthrown (g + 11) (by omega)
  simp only [List.length_cons, List.length_nil] at r6 r7
  have e4 : 0 + 1 + 1 + 4 + (separated (punct token_type.T_COMMA) ps).length =
      6 + (separated (punct token_type.T_COMMA) ps).length := by omega
  have e5 : 0 + 1 + 1 + 5 + (separated (punct token_type.T_COMMA) ps).length =
      6 + (separated (punct token_type.T_COMMA) ps).length + 1 := by omega
  rw [e4] at r6
  rw [e5] at r7
  have hex := expression_definition punct hpunct f hf ps hid b c hb st ht hthrown g
    (by omega)
  have h := parse_statement_list_two st _ c _ _ g h0
    (fun k => parse_statement_switch_literal k _ (by rw [hf]; decide)) r6 r7 hc hthrown hex
  rw [← r7, ht] at h
  exact h

end ast

/-- C23: the default initiation function of a struct.  For every struct
statement `struct name => (m1, ..., mn);` (`n >= 0`, the members identifiers,
the other tokens of the types written), `generate_ast`, given fuel `n + 6` or
more, returns the struct statement whose initiation function is an
`E_FUNCTION` with a block body of exactly `n + 1` statements: for each member,
in the order of declaration, the assignment `this.m = m` (an `E_ASSIGN` with
operator `T_EQUAL`, lvalue the binary `T_DOT` of `this` and `m`, rvalue the
literal `m`), and last the operation statement `ret this`; no error is
reported.  And on any tokens whatever, with a parent or static members or
not, whenever the `T_STRUCT` case of `parse_statement` returns, it returns a
struct statement whose initiation function has that body for the instance
members of the statement. -/
theorem struct_default_init_function (punct : ast.token_type → ast.token) (name : ast.token)
    (ms : List ast.token) (st : ast.ParseState) (fuel : Nat)
    (hpunct : ∀ ty, (punct ty).t_type = ty)
    (hname : name.t_type = ast.token_type.T_IDENTIFIER)
    (hid : ∀ m ∈ ms, m.t_type = ast.token_type.T_IDENTIFIER)
    (hfuel : ms.length + 6 ≤ fuel) :
    (∃ parameters line col parent st1,
      ast.generate_ast fuel (ast.struct_statement punct name ms) st =
        .ok ([ast.statement.S_STRUCT name
            (ast.expr.E_FUNCTION parameters
              (ast.statement.S_BLOCK (ms.map ast.member_assignment ++ [ast.ret_this]))
              line col)
            parent (ms.map ast.expr.E_LITERAL) []], st1) ∧
      st1.host = st.host ∧ st1.error_thrown = false) ∧
    (ms.map ast.member_assignment ++ [ast.ret_this]).length = ms.length + 1 ∧
    (∀ i m, ms.get? i = some m →
      (ms.map ast.member_assignment ++ [ast.ret_this]).get? i =
        some (ast.member_assignment m)) ∧
    (ms.map ast.member_assignment ++ [ast.ret_this]).get? ms.length = some ast.ret_this ∧
    (∀ (g : Nat) (first : ast.token) (s s1 : ast.ParseState) (sm : ast.statement),
      first.t_type = ast.token_type.T_STRUCT →
      ast.parse_statement_switch g first s = .ok (sm, s1) →
      ∃ (name1 : ast.token) (parameters : List ast.expr) (line col : Int)
        (parent : ast.token) (ms1 : List ast.token) (sms : List ast.expr),
        sm = ast.statement.S_STRUCT name1
          (ast.expr.E_FUNCTION parameters
            (ast.statement.S_BLOCK (ms1.map ast.member_assignment ++ [ast.ret_this]))
            line col)
          parent (ms1.map ast.expr.E_LITERAL) sms) := by
  have h := ast.parse_statement_list_struct punct hpunct name hname ms hid
    { st with error_thrown := false, tokens := ast.struct_statement punct name ms, curr_index := 0 }
    rfl rfl fuel hfuel
  refine ⟨⟨_, _, _, _, _, h, rfl, rfl⟩, by simp, ?_, ?_, ?_⟩
  · intro i m hm
    have hi : i < ms.length := (List.get?_eq_some.1 hm).1
    rw [List.get?_eq_getElem?, List.getElem?_append_left (by simpa using hi),
      List.getElem?_map, ← List.get?_eq_getElem?, hm]
    rfl
  · rw [List.get?_eq_getElem?, List.getElem?_append_right (by simp)]
    simp
  · intro g first s s1 sm hfirst hsm
    exact ast.parse_statement_switch_struct_inv g first s s1 sm hfirst hsm

/-- C23, witness: the statement `struct P => (x, y);`. -/
theorem struct_default_init_function_witness :
    ∃ parameters line col parent st1,
      ast.generate_ast 8
          (ast.struct_statement ast.plain_punct (ast.identifier_token "P")
            [ast.identifier_token "x", ast.identifier_token "y"]) (ast.init_state false) =
        .ok ([ast.statement.S_STRUCT (ast.identifier_token "P")
            (ast.expr.E_FUNCTION parameters
              (ast.statement.S_BLOCK
                [ast.member_assignment (ast.identifier_token "x"),
                 ast.member_assignment (ast.identifier_token "y"), ast.ret_this])
              line col)
            parent
            [ast.expr.E_LITERAL (ast.identifier_token "x"),
             ast.expr.E_LITERAL (ast.identifier_token "y")] []], st1) :=
  have h := (struct_default_init_function ast.plain_punct (ast.identifier_token "P")
    [ast.identifier_token "x", ast.identifier_token "y"] (ast.init_state false) 8
    (fun _ => rfl) rfl (by decide) (by decide)).1
  ⟨h.choose, h.choose_spec.choose, h.choose_spec.choose_spec.choose,
    h.choose_spec.choose_spec.choose_spec.choose,
    h.choose_spec.choose_spec.choose_spec.choose_spec.choose,
    h.choose_spec.choose_spec.choose_spec.choose_spec.choose_spec.1⟩

/-- C22: the parameters of a function expression.  `make_func_expr`, through
which the parser builds every function expression, stores in the `E_FUNCTION`
node the parameter list it is given, reversed: as many elements, the element
at `i` being the one given at `length - 1 - i`; it returns whenever
`tokens[curr_index]` can be read.  For identifiers `p1, ..., pn` (`n >= 0`)
and literal tokens `b`, `c`, `generate_ast`, given fuel `n + 30` or more,
returns without an error: on the lambda `#:(p1, ..., pn) b; c` and on the
definition `f => (p1, ..., pn) b; c` a function whose parameters are
`pn, ..., p1`, and on the struct statement `struct name => (p1, ..., pn);` an
initiation function whose parameters are `pn, ..., p1`. -/
theorem function_parameters_reversed (punct : ast.token_type → ast.token)
    (name f b c : ast.token) (ps : List ast.token) (st : ast.ParseState) (fuel : Nat)
    (hpunct : ∀ ty, (punct ty).t_type = ty)
    (hname : name.t_type = ast.token_type.T_IDENTIFIER)
    (hf : f.t_type = ast.token_type.T_IDENTIFIER)
    (hid : ∀ p ∈ ps, p.t_type = ast.token_type.T_IDENTIFIER)
    (hb : b.t_type ∈ ast.literal_types) (hc : c.t_type ∈ ast.literal_types)
    (hfuel : ps.length + 30 ≤ fuel) :
    (∀ (parameters : List ast.expr) (body : ast.statement) (s : ast.ParseState)
        (t : ast.token), ast.peek s = .ok (t, s) →
      ast.make_func_expr parameters body s =
        .ok (ast.expr.E_FUNCTION parameters.reverse body t.t_line t.t_col, s)) ∧
    (∀ parameters : List ast.expr, parameters.reverse.length = parameters.length ∧
      ∀ i, i < parameters.length →
        parameters.reverse.get? i = parameters.get? (parameters.length - 1 - i)) ∧
    (∃ st1, ast.generate_ast fuel (ast.lambda_tokens punct ps b c) st =
      .ok ([ast.statement.S_EXPR
            (ast.expr.E_FUNCTION (ps.map ast.expr.E_LITERAL).reverse
              (ast.statement.S_EXPR (ast.expr.E_LITERAL b)) c.t_line c.t_col),
          ast.statement.S_EXPR (ast.expr.E_LITERAL c)], st1) ∧
      st1.host = st.host) ∧
    (∃ st1, ast.generate_ast fuel (ast.definition_tokens punct f ps b c) st =
      .ok ([ast.statement.S_EXPR
            (ast.expr.E_ASSIGN (ast.expr.E_LITERAL f)
              (ast.expr.E_FUNCTION (ps.map ast.expr.E_LITERAL).reverse
                (ast.statement.S_EXPR (ast.expr.E_LITERAL b)) c.t_line c.t_col)
              (ast.make_token ast.token_type.T_EQUAL (ast.make_data_str "="))),
          ast.statement.S_EXPR (ast.expr.E_LITERAL c)], st1) ∧
      st1.host = st.host) ∧
    (∃ block line col parent st1,
      ast.generate_ast fuel (ast.struct_statement punct name ps) st =
        .ok ([ast.statement.S_STRUCT name
            (ast.expr.E_FUNCTION (ps.map ast.expr.E_LITERAL).reverse block line col)
            parent (ps.map ast.expr.E_LITERAL) []], st1) ∧
      st1.host = st.host) := by
  have hlit : ∀ p ∈ ps, p.t_type ∈ ast.literal_types := by
    intro p hp
    rw [hid p hp]
    decide
  refine ⟨fun parameters body s t h => ast.make_func_expr_ok parameters body s t h, ?_,
    ⟨_, ast.parse_statement_list_lambda punct hpunct ps hlit b c hb hc
      { st with error_thrown := false, tokens := ast.lambda_tokens punct ps b c,
                curr_index := 0 }
      rfl rfl fuel hfuel, rfl⟩,
    ⟨_, ast.parse_statement_list_definition punct hpunct f hf ps hlit b c hb hc
      { st with error_thrown := false, tokens := ast.definition_tokens punct f ps b c,
                curr_index := 0 }
      rfl rfl fuel (by omega), rfl⟩,
    ⟨_, _, _, _, _, ast.parse_statement_list_struct punct hpunct name hname ps hid
      { st with error_thrown := false, tokens := ast.struct_statement punct name ps,
                curr_index := 0 }
      rfl rfl fuel (by omega), rfl⟩⟩
  intro parameters
  refine ⟨List.length_reverse _, ?_⟩
  intro i hi
  rw [List.get?_eq_getElem?, List.get?_eq_getElem?, List.getElem?_reverse hi]

/-- C22, witness: the lambda `#:(x, y) x; y`, whose function has the
parameters `y, x`. -/
theorem function_parameters_reversed_witness :
    ∃ st1, ast.generate_ast 32
        (ast.lambda_tokens ast.plain_punct
          [ast.identifier_token "x", ast.identifier_token "y"]
          (ast.identifier_token "x") (ast.identifier_token "y")) (ast.init_state false) =
      .ok ([ast.statement.S_EXPR
            (ast.expr.E_FUNCTION
              [ast.expr.E_LITERAL (ast.identifier_token "y"),
               ast.expr.E_LITERAL (ast.identifier_token "x")]
              (ast.statement.S_EXPR (ast.expr.E_LITERAL (ast.identifier_token "x"))) 0 0),
          ast.statement.S_EXPR (ast.expr.E_LITERAL (ast.identifier_token "y"))], st1) :=
  have h := (function_parameters_reversed ast.plain_punct (ast.identifier_token "P")
    (ast.identifier_token "f") (ast.identifier_token "x") (ast.identifier_token "y")
    [ast.identifier_token "x", ast.identifier_token "y"] (ast.init_state false) 32
    (fun _ => rfl) rfl rfl (by decide) (by decide) (by decide) (by decide)).2.2.1
  ⟨h.choose, h.choose_spec.1⟩

end Wendy
